import Mathlib

/-!
CSI control-surface integrator: value pipeline and zone state machine

A shallow embedding of `control_surface_integrator.cpp`:

* `ActionContext` and its value pipeline (`DoAction`, `DoRelativeAction`,
  `DoRangeBoundAction`, `RunDeferredActions`, the stepped and accelerated variants);
* the `Zone` tree with its activation cascade and its event dispatch.

Conventions of the embedding.

* A C++ `double` is a rational number: finite values with exact arithmetic and the usual
  order (no NaN, no infinities, no rounding).
* A C++ `int` is an `Int`; increments and decrements are the mathematical ones (signed
  overflow is undefined behaviour in the source and is outside this model).  The
  conversions between `int` and `size_t` that the source performs implicitly, in the
  comparisons against `vector::size() - 1`, are modelled exactly (`toSizeT`, `sizeToInt`).
* A `vector` is a `List`; reading it outside its bounds is a fault, `none`.
* The call `action_->Do(this, value)` is the effect boundary: every operation returns the
  list of the values handed to it, in order.
* Values obtained from the host (`DAW::GetCurrentNumberOfMilliseconds()`,
  `action_->GetCurrentNormalizedValue(this)`) are arguments.
-/

namespace CSI

/-! ## Machine integers and vectors -/

/-- The C++ type `double`. -/
abbrev Double := ℚ

/-- Largest value of a 32-bit `int`. -/
def INT_MAX : Int := 2147483647

/-- Smallest value of a 32-bit `int`. -/
def INT_MIN : Int := -2147483648

/-- Conversion of an `int` to the 64-bit unsigned `size_t`: reduction modulo 2^64. -/
def toSizeT (i : Int) : Int := i % 18446744073709551616

/-- Conversion of a `size_t` to a 32-bit `int`: the low 32 bits, read in two's complement. -/
def sizeToInt (n : Int) : Int := (n + 2147483648) % 4294967296 - 2147483648

/-- The `size_t` expression `v.size() - 1`; it wraps to 2^64 - 1 on an empty vector. -/
def sizeMinusOne {α : Type} (v : List α) : Int := ((v.length : Int) - 1) % 18446744073709551616

/-- The read `v[i]` with an `int` index: a fault outside the bounds of `v`. -/
def vecGet {α : Type} (v : List α) (i : Int) : Option α :=
  if 0 ≤ i then v[i.toNat]? else none

/-- The two assignments that open both accelerated actions,
`accelerationIndex = accelerationIndex > v.size() - 1 ? v.size() - 1 : accelerationIndex;`
`accelerationIndex = accelerationIndex < 0 ? 0 : accelerationIndex;`.
The first comparison is made in `size_t` (the `int` operand is converted), the conditional
expression has type `size_t` and its value is converted back to `int`. -/
def clampAccelerationIndex {α : Type} (v : List α) (accelerationIndex : Int) : Int :=
  let a := sizeToInt (if toSizeT accelerationIndex > sizeMinusOne v then sizeMinusOne v
    else toSizeT accelerationIndex)
  if a < 0 then 0 else a

/-! ## ActionContext -/

/-- The fields of `ActionContext` that the value pipeline reads and writes.  The member
declarations live in the header; the cursor and the two tick counters are `int`
(the source compares them with `< 0`), the tick table is a `vector<int>` and the other
tables are `vector<double>` (signature of `GetSteppedValues`). -/
structure ActionContext where
  rangeMinimum : Double
  rangeMaximum : Double
  steppedValues : List Double
  steppedValuesIndex : Int
  deltaValue : Double
  acceleratedDeltaValues : List Double
  acceleratedTickValues : List Int
  accumulatedIncTicks : Int
  accumulatedDecTicks : Int
  holdDelayAmount : Double
  delayStartTime : Double
  deferredValue : Double
deriving DecidableEq, Repr

namespace ActionContext

/-- Method `ActionContext::DoRangeBoundAction`: two successive comparisons, then one call of
`action_->Do`; the result is the list of values handed to the action. -/
def DoRangeBoundAction (c : ActionContext) (value : Double) : List Double :=
  let value := if value > c.rangeMaximum then c.rangeMaximum else value
  let value := if value < c.rangeMinimum then c.rangeMinimum else value
  [value]

/-- Method `ActionContext::RunDeferredActions`, with `now` the current number of milliseconds. -/
def RunDeferredActions (c : ActionContext) (now : Double) : ActionContext × List Double :=
  if c.holdDelayAmount ≠ 0 ∧ c.delayStartTime ≠ 0
      ∧ now > c.delayStartTime + c.holdDelayAmount then
    ({ c with delayStartTime := 0, deferredValue := 0 }, c.DoRangeBoundAction c.deferredValue)
  else
    (c, [])

/-- Method `ActionContext::DoAction`, with `now` the current number of milliseconds. -/
def DoAction (c : ActionContext) (now value : Double) : Option (ActionContext × List Double) :=
  if c.holdDelayAmount ≠ 0 then
    if value = 0 then
      some ({ c with deferredValue := 0, delayStartTime := 0 }, [])
    else
      some ({ c with deferredValue := value, delayStartTime := now }, [])
  else if c.steppedValues.length > 0 then
    if value ≠ 0 then
      if toSizeT c.steppedValuesIndex = sizeMinusOne c.steppedValues then
        match vecGet c.steppedValues 0, vecGet c.steppedValues c.steppedValuesIndex with
        | some first, some last =>
          let c1 := if first < last then { c with steppedValuesIndex := 0 } else c
          (vecGet c1.steppedValues c1.steppedValuesIndex).map
            fun v => (c1, c1.DoRangeBoundAction v)
        | _, _ => none
      else
        let c1 := { c with steppedValuesIndex := c.steppedValuesIndex + 1 }
        (vecGet c1.steppedValues c1.steppedValuesIndex).map
          fun v => (c1, c1.DoRangeBoundAction v)
    else
      some (c, [])
  else
    some (c, c.DoRangeBoundAction value)

/-- Method `ActionContext::DoSteppedValueAction`. -/
def DoSteppedValueAction (c : ActionContext) (delta : Double) :
    Option (ActionContext × List Double) :=
  if delta > 0 then
    let c1 := { c with steppedValuesIndex := c.steppedValuesIndex + 1 }
    let c2 := if toSizeT c1.steppedValuesIndex > sizeMinusOne c1.steppedValues then
        { c1 with steppedValuesIndex := sizeToInt (sizeMinusOne c1.steppedValues) }
      else c1
    (vecGet c2.steppedValues c2.steppedValuesIndex).map fun v => (c2, c2.DoRangeBoundAction v)
  else
    let c1 := { c with steppedValuesIndex := c.steppedValuesIndex - 1 }
    let c2 := if c1.steppedValuesIndex < 0 then { c1 with steppedValuesIndex := 0 } else c1
    (vecGet c2.steppedValues c2.steppedValuesIndex).map fun v => (c2, c2.DoRangeBoundAction v)

/-- Method `ActionContext::DoAcceleratedSteppedValueAction`. -/
def DoAcceleratedSteppedValueAction (c : ActionContext) (accelerationIndex : Int)
    (delta : Double) : Option (ActionContext × List Double) :=
  let c1 :=
    if delta > 0 then
      { c with
        accumulatedIncTicks := c.accumulatedIncTicks + 1
        accumulatedDecTicks :=
          if c.accumulatedDecTicks - 1 < 0 then 0 else c.accumulatedDecTicks - 1 }
    else if delta < 0 then
      { c with
        accumulatedDecTicks := c.accumulatedDecTicks + 1
        accumulatedIncTicks :=
          if c.accumulatedIncTicks - 1 < 0 then 0 else c.accumulatedIncTicks - 1 }
    else c
  let a := clampAccelerationIndex c1.acceleratedTickValues accelerationIndex
  if delta > 0 then
    (vecGet c1.acceleratedTickValues a).bind fun ticks =>
      if c1.accumulatedIncTicks ≥ ticks then
        let c2 := { c1 with accumulatedIncTicks := 0, accumulatedDecTicks := 0,
                            steppedValuesIndex := c1.steppedValuesIndex + 1 }
        let c3 := if toSizeT c2.steppedValuesIndex > sizeMinusOne c2.steppedValues then
            { c2 with steppedValuesIndex := sizeToInt (sizeMinusOne c2.steppedValues) }
          else c2
        (vecGet c3.steppedValues c3.steppedValuesIndex).map
          fun v => (c3, c3.DoRangeBoundAction v)
      else
        some (c1, [])
  else if delta < 0 then
    (vecGet c1.acceleratedTickValues a).bind fun ticks =>
      if c1.accumulatedDecTicks ≥ ticks then
        let c2 := { c1 with accumulatedIncTicks := 0, accumulatedDecTicks := 0,
                            steppedValuesIndex := c1.steppedValuesIndex - 1 }
        let c3 := if c2.steppedValuesIndex < 0 then { c2 with steppedValuesIndex := 0 } else c2
        (vecGet c3.steppedValues c3.steppedValuesIndex).map
          fun v => (c3, c3.DoRangeBoundAction v)
      else
        some (c1, [])
  else
    some (c1, [])

/-- Method `ActionContext::DoAcceleratedDeltaValueAction`, with `current` the value returned by
`action_->GetCurrentNormalizedValue(this)`. -/
def DoAcceleratedDeltaValueAction (c : ActionContext) (current : Double)
    (accelerationIndex : Int) (delta : Double) : Option (ActionContext × List Double) :=
  let a := clampAccelerationIndex c.acceleratedDeltaValues accelerationIndex
  if delta > 0 then
    (vecGet c.acceleratedDeltaValues a).map fun d => (c, c.DoRangeBoundAction (current + d))
  else
    (vecGet c.acceleratedDeltaValues a).map fun d => (c, c.DoRangeBoundAction (current - d))

/-- Method `ActionContext::DoRelativeAction(double delta)`. -/
def DoRelativeAction (c : ActionContext) (current delta : Double) :
    Option (ActionContext × List Double) :=
  if c.steppedValues.length > 0 then
    c.DoSteppedValueAction delta
  else
    some (c, c.DoRangeBoundAction (current +
      (if c.deltaValue ≠ 0 then (if delta > 0 then c.deltaValue else -c.deltaValue) else delta)))

/-- Method `ActionContext::DoRelativeAction(int accelerationIndex, double delta)`, the second
overload. -/
def DoRelativeActionAccelerated (c : ActionContext) (current : Double)
    (accelerationIndex : Int) (delta : Double) : Option (ActionContext × List Double) :=
  if c.steppedValues.length > 0 then
    c.DoAcceleratedSteppedValueAction accelerationIndex delta
  else if c.acceleratedDeltaValues.length > 0 then
    c.DoAcceleratedDeltaValueAction current accelerationIndex delta
  else
    some (c, c.DoRangeBoundAction (current +
      (if c.deltaValue ≠ 0 then (if delta > 0 then c.deltaValue else -c.deltaValue) else delta)))

end ActionContext

/-! ## Drivers and sample data -/

/-- Driver: run one operation per input of a list, threading the context and
concatenating the values handed to the action; a fault of any call is a fault of the run. -/
def runAll {ι : Type} (op : ActionContext → ι → Option (ActionContext × List Double)) :
    ActionContext → List ι → Option (ActionContext × List Double)
  | c, [] => some (c, [])
  | c, i :: rest =>
    match op c i with
    | none => none
    | some (c1, out1) =>
      match runAll op c1 rest with
      | none => none
      | some (c2, out2) => some (c2, out1 ++ out2)

/-- A press: `DoAction(value)` at time `now`, for an input `(now, value)`. -/
def press (c : ActionContext) (e : Double × Double) : Option (ActionContext × List Double) :=
  c.DoAction e.1 e.2

/-- A tick of an accelerated encoder: `DoRelativeAction(accelerationIndex, delta)` for an
input `(current, delta)`, `current` being the value the action reports. -/
def relativeTick (accelerationIndex : Int) (c : ActionContext) (e : Double × Double) :
    Option (ActionContext × List Double) :=
  c.DoRelativeActionAccelerated e.1 accelerationIndex e.2

/-- A refresh tick: `RunDeferredActions()` at time `now`. -/
def poll (c : ActionContext) (now : Double) : Option (ActionContext × List Double) :=
  some (c.RunDeferredActions now)

/-- The cursor invariant of the specification: `0 ≤ steppedValuesIndex ≤ size - 1`. -/
def ActionContext.CursorInRange (c : ActionContext) : Prop :=
  0 ≤ c.steppedValuesIndex ∧ c.steppedValuesIndex ≤ (c.steppedValues.length : Int) - 1

instance (c : ActionContext) : Decidable c.CursorInRange := by
  unfold ActionContext.CursorInRange
  exact inferInstance

/-- A context as the constructor leaves it (range `[0, 1]`, cursor 0, counters 0, no
hold-delay, tick table `[10]`), with the given stepped-value table. -/
def steppedContext (table : List Double) : ActionContext :=
  { rangeMinimum := 0, rangeMaximum := 1, steppedValues := table, steppedValuesIndex := 0,
    deltaValue := 0, acceleratedDeltaValues := [], acceleratedTickValues := [10],
    accumulatedIncTicks := 0, accumulatedDecTicks := 0, holdDelayAmount := 0,
    delayStartTime := 0, deferredValue := 0 }

/-- A context with the given stepped table, cursor, tick table and tick counters; the
other fields as in `steppedContext`. -/
def sampleContext (table : List Double) (cursor : Int) (ticks : List Int) (incTicks : Int)
    (decTicks : Int) : ActionContext :=
  { rangeMinimum := 0, rangeMaximum := 1, steppedValues := table, steppedValuesIndex := cursor,
    deltaValue := 0, acceleratedDeltaValues := [], acceleratedTickValues := ticks,
    accumulatedIncTicks := incTicks, accumulatedDecTicks := decTicks, holdDelayAmount := 0,
    delayStartTime := 0, deferredValue := 0 }

/-- A context without stepped table whose accelerated-delta table is `[1/10, 1/5, 3/10]`. -/
def deltaContext : ActionContext :=
  { rangeMinimum := 0, rangeMaximum := 1, steppedValues := [], steppedValuesIndex := 0,
    deltaValue := 0, acceleratedDeltaValues := [1 / 10, 1 / 5, 3 / 10],
    acceleratedTickValues := [10], accumulatedIncTicks := 0, accumulatedDecTicks := 0,
    holdDelayAmount := 0, delayStartTime := 0, deferredValue := 0 }

/-- A context bound with the `Hold` flag: hold-delay 1, nothing pending. -/
def holdContext : ActionContext :=
  { rangeMinimum := 0, rangeMaximum := 1, steppedValues := [], steppedValuesIndex := 0,
    deltaValue := 0, acceleratedDeltaValues := [], acceleratedTickValues := [10],
    accumulatedIncTicks := 0, accumulatedDecTicks := 0, holdDelayAmount := 1,
    delayStartTime := 0, deferredValue := 0 }

/-- Entry `n mod 3` of the table `[0, 1/2, 1]`. -/
def cycleEntry (n : Nat) : Double :=
  if n % 3 = 0 then 0 else if n % 3 = 1 then 1 / 2 else 1

/-- Entry `min n 2` of the table `[1, 1/2, 0]`. -/
def stickEntry (n : Nat) : Double :=
  if n = 0 then 1 else if n = 1 then 1 / 2 else 0

/-! ## Zone -/

/-- A widget: the identity of the object (the `Widget*` the zone tables are keyed by) and
the name `GetName()` returns. -/
structure Widget where
  id : Nat
  name : String
deriving DecidableEq, Repr

mutual
/-- The members of `Zone` that activation and dispatch use: `name_`, `isActive_`, the keys
of `widgets_`, `includedZones_`, `associatedZones_` and `subZones_`.  Every zone is built by
`ProcessZoneFile` into exactly one list, so the zones form a tree. -/
inductive Zone where
  | mk (name : String) (isActive : Bool) (widgets : List Widget)
      (includedZones : ZoneList) (associatedZones : ZoneMap) (subZones : ZoneMap)
/-- A `vector<shared_ptr<Zone>>`. -/
inductive ZoneList where
  | nil
  | cons (zone : Zone) (rest : ZoneList)
/-- A `map<string, vector<shared_ptr<Zone>>>`, in iteration order. -/
inductive ZoneMap where
  | nil
  | cons (key : String) (zones : ZoneList) (rest : ZoneMap)
end

/-- Method `Zone::GetName`. -/
def Zone.name : Zone → String
  | .mk name _ _ _ _ _ => name

/-- Method `Zone::GetIsActive`. -/
def Zone.isActive : Zone → Bool
  | .mk _ isActive _ _ _ _ => isActive

/-- The keys of `widgets_`. -/
def Zone.widgets : Zone → List Widget
  | .mk _ _ widgets _ _ _ => widgets

/-- The member `includedZones_`. -/
def Zone.includedZones : Zone → ZoneList
  | .mk _ _ _ includedZones _ _ => includedZones

/-- The member `associatedZones_`. -/
def Zone.associatedZones : Zone → ZoneMap
  | .mk _ _ _ _ associatedZones _ => associatedZones

/-- The member `subZones_`. -/
def Zone.subZones : Zone → ZoneMap
  | .mk _ _ _ _ _ subZones => subZones

/-- The test `widgets_.count(widget) > 0`. -/
def Zone.owns (w : Widget) (z : Zone) : Bool :=
  z.widgets.contains w

/-- The zones of a list, in order. -/
def ZoneList.toList : ZoneList → List Zone
  | .nil => []
  | .cons zone rest => zone :: rest.toList

/-- The zones of all groups of a map, in iteration order (`for [key, zones]`, `for zone`). -/
def ZoneMap.toList : ZoneMap → List Zone
  | .nil => []
  | .cons _ zones rest => zones.toList ++ rest.toList

/-- An input event: the arguments of `Zone::DoAction`, of the two overloads of
`Zone::DoRelativeAction` and of `Zone::DoTouch`. -/
inductive Event where
  | action (value : Double)
  | relative (delta : Double)
  | relativeAccelerated (accelerationIndex : Int) (delta : Double)
  | touch (value : Double)
deriving DecidableEq, Repr

/-- The loop `for(auto context : GetActionContexts(widget)) context->...` run by a zone:
the zone whose bindings run, the widget and the event forwarded to them. -/
structure Claim where
  zone : Zone
  widget : Widget
  event : Event

mutual
/-- The common body of `Zone::DoAction`, `Zone::DoRelativeAction` (both overloads) and
`Zone::DoTouch`, which differ only in the call forwarded to the contexts.  The state is the
in/out flag `isUsed` and the list of binding runs so far. -/
def Zone.DoEvent (ev : Event) (w : Widget) : Zone → Bool × List Claim → Bool × List Claim
  | .mk name isActive widgets includedZones associatedZones subZones, (isUsed, log) =>
    if !isActive || isUsed then
      (isUsed, log)
    else
      let s1 := ZoneMap.DoEvent ev w subZones (isUsed, log)
      let s2 := ZoneMap.DoEvent ev w associatedZones s1
      if s2.1 then
        s2
      else if widgets.contains w then
        (true, s2.2 ++ [⟨.mk name isActive widgets includedZones associatedZones subZones, w, ev⟩])
      else
        ZoneList.DoEvent ev w includedZones s2
/-- The loop `for(auto zone : zones) zone->Do...(widget, isUsed, ...)`. -/
def ZoneList.DoEvent (ev : Event) (w : Widget) : ZoneList → Bool × List Claim → Bool × List Claim
  | .nil, s => s
  | .cons zone rest, s => ZoneList.DoEvent ev w rest (Zone.DoEvent ev w zone s)
/-- The loop `for(auto [key, zones] : map) for(auto zone : zones) zone->Do...`. -/
def ZoneMap.DoEvent (ev : Event) (w : Widget) : ZoneMap → Bool × List Claim → Bool × List Claim
  | .nil, s => s
  | .cons _ zones rest, s => ZoneMap.DoEvent ev w rest (ZoneList.DoEvent ev w zones s)
end

/-- Method `Zone::DoAction(widget, isUsed, value)`. -/
def Zone.DoAction (z : Zone) (w : Widget) (isUsed : Bool) (value : Double) : Bool × List Claim :=
  z.DoEvent (.action value) w (isUsed, [])

/-- Method `Zone::DoRelativeAction(widget, isUsed, delta)`. -/
def Zone.DoRelativeAction (z : Zone) (w : Widget) (isUsed : Bool) (delta : Double) :
    Bool × List Claim :=
  z.DoEvent (.relative delta) w (isUsed, [])

/-- Method `Zone::DoRelativeAction(widget, isUsed, accelerationIndex, delta)`. -/
def Zone.DoRelativeActionAccelerated (z : Zone) (w : Widget) (isUsed : Bool)
    (accelerationIndex : Int) (delta : Double) : Bool × List Claim :=
  z.DoEvent (.relativeAccelerated accelerationIndex delta) w (isUsed, [])

/-- Method `Zone::DoTouch(widget, widgetName, isUsed, value)`. -/
def Zone.DoTouch (z : Zone) (w : Widget) (isUsed : Bool) (value : Double) : Bool × List Claim :=
  z.DoEvent (.touch value) w (isUsed, [])

mutual
/-- The order in which one dispatch call reaches the zones of a tree: nothing below an
inactive zone; for an active zone its sub-zones, then its associated zones, then the zone
itself, then its included zones. -/
def Zone.visitOrder : Zone → List Zone
  | .mk name isActive widgets includedZones associatedZones subZones =>
    if isActive then
      ZoneMap.visitOrder subZones ++ ZoneMap.visitOrder associatedZones
        ++ [.mk name isActive widgets includedZones associatedZones subZones]
        ++ ZoneList.visitOrder includedZones
    else []
/-- The visit order of the zones of a list. -/
def ZoneList.visitOrder : ZoneList → List Zone
  | .nil => []
  | .cons zone rest => Zone.visitOrder zone ++ ZoneList.visitOrder rest
/-- The visit order of the zones of all groups of a map. -/
def ZoneMap.visitOrder : ZoneMap → List Zone
  | .nil => []
  | .cons _ zones rest => ZoneList.visitOrder zones ++ ZoneMap.visitOrder rest
end

/-- The outcome of one dispatch over the zones `order` as the specification words it: the
first zone of `order` that owns the widget runs its bindings and the event is used; with no
owner nothing runs and the event stays unused. -/
def firstOwnerClaims (ev : Event) (w : Widget) (order : List Zone) (log : List Claim) :
    Bool × List Claim :=
  match order.find? (Zone.owns w) with
  | some owner => (true, log ++ [⟨owner, w, ev⟩])
  | none => (false, log)

/-- A dispatch over `order` entered in the state `s`: nothing happens when the event is
already used. -/
def dispatchOver (ev : Event) (w : Widget) (s : Bool × List Claim) (order : List Zone) :
    Bool × List Claim :=
  if s.1 then s else firstOwnerClaims ev w order s.2

/-- What activation and deactivation do outside the zone tree. -/
inductive Effect where
  /-- The bindings of a hook widget of the zone are run with the value. -/
  | hook (zone : String) (widget : Widget) (value : Double)
  /-- The surface is sent the zone name, `SendOSCMessage(GetName())`. -/
  | announce (zone : String)
  /-- The call `widget->Clear()`. -/
  | clear (widget : Widget)
  /-- The part of `ZoneManager::GoHome` before it activates the home zone: the broadcast of
  the activation, `ClearFXMapping()` and `ResetOffsets()`. -/
  | goHome
deriving DecidableEq, Repr

/-- The loop of `Activate` and `Deactivate` over `widgets_` that runs the bindings of the
widgets named `hookName` with the value 1.0. -/
def runHooks (zone : String) (hookName : String) (widgets : List Widget) : List Effect :=
  (widgets.filter fun w => w.name == hookName).map fun w => Effect.hook zone w 1

mutual
/-- Method `Zone::Deactivate`: the new tree and the effects in order. -/
def Zone.Deactivate : Zone → Zone × List Effect
  | .mk name _ widgets includedZones associatedZones subZones =>
    let r1 := ZoneList.Deactivate includedZones
    let r2 := ZoneMap.Deactivate associatedZones
    let r3 := ZoneMap.Deactivate subZones
    (.mk name false widgets r1.1 r2.1 r3.1,
      runHooks name "OnZoneDeactivation" widgets ++ r1.2 ++ r2.2 ++ r3.2
        ++ widgets.map Effect.clear)
/-- The loop `for(auto zone : zones) zone->Deactivate()`. -/
def ZoneList.Deactivate : ZoneList → ZoneList × List Effect
  | .nil => (.nil, [])
  | .cons zone rest =>
    let r1 := Zone.Deactivate zone
    let r2 := ZoneList.Deactivate rest
    (.cons r1.1 r2.1, r1.2 ++ r2.2)
/-- The loop `for(auto [key, zones] : map) for(auto zone : zones) zone->Deactivate()`. -/
def ZoneMap.Deactivate : ZoneMap → ZoneMap × List Effect
  | .nil => (.nil, [])
  | .cons key zones rest =>
    let r1 := ZoneList.Deactivate zones
    let r2 := ZoneMap.Deactivate rest
    (.cons key r1.1 r2.1, r1.2 ++ r2.2)
end

mutual
/-- Method `Zone::Activate`: the new tree and the effects in order.  The first statement,
`UpdateCurrentActionContextModifiers()`, refreshes the binding selected for each widget and
touches neither `isActive_` nor the tree. -/
def Zone.Activate : Zone → Zone × List Effect
  | .mk name _ widgets includedZones associatedZones subZones =>
    let r1 := ZoneMap.Deactivate associatedZones
    let r2 := ZoneMap.Deactivate subZones
    let r3 := ZoneList.Activate includedZones
    (.mk name true widgets r3.1 r1.1 r2.1,
      runHooks name "OnZoneActivation" widgets ++ [Effect.announce name] ++ r1.2 ++ r2.2 ++ r3.2)
/-- The loop `for(auto zone : includedZones_) zone->Activate()`. -/
def ZoneList.Activate : ZoneList → ZoneList × List Effect
  | .nil => (.nil, [])
  | .cons zone rest =>
    let r1 := Zone.Activate zone
    let r2 := ZoneList.Activate rest
    (.cons r1.1 r2.1, r1.2 ++ r2.2)
end

mutual
/-- The three facts of the activation cascade at a zone, and again at each of its included
zones: the zone is active, no zone of its associated groups or of its sub-zone groups is
active, and every included zone is active. -/
def Zone.activationCascade : Zone → Bool
  | .mk _ isActive _ includedZones associatedZones subZones =>
    isActive
      && associatedZones.toList.all (fun z => !z.isActive)
      && subZones.toList.all (fun z => !z.isActive)
      && ZoneList.activationCascade includedZones
/-- The activation cascade at every zone of a list. -/
def ZoneList.activationCascade : ZoneList → Bool
  | .nil => true
  | .cons zone rest => Zone.activationCascade zone && ZoneList.activationCascade rest
end

/-- A leaf zone with the given name, activation state and widgets. -/
def leafZone (name : String) (isActive : Bool) (widgets : List Widget) : Zone :=
  .mk name isActive widgets .nil .nil .nil

/-- The first fader. -/
def fader1 : Widget := ⟨1, "Fader1"⟩

/-- The play button. -/
def playButton : Widget := ⟨2, "Play"⟩

/-- A home zone that owns `Fader1` and `Play`, with an active `VCA` overlay that owns
`Fader1`, an inactive `Folder` overlay that owns both, and an included `Buttons` zone. -/
def sampleHome : Zone :=
  .mk "Home" true [fader1, playButton]
    (.cons (leafZone "Buttons" true [playButton]) .nil)
    (.cons "Folder" (.cons (leafZone "Folder" false [fader1, playButton]) .nil)
      (.cons "VCA" (.cons (leafZone "VCA" true [fader1]) .nil) .nil))
    .nil

/-! ## Zone: deactivation cascade and associated groups -/

mutual
/-- A zone and every zone reachable from it through included-zone, associated-group and
sub-zone-group edges, the zone first. -/
def Zone.reachable : Zone → List Zone
  | .mk name isActive widgets includedZones associatedZones subZones =>
    .mk name isActive widgets includedZones associatedZones subZones
      :: (ZoneList.reachable includedZones ++ ZoneMap.reachable associatedZones
        ++ ZoneMap.reachable subZones)
/-- The zones reachable from the zones of a list. -/
def ZoneList.reachable : ZoneList → List Zone
  | .nil => []
  | .cons zone rest => Zone.reachable zone ++ ZoneList.reachable rest
/-- The zones reachable from the zones of the groups of a map. -/
def ZoneMap.reachable : ZoneMap → List Zone
  | .nil => []
  | .cons _ zones rest => ZoneList.reachable zones ++ ZoneMap.reachable rest
end

/-- The groups of a map with their keys, in iteration order. -/
def ZoneMap.groups : ZoneMap → List (String × ZoneList)
  | .nil => []
  | .cons key zones rest => (key, zones) :: rest.groups

/-- The test `map.count(key) > 0`. -/
def ZoneMap.contains (key : String) : ZoneMap → Bool
  | .nil => false
  | .cons k _ rest => k == key || rest.contains key

/-- The group `map[key]` of a key the map contains; the empty group otherwise. -/
def ZoneMap.get (key : String) : ZoneMap → ZoneList
  | .nil => .nil
  | .cons k zones rest => if k == key then zones else rest.get key

/-- The test `zones.size() > 0 && zones[0]->GetIsActive()`. -/
def ZoneList.firstIsActive : ZoneList → Bool
  | .nil => false
  | .cons zone _ => zone.isActive

/-- The loop `for(auto zone : map[key]) zone->Deactivate()` on the group of one key. -/
def ZoneMap.DeactivateKey (key : String) : ZoneMap → ZoneMap × List Effect
  | .nil => (.nil, [])
  | .cons k zones rest =>
    if k == key then
      let r := ZoneList.Deactivate zones
      (.cons k r.1 rest, r.2)
    else
      let r := ZoneMap.DeactivateKey key rest
      (.cons k zones r.1, r.2)

/-- The loop `for(auto zone : map[key]) zone->Activate()` on the group of one key. -/
def ZoneMap.ActivateKey (key : String) : ZoneMap → ZoneMap × List Effect
  | .nil => (.nil, [])
  | .cons k zones rest =>
    if k == key then
      let r := ZoneList.Activate zones
      (.cons k r.1 rest, r.2)
    else
      let r := ZoneMap.ActivateKey key rest
      (.cons k zones r.1, r.2)

/-- The inner loop `for(auto zone : zones) if(zone->GetName() == name) zone->Deactivate()`. -/
def ZoneList.DeactivateNamed (name : String) : ZoneList → ZoneList × List Effect
  | .nil => (.nil, [])
  | .cons zone rest =>
    let r1 := if zone.name == name then Zone.Deactivate zone else (zone, [])
    let r2 := ZoneList.DeactivateNamed name rest
    (.cons r1.1 r2.1, r1.2 ++ r2.2)

/-- The loop `for(auto [key, zones] : map) for(auto zone : zones)
if(zone->GetName() == name) zone->Deactivate()`. -/
def ZoneMap.DeactivateNamed (name : String) : ZoneMap → ZoneMap × List Effect
  | .nil => (.nil, [])
  | .cons key zones rest =>
    let r1 := ZoneList.DeactivateNamed name zones
    let r2 := ZoneMap.DeactivateNamed name rest
    (.cons key r1.1 r2.1, r1.2 ++ r2.2)

/-- The inner loop `for(auto zone : zones) if(zone->GetName() == name) zone->Activate()`. -/
def ZoneList.ActivateNamed (name : String) : ZoneList → ZoneList × List Effect
  | .nil => (.nil, [])
  | .cons zone rest =>
    let r1 := if zone.name == name then Zone.Activate zone else (zone, [])
    let r2 := ZoneList.ActivateNamed name rest
    (.cons r1.1 r2.1, r1.2 ++ r2.2)

/-- The loop `for(auto [key, zones] : map) for(auto zone : zones)
if(zone->GetName() == name) zone->Activate()`. -/
def ZoneMap.ActivateNamed (name : String) : ZoneMap → ZoneMap × List Effect
  | .nil => (.nil, [])
  | .cons key zones rest =>
    let r1 := ZoneList.ActivateNamed name zones
    let r2 := ZoneMap.ActivateNamed name rest
    (.cons key r1.1 r2.1, r1.2 ++ r2.2)

/-- Method `Zone::GoAssociatedZone`, called on the home zone (its callers are
`ZoneManager::GoAssociatedZone` and `ZoneManager::HandleActivation`, on `homeZone_`), so
that `zoneManager_->GoHome()` activates this very zone. -/
def Zone.GoAssociatedZone (zoneName : String) : Zone → Zone × List Effect
  | .mk name isActive widgets includedZones associatedZones subZones =>
    if zoneName == "Track" then
      let r := ZoneMap.Deactivate associatedZones
      (.mk name isActive widgets includedZones r.1 subZones, r.2)
    else if associatedZones.contains zoneName
        && (associatedZones.get zoneName).firstIsActive then
      let r1 := ZoneMap.DeactivateKey zoneName associatedZones
      let r2 := Zone.Activate (.mk name isActive widgets includedZones r1.1 subZones)
      (r2.1, r1.2 ++ [Effect.goHome] ++ r2.2)
    else
      let r1 := ZoneMap.Deactivate associatedZones
      let r2 := if r1.1.contains zoneName then ZoneMap.ActivateKey zoneName r1.1 else (r1.1, [])
      (.mk name isActive widgets includedZones r2.1 subZones, r1.2 ++ r2.2)

/-- Method `Zone::GoVCA`. -/
def Zone.GoVCA : Zone → Zone × List Effect
  | .mk name isActive widgets includedZones associatedZones subZones =>
    let r1 := ZoneMap.DeactivateNamed "Folder" associatedZones
    let r2 := ZoneMap.ActivateNamed "VCA" r1.1
    (.mk name isActive widgets includedZones r2.1 subZones, r1.2 ++ r2.2)

/-- A home zone with three associated groups: `Folder` (active), `SelectedTrackSend`
(active) and `VCA` (inactive), one zone each. -/
def radioHome : Zone :=
  .mk "Home" true [fader1] .nil
    (.cons "Folder" (.cons (leafZone "Folder" true [fader1]) .nil)
      (.cons "SelectedTrackSend" (.cons (leafZone "SelectedTrackSend" true [fader1]) .nil)
        (.cons "VCA" (.cons (leafZone "VCA" false [fader1]) .nil) .nil)))
    .nil

/-! ## Modifiers -/

/-- The enumeration `Modifiers` of the ten named modifiers, which indexes the table
`modifiers_` of a modifier manager. -/
inductive Modifiers where
  | Shift | Option | Control | Alt | Flip | Global | Marker | Nudge | Zoom | Scrub
deriving DecidableEq, Repr

/-- The ten modifiers in index order, the order of the loop over `modifiers_`. -/
def Modifiers.all : List Modifiers :=
  [.Shift, .Option, .Control, .Alt, .Flip, .Global, .Marker, .Nudge, .Zoom, .Scrub]

/-- The members of `ModifierManager`: whether it has an owner (`surface_` or `page_` is
set), the table `modifiers_` (the configured weight `value` and the flag `isEngaged` of each
modifier; the weights are set in the header and are a parameter here) and the list
`modifierCombinations_`. -/
structure ModifierManager where
  hasOwner : Bool
  value : Modifiers → Int
  isEngaged : Modifiers → Bool
  modifierCombinations : List Int

/-- Modelled from the spec: `ModifierManager::GetCombinations`, declared in the header,
"build the power set of currently-engaged modifier indices": every sub-sequence of the
indices, the empty one included. -/
def GetCombinations (indices : List Modifiers) : List (List Modifiers) :=
  indices.sublists

namespace ModifierManager

/-- The indices collected by the first loop of `RecalculateModifiers`. -/
def activeModifierIndices (m : ModifierManager) : List Modifiers :=
  Modifiers.all.filter m.isEngaged

/-- Method `ModifierManager::RecalculateModifiers`; `std::sort` with the comparison `a > b`
is a sort into non-increasing order.  The closing call that has the owner refresh the
selection of its zones is `ZoneBindings.UpdateCurrentActionContextModifiers` below. -/
def RecalculateModifiers (m : ModifierManager) : ModifierManager :=
  if !m.hasOwner then
    m
  else if m.activeModifierIndices.length > 0 then
    { m with modifierCombinations :=
        (0 :: (GetCombinations m.activeModifierIndices).map
          fun combination => (combination.map m.value).sum).insertionSort (· ≥ ·) }
  else
    { m with modifierCombinations := [0] }

/-- Modelled from the spec: the setters `SetShift`, `SetOption`, ... of the header, "each
modifier is an independent boolean; `RecalculateModifiers` is invoked on every
engage/disengage transition". -/
def SetModifier (m : ModifierManager) (modifier : Modifiers) (value : Bool) : ModifierManager :=
  RecalculateModifiers
    { m with isEngaged := fun i => if i = modifier then value else m.isEngaged i }

/-- Modelled from the spec: `ModifierManager::GetModifierValue` of the header, the modifier
code of the engaged modifiers, each "contributing its configured weight". -/
def GetModifierValue (m : ModifierManager) : Int :=
  (m.activeModifierIndices.map m.value).sum

/-- Modelled from the spec: the default constructor of the header, a manager without
owner and with no modifier engaged, over the configured weights. -/
def fresh (weights : Modifiers → Int) : ModifierManager :=
  { hasOwner := false, value := weights, isEngaged := fun _ => false,
    modifierCombinations := [] }

end ModifierManager

/-! ## Binding tables -/

/-- A bound action context as the zone builder creates it: the name of the action, the
parameters and property groups of the template, and what the builder sets on the context
(`SetIsFeedbackInverted`, `SetHoldDelayAmount`, `SetRange`). -/
structure BoundContext where
  actionName : String
  params : List String
  properties : List (List String)
  isFeedbackInverted : Bool
  holdDelayAmount : Double
  range : Option (Double × Double)
deriving DecidableEq, Repr

/-- The update `map[key] = f(map[key])` of a `std::map` kept as an association list, the
entry being created from `init` when the key is new. -/
def mapUpdate {κ ν : Type} [DecidableEq κ] (key : κ) (init : ν) (f : ν → ν) :
    List (κ × ν) → List (κ × ν)
  | [] => [(key, f init)]
  | (k, v) :: rest =>
    if k = key then (k, f v) :: rest else (k, v) :: mapUpdate key init f rest

/-- The lookup `map.find(key)` of a `std::map` kept as an association list. -/
def mapFind {κ ν : Type} [DecidableEq κ] (key : κ) : List (κ × ν) → Option ν
  | [] => none
  | (k, v) :: rest => if k = key then some v else mapFind key rest

/-- The members of `Zone` that hold its bindings: the keys of `widgets_`,
`actionContextDictionary_` (widget, then modifier code, then the bound contexts in order),
`currentActionContextModifiers_` and `defaultContexts_`. -/
structure ZoneBindings where
  widgets : List Widget
  actionContextDictionary : List (Widget × List (Int × List BoundContext))
  currentActionContextModifiers : List (Widget × Int)
  defaultContexts : List BoundContext
deriving DecidableEq, Repr

namespace ZoneBindings

/-- The test `actionContextDictionary_[widget].count(modifier) > 0`. -/
def hasBinding (b : ZoneBindings) (w : Widget) (modifier : Int) : Bool :=
  match mapFind w b.actionContextDictionary with
  | some byModifier => (mapFind modifier byModifier).isSome
  | none => false

/-- The list `actionContextDictionary_[widget][modifier]`. -/
def contexts (b : ZoneBindings) (w : Widget) (modifier : Int) : List BoundContext :=
  match mapFind w b.actionContextDictionary with
  | some byModifier => (mapFind modifier byModifier).getD []
  | none => []

/-- Modelled from the spec: `Zone::AddWidget` of the header, the assignment
`widgets_[widget] = true`, which adds the widget to the keys unless it is one already. -/
def AddWidget (b : ZoneBindings) (w : Widget) : ZoneBindings :=
  if b.widgets.contains w then b else { b with widgets := b.widgets ++ [w] }

/-- Modelled from the spec: `Zone::AddActionContext` of the header, which appends the
context to the list registered for the widget and the modifier code. -/
def AddActionContext (b : ZoneBindings) (w : Widget) (modifier : Int) (context : BoundContext) :
    ZoneBindings :=
  { b with actionContextDictionary :=
      mapUpdate w [] (mapUpdate modifier [] (· ++ [context])) b.actionContextDictionary }

/-- Method `Zone::UpdateCurrentActionContextModifier`, `modifiers` being the list
`widget->GetSurface()->GetModifiers()`.  The subscript `actionContextDictionary_[widget]`
creates the entry of the widget when the loop runs at all. -/
def UpdateCurrentActionContextModifier (b : ZoneBindings) (modifiers : List Int) (w : Widget) :
    ZoneBindings :=
  if modifiers = [] then
    b
  else
    let b1 := { b with actionContextDictionary := mapUpdate w [] id b.actionContextDictionary }
    match modifiers.find? (fun modifier => b1.hasBinding w modifier) with
    | some modifier =>
      { b1 with currentActionContextModifiers :=
          mapUpdate w modifier (fun _ => modifier) b1.currentActionContextModifiers }
    | none => b1

/-- The loop of `Zone::UpdateCurrentActionContextModifiers` over the widgets of the zone
itself (its recursion into the child zones refreshes their own tables). -/
def UpdateCurrentActionContextModifiers (b : ZoneBindings) (modifiers : List Int) :
    ZoneBindings :=
  b.widgets.foldl (fun b w => b.UpdateCurrentActionContextModifier modifiers w) b

/-- Method `Zone::GetActionContexts`: the selected list and the table, which the call may
have refreshed.  `isTouched` and `isToggled` are the answers of the surface for the channel
of the widget. -/
def GetActionContexts (b : ZoneBindings) (modifiers : List Int) (isTouched isToggled : Bool)
    (w : Widget) : List BoundContext × ZoneBindings :=
  let b1 := if (mapFind w b.currentActionContextModifiers).isNone then
      b.UpdateCurrentActionContextModifier modifiers w
    else b
  match mapFind w b1.currentActionContextModifiers, mapFind w b1.actionContextDictionary with
  | some modifier, some _ =>
    if isTouched && isToggled && b1.hasBinding w (modifier + 3) then
      (b1.contexts w (modifier + 3), b1)
    else if isTouched && b1.hasBinding w (modifier + 1) then
      (b1.contexts w (modifier + 1), b1)
    else if isToggled && b1.hasBinding w (modifier + 2) then
      (b1.contexts w (modifier + 2), b1)
    else if b1.hasBinding w modifier then
      (b1.contexts w modifier, b1)
    else
      (b1.defaultContexts, b1)
  | _, _ => (b1.defaultContexts, b1)

/-- The overlay offsets in the priority order of the specification, for a touch/toggle
state: 3 (touched and toggled), 1 (touched), 2 (toggled), 0. -/
def overlayOffsets (isTouched isToggled : Bool) : List Int :=
  (if isTouched && isToggled then [3] else []) ++ (if isTouched then [1] else [])
    ++ (if isToggled then [2] else []) ++ [0]

/-- The selection as the specification words it: the first code `c` of the list for which
a binding exists at `c + o` for some allowed offset `o`, then the first such offset; the
default list when no code and offset match. -/
def claimedSelection (b : ZoneBindings) (modifiers : List Int) (isTouched isToggled : Bool)
    (w : Widget) : List BoundContext :=
  match modifiers.find? (fun c =>
      (overlayOffsets isTouched isToggled).any fun o => b.hasBinding w (c + o)) with
  | some c =>
    match (overlayOffsets isTouched isToggled).find? (fun o => b.hasBinding w (c + o)) with
    | some o => b.contexts w (c + o)
    | none => b.defaultContexts
  | none => b.defaultContexts

end ZoneBindings

/-- Modelled from the spec: the context that `TheManager->GetActionContext(name, widget,
zone, "")` of the header creates, bound to the action by name with no parameter. -/
def namedContext (actionName : String) : BoundContext :=
  { actionName := actionName, params := [], properties := [], isFeedbackInverted := false,
    holdDelayAmount := 0, range := none }

/-- A manager with an owner, all ten weights equal to 4, `Shift` and `Option` engaged. -/
def aliasingManager : ModifierManager :=
  { hasOwner := true, value := fun _ => 4,
    isEngaged := fun i => i == .Shift || i == .Option, modifierCombinations := [] }

/-- A manager with an owner, the weights 4, 8, 16, ..., 2048 and `Shift` engaged when asked. -/
def sampleManager (shift : Bool) : ModifierManager :=
  { hasOwner := true
    value := fun i => match i with
      | .Shift => 4 | .Option => 8 | .Control => 16 | .Alt => 32 | .Flip => 64
      | .Global => 128 | .Marker => 256 | .Nudge => 512 | .Zoom => 1024 | .Scrub => 2048
    isEngaged := fun i => shift && i == .Shift
    modifierCombinations := [] }

/-- A table with a single binding for `Fader1`, at code 1 (the touch overlay of code 0). -/
def touchOnlyBindings : ZoneBindings :=
  { widgets := [fader1]
    actionContextDictionary := [(fader1, [(1, [namedContext "TrackTouch"])])]
    currentActionContextModifiers := [], defaultContexts := [namedContext "NoAction"] }

/-- A table that binds `Fader1` at code 0, at its touch overlay 1 and at code 4. -/
def overlayBindings : ZoneBindings :=
  { widgets := [fader1]
    actionContextDictionary :=
      [(fader1, [(0, [namedContext "TrackVolume"]), (1, [namedContext "TrackTouch"]),
        (4, [namedContext "TrackPan"])])]
    currentActionContextModifiers := [], defaultContexts := [namedContext "NoAction"] }

/-- A table that binds `Fader1` at code 0 alone and remembers the stale selection 4. -/
def plainBindings : ZoneBindings :=
  { widgets := [playButton, fader1]
    actionContextDictionary := [(fader1, [(0, [namedContext "TrackVolume"])])]
    currentActionContextModifiers := [(fader1, 4)], defaultContexts := [namedContext "NoAction"] }

/-! ## Zone: the hook bindings -/

/-- One call `context->DoAction(value)` made by a zone for a widget. -/
structure ContextRun where
  widget : Widget
  context : BoundContext
  value : Double
deriving DecidableEq, Repr

namespace ZoneBindings

/-- The loop of `Zone::Activate` and of `Zone::Deactivate` over `widgets_` that calls
`context->DoAction(1.0)` on every context selected for every widget named `hookName`: the
calls in order and the table, which `GetActionContexts` may have refreshed. -/
def runHookContexts (b : ZoneBindings) (modifiers : List Int)
    (isTouched isToggled : Widget → Bool) (hookName : String) :
    List ContextRun × ZoneBindings :=
  b.widgets.foldl
    (fun (acc : List ContextRun × ZoneBindings) w =>
      if w.name = hookName then
        let r := acc.2.GetActionContexts modifiers (isTouched w) (isToggled w) w
        (acc.1 ++ r.1.map (fun context => ContextRun.mk w context 1), r.2)
      else acc)
    ([], b)

/-- The first two statements of `Zone::Activate` on the tables of the zone: the refresh of
the selections, then the hook loop for `OnZoneActivation`. -/
def Activate (b : ZoneBindings) (modifiers : List Int) (isTouched isToggled : Widget → Bool) :
    List ContextRun × ZoneBindings :=
  (b.UpdateCurrentActionContextModifiers modifiers).runHookContexts modifiers
    isTouched isToggled "OnZoneActivation"

/-- The first statement of `Zone::Deactivate` on the tables of the zone: the hook loop for
`OnZoneDeactivation`, with no refresh before it. -/
def Deactivate (b : ZoneBindings) (modifiers : List Int) (isTouched isToggled : Widget → Bool) :
    List ContextRun × ZoneBindings :=
  b.runHookContexts modifiers isTouched isToggled "OnZoneDeactivation"

end ZoneBindings

/-- The block of the `Zone::Zone` constructor of the home zone that gives one zone of the
associated group `zoneName` its hook bindings; `onZoneActivation` and `onZoneDeactivation`
are the answers of `GetWidgetByName`. -/
def wireRadioButtonHooks (zoneName : String) (onZoneActivation onZoneDeactivation : Option Widget)
    (b : ZoneBindings) : ZoneBindings :=
  if zoneName = "VCA" then
    let b1 := match onZoneActivation with
      | some w => (b.AddWidget w).AddActionContext w 0 (namedContext "VCAModeActivated")
      | none => b
    match onZoneDeactivation with
    | some w => (b1.AddWidget w).AddActionContext w 0 (namedContext "VCAModeDeactivated")
    | none => b1
  else if zoneName = "Folder" then
    let b1 := match onZoneActivation with
      | some w => (b.AddWidget w).AddActionContext w 0 (namedContext "FolderModeActivated")
      | none => b
    match onZoneDeactivation with
    | some w => (b1.AddWidget w).AddActionContext w 0 (namedContext "FolderModeDeactivated")
    | none => b1
  else b

/-- A call on a zone between which the hooks are observed: `Activate()`, `Deactivate()`, or
the refresh `UpdateCurrentActionContextModifiers()` that a modifier change triggers. -/
inductive Transition where
  | activate
  | deactivate
  | refresh
deriving DecidableEq, Repr

/-- A call together with what the surface answers during it: the reachable-code list and
the touch and toggle state of the channel of each widget. -/
structure ZoneCall where
  kind : Transition
  modifiers : List Int
  isTouched : Widget → Bool
  isToggled : Widget → Bool

/-- One call on the tables of a zone: the context runs of its hook loop and the tables. -/
def ZoneBindings.call (b : ZoneBindings) (c : ZoneCall) : List ContextRun × ZoneBindings :=
  match c.kind with
  | .activate => b.Activate c.modifiers c.isTouched c.isToggled
  | .deactivate => b.Deactivate c.modifiers c.isTouched c.isToggled
  | .refresh => ([], b.UpdateCurrentActionContextModifiers c.modifiers)

/-- A sequence of calls on the tables of a zone: the context runs of each call, in order. -/
def ZoneBindings.runCalls : ZoneBindings → List ZoneCall → List (List ContextRun)
  | _, [] => []
  | b, c :: rest => (b.call c).1 :: ZoneBindings.runCalls (b.call c).2 rest

/-- The widget `OnZoneActivation` of the surface. -/
def onZoneActivation : Widget := ⟨10, "OnZoneActivation"⟩

/-- The widget `OnZoneDeactivation` of the surface. -/
def onZoneDeactivation : Widget := ⟨11, "OnZoneDeactivation"⟩

/-- The tables of a `VCA` zone whose file holds the line `OnZoneActivation NoAction`. -/
def fileHookBindings : ZoneBindings :=
  { widgets := [fader1, onZoneActivation]
    actionContextDictionary := [(fader1, [(0, [namedContext "TrackVolume"])]),
      (onZoneActivation, [(0, [namedContext "NoAction"])])]
    currentActionContextModifiers := [], defaultContexts := [] }

/-- Two activations, the second with `Shift` engaged and the channels touched, then two
deactivations with a refresh between them. -/
def sampleCalls : List ZoneCall :=
  [⟨.activate, [0], fun _ => false, fun _ => false⟩,
    ⟨.activate, [4, 0, 0], fun _ => true, fun _ => false⟩,
    ⟨.deactivate, [0], fun _ => false, fun _ => true⟩,
    ⟨.refresh, [4, 0, 0], fun _ => false, fun _ => false⟩,
    ⟨.deactivate, [4, 0, 0], fun _ => false, fun _ => false⟩]

/-- The state in which the hook `hookName` of a zone answers with `list`: `w` is the one
widget of the zone with that name, its bindings sit at code 0 alone, where `list` is
registered, and the selection remembered for it is absent or 0. -/
def ZoneBindings.HookReady (b : ZoneBindings) (w : Widget) (hookName : String)
    (list : List BoundContext) : Prop :=
  b.widgets.filter (fun x => decide (x.name = hookName)) = [w]
    ∧ (∀ c, b.hasBinding w c = decide (c = 0))
    ∧ b.contexts w 0 = list
    ∧ (mapFind w b.currentActionContextModifiers = none
      ∨ mapFind w b.currentActionContextModifiers = some 0)

/-! ## Zone files: the widget specifier -/

/-- The fields of `ActionTemplate`, the record that `ProcessZoneFile` fills for one binding
line. -/
structure ActionTemplate where
  widgetName : String
  modifier : Int
  actionName : String
  params : List String
  properties : List (List String)
  isFeedbackInverted : Bool
  holdDelayAmount : Double
  isDecrease : Bool
  isIncrease : Bool
deriving DecidableEq, Repr

/-- The record that `make_shared<ActionTemplate>()` creates from the member initialisers
of `struct ActionTemplate`, with code 0 and every flag off. -/
def ActionTemplate.fresh : ActionTemplate :=
  { widgetName := "", modifier := 0, actionName := "", params := [], properties := [],
    isFeedbackInverted := false, holdDelayAmount := 0, isDecrease := false,
    isIncrease := false }

/-- The loop `while (getline(stream, token, delimiter)) tokens.push_back(token)` on the
characters left in the stream; `pending` holds the characters read into the token so far.
A call of `getline` that meets the end of the stream before any character extracts
nothing and ends the loop. -/
def getlineTokens (delimiter : Char) : List Char → List Char → List String
  | [], pending => if pending.isEmpty then [] else [String.mk pending]
  | c :: rest, pending =>
    if c = delimiter then String.mk pending :: getlineTokens delimiter rest []
    else getlineTokens delimiter rest (pending ++ [c])

/-- The test `text.find(pattern) != string::npos` on characters. -/
def findsIn (pattern : List Char) : List Char → Bool
  | [] => pattern.isEmpty
  | c :: rest => pattern.isPrefixOf (c :: rest) || findsIn pattern rest

/-- The test `text.find(pattern) != string::npos`. -/
def finds (text pattern : String) : Bool :=
  findsIn pattern.toList text.toList

/-- The modifier that a segment names, for the chain `tokens[i] == "Shift"` ...
`tokens[i] == "Scrub"`. -/
def namedModifier (token : String) : Option Modifiers :=
  if token = "Shift" then some .Shift
  else if token = "Option" then some .Option
  else if token = "Control" then some .Control
  else if token = "Alt" then some .Alt
  else if token = "Flip" then some .Flip
  else if token = "Global" then some .Global
  else if token = "Marker" then some .Marker
  else if token = "Nudge" then some .Nudge
  else if token = "Zoom" then some .Zoom
  else if token = "Scrub" then some .Scrub
  else none

/-- The body of the loop of `GetWidgetNameAndModifiers` for one segment before the last:
the template and the local modifier manager. -/
def decodeSegment (s : ActionTemplate × ModifierManager) (token : String) :
    ActionTemplate × ModifierManager :=
  if finds token "Touch" then ({ s.1 with modifier := s.1.modifier + 1 }, s.2)
  else if token = "Toggle" then ({ s.1 with modifier := s.1.modifier + 2 }, s.2)
  else match namedModifier token with
    | some modifier => (s.1, s.2.SetModifier modifier true)
    | none =>
      if token = "InvertFB" then ({ s.1 with isFeedbackInverted := true }, s.2)
      else if token = "Hold" then ({ s.1 with holdDelayAmount := 1 }, s.2)
      else if token = "Decrease" then ({ s.1 with isDecrease := true }, s.2)
      else if token = "Increase" then ({ s.1 with isIncrease := true }, s.2)
      else s

/-- The function `GetWidgetNameAndModifiers`, which fills the template from the specifier
`line`; `weights` are the configured weights of the local modifier manager.  On the empty
specifier the read `tokens[tokens.size() - 1]` is outside the empty vector: no result. -/
def GetWidgetNameAndModifiers (weights : Modifiers → Int) (line : String)
    (actionTemplate : ActionTemplate) : Option ActionTemplate :=
  let tokens := getlineTokens (Char.ofNat 43) line.toList []
  match tokens.getLast? with
  | none => none
  | some widgetName =>
    let s := tokens.dropLast.foldl decodeSegment
      ({ actionTemplate with widgetName := widgetName }, ModifierManager.fresh weights)
    some { s.1 with modifier := s.1.modifier + s.2.GetModifierValue }

/-- The contribution of one segment to the modifier code as the specification words it:
1 for a touch segment, 2 for `Toggle`, the configured weight for a named modifier. -/
def claimedSegmentCode (weights : Modifiers → Int) (token : String) : Int :=
  if finds token "Touch" then 1
  else if token = "Toggle" then 2
  else match namedModifier token with
    | some modifier => weights modifier
    | none => 0

/-- The modifier code as the specification words it: the sum over the segments before the
last of their contributions. -/
def claimedModifier (weights : Modifiers → Int) (segments : List String) : Int :=
  (segments.map (claimedSegmentCode weights)).sum

/-! ## Zone files: the lines -/

/-- Modelled from the spec: `GetTokens` of the header, which "splits a text line into
whitespace-delimited tokens", for a line without quoted or bracketed groups. -/
def GetTokens (line : String) : List String :=
  (getlineTokens (Char.ofNat 32) line.toList []).filter fun token => token ≠ ""

/-- The locals of `ProcessZoneFile` that its loop over the lines reads and writes.
`actionTemplates` holds the templates of `actionTemplatesDictionary` in the order of their
creation (the dictionary groups them by widget name and modifier code and keeps this order
within a group); `currentActionTemplate` is the position of the pointed template in it. -/
structure ZoneFileState where
  isInIncludedZonesSection : Bool
  includedZones : List String
  isInSubZonesSection : Bool
  subZones : List String
  isInAssociatedZonesSection : Bool
  associatedZones : List String
  actionTemplates : List ActionTemplate
  zoneName : String
  zoneAlias : String
  currentActionTemplate : Option Nat
deriving DecidableEq, Repr

/-- The locals of `ProcessZoneFile` before the first line. -/
def ZoneFileState.initial : ZoneFileState :=
  { isInIncludedZonesSection := false, includedZones := []
    isInSubZonesSection := false, subZones := []
    isInAssociatedZonesSection := false, associatedZones := []
    actionTemplates := [], zoneName := "", zoneAlias := "", currentActionTemplate := none }

/-- How the loop of `ProcessZoneFile` goes on after a line. -/
inductive LineResult where
  /-- The loop goes to the next line with these locals. -/
  | next (s : ZoneFileState)
  /-- The line `FXParams`: the file is handed to `ProcessFXZoneFile` and the function
  returns. -/
  | fxZoneFile
  /-- The line `ZoneEnd` of a named zone: the zones are built from these locals and the
  loop is left. -/
  | zoneEnd (s : ZoneFileState)
  /-- A read outside a vector. -/
  | fault
deriving DecidableEq, Repr

/-- The last branch of the loop body of `ProcessZoneFile`, `else if(tokens.size() > 1)`,
for the first token and the tokens after it: a property line or a new template. -/
def processBindingTokens (weights : Modifiers → Int) (s : ZoneFileState) (first : String)
    (rest : List String) : LineResult :=
  match rest with
  | [] => .next s
  | second :: _ =>
    if finds first "Property" then
      match s.currentActionTemplate with
      | some position =>
        .next { s with actionTemplates := (s.actionTemplates.modify
          (fun t => { t with properties := t.properties ++ [rest] }) position) }
      | none => .next s
    else
      match GetWidgetNameAndModifiers weights first
          { ActionTemplate.fresh with actionName := second, params := rest } with
      | some t =>
        .next { s with actionTemplates := s.actionTemplates ++ [t]
                       currentActionTemplate := some s.actionTemplates.length }
      | none => .fault

/-- The body of the loop of `ProcessZoneFile` for the tokens of one line that is neither
blank nor a comment; `weights` are the configured weights of the modifiers. -/
def processLineTokens (weights : Modifiers → Int) (s : ZoneFileState) (tokens : List String) :
    LineResult :=
  match tokens with
  | [] => .next s
  | first :: rest =>
    if first = "FXParams" then .fxZoneFile
    else if first = "Zone" then
      .next { s with zoneName := rest.getD 0 "", zoneAlias := rest.getD 1 "" }
    else if first = "ZoneEnd" ∧ s.zoneName ≠ "" then
      .zoneEnd { s with currentActionTemplate := none }
    else if first = "IncludedZones" then .next { s with isInIncludedZonesSection := true }
    else if first = "IncludedZonesEnd" then .next { s with isInIncludedZonesSection := false }
    else if s.isInIncludedZonesSection then
      .next { s with includedZones := s.includedZones ++ [first] }
    else if first = "SubZones" then .next { s with isInSubZonesSection := true }
    else if first = "SubZonesEnd" then .next { s with isInSubZonesSection := false }
    else if s.isInSubZonesSection then .next { s with subZones := s.subZones ++ [first] }
    else if first = "AssociatedZones" then
      .next { s with isInAssociatedZonesSection := true }
    else if first = "AssociatedZonesEnd" then
      .next { s with isInAssociatedZonesSection := false }
    else if s.isInAssociatedZonesSection then
      .next { s with associatedZones := s.associatedZones ++ [first] }
    else processBindingTokens weights s first rest

/-- The loop of `ProcessZoneFile` over the token lists of the lines that are neither blank
nor comments; `next` is the end of the file reached without a `ZoneEnd`. -/
def ProcessZoneFile (weights : Modifiers → Int) :
    ZoneFileState → List (List String) → LineResult
  | s, [] => .next s
  | s, tokens :: rest =>
    match processLineTokens weights s tokens with
    | .next s1 => ProcessZoneFile weights s1 rest
    | result => result

/-- The first tokens that the loop body of `ProcessZoneFile` tests by name before it comes
to the binding branch, `ZoneEnd` apart, which it tests together with the zone name. -/
def structuralKeywords : List String :=
  ["FXParams", "Zone", "IncludedZones", "IncludedZonesEnd", "SubZones", "SubZonesEnd",
    "AssociatedZones", "AssociatedZonesEnd"]

/-! ## Zone files: the zone built at `ZoneEnd` -/

/-- The call `regex_replace(text, regex("[|]"), numStr)`. -/
def replaceBar (numStr text : String) : String :=
  String.mk (text.toList.flatMap fun c => if c = Char.ofNat 124 then numStr.toList else [c])

/-- Modelled from the spec: `ControlSurface::GetWidgetByName` of the header, the widget of
the surface that has this name, `nullptr` when there is none ("unresolvable widget name"). -/
def GetWidgetByName (surface : List Widget) (name : String) : Option Widget :=
  surface.find? fun w => w.name = name

/-- The name under which the loop at `ZoneEnd` looks a widget up on the surface, for
navigator `i` of `numNavigators` and the channel number of the enclosing zone, if there
is one. -/
def surfaceWidgetName (numNavigators i : Nat) (enclosing : Option Nat) (widgetName : String) :
    String :=
  let name := if numNavigators > 1 then replaceBar (toString (i + 1)) widgetName else widgetName
  match enclosing with
  | some number => if number ≠ 0 then replaceBar (toString number) name else name
  | none => name

/-- Modelled from the spec: the context that `TheManager->GetActionContext(actionName,
widget, zone, params, properties)` of the header creates for the named action. -/
def GetActionContext (actionName : String) (params : List String)
    (properties : List (List String)) : BoundContext :=
  { actionName := actionName, params := params, properties := properties,
    isFeedbackInverted := false, holdDelayAmount := 0, range := none }

/-- The context that the loop at `ZoneEnd` creates for one template, with the calls
`SetIsFeedbackInverted()`, `SetHoldDelayAmount(amount)` and `SetRange(...)` recorded in it. -/
def templateContext (numStr : String) (t : ActionTemplate) : BoundContext :=
  let context := GetActionContext (replaceBar numStr t.actionName)
    (t.params.map (replaceBar numStr)) t.properties
  let context := if t.isFeedbackInverted then { context with isFeedbackInverted := true }
    else context
  let context := if t.holdDelayAmount ≠ 0 then
      { context with holdDelayAmount := t.holdDelayAmount }
    else context
  if t.isDecrease then { context with range := some (-2, 1) }
  else if t.isIncrease then { context with range := some (0, 2) }
  else context

/-- The comparison `a < b` of `std::string`, character by character. -/
def stringLess : List Char → List Char → Bool
  | _, [] => false
  | [], _ :: _ => true
  | a :: as, b :: bs =>
    decide (a.toNat < b.toNat) || (decide (a.toNat = b.toNat) && stringLess as bs)

/-- The order in which the loops at `ZoneEnd` visit the templates of
`actionTemplatesDictionary`: by widget name, then by modifier code (the orders of the two
`std::map`), then by creation. -/
def dictionaryOrder (templates : List ActionTemplate) : List ActionTemplate :=
  templates.insertionSort fun a b =>
    stringLess a.widgetName.toList b.widgetName.toList = true
      ∨ (a.widgetName = b.widgetName ∧ a.modifier ≤ b.modifier)

/-- Modelled from the spec: the tables of a newly constructed zone, with no widget, no
binding and no selection; the default list is set in the header. -/
def ZoneBindings.empty (defaultContexts : List BoundContext) : ZoneBindings :=
  { widgets := [], actionContextDictionary := [], currentActionContextModifiers := [],
    defaultContexts := defaultContexts }

/-- The body of the navigator loop at `ZoneEnd` for navigator `i` of `numNavigators` and a
zone that is no sub-zone (`enclosingZone == nullptr`), on the tables `b` of the new zone:
a template whose widget the surface does not have is skipped. -/
def buildZoneBindings (surface : List Widget) (numNavigators i : Nat)
    (templates : List ActionTemplate) (b : ZoneBindings) : ZoneBindings :=
  (dictionaryOrder templates).foldl
    (fun b t =>
      let surfaceWidgetName :=
        if numNavigators > 1 then replaceBar (toString (i + 1)) t.widgetName else t.widgetName
      match GetWidgetByName surface surfaceWidgetName with
      | none => b
      | some widget =>
        (b.AddWidget widget).AddActionContext widget t.modifier
          (templateContext (toString (i + 1)) t))
    b

/-- The token lists of the zone file of the end-to-end scenario as written in the
specification, widget first. -/
def claimedHomeFile : List (List String) :=
  [GetTokens "Zone Home", GetTokens "Play+Nothing Play", GetTokens "Play+Shift Stop",
    GetTokens "ZoneEnd"]

/-- The token lists of the zone file of the end-to-end scenario with the widget last. -/
def homeFile : List (List String) :=
  [GetTokens "Zone Home", GetTokens "Nothing+Play Play", GetTokens "Shift+Play Stop",
    GetTokens "ZoneEnd"]

/-- The tables of the zone that `ProcessZoneFile` builds from a file for a single navigator
(as `ZoneManager::Initialize` does for the home file): those built at the `ZoneEnd` of the
file, if it is reached. -/
def builtZoneBindings (weights : Modifiers → Int) (surface : List Widget)
    (defaultContexts : List BoundContext) (file : List (List String)) : Option ZoneBindings :=
  match ProcessZoneFile weights ZoneFileState.initial file with
  | .zoneEnd s =>
    some (buildZoneBindings surface 1 0 s.actionTemplates (ZoneBindings.empty defaultContexts))
  | _ => none

/-- The token lists of a zone file for the `VCA` group that binds the activation hook
under `Shift`. -/
def vcaShiftFile : List (List String) :=
  [GetTokens "Zone VCA", GetTokens "Fader1 TrackVolume",
    GetTokens "Shift+OnZoneActivation NoAction", GetTokens "ZoneEnd"]

/-- The tables that `vcaShiftFile` gives with the weight 4 for `Shift` on a surface that
has `Fader1` and the two hook widgets. -/
def shiftHookBindings : ZoneBindings :=
  { widgets := [fader1, onZoneActivation]
    actionContextDictionary :=
      [(fader1, [(0, [GetActionContext "TrackVolume" ["TrackVolume"] []])]),
        (onZoneActivation, [(4, [GetActionContext "NoAction" ["NoAction"] []])])]
    currentActionContextModifiers := [], defaultContexts := [] }

/-! ## ControlSurface: the modifier accessors -/

/-- Modelled from the spec: the getters `GetShift`, `GetOption`, ... of `ModifierManager`
in the header, which answer the flag `isEngaged` of their modifier. -/
def ModifierManager.GetModifier (m : ModifierManager) (modifier : Modifiers) : Bool :=
  m.isEngaged modifier

/-- The members of `ControlSurface` that its modifier accessors use: `modifierManager_`
(`none` for `nullptr`, the surface then follows its page) and the modifier manager of the
page, `page_->GetModifierManager()`. -/
structure ControlSurface where
  modifierManager : Option ModifierManager
  pageModifierManager : ModifierManager

namespace ControlSurface

/-- The common shape of the ten getters: the flag is read from the manager of the surface
when it has one, else from the manager of the page. -/
def getVia (s : ControlSurface) (modifier : Modifiers) : Bool :=
  match s.modifierManager with
  | some m => m.GetModifier modifier
  | none => s.pageModifierManager.GetModifier modifier

/-- The common shape of the ten setters: `onSurface` is the modifier whose setter the first
branch calls on the manager of the surface, `onPage` the one whose setter the second branch
calls on the manager of the page. -/
def setVia (s : ControlSurface) (onSurface onPage : Modifiers) (value : Bool) :
    ControlSurface :=
  match s.modifierManager with
  | some m => { s with modifierManager := some (m.SetModifier onSurface value) }
  | none => { s with pageModifierManager := s.pageModifierManager.SetModifier onPage value }

/-- Method `ControlSurface::GetShift`. -/
def GetShift (s : ControlSurface) : Bool := s.getVia .Shift
/-- Method `ControlSurface::GetOption`. -/
def GetOption (s : ControlSurface) : Bool := s.getVia .Option
/-- Method `ControlSurface::GetControl`. -/
def GetControl (s : ControlSurface) : Bool := s.getVia .Control
/-- Method `ControlSurface::GetAlt`. -/
def GetAlt (s : ControlSurface) : Bool := s.getVia .Alt
/-- Method `ControlSurface::GetFlip`. -/
def GetFlip (s : ControlSurface) : Bool := s.getVia .Flip
/-- Method `ControlSurface::GetGlobal`. -/
def GetGlobal (s : ControlSurface) : Bool := s.getVia .Global
/-- Method `ControlSurface::GetMarker`. -/
def GetMarker (s : ControlSurface) : Bool := s.getVia .Marker
/-- Method `ControlSurface::GetNudge`. -/
def GetNudge (s : ControlSurface) : Bool := s.getVia .Nudge
/-- Method `ControlSurface::GetZoom`. -/
def GetZoom (s : ControlSurface) : Bool := s.getVia .Zoom
/-- Method `ControlSurface::GetScrub`. -/
def GetScrub (s : ControlSurface) : Bool := s.getVia .Scrub

/-- Method `ControlSurface::SetShift`. -/
def SetShift (s : ControlSurface) (value : Bool) : ControlSurface := s.setVia .Shift .Shift value
/-- Method `ControlSurface::SetOption`. -/
def SetOption (s : ControlSurface) (value : Bool) : ControlSurface :=
  s.setVia .Option .Option value
/-- Method `ControlSurface::SetControl`. -/
def SetControl (s : ControlSurface) (value : Bool) : ControlSurface :=
  s.setVia .Control .Control value
/-- Method `ControlSurface::SetAlt`. -/
def SetAlt (s : ControlSurface) (value : Bool) : ControlSurface := s.setVia .Alt .Alt value
/-- Method `ControlSurface::SetFlip`: its first branch calls `modifierManager_->SetShift`. -/
def SetFlip (s : ControlSurface) (value : Bool) : ControlSurface := s.setVia .Shift .Flip value
/-- Method `ControlSurface::SetGlobal`. -/
def SetGlobal (s : ControlSurface) (value : Bool) : ControlSurface :=
  s.setVia .Global .Global value
/-- Method `ControlSurface::SetMarker`. -/
def SetMarker (s : ControlSurface) (value : Bool) : ControlSurface :=
  s.setVia .Marker .Marker value
/-- Method `ControlSurface::SetNudge`. -/
def SetNudge (s : ControlSurface) (value : Bool) : ControlSurface := s.setVia .Nudge .Nudge value
/-- Method `ControlSurface::SetZoom`. -/
def SetZoom (s : ControlSurface) (value : Bool) : ControlSurface := s.setVia .Zoom .Zoom value
/-- Method `ControlSurface::SetScrub`. -/
def SetScrub (s : ControlSurface) (value : Bool) : ControlSurface := s.setVia .Scrub .Scrub value

/-- The getter of the surface that is named after the modifier. -/
def get (s : ControlSurface) : Modifiers → Bool
  | .Shift => s.GetShift | .Option => s.GetOption | .Control => s.GetControl
  | .Alt => s.GetAlt | .Flip => s.GetFlip | .Global => s.GetGlobal
  | .Marker => s.GetMarker | .Nudge => s.GetNudge | .Zoom => s.GetZoom
  | .Scrub => s.GetScrub

/-- The setter of the surface that is named after the modifier. -/
def set (s : ControlSurface) (modifier : Modifiers) (value : Bool) : ControlSurface :=
  match modifier with
  | .Shift => s.SetShift value | .Option => s.SetOption value
  | .Control => s.SetControl value | .Alt => s.SetAlt value | .Flip => s.SetFlip value
  | .Global => s.SetGlobal value | .Marker => s.SetMarker value
  | .Nudge => s.SetNudge value | .Zoom => s.SetZoom value | .Scrub => s.SetScrub value

end ControlSurface

/-- A surface with a modifier manager of its own, nothing engaged. -/
def localSurface : ControlSurface :=
  { modifierManager := some (sampleManager false), pageModifierManager := sampleManager false }

/-! ## ZoneManager: the bank offsets -/

/-- The six bank offsets of `ZoneManager`. -/
structure BankOffsets where
  trackSendOffset : Int
  trackReceiveOffset : Int
  trackFXMenuOffset : Int
  selectedTrackSendOffset : Int
  selectedTrackReceiveOffset : Int
  selectedTrackFXMenuOffset : Int
deriving DecidableEq, Repr

namespace BankOffsets

/-- Modelled from the spec: `ZoneManager::AdjustTrackSendOffset` of the header, which
changes the offset it is named after; `adjust` gives the new offset for an amount. -/
def AdjustTrackSendOffset (adjust : Int → Int → Int) (o : BankOffsets) (amount : Int) :
    BankOffsets :=
  { o with trackSendOffset := adjust o.trackSendOffset amount }

/-- Modelled from the spec: `ZoneManager::AdjustTrackReceiveOffset` of the header. -/
def AdjustTrackReceiveOffset (adjust : Int → Int → Int) (o : BankOffsets) (amount : Int) :
    BankOffsets :=
  { o with trackReceiveOffset := adjust o.trackReceiveOffset amount }

/-- Modelled from the spec: `ZoneManager::AdjustTrackFXMenuOffset` of the header. -/
def AdjustTrackFXMenuOffset (adjust : Int → Int → Int) (o : BankOffsets) (amount : Int) :
    BankOffsets :=
  { o with trackFXMenuOffset := adjust o.trackFXMenuOffset amount }

/-- Modelled from the spec: `ZoneManager::AdjustSelectedTrackSendOffset` of the header. -/
def AdjustSelectedTrackSendOffset (adjust : Int → Int → Int) (o : BankOffsets) (amount : Int) :
    BankOffsets :=
  { o with selectedTrackSendOffset := adjust o.selectedTrackSendOffset amount }

/-- Modelled from the spec: `ZoneManager::AdjustSelectedTrackReceiveOffset` of the header. -/
def AdjustSelectedTrackReceiveOffset (adjust : Int → Int → Int) (o : BankOffsets)
    (amount : Int) : BankOffsets :=
  { o with selectedTrackReceiveOffset := adjust o.selectedTrackReceiveOffset amount }

/-- Modelled from the spec: `ZoneManager::AdjustSelectedTrackFXMenuOffset` of the header. -/
def AdjustSelectedTrackFXMenuOffset (adjust : Int → Int → Int) (o : BankOffsets)
    (amount : Int) : BankOffsets :=
  { o with selectedTrackFXMenuOffset := adjust o.selectedTrackFXMenuOffset amount }

/-- Method `ZoneManager::AdjustTrackSendBank` on the offsets of the manager itself (the
broadcast goes to the other surfaces of the page). -/
def AdjustTrackSendBank (adjust : Int → Int → Int) (o : BankOffsets) (amount : Int) :
    BankOffsets :=
  o.AdjustTrackSendOffset adjust amount

/-- Method `ZoneManager::AdjustTrackReceiveBank`. -/
def AdjustTrackReceiveBank (adjust : Int → Int → Int) (o : BankOffsets) (amount : Int) :
    BankOffsets :=
  o.AdjustTrackReceiveOffset adjust amount

/-- Method `ZoneManager::AdjustTrackFXMenuBank`. -/
def AdjustTrackFXMenuBank (adjust : Int → Int → Int) (o : BankOffsets) (amount : Int) :
    BankOffsets :=
  o.AdjustTrackFXMenuOffset adjust amount

/-- Method `ZoneManager::AdjustSelectedTrackSendBank`. -/
def AdjustSelectedTrackSendBank (adjust : Int → Int → Int) (o : BankOffsets) (amount : Int) :
    BankOffsets :=
  o.AdjustSelectedTrackSendOffset adjust amount

/-- Method `ZoneManager::AdjustSelectedTrackReceiveBank`: its last statement calls
`AdjustTrackReceiveOffset`. -/
def AdjustSelectedTrackReceiveBank (adjust : Int → Int → Int) (o : BankOffsets)
    (amount : Int) : BankOffsets :=
  o.AdjustTrackReceiveOffset adjust amount

/-- Method `ZoneManager::AdjustSelectedTrackFXMenuBank`. -/
def AdjustSelectedTrackFXMenuBank (adjust : Int → Int → Int) (o : BankOffsets)
    (amount : Int) : BankOffsets :=
  o.AdjustSelectedTrackFXMenuOffset adjust amount

end BankOffsets

/-- All six offsets at 0. -/
def zeroOffsets : BankOffsets :=
  { trackSendOffset := 0, trackReceiveOffset := 0, trackFXMenuOffset := 0,
    selectedTrackSendOffset := 0, selectedTrackReceiveOffset := 0,
    selectedTrackFXMenuOffset := 0 }

/-! ## Zone: the feedback pass -/

/-- One call `RequestUpdateWidget(widget)` made by a zone in a feedback pass. -/
structure Served where
  zone : Zone
  widget : Widget

mutual
/-- Method `Zone::RequestUpdate(usedWidgets)`: the state is the widgets whose entry in
`usedWidgets` is true and the calls of `RequestUpdateWidget` so far. -/
def Zone.RequestUpdate : Zone → List Widget × List Served → List Widget × List Served
  | .mk name isActive widgets includedZones associatedZones subZones, s =>
    if !isActive then
      s
    else
      let s1 := ZoneMap.RequestUpdate subZones s
      let s2 := ZoneMap.RequestUpdate associatedZones s1
      let s3 := ZoneList.RequestUpdate includedZones s2
      widgets.foldl
        (fun (acc : List Widget × List Served) w =>
          if acc.1.contains w then acc
          else (acc.1 ++ [w], acc.2 ++
            [⟨.mk name isActive widgets includedZones associatedZones subZones, w⟩]))
        s3
/-- The loop `for(auto zone : zones) zone->RequestUpdate(usedWidgets)`. -/
def ZoneList.RequestUpdate : ZoneList → List Widget × List Served → List Widget × List Served
  | .nil, s => s
  | .cons zone rest, s => ZoneList.RequestUpdate rest (Zone.RequestUpdate zone s)
/-- The loop `for(auto [key, zones] : map) for(auto zone : zones) zone->RequestUpdate`. -/
def ZoneMap.RequestUpdate : ZoneMap → List Widget × List Served → List Widget × List Served
  | .nil, s => s
  | .cons _ zones rest, s => ZoneMap.RequestUpdate rest (ZoneList.RequestUpdate zones s)
end

/-- The names of the zones that serve the widget in one feedback pass over the tree that
starts with no widget used. -/
def Zone.feedbackOwners (z : Zone) (w : Widget) : List String :=
  ((z.RequestUpdate ([], [])).2.filter fun served => served.widget = w).map
    fun served => served.zone.name

/-- The names of the zones whose bindings an input event for the widget runs. -/
def Zone.inputOwners (z : Zone) (w : Widget) (value : Double) : List String :=
  (z.DoAction w false value).2.map fun claim => claim.zone.name

/-- A table that binds `Fader1` under the code 4 alone. -/
def shiftOnlyBindings : ZoneBindings :=
  { widgets := [fader1]
    actionContextDictionary := [(fader1, [(4, [namedContext "TrackPan"])])]
    currentActionContextModifiers := [], defaultContexts := [namedContext "NoAction"] }

/-! ## Value specifications -/

/-- The outcome of a call that may throw an exception or leave the defined behaviour of
the language (a read past the end of a vector, a conversion that does not fit). -/
inductive Parsed (α : Type) where
  | value (a : α)
  | thrown
  | fault
deriving DecidableEq, Repr

namespace Parsed

/-- The sequencing of two calls. -/
def andThen {α β : Type} (p : Parsed α) (f : α → Parsed β) : Parsed β :=
  match p with
  | .value a => f a
  | .thrown => .thrown
  | .fault => .fault

/-- A loop that hands each element of a list to a call and collects the results. -/
def mapList {α β : Type} (f : α → Parsed β) : List α → Parsed (List β)
  | [] => .value []
  | x :: rest => (f x).andThen fun y => (mapList f rest).andThen fun ys => .value (y :: ys)

/-- A loop that passes a state through the elements of a list. -/
def foldList {α σ : Type} (f : σ → α → Parsed σ) : σ → List α → Parsed σ
  | s, [] => .value s
  | s, x :: rest => (f s x).andThen fun s1 => foldList f s1 rest

end Parsed

/-- The characters `0` to `9`. -/
def digitChars : List Char := "0123456789".toList

/-- The character `-`. -/
def minusSign : Char := Char.ofNat 45

/-- The character `.`. -/
def decimalPoint : Char := Char.ofNat 46

/-- The character `(`. -/
def openParen : Char := Char.ofNat 40

/-- The character `)`. -/
def closeParen : Char := Char.ofNat 41

/-- The character `,`. -/
def comma : Char := Char.ofNat 44

/-- The character `>`. -/
def greaterSign : Char := Char.ofNat 62

/-- A character class such as `[0-9]`, given by its characters. -/
def charClass (chars : List Char) : RegularExpression Char :=
  chars.foldr (fun c P => RegularExpression.char c + P) 0

/-- The pattern `P+`. -/
def oneOrMore (P : RegularExpression Char) : RegularExpression Char :=
  P * RegularExpression.star P

/-- The pattern `P?`. -/
def zeroOrOne (P : RegularExpression Char) : RegularExpression Char :=
  P + 1

/-- The pattern `[0-9]+`. -/
def digitsPattern : RegularExpression Char :=
  oneOrMore (charClass digitChars)

/-- The pattern `-?[0-9]+[.][0-9]+`. -/
def decimalPattern : RegularExpression Char :=
  zeroOrOne (RegularExpression.char minusSign) * digitsPattern
    * RegularExpression.char decimalPoint * digitsPattern

/-- The pattern `-?[0-9]+`. -/
def integerPattern : RegularExpression Char :=
  zeroOrOne (RegularExpression.char minusSign) * digitsPattern

/-- The pattern `[(]-?[0-9]+[.][0-9]+[)]`. -/
def deltaPattern : RegularExpression Char :=
  RegularExpression.char openParen * decimalPattern * RegularExpression.char closeParen

/-- The pattern `[(]-?[0-9]+[)]`. -/
def tickPattern : RegularExpression Char :=
  RegularExpression.char openParen * integerPattern * RegularExpression.char closeParen

/-- The pattern `[(](-?[0-9]+[.][0-9]+[,])+-?[0-9]+[.][0-9]+[)]`. -/
def deltaListPattern : RegularExpression Char :=
  RegularExpression.char openParen
    * oneOrMore (decimalPattern * RegularExpression.char comma) * decimalPattern
    * RegularExpression.char closeParen

/-- The pattern `[(](-?[0-9]+[,])+-?[0-9]+[)]`. -/
def tickListPattern : RegularExpression Char :=
  RegularExpression.char openParen
    * oneOrMore (integerPattern * RegularExpression.char comma) * integerPattern
    * RegularExpression.char closeParen

/-- The pattern `-?[0-9]+[.][0-9]+[>]-?[0-9]+[.][0-9]+`. -/
def decimalRangePattern : RegularExpression Char :=
  decimalPattern * RegularExpression.char greaterSign * decimalPattern

/-- The pattern `[0-9]+[-][0-9]+`. -/
def integerRangePattern : RegularExpression Char :=
  digitsPattern * RegularExpression.char minusSign * digitsPattern

/-- The call `regex_match(strVal, regex(pattern))`: the whole string matches. -/
def regex_match (strVal : String) (pattern : RegularExpression Char) : Bool :=
  pattern.rmatch strVal.toList

/-- The value of a digit character. -/
def digitValue (c : Char) : Nat := c.toNat - 48

/-- The number that a string of digits writes in base ten. -/
def natValue (digits : List Char) : Nat :=
  digits.foldl (fun n c => 10 * n + digitValue c) 0

/-- The value with its sign. -/
def signed (negative : Bool) (x : Double) : Double := if negative then -x else x

/-- The value of the longest leading literal of a string without sign: digits with an
optional fraction; none without a leading digit. -/
def leadingValue (body : List Char) : Option Double :=
  let whole := body.takeWhile fun c => decide (c ∈ digitChars)
  if whole = [] then none
  else
    match body.dropWhile fun c => decide (c ∈ digitChars) with
    | [] => some (natValue whole)
    | c :: rest =>
      if c = decimalPoint then
        let fraction := rest.takeWhile fun c => decide (c ∈ digitChars)
        some (natValue whole + natValue fraction / 10 ^ fraction.length)
      else some (natValue whole)

/-- The least magnitude that the conversion to `double` rounds to infinity:
`2^1024 - 2^970`, half a step above the largest `double`. -/
def doubleOverflow : Double := 2 ^ 1024 - 2 ^ 970

/-- The smallest positive normal `double`, `2^-1022`. -/
def DBL_MIN : Double := 1 / 2 ^ 1022

/-- The magnitudes within the range of `double`: below the overflow bound, and zero or not
below the smallest normal `double`. -/
def InDoubleRange (magnitude : Double) : Prop :=
  magnitude < doubleOverflow ∧ (magnitude = 0 ∨ DBL_MIN ≤ magnitude)

/-- The call `stod(str)` on a string that begins with an optional `-` and a digit and has
no exponent: the value of the longest leading literal.  Without a leading digit the call
throws `invalid_argument`; for a magnitude outside the range of `double` the library
reports a range error and the call throws `out_of_range` (below the smallest normal
`double` the C library decides whether it reports the error; the model has the exception
there).  Within the range the value is the number that the literal writes, `Double` being
exact in this development. -/
def stod (str : String) : Parsed Double :=
  let negative := str.toList.head? == some minusSign
  match leadingValue (if negative then str.toList.drop 1 else str.toList) with
  | some x =>
    if x < doubleOverflow ∧ (x = 0 ∨ DBL_MIN ≤ x) then .value (signed negative x) else .thrown
  | none => .thrown

/-- The call `stoi(str)` on a string without leading white space: an optional sign and
the longest run of digits after it give the value; the call throws `invalid_argument`
without a digit there and `out_of_range` when the value is no `int`. -/
def stoi (str : String) : Parsed Int :=
  let negative := str.toList.head? == some minusSign
  let body := if negative ∨ str.toList.head? = some (Char.ofNat 43) then str.toList.drop 1
    else str.toList
  let whole := body.takeWhile fun c => decide (c ∈ digitChars)
  let value : Int := if negative then -(natValue whole : Int) else natValue whole
  if whole = [] then .thrown
  else if INT_MIN ≤ value ∧ value ≤ INT_MAX then .value value
  else .thrown

/-- The conversion of a `double` to `int`: the value without its fraction; outside the
range of `int` the behaviour is undefined. -/
def doubleToInt (x : Double) : Parsed Int :=
  let truncated := x.num.tdiv x.den
  if INT_MIN ≤ truncated ∧ truncated ≤ INT_MAX then .value truncated else .fault

/-- The call `strVal.substr(1, strVal.length() - 2)`. -/
def substrInner (strVal : String) : String :=
  String.mk ((strVal.toList.drop 1).take (strVal.toList.length - 2))

/-- The body of the loop of `GetSteppedValues` for one token between the square brackets,
on the members of the context that the function writes. -/
def steppedValueToken (c : ActionContext) (strVal : String) : Parsed ActionContext :=
  if regex_match strVal decimalPattern ∨ regex_match strVal integerPattern then
    (stod strVal).andThen fun v => .value { c with steppedValues := c.steppedValues ++ [v] }
  else if regex_match strVal deltaPattern then
    (stod (substrInner strVal)).andThen fun v => .value { c with deltaValue := v }
  else if regex_match strVal tickPattern then
    (stod (substrInner strVal)).andThen fun v =>
      (doubleToInt v).andThen fun n =>
        .value { c with acceleratedTickValues := c.acceleratedTickValues ++ [n] }
  else if regex_match strVal deltaListPattern then
    (Parsed.mapList stod (getlineTokens comma (substrInner strVal).toList [])).andThen
      fun vs => .value { c with acceleratedDeltaValues := c.acceleratedDeltaValues ++ vs }
  else if regex_match strVal tickListPattern then
    (Parsed.mapList (fun tickValue => (stod tickValue).andThen doubleToInt)
      (getlineTokens comma (substrInner strVal).toList [])).andThen
      fun ns => .value { c with acceleratedTickValues := c.acceleratedTickValues ++ ns }
  else if regex_match strVal decimalRangePattern ∨ regex_match strVal integerRangePattern then
    match getlineTokens greaterSign strVal.toList [] with
    | [first, last] =>
      (stod first).andThen fun firstValue =>
        (stod last).andThen fun lastValue =>
          if lastValue > firstValue then
            .value { c with rangeMinimum := firstValue, rangeMaximum := lastValue }
          else
            .value { c with rangeMinimum := lastValue, rangeMaximum := firstValue }
    | _ => .value c
  else .value c

/-- What the constructor of a context reads from its widget and the zone manager: the
step size and the acceleration values of the widget, the stepped values that the cache of
the zone manager holds for the zone and the parameter of the context, and the base tick
count for a number of steps. -/
structure ValueSources where
  stepSize : Double
  accelerationValues : List Double
  cachedSteppedValues : List Double
  baseTickCount : Nat → Int

/-- The loop `for(auto it = open + 1; it != close; ++it)` over the parameters, for the
positions that `find` gave (the length of the list standing for `params.end()`): with the
closing token before the opening one the iterator runs through the rest of the list and
is then read at the end of the vector. -/
def bracketLoop {σ : Type} (step : σ → String → Parsed σ) (params : List String)
    (openBrace closeBrace : Nat) (s : σ) : Parsed σ :=
  if openBrace < closeBrace then
    Parsed.foldList step s ((params.drop (openBrace + 1)).take (closeBrace - openBrace - 1))
  else
    (Parsed.foldList step s (params.drop (openBrace + 1))).andThen fun _ => .fault

/-- The part of `GetSteppedValues` after the loop: the defaults taken from the widget and
the cache, and the tick count derived from the step size. -/
def steppedValueDefaults (src : ValueSources) (c : ActionContext) : Parsed ActionContext :=
  let c := if c.deltaValue = 0 ∧ src.stepSize ≠ 0 then { c with deltaValue := src.stepSize }
    else c
  let c := if c.acceleratedDeltaValues.length = 0 ∧ src.accelerationValues.length ≠ 0 then
      { c with acceleratedDeltaValues := src.accelerationValues }
    else c
  let c := if c.steppedValues.length = 0 then { c with steppedValues := src.cachedSteppedValues }
    else c
  if c.steppedValues.length > 0 ∧ c.acceleratedTickValues.length = 0 then
    if c.deltaValue ≠ 0 then
      (doubleToInt ((src.baseTickCount c.steppedValues.length : Double)
          / (c.deltaValue * 10000) + 1 / 2)).andThen fun tickCount =>
        .value { c with acceleratedTickValues := c.acceleratedTickValues ++ [tickCount] }
    else .value c
  else .value c

/-- The function `GetSteppedValues` on the members of the context that it writes: the loop
over the tokens between the square brackets, then the defaults. -/
def GetSteppedValues (src : ValueSources) (params : List String) (c : ActionContext) :
    Parsed ActionContext :=
  let openSquareBrace := params.indexOf "["
  let closeSquareBrace := params.indexOf "]"
  (if openSquareBrace < params.length ∧ closeSquareBrace < params.length then
    bracketLoop steppedValueToken params openSquareBrace closeSquareBrace c
  else .value c).andThen (steppedValueDefaults src)

/-- The loop of `SetColor` over the tokens from a position on: the hex colours and the
raw values collected, and whether the loop was left by `break`. -/
def colorLoop : List String → List String × List Int → Parsed (Bool × List String × List Int)
  | [], s => .value (false, s)
  | strVal :: rest, s =>
    if strVal.toList.head? = some (Char.ofNat 35) then colorLoop rest (s.1 ++ [strVal], s.2)
    else if strVal = "Track" then .value (true, s)
    else if regex_match strVal digitsPattern then
      (stoi strVal).andThen fun value =>
        colorLoop rest (s.1, s.2 ++ [if value < 0 then 0 else if value > 255 then 255 else value])
    else colorLoop rest s

/-- The function `SetColor`, as far as it returns, throws or leaves defined behaviour;
the colour members that it writes are not part of `ActionContext` here, and
`GetColorValues`, which it calls on the hex colours, returns for every list. -/
def SetColor (params : List String) : Parsed Unit :=
  let openCurlyBrace := params.indexOf "\x7b"
  let closeCurlyBrace := params.indexOf "\x7d"
  if openCurlyBrace < params.length ∧ closeCurlyBrace < params.length then
    (if openCurlyBrace < closeCurlyBrace then
      colorLoop ((params.drop (openCurlyBrace + 1)).take
        (closeCurlyBrace - openCurlyBrace - 1)) ([], [])
    else
      (colorLoop (params.drop (openCurlyBrace + 1)) ([], [])).andThen fun r =>
        if r.1 then .value r else .fault).andThen fun _ => .value ()
  else .value ()

/-- Modelled from the spec: the members of a context before the body of its constructor
runs, as the header initialises them: the range `[0, 1]`, no delta value, empty tables. -/
def initialMembers : ActionContext :=
  { rangeMinimum := 0, rangeMaximum := 1, steppedValues := [], steppedValuesIndex := 0,
    deltaValue := 0, acceleratedDeltaValues := [], acceleratedTickValues := [],
    accumulatedIncTicks := 0, accumulatedDecTicks := 0, holdDelayAmount := 0,
    delayStartTime := 0, deferredValue := 0 }

/-- The constructor `ActionContext::ActionContext` with the parameter list `params`, on
the members of the value pipeline. -/
def newActionContext (src : ValueSources) (params : List String) : Parsed ActionContext :=
  let actionName := params.headD ""
  let c := initialMembers
  let c := if actionName = "TrackVolumeDB" ∨ actionName = "TrackSendVolumeDB" then
      { c with rangeMinimum := -144, rangeMaximum := 24 }
    else c
  let c := if actionName = "TrackPanPercent" ∨ actionName = "TrackPanWidthPercent"
        ∨ actionName = "TrackPanLPercent" ∨ actionName = "TrackPanRPercent" then
      { c with rangeMinimum := -100, rangeMaximum := 100 }
    else c
  (if params.length > 0 then SetColor params else .value ()).andThen fun _ =>
  (GetSteppedValues src params c).andThen fun c =>
  .value (if c.acceleratedTickValues.length < 1 then
      { c with acceleratedTickValues := c.acceleratedTickValues ++ [10] }
    else c)

/-- A widget and a zone manager that supply nothing: no step size, no acceleration values,
an empty cache. -/
def noSources : ValueSources :=
  { stepSize := 0, accelerationValues := [], cachedSteppedValues := []
    baseTickCount := fun _ => 0 }

/-! ## Value specifications: the literals -/

/-- A string of one or more digits. -/
def Digits (digits : List Char) : Prop :=
  digits ≠ [] ∧ ∀ c ∈ digits, c ∈ digitChars

/-- The characters of an optional minus sign. -/
def signChars (negative : Bool) : List Char :=
  if negative then [minusSign] else []

/-- An integer literal: an optional minus sign and digits. -/
structure IntegerLiteral where
  negative : Bool
  digits : List Char
deriving DecidableEq, Repr

/-- A decimal literal: an optional minus sign, digits, a point, digits. -/
structure DecimalLiteral where
  negative : Bool
  whole : List Char
  fraction : List Char
deriving DecidableEq, Repr

/-- The characters of an integer literal. -/
def IntegerLiteral.chars (n : IntegerLiteral) : List Char :=
  signChars n.negative ++ n.digits

/-- The number that an integer literal writes. -/
def IntegerLiteral.value (n : IntegerLiteral) : Int :=
  if n.negative then -(natValue n.digits : Int) else natValue n.digits

/-- The number that an integer literal writes, without its sign. -/
def IntegerLiteral.magnitude (n : IntegerLiteral) : Double :=
  natValue n.digits

/-- The number that a decimal literal writes, without its sign. -/
def DecimalLiteral.magnitude (x : DecimalLiteral) : Double :=
  natValue x.whole + natValue x.fraction / 10 ^ x.fraction.length

/-- The characters of a decimal literal. -/
def DecimalLiteral.chars (x : DecimalLiteral) : List Char :=
  signChars x.negative ++ x.whole ++ decimalPoint :: x.fraction

/-- The number that a decimal literal writes. -/
def DecimalLiteral.value (x : DecimalLiteral) : Double :=
  signed x.negative (natValue x.whole + natValue x.fraction / 10 ^ x.fraction.length)

/-- Strings written one after the other with a separator between them. -/
def separated (separator : Char) : List (List Char) → List Char
  | [] => []
  | [item] => item
  | item :: next :: rest => item ++ separator :: separated separator (next :: rest)

/-- A token in parentheses. -/
def parenthesized (chars : List Char) : String :=
  String.mk (openParen :: chars ++ [closeParen])

/-- The characters that occur in a pattern. -/
def letters : RegularExpression Char → List Char
  | .zero => []
  | .epsilon => []
  | .char c => [c]
  | .plus P Q => letters P ++ letters Q
  | .comp P Q => letters P ++ letters Q
  | .star P => letters P

/-- The test that every string matching a pattern contains the character, read off the
pattern. -/
def always (c : Char) : RegularExpression Char → Bool
  | .zero => true
  | .epsilon => false
  | .char a => a == c
  | .plus P Q => always c P && always c Q
  | .comp P Q => always c P || always c Q
  | .star _ => false

/-! ## Zone files: the contexts created at `ZoneEnd` -/

/-- Modelled from the spec: the call `TheManager->GetActionContext(actionName, widget, zone,
memberParams, properties)` of the header, which creates the context of the action with the
constructor `ActionContext::ActionContext` on the parameter list; `sources` gives what
the constructor reads for the widget. -/
def createActionContext (sources : Widget → ValueSources) (widget : Widget)
    (memberParams : List String) : Parsed ActionContext :=
  newActionContext (sources widget) memberParams

/-- The contexts that the loops over `actionTemplatesDictionary` at `ZoneEnd` create for
navigator `i` of a zone that is no sub-zone: one for each template whose widget the
surface has, in the order of the dictionary. -/
def contextsAtZoneEnd (sources : Widget → ValueSources) (surface : List Widget)
    (numNavigators i : Nat) (templates : List ActionTemplate) : Parsed (List ActionContext) :=
  Parsed.mapList
    (fun t : ActionTemplate × Widget =>
      createActionContext sources t.2 (t.1.params.map (replaceBar (toString (i + 1)))))
    ((dictionaryOrder templates).filterMap fun t =>
      (GetWidgetByName surface (surfaceWidgetName numNavigators i none t.widgetName)).map
        fun widget => (t, widget))

/-- The way `ProcessZoneFile` is left for a file without included, associated or
sub-zones, as far as the parsing of the lines and the creation of the contexts go: it
returns (also when an exception reaches its `catch (exception &e)`), or it leaves defined
behaviour. -/
def ProcessZoneFileOutcome (weights : Modifiers → Int) (sources : Widget → ValueSources)
    (surface : List Widget) (numNavigators : Nat) (file : List (List String)) : Parsed Unit :=
  match ProcessZoneFile weights ZoneFileState.initial file with
  | .zoneEnd s =>
    match Parsed.mapList
        (fun i => contextsAtZoneEnd sources surface numNavigators i s.actionTemplates)
        (List.range numNavigators) with
    | .fault => .fault
    | _ => .value ()
  | .fault => .fault
  | _ => .value ()

/-- The token lists of a zone file whose binding line has the closing square bracket
before the opening one. -/
def reversedBracketFile : List (List String) :=
  [GetTokens "Zone Home", GetTokens "Fader1 TrackVolume ] [", GetTokens "ZoneEnd"]

/-- The token lists of a zone file whose binding line has a colour value that is no
`int`. -/
def hugeColorFile : List (List String) :=
  [GetTokens "Zone Home", GetTokens "Fader1 TrackVolume \x7b 99999999999 0 0 \x7d",
    GetTokens "ZoneEnd"]

/-! ## Zone construction -/

/-- The outcome of a construction: a value, a step that leaves defined behaviour (a read
outside a vector, a conversion that does not fit, an overflow of a counter), or a
recursion or a loop that is still going on when the fuel of the model is used up. -/
inductive Construction (α : Type) where
  | done (value : α)
  | fault
  | outOfFuel
deriving Repr

namespace Construction

/-- The sequencing of two steps of a construction. -/
def andThen {α β : Type} (c : Construction α) (f : α → Construction β) : Construction β :=
  match c with
  | .done value => f value
  | .fault => .fault
  | .outOfFuel => .outOfFuel

/-- A loop over a list, each round a construction. -/
def mapList {α β : Type} (f : α → Construction β) : List α → Construction (List β)
  | [] => .done []
  | x :: rest => (f x).andThen fun y => (mapList f rest).andThen fun ys => .done (y :: ys)

end Construction

/-- The list `vector<shared_ptr<Zone>>` as a `ZoneList`. -/
def ZoneList.ofList : List Zone → ZoneList
  | [] => .nil
  | zone :: rest => .cons zone (ZoneList.ofList rest)

/-- The assignment `map[key] = zones` of a `std::map` kept in the order of its keys. -/
def ZoneMap.insert (key : String) (zones : ZoneList) : ZoneMap → ZoneMap
  | .nil => .cons key zones .nil
  | .cons k group rest =>
    if k = key then .cons key zones rest
    else if stringLess key.toList k.toList then .cons key zones (.cons k group rest)
    else .cons k group (ZoneMap.insert key zones rest)

/-- The map that the assignments `map[key] = zones` of a list of groups, one after the
other, make of a map. -/
def ZoneMap.insertGroups (groups : List (String × List Zone)) (map : ZoneMap) : ZoneMap :=
  groups.foldl (fun map group => map.insert group.1 (ZoneList.ofList group.2)) map

/-- Modelled from the spec: `Zone::AddWidget` of the header, the assignment
`widgets_[widget] = true`, on the zone of the tree. -/
def Zone.AddWidget (w : Widget) : Zone → Zone
  | .mk name isActive widgets includedZones associatedZones subZones =>
    .mk name isActive (if widgets.contains w then widgets else widgets ++ [w])
      includedZones associatedZones subZones

/-! ## Zone construction: FX zone files -/

/-- A `double` that `std::stod` may give for a token that no pattern guards: a number,
an infinity or no number. -/
inductive Floating where
  | finite (x : Double)
  | infinite
  | nan

/-- The locals of `ProcessFXZoneFile` that its `ZoneEnd` branch reads before the step of
a value widget is settled, and the zones pushed so far. -/
structure FXZoneFileState where
  zoneName : String
  currentParamSet : Int
  params : List (Int × List Int)
  names : List (Int × List String)
  valueWidgets : List (Int × List Widget)
  nameDisplays : List (Int × List Widget)
  valueDisplays : List (Int × List Widget)
  accelerationValues : List (Int × List Floating)
  defaultAccelerationValues : List Floating
  rangeValues : List (Int × List Floating)
  stepSize : List (Int × Floating)
  stepValues : List (Int × List Floating)
  tickCounts : List (Int × List Int)
  zones : List Zone

/-- The locals of `ProcessFXZoneFile` before the first line. -/
def FXZoneFileState.initial : FXZoneFileState :=
  { zoneName := "", currentParamSet := -1, params := [], names := [], valueWidgets := []
    nameDisplays := [], valueDisplays := [], accelerationValues := []
    defaultAccelerationValues := [], rangeValues := [], stepSize := [], stepValues := []
    tickCounts := [], zones := [] }

/-- What `ProcessFXZoneFile` reads from its surroundings besides the surface: the outcome
of `std::stod` on a token that is neither a decimal nor an integer literal (the library
also reads a plus sign, a point without digits on one side, an exponent, hexadecimal
digits and the spellings of infinity and NaN, and stops at the first character that does
not fit); and, for the context of a value widget after the setters of the `ZoneEnd`
branch, what the getters `GetNumberOfSteppedValues` and `GetStepSize` of the header
return, given the locals, the parameter number and the widget; and
`ZoneManager::GetBaseTickCount` of the header. -/
structure FXSources where
  otherNumber : String → Parsed Floating
  numberOfSteppedValues : FXZoneFileState → Int → Widget → Int
  stepSize : FXZoneFileState → Int → Widget → Floating
  baseTickCount : Int → Int

/-- The function `ExpandLine` on the names of a widget line. -/
def ExpandLine (numChannels : Nat) (tokens : List String) : List String :=
  if tokens.length = numChannels then tokens
  else if tokens.length ≠ 1 then tokens
  else (List.range numChannels).map fun i => replaceBar (toString (i + 1)) (tokens.headD "")

/-- The function `GetWidgets`: the new content of `results`. -/
def GetWidgets (surface : List Widget) (numChannels : Nat) (tokens : List String)
    (results : List Widget) : List Widget :=
  let widgetLine := tokens.drop 1
  let widgetLine := if widgetLine.length ≠ numChannels then ExpandLine numChannels widgetLine
    else widgetLine
  if widgetLine.length ≠ numChannels then results
  else
    let widgets := widgetLine.filterMap (GetWidgetByName surface)
    if widgets.length ≠ numChannels then results else widgets

/-- The call `std::stod` on a token of an FX zone file, which no pattern guards. -/
def fxStod (fx : FXSources) (token : String) : Parsed Floating :=
  if regex_match token decimalPattern ∨ regex_match token integerPattern then
    (stod token).andThen fun x => .value (.finite x)
  else fx.otherNumber token

/-- The statement `ticks.push_back(stod(token))` on a `vector<int>`: the conversion of a
`double` that is no number or outside the range of `int` is undefined. -/
def fxTick (fx : FXSources) (token : String) : Parsed Int :=
  (fxStod fx token).andThen fun x =>
    match x with
    | .finite value => doubleToInt value
    | _ => .fault

/-- The lines `FXParamAcceleration`, `FXParamRange` and `FXParamStepValues` on the tokens
after the keyword: the values, then the parameter number. -/
def fxTableLine (fx : FXSources) (rest : List String) : Parsed (Int × List Floating) :=
  (Parsed.mapList (fxStod fx) (rest.drop 1)).andThen fun values =>
    (stoi (rest.headD "")).andThen fun paramNumber => .value (paramNumber, values)

/-- How a line is left inside the `try` block: with new locals, or by an exception, which
the `catch` takes (the function then returns), or outside defined behaviour. -/
def afterLine {α : Type} (st : FXZoneFileState) (p : Parsed α) (next : α → FXZoneFileState) :
    Construction (FXZoneFileState × Bool) :=
  match p with
  | .value a => .done (next a, false)
  | .thrown => .done (st, true)
  | .fault => .fault

/-- The tick count that the `ZoneEnd` branch computes for a value widget without a line
`FXParamTickCounts`, `int(baseTickCount / stepSize + 0.5)` after `stepSize *= 10000.0`,
as far as the conversion is defined: for an infinite step size the quotient is zero, for
one that is no number so is the sum. -/
def fxTickCount (fx : FXSources) (st : FXZoneFileState) (paramNumber : Int) (widget : Widget) :
    Parsed Unit :=
  if fx.numberOfSteppedValues st paramNumber widget ≠ 0 then
    match fx.stepSize st paramNumber widget with
    | .finite stepSize =>
      if stepSize ≠ 0 then
        (doubleToInt ((fx.baseTickCount (fx.numberOfSteppedValues st paramNumber widget)
            : Double) / (stepSize * 10000) + 1 / 2)).andThen fun _ => .value ()
      else .value ()
    | .infinite => .value ()
    | .nan => .fault
  else .value ()

/-- Modelled from the spec: the overload of `TheManager->GetActionContext` for a parameter
number and the setters of the context, all in the header, are taken to return.  The value
widget of parameter `j` of parameter set `i`, if the file gives one: the widget is added
to the zone and, when the file gives no tick counts for the parameter, the tick count is
computed. -/
def fxValueWidget (fx : FXSources) (st : FXZoneFileState) (i j : Nat) (paramNumber : Int)
    (zone : Zone) : Construction Zone :=
  match ((mapFind (i : Int) st.valueWidgets).getD [])[j]? with
  | some widget =>
    if (mapFind paramNumber st.tickCounts).isSome then .done (zone.AddWidget widget)
    else
      match fxTickCount fx st paramNumber widget with
      | .value _ => .done (zone.AddWidget widget)
      | _ => .fault
  | none => .done zone

/-- Modelled from the spec: the overloads of `TheManager->GetActionContext` for a text and
for a parameter number, in the header, are taken to return.  The name display and the
value display of parameter `j` of parameter set `i`, if the file gives them. -/
def fxDisplays (st : FXZoneFileState) (i j : Nat) (zone : Zone) : Zone :=
  let zone :=
    match ((mapFind (i : Int) st.nameDisplays).getD [])[j]? with
    | some widget =>
      if j < ((mapFind (i : Int) st.names).getD []).length then zone.AddWidget widget else zone
    | none => zone
  match ((mapFind (i : Int) st.valueDisplays).getD [])[j]? with
  | some widget => zone.AddWidget widget
  | none => zone

/-- The body of the inner loop at `ZoneEnd` of an FX zone file, for parameter `j` of
parameter set `i`, on the new zone. -/
def fxParamCell (fx : FXSources) (st : FXZoneFileState) (i j : Nat) (paramNumber : Int)
    (zone : Zone) : Construction Zone :=
  (fxValueWidget fx st i j paramNumber zone).andThen fun zone =>
    .done (fxDisplays st i j zone)

/-- The loop `for(int j = 0; j < params[i].size(); j++)` over the parameters of set `i`,
from parameter `j` on. -/
def fxParamRow (fx : FXSources) (st : FXZoneFileState) (i : Nat) :
    Nat → List Int → Zone → Construction Zone
  | _, [], zone => .done zone
  | j, paramNumber :: rest, zone =>
    (fxParamCell fx st i j paramNumber zone).andThen fun zone =>
      fxParamRow fx st i (j + 1) rest zone

/-- The loop `for(int i = 0; i < params.size(); i++)` at `ZoneEnd` of an FX zone file from
round `i` on, on the map `params` and the new zone, with a bound on the number of rounds.
The subscript `params[i]` in the condition of the inner loop creates the entry of a key
that the map does not have; the increment of the `int` counter is undefined at
`INT_MAX`. -/
def fxParamLoop (fx : FXSources) (st : FXZoneFileState) :
    Nat → Nat → List (Int × List Int) → Zone → Construction (List (Int × List Int) × Zone)
  | 0, _, _, _ => .outOfFuel
  | fuel + 1, i, params, zone =>
    if i < params.length then
      (fxParamRow fx st i 0 ((mapFind (i : Int) (mapUpdate (i : Int) [] id params)).getD [])
        zone).andThen fun zone =>
      if (i : Int) = INT_MAX then .fault
      else fxParamLoop fx st fuel (i + 1) (mapUpdate (i : Int) [] id params) zone
    else .done (params, zone)

/-- The branch `ZoneEnd` of `ProcessFXZoneFile`: the zone is constructed for
`navigators[0]` with empty lists of included and associated zones (the constructor
then makes no nested call), pushed, and given its widgets. -/
def fxZoneEnd (fx : FXSources) (numNavigators fuel : Nat) (st : FXZoneFileState) :
    Construction FXZoneFileState :=
  if numNavigators = 0 then .fault
  else
    (fxParamLoop fx st fuel 0 st.params (.mk st.zoneName false [] .nil .nil .nil)).andThen
      fun r => .done { st with params := r.1, zones := st.zones ++ [r.2] }

/-- The body of the loop of `ProcessFXZoneFile` for the tokens of one line that is neither
blank nor a comment: the new locals, and whether an exception ended the function. -/
def fxLine (surface : List Widget) (fx : FXSources) (numNavigators fuel : Nat)
    (st : FXZoneFileState) (tokens : List String) : Construction (FXZoneFileState × Bool) :=
  match tokens with
  | [] => .done (st, false)
  | [first] =>
    if first = "ZoneEnd" then
      (fxZoneEnd fx numNavigators fuel st).andThen fun st1 => .done (st1, false)
    else .done (st, false)
  | first :: second :: more =>
    if first = "Zone" then .done ({ st with zoneName := second }, false)
    else if first = "FXParams" then
      afterLine st (Parsed.mapList stoi (second :: more)) fun paramLine =>
        { st with currentParamSet := st.currentParamSet + 1
                  params := (mapUpdate (st.currentParamSet + 1) paramLine
                    (fun _ => paramLine) st.params) }
    else if first = "FXParamNames" then
      .done ({ st with names := (mapUpdate st.currentParamSet (second :: more)
        (fun _ => second :: more) st.names) }, false)
    else if first = "FXValueWidgets" then
      .done ({ st with
        params := (mapUpdate st.currentParamSet [] id st.params)
        valueWidgets := (mapUpdate st.currentParamSet [] (GetWidgets surface
          ((mapFind st.currentParamSet st.params).getD []).length tokens) st.valueWidgets) },
        false)
    else if first = "FXParamNameDisplays" then
      .done ({ st with
        params := (mapUpdate st.currentParamSet [] id st.params)
        nameDisplays := (mapUpdate st.currentParamSet [] (GetWidgets surface
          ((mapFind st.currentParamSet st.params).getD []).length tokens) st.nameDisplays) },
        false)
    else if first = "FXParamValueDisplays" then
      .done ({ st with
        params := (mapUpdate st.currentParamSet [] id st.params)
        valueDisplays := (mapUpdate st.currentParamSet [] (GetWidgets surface
          ((mapFind st.currentParamSet st.params).getD []).length tokens) st.valueDisplays) },
        false)
    else if first = "FXWidgetModifiers" then
      .done ({ st with params := (mapUpdate st.currentParamSet [] id st.params) }, false)
    else if first = "DefaultAcceleration" then
      afterLine st (Parsed.mapList (fxStod fx) (second :: more)) fun values =>
        { st with defaultAccelerationValues := values }
    else if first = "FXParamAcceleration" then
      if more = [] then .done (st, false)
      else afterLine st (fxTableLine fx (second :: more)) fun r =>
        { st with accelerationValues := (mapUpdate r.1 r.2 (fun _ => r.2)
            st.accelerationValues) }
    else if first = "FXParamRange" then
      if more = [] then .done (st, false)
      else afterLine st (fxTableLine fx (second :: more)) fun r =>
        { st with rangeValues := (mapUpdate r.1 r.2 (fun _ => r.2) st.rangeValues) }
    else if first = "FXParamStepSize" then
      if more = [] then .done (st, false)
      else afterLine st
        ((fxStod fx (more.headD "")).andThen fun value =>
          (stoi second).andThen fun paramNumber => .value (paramNumber, value))
        fun r => { st with stepSize := (mapUpdate r.1 r.2 (fun _ => r.2) st.stepSize) }
    else if first = "FXParamStepValues" then
      if more = [] then .done (st, false)
      else afterLine st (fxTableLine fx (second :: more)) fun r =>
        { st with stepValues := (mapUpdate r.1 r.2 (fun _ => r.2) st.stepValues) }
    else if first = "FXParamTickCounts" then
      if more = [] then .done (st, false)
      else afterLine st
        ((Parsed.mapList (fxTick fx) more).andThen fun ticks =>
          (stoi second).andThen fun paramNumber => .value (paramNumber, ticks))
        fun r => { st with tickCounts := (mapUpdate r.1 r.2 (fun _ => r.2) st.tickCounts) }
    else if first = "FXParamColors" ∨ first = "FXWidgetModes" then
      if more = [] then .done (st, false)
      else afterLine st (stoi second) fun _ => st
    else .done (st, false)

/-- The function `ProcessFXZoneFile` on the token lists of the lines that are neither
blank nor comments, for a list of `numNavigators` navigators: the zones pushed onto the
list of the caller.  `fuel` bounds the rounds of the loop over the parameter sets. -/
def ProcessFXZoneFile (surface : List Widget) (fx : FXSources) (numNavigators fuel : Nat) :
    FXZoneFileState → List (List String) → Construction (List Zone)
  | st, [] => .done st.zones
  | st, tokens :: rest =>
    (fxLine surface fx numNavigators fuel st tokens).andThen fun r =>
      if r.2 then .done r.1.zones
      else ProcessFXZoneFile surface fx numNavigators fuel r.1 rest

/-! ## Zone construction: zone files -/

/-- What the construction of zones reads from its surroundings: the configured modifier
weights, the widgets of the surface, the number of its channels, the channel number of
a widget (`Widget::GetChannelNumber` of the header), the index `zoneFilePaths_` with the
lines of each file that are neither blank nor comments, what the constructor of a context
reads for a zone name, a parameter list and a widget, and what `ProcessFXZoneFile`
reads. -/
structure ZoneSources where
  weights : Modifiers → Int
  surface : List Widget
  numChannels : Nat
  channelNumber : Widget → Nat
  zoneFilePaths : List (String × List String)
  valueSources : String → List String → Widget → ValueSources
  fx : FXSources

/-- The number of navigators that `Zone::AddNavigatorsForZone` collects for a zone name. -/
def AddNavigatorsForZone (numChannels : Nat) (zoneName : String) : Nat :=
  if zoneName = "MasterTrack" then 1
  else if zoneName = "Track" ∨ zoneName = "VCA" ∨ zoneName = "Folder"
      ∨ zoneName = "TrackSend" ∨ zoneName = "TrackReceive" ∨ zoneName = "TrackFXMenu" then
    numChannels
  else if zoneName = "SelectedTrack" ∨ zoneName = "SelectedTrackSend"
      ∨ zoneName = "SelectedTrackReceive" ∨ zoneName = "SelectedTrackFXMenu" then
    numChannels
  else 1

/-- The names of a list for which `zoneFilePaths_.count(zoneName) > 0`. -/
def ZoneSources.registered (src : ZoneSources) (names : List String) : List String :=
  names.filter fun zoneName => (mapFind zoneName src.zoneFilePaths).isSome

/-- The method `Zone::GetChannelNumber` on the widgets of a zone: the largest channel
number of a widget, 0 without widgets. -/
def GetChannelNumber (channelNumber : Widget → Nat) (widgets : List Widget) : Nat :=
  widgets.foldl (fun number w => if number < channelNumber w then channelNumber w else number) 0

/-- The hook widgets that the `Zone::Zone` constructor of the home zone adds to a zone of
the associated group `zoneName`. -/
def addHookWidgets (surface : List Widget) (zoneName : String) (zone : Zone) : Zone :=
  if zoneName = "VCA" ∨ zoneName = "Folder" then
    let zone := match GetWidgetByName surface "OnZoneActivation" with
      | some w => zone.AddWidget w
      | none => zone
    match GetWidgetByName surface "OnZoneDeactivation" with
    | some w => zone.AddWidget w
    | none => zone
  else zone

/-- The `Zone::Zone` constructor, `build` being the function `ProcessZoneFile` that it
calls with the name of a registered file, the number of navigators and no enclosing
zone: the associated groups of a zone named `Home`, then the included zones.
Modelled from the spec: the `SubZone` constructor of the header is taken to run this
constructor with the arguments it is given. -/
def constructZone (src : ZoneSources)
    (build : String → Nat → Option Nat → Construction (List Zone))
    (name : String) (includedZones associatedZones : List String) : Construction Zone :=
  (Construction.mapList
    (fun zoneName =>
      (build zoneName (AddNavigatorsForZone src.numChannels zoneName) none).andThen
        fun zones => .done (zoneName, zones.map (addHookWidgets src.surface zoneName)))
    (if name = "Home" then src.registered associatedZones else [])).andThen
  fun associated =>
  (Construction.mapList
    (fun zoneName => build zoneName (AddNavigatorsForZone src.numChannels zoneName) none)
    (src.registered includedZones)).andThen
  fun included =>
  .done (.mk name false [] (ZoneList.ofList included.flatten)
    (ZoneMap.insertGroups associated .nil) .nil)

/-- The method `Zone::InitSubZones` with the zone itself as enclosing zone, `build` being
the function `ProcessZoneFile` that it calls with a list of one navigator. -/
def InitSubZones (src : ZoneSources)
    (build : String → Nat → Option Nat → Construction (List Zone))
    (subZones : List String) : Zone → Construction Zone
  | .mk name isActive widgets includedZones associatedZones subZoneMap =>
    (Construction.mapList
      (fun zoneName =>
        (build zoneName 1 (some (GetChannelNumber src.channelNumber widgets))).andThen
          fun zones => .done (zoneName, zones))
      (src.registered subZones)).andThen
    fun groups =>
    .done (.mk name isActive widgets includedZones associatedZones
      (ZoneMap.insertGroups groups subZoneMap))

/-- The loops over `actionTemplatesDictionary` at `ZoneEnd` for navigator `i`, on the
templates in the order of the dictionary: a template whose widget the surface does not
have is skipped; for the others the widget is added to the zone (`AddWidget` is an
assignment to a map, so that adding the widget for each template of a name gives the zone
that adding it once for the name gives) and the context is created with the parameters
in which `numStr` replaces `|`; an exception or a step outside defined behaviour in the
constructor ends the loops with the zone as it is then.
Modelled from the spec: the setters of the context and `Zone::AddActionContext`, which
follow the constructor and are in the header, are taken to return. -/
def bindTemplates (src : ZoneSources) (zoneName : String) (numNavigators i : Nat)
    (enclosing : Option Nat) : List ActionTemplate → Zone → Zone × Parsed Unit
  | [], zone => (zone, .value ())
  | t :: rest, zone =>
    match GetWidgetByName src.surface
        (surfaceWidgetName numNavigators i enclosing t.widgetName) with
    | none => bindTemplates src zoneName numNavigators i enclosing rest zone
    | some widget =>
      match createActionContext
          (src.valueSources zoneName (t.params.map (replaceBar (toString (i + 1)))))
          widget (t.params.map (replaceBar (toString (i + 1)))) with
      | .value _ =>
        bindTemplates src zoneName numNavigators i enclosing rest (zone.AddWidget widget)
      | .thrown => (zone.AddWidget widget, .thrown)
      | .fault => (zone.AddWidget widget, .fault)

/-- The body of the navigator loop at `ZoneEnd` for navigator `i`: the constructor, then
(the zone is on the list of the caller from here on) the widgets and contexts of the
templates, then the sub-zones.  The result is the zone as it is on the list when the body
is left, and whether it is left by an exception, which the `catch` of `ProcessZoneFile`
takes. -/
def zoneAtZoneEnd (src : ZoneSources)
    (build : String → Nat → Option Nat → Construction (List Zone))
    (s : ZoneFileState) (numNavigators : Nat) (enclosing : Option Nat) (i : Nat) :
    Construction (Zone × Bool) :=
  (constructZone src build s.zoneName s.includedZones s.associatedZones).andThen
  fun zone =>
  match bindTemplates src s.zoneName numNavigators i enclosing
      (dictionaryOrder s.actionTemplates) zone with
  | (_, .fault) => .fault
  | (bound, .thrown) => .done (bound, true)
  | (bound, .value _) =>
    (InitSubZones src build s.subZones bound).andThen fun zone => .done (zone, false)

/-- The navigator loop at `ZoneEnd`: the zones pushed onto the list of the caller; after
an exception the function returns with the zones pushed so far. -/
def navigatorLoop (body : Nat → Construction (Zone × Bool)) : List Nat → Construction (List Zone)
  | [] => .done []
  | i :: rest =>
    (body i).andThen fun r =>
      if r.2 then .done [r.1]
      else (navigatorLoop body rest).andThen fun zones => .done (r.1 :: zones)

/-! ## Zone construction: the recursion -/

/-- The function `ProcessZoneFile` for the file registered under `zoneName`, a list of
`numNavigators` navigators and the channel number of the enclosing zone, if there is one,
`build` being the same function where the constructor and `InitSubZones` call it.  A name
without a file leaves the list of the caller as it is; a file with a line `FXParams` is
handed to `ProcessFXZoneFile`. -/
def processRegisteredFile (src : ZoneSources) (fuel : Nat)
    (build : String → Nat → Option Nat → Construction (List Zone))
    (zoneName : String) (numNavigators : Nat) (enclosing : Option Nat) :
    Construction (List Zone) :=
  match mapFind zoneName src.zoneFilePaths with
  | none => .done []
  | some lines =>
    match ProcessZoneFile src.weights ZoneFileState.initial (lines.map GetTokens) with
    | .next _ => .done []
    | .fault => .fault
    | .fxZoneFile =>
      ProcessFXZoneFile src.surface src.fx numNavigators fuel FXZoneFileState.initial
        (lines.map GetTokens)
    | .zoneEnd s =>
      navigatorLoop (zoneAtZoneEnd src build s numNavigators enclosing)
        (List.range numNavigators)

/-- The mutual recursion of `ProcessZoneFile`, the `Zone::Zone` constructor and
`Zone::InitSubZones`, with a bound on the depth of the nested calls and on the rounds of
the loop over the parameter sets of an FX zone file: a call at depth `fuel` is not
answered. -/
def ProcessZoneFileTree (src : ZoneSources) :
    Nat → String → Nat → Option Nat → Construction (List Zone)
  | 0 => fun _ _ _ => .outOfFuel
  | fuel + 1 => processRegisteredFile src fuel (ProcessZoneFileTree src fuel)

/-- The names to which the file registered under a zone name refers when its zones are
built: its included zones, its sub-zones and, when the zone it declares is named `Home`,
its associated zones. -/
def ZoneSources.references (src : ZoneSources) (zoneName : String) : List String :=
  match mapFind zoneName src.zoneFilePaths with
  | none => []
  | some lines =>
    match ProcessZoneFile src.weights ZoneFileState.initial (lines.map GetTokens) with
    | .zoneEnd s =>
      (if s.zoneName = "Home" then s.associatedZones else []) ++ s.includedZones ++ s.subZones
    | _ => []

/-- The relation "the file of `a` refers to `b`" of a zone file index. -/
def ZoneSources.refersTo (src : ZoneSources) (a b : String) : Prop :=
  b ∈ src.references a

/-- The index has no FX zone file: no registered file has a line `FXParams` before the
`ZoneEnd` of a named zone. -/
def ZoneSources.NoFXZoneFile (src : ZoneSources) : Prop :=
  ∀ zoneName lines, mapFind zoneName src.zoneFilePaths = some lines →
    ProcessZoneFile src.weights ZoneFileState.initial (lines.map GetTokens) ≠ .fxZoneFile

/-- The constructor of the context of every binding of a registered file stays within
defined behaviour (it returns or throws), whatever the widget and the number that
replaces `|`. -/
def ZoneSources.ContextsDefined (src : ZoneSources) : Prop :=
  ∀ zoneName lines s, mapFind zoneName src.zoneFilePaths = some lines →
    ProcessZoneFile src.weights ZoneFileState.initial (lines.map GetTokens) = .zoneEnd s →
    ∀ t ∈ s.actionTemplates, ∀ (numStr : String) (widget : Widget),
      createActionContext (src.valueSources s.zoneName (t.params.map (replaceBar numStr)))
        widget (t.params.map (replaceBar numStr)) ≠ .fault

/-- Surroundings of `ProcessFXZoneFile` in which `std::stod` throws on every token that is
no literal and the contexts have no stepped values. -/
def noFXSources : FXSources :=
  { otherNumber := fun _ => .thrown, numberOfSteppedValues := fun _ _ _ => 0
    stepSize := fun _ _ _ => .finite 0, baseTickCount := fun _ => 0 }

/-- A zone file index with a home zone that includes `Buttons` and has the associated
groups `VCA` and `Folder`, and a zone `Buttons` that lists `VCA` as associated zone. -/
def sampleSources : ZoneSources :=
  { weights := (sampleManager false).value
    surface := [fader1, playButton, onZoneActivation]
    numChannels := 2
    channelNumber := fun _ => 0
    zoneFilePaths :=
      [("Home", ["Zone Home", "IncludedZones", "Buttons", "IncludedZonesEnd",
          "AssociatedZones", "VCA", "Folder", "Missing", "AssociatedZonesEnd",
          "Nothing+Play Play", "ZoneEnd"]),
        ("Buttons", ["Zone Buttons", "AssociatedZones", "VCA", "AssociatedZonesEnd",
          "Play Stop", "ZoneEnd"]),
        ("VCA", ["Zone VCA", "Fader| TrackVolume", "ZoneEnd"]),
        ("Folder", ["Zone Folder", "Fader| TrackVolume", "ZoneEnd"])]
    valueSources := fun _ _ _ => noSources
    fx := noFXSources }

/-- A zone file index with a single file, which includes itself. -/
def selfIncludingSources : ZoneSources :=
  { sampleSources with
    surface := []
    numChannels := 1
    zoneFilePaths :=
      [("Loop", ["Zone Loop", "IncludedZones", "Loop", "IncludedZonesEnd", "ZoneEnd"])] }

/-- A zone file index with a single file, whose binding line has the closing square
bracket before the opening one. -/
def reversedBracketSources : ZoneSources :=
  { sampleSources with
    surface := [fader1]
    numChannels := 1
    zoneFilePaths := [("Home", ["Zone Home", "Fader1 TrackVolume ] [", "ZoneEnd"])] }

/-- A zone file index with a single file, an FX zone file whose line `FXValueWidgets` comes
before its first line `FXParams`. -/
def widgetsFirstSources : ZoneSources :=
  { sampleSources with
    surface := [fader1]
    numChannels := 1
    zoneFilePaths := [("FX", ["Zone FX", "FXValueWidgets Fader1", "FXParams 1", "ZoneEnd"])] }

/-! ## Theorems -/

/-! ### Conversions and reads -/

theorem toSizeT_of_int_nonneg {i : Int} (h0 : 0 ≤ i) (h1 : i ≤ INT_MAX + 1) : toSizeT i = i := by
  unfold toSizeT; unfold INT_MAX at h1; omega

theorem sizeMinusOne_of_pos {α : Type} {v : List α} (h0 : 0 < v.length)
    (h1 : (v.length : Int) ≤ INT_MAX) : sizeMinusOne v = (v.length : Int) - 1 := by
  unfold sizeMinusOne; unfold INT_MAX at h1; omega

theorem sizeToInt_of_int {n : Int} (h0 : INT_MIN ≤ n) (h1 : n ≤ INT_MAX) : sizeToInt n = n := by
  unfold sizeToInt; unfold INT_MIN at h0; unfold INT_MAX at h1; omega

theorem vecGet_isSome {α : Type} {v : List α} {i : Int} (h0 : 0 ≤ i)
    (h1 : i ≤ (v.length : Int) - 1) : ∃ e, vecGet v i = some e := by
  have hlt : i.toNat < v.length := by omega
  exact ⟨v[i.toNat], by simp [vecGet, h0, List.getElem?_eq_getElem hlt]⟩

theorem DoRangeBoundAction_of_mem (c : ActionContext) (value : Double)
    (hlo : c.rangeMinimum ≤ value) (hhi : value ≤ c.rangeMaximum) :
    c.DoRangeBoundAction value = [value] := by
  unfold ActionContext.DoRangeBoundAction
  simp only
  rw [if_neg (not_lt.mpr hhi), if_neg (not_lt.mpr hlo)]

/-! ### The range clamp -/

/-- C1: with `rangeMinimum ≤ rangeMaximum`, `DoRangeBoundAction` hands the action exactly one
value, `min (max value rangeMinimum) rangeMaximum`; with the range `[-144, 24]` the input
`100` dispatches `24` and the input `-200` dispatches `-144`. -/
theorem C1_range_clamp (c : ActionContext) (value : Double)
    (h : c.rangeMinimum ≤ c.rangeMaximum) :
    c.DoRangeBoundAction value = [min (max value c.rangeMinimum) c.rangeMaximum] ∧
    ({ c with rangeMinimum := -144, rangeMaximum := 24 } : ActionContext).DoRangeBoundAction 100
      = [24] ∧
    ({ c with rangeMinimum := -144, rangeMaximum := 24 } : ActionContext).DoRangeBoundAction (-200)
      = [-144] := by
  refine ⟨?_, ?_, ?_⟩
  · unfold ActionContext.DoRangeBoundAction
    simp only
    by_cases h1 : value > c.rangeMaximum
    · have h2 : ¬ c.rangeMaximum < c.rangeMinimum := not_lt.mpr h
      rw [if_pos h1, if_neg h2, max_eq_left (le_trans h (le_of_lt h1)), min_eq_right (le_of_lt h1)]
    · rw [if_neg h1]
      have h1' : value ≤ c.rangeMaximum := not_lt.mp h1
      by_cases h3 : value < c.rangeMinimum
      · rw [if_pos h3, max_eq_right (le_of_lt h3), min_eq_left h]
      · rw [if_neg h3, max_eq_left (not_lt.mp h3), min_eq_left h1']
  · unfold ActionContext.DoRangeBoundAction
    norm_num
  · unfold ActionContext.DoRangeBoundAction
    norm_num

/-- Witness of C1 at the constructor's default range `[0, 1]` and the input `3/2`. -/
theorem C1_range_clamp_witness :
    (steppedContext []).rangeMinimum ≤ (steppedContext []).rangeMaximum ∧
    (steppedContext []).DoRangeBoundAction (3 / 2) = [1] := by
  have h : (steppedContext []).rangeMinimum ≤ (steppedContext []).rangeMaximum := by
    norm_num [steppedContext]
  refine ⟨h, ?_⟩
  rw [(C1_range_clamp (steppedContext []) (3 / 2) h).1]
  norm_num [steppedContext]

/-! ### Absolute presses on a stepped table -/

theorem runAll_nil {ι : Type} (op : ActionContext → ι → Option (ActionContext × List Double))
    (c : ActionContext) : runAll op c [] = some (c, []) := rfl

theorem runAll_cons_of_some {ι : Type}
    (op : ActionContext → ι → Option (ActionContext × List Double))
    (c c1 c2 : ActionContext) (i : ι) (rest : List ι) (out1 out2 : List Double)
    (h1 : op c i = some (c1, out1)) (h2 : runAll op c1 rest = some (c2, out2)) :
    runAll op c (i :: rest) = some (c2, out1 ++ out2) := by
  simp only [runAll, h1, h2]

theorem DoAction_stepped_eq (c : ActionContext) (now value : Double)
    (hhold : c.holdDelayAmount = 0) (hne : 0 < c.steppedValues.length)
    (hsize : (c.steppedValues.length : Int) ≤ INT_MAX)
    (hc : c.CursorInRange) (hv : value ≠ 0) :
    c.DoAction now value =
      if c.steppedValuesIndex = (c.steppedValues.length : Int) - 1 then
        match vecGet c.steppedValues 0, vecGet c.steppedValues c.steppedValuesIndex with
        | some first, some last =>
          (vecGet c.steppedValues (if first < last then 0 else c.steppedValuesIndex)).map
            fun v => ({ c with steppedValuesIndex :=
              if first < last then 0 else c.steppedValuesIndex }, c.DoRangeBoundAction v)
        | _, _ => none
      else
        (vecGet c.steppedValues (c.steppedValuesIndex + 1)).map
          fun v => ({ c with steppedValuesIndex := c.steppedValuesIndex + 1 },
            c.DoRangeBoundAction v) := by
  obtain ⟨h0, h1⟩ := hc
  have hS := sizeMinusOne_of_pos hne hsize
  have hT : toSizeT c.steppedValuesIndex = c.steppedValuesIndex :=
    toSizeT_of_int_nonneg h0 (by omega)
  unfold ActionContext.DoAction
  rw [if_neg (show ¬ c.holdDelayAmount ≠ 0 from not_not.mpr hhold),
    if_pos (show c.steppedValues.length > 0 from hne), if_pos hv, hS, hT]
  by_cases htop : c.steppedValuesIndex = (c.steppedValues.length : Int) - 1
  · rw [if_pos htop, if_pos htop]
    cases vecGet c.steppedValues 0 with
    | none => rfl
    | some first =>
      cases vecGet c.steppedValues c.steppedValuesIndex with
      | none => rfl
      | some last =>
        by_cases hw : first < last
        · simp only [if_pos hw]; rfl
        · simp only [if_neg hw]
  · rw [if_neg htop, if_neg htop]
    rfl

theorem DoAction_stepped_rule (c : ActionContext) (now value : Double)
    (hhold : c.holdDelayAmount = 0) (hne : 0 < c.steppedValues.length)
    (hsize : (c.steppedValues.length : Int) ≤ INT_MAX)
    (hc : c.CursorInRange) (hv : value ≠ 0) :
    ∃ first last entry,
      vecGet c.steppedValues 0 = some first ∧
      vecGet c.steppedValues ((c.steppedValues.length : Int) - 1) = some last ∧
      vecGet c.steppedValues
        (if c.steppedValuesIndex < (c.steppedValues.length : Int) - 1
          then c.steppedValuesIndex + 1
          else if first < last then 0 else (c.steppedValues.length : Int) - 1) = some entry ∧
      c.DoAction now value = some
        ({ c with steppedValuesIndex :=
            if c.steppedValuesIndex < (c.steppedValues.length : Int) - 1
              then c.steppedValuesIndex + 1
              else if first < last then 0 else (c.steppedValues.length : Int) - 1 },
          c.DoRangeBoundAction entry) := by
  have hD := DoAction_stepped_eq c now value hhold hne hsize hc hv
  obtain ⟨h0, h1⟩ := hc
  have hlen : (0 : Int) ≤ (c.steppedValues.length : Int) - 1 := by omega
  obtain ⟨first, hfirst⟩ := vecGet_isSome (v := c.steppedValues) (i := 0) le_rfl hlen
  obtain ⟨last, hlast⟩ := vecGet_isSome (v := c.steppedValues) hlen le_rfl
  by_cases htop : c.steppedValuesIndex = (c.steppedValues.length : Int) - 1
  · have hnlt : ¬ c.steppedValuesIndex < (c.steppedValues.length : Int) - 1 := by omega
    rw [if_pos htop, hfirst, htop, hlast] at hD
    by_cases hw : first < last
    · refine ⟨first, last, first, hfirst, hlast, ?_, ?_⟩
      · rw [if_neg hnlt, if_pos hw]; exact hfirst
      · rw [hD]; simp only [if_neg hnlt, if_pos hw, hfirst, Option.map_some']
    · refine ⟨first, last, last, hfirst, hlast, ?_, ?_⟩
      · rw [if_neg hnlt, if_neg hw]; exact hlast
      · rw [hD]; simp only [if_neg hnlt, if_neg hw, hlast, Option.map_some']
  · have hlt : c.steppedValuesIndex < (c.steppedValues.length : Int) - 1 := by omega
    obtain ⟨e, he⟩ := vecGet_isSome (v := c.steppedValues) (i := c.steppedValuesIndex + 1)
      (by omega) (by omega)
    rw [if_neg htop, he] at hD
    refine ⟨first, last, e, hfirst, hlast, ?_, ?_⟩
    · rw [if_pos hlt]; exact he
    · rw [hD]; simp only [if_pos hlt, Option.map_some']

theorem cycle_step (c : ActionContext) (now value : Double) (i : Nat)
    (htab : c.steppedValues = [0, 1 / 2, 1]) (hhold : c.holdDelayAmount = 0)
    (hmin : c.rangeMinimum ≤ 0) (hmax : 1 ≤ c.rangeMaximum)
    (hi : c.steppedValuesIndex = ((i % 3 : Nat) : Int)) (hv : value ≠ 0) :
    c.DoAction now value =
      some ({ c with steppedValuesIndex := (((i + 1) % 3 : Nat) : Int) }, [cycleEntry (i + 1)]) := by
  have hlen : c.steppedValues.length = 3 := by rw [htab]; rfl
  have hD := DoAction_stepped_eq c now value hhold (by omega)
    (by rw [hlen]; unfold INT_MAX; norm_num) ⟨by omega, by omega⟩ hv
  rw [hD, hlen, hi, htab]
  have h3 : i % 3 = 0 ∨ i % 3 = 1 ∨ i % 3 = 2 := by omega
  rcases h3 with h | h | h
  · have h' : (i + 1) % 3 = 1 := by omega
    rw [h, h']
    simp [vecGet, cycleEntry, h']
    exact DoRangeBoundAction_of_mem c _ (by linarith) (by linarith)
  · have h' : (i + 1) % 3 = 2 := by omega
    rw [h, h']
    simp [vecGet, cycleEntry, h']
    exact DoRangeBoundAction_of_mem c _ (by linarith) (by linarith)
  · have h' : (i + 1) % 3 = 0 := by omega
    rw [h, h']
    simp [vecGet, cycleEntry, h']
    exact DoRangeBoundAction_of_mem c _ (by linarith) (by linarith)

theorem cycle_run (evs : List (Double × Double)) :
    ∀ (c : ActionContext) (i : Nat), c.steppedValues = [0, 1 / 2, 1] → c.holdDelayAmount = 0 →
      c.rangeMinimum ≤ 0 → 1 ≤ c.rangeMaximum → c.steppedValuesIndex = ((i % 3 : Nat) : Int) →
      (∀ e ∈ evs, e.2 ≠ 0) →
      runAll press c evs =
        some ({ c with steppedValuesIndex := (((i + evs.length) % 3 : Nat) : Int) },
          (List.range evs.length).map fun k => cycleEntry (i + 1 + k)) := by
  induction evs with
  | nil =>
    intro c i _ _ _ _ hi _
    rw [runAll_nil, List.length_nil, Nat.add_zero, ← hi]
    rfl
  | cons e rest ih =>
    intro c i htab hhold hmin hmax hi hall
    have hstep := cycle_step c e.1 e.2 i htab hhold hmin hmax hi
      (hall e (List.mem_cons_self e rest))
    have hrest := ih { c with steppedValuesIndex := (((i + 1) % 3 : Nat) : Int) } (i + 1)
      htab hhold hmin hmax rfl (fun x hx => hall x (List.mem_cons_of_mem e hx))
    rw [runAll_cons_of_some press c _ _ e rest _ _ hstep hrest]
    have hlen : i + 1 + rest.length = i + (e :: rest).length := by
      rw [List.length_cons]; omega
    rw [hlen, List.length_cons, List.range_succ_eq_map, List.map_cons, List.map_map]
    have hf : ((fun k => cycleEntry (i + 1 + k)) ∘ Nat.succ) =
        fun k => cycleEntry (i + 1 + 1 + k) := by
      funext k; simp only [Function.comp]; congr 1; omega
    rw [hf]
    rfl

theorem stick_step (c : ActionContext) (now value : Double) (i : Nat)
    (htab : c.steppedValues = [1, 1 / 2, 0]) (hhold : c.holdDelayAmount = 0)
    (hmin : c.rangeMinimum ≤ 0) (hmax : 1 ≤ c.rangeMaximum)
    (hi : c.steppedValuesIndex = ((min i 2 : Nat) : Int)) (hv : value ≠ 0) :
    c.DoAction now value =
      some ({ c with steppedValuesIndex := ((min (i + 1) 2 : Nat) : Int) },
        [stickEntry (i + 1)]) := by
  have hlen : c.steppedValues.length = 3 := by rw [htab]; rfl
  have hD := DoAction_stepped_eq c now value hhold (by omega)
    (by rw [hlen]; unfold INT_MAX; norm_num) ⟨by omega, by omega⟩ hv
  rw [hD, hlen, hi, htab]
  have h3 : i = 0 ∨ i = 1 ∨ 2 ≤ i := by omega
  rcases h3 with h | h | h
  · subst h
    simp [vecGet, stickEntry]
    exact DoRangeBoundAction_of_mem c _ (by linarith) (by linarith)
  · subst h
    simp [vecGet, stickEntry]
    exact DoRangeBoundAction_of_mem c _ (by linarith) (by linarith)
  · have h1 : min i 2 = 2 := by omega
    have h2 : min (i + 1) 2 = 2 := by omega
    have h4 : stickEntry (i + 1) = 0 := by
      unfold stickEntry; rw [if_neg (by omega), if_neg (by omega)]
    have h5 : ¬ ((1 : Double) < 0) := by norm_num
    rw [h1, h2, h4]
    simp [vecGet, h5]
    exact DoRangeBoundAction_of_mem c _ (by linarith) (by linarith)

theorem stick_run (evs : List (Double × Double)) :
    ∀ (c : ActionContext) (i : Nat), c.steppedValues = [1, 1 / 2, 0] → c.holdDelayAmount = 0 →
      c.rangeMinimum ≤ 0 → 1 ≤ c.rangeMaximum → c.steppedValuesIndex = ((min i 2 : Nat) : Int) →
      (∀ e ∈ evs, e.2 ≠ 0) →
      runAll press c evs =
        some ({ c with steppedValuesIndex := ((min (i + evs.length) 2 : Nat) : Int) },
          (List.range evs.length).map fun k => stickEntry (i + 1 + k)) := by
  induction evs with
  | nil =>
    intro c i _ _ _ _ hi _
    rw [runAll_nil, List.length_nil, Nat.add_zero, ← hi]
    rfl
  | cons e rest ih =>
    intro c i htab hhold hmin hmax hi hall
    have hstep := stick_step c e.1 e.2 i htab hhold hmin hmax hi
      (hall e (List.mem_cons_self e rest))
    have hrest := ih { c with steppedValuesIndex := ((min (i + 1) 2 : Nat) : Int) } (i + 1)
      htab hhold hmin hmax rfl (fun x hx => hall x (List.mem_cons_of_mem e hx))
    rw [runAll_cons_of_some press c _ _ e rest _ _ hstep hrest]
    have hlen : i + 1 + rest.length = i + (e :: rest).length := by
      rw [List.length_cons]; omega
    rw [hlen, List.length_cons, List.range_succ_eq_map, List.map_cons, List.map_map]
    have hf : ((fun k => stickEntry (i + 1 + k)) ∘ Nat.succ) =
        fun k => stickEntry (i + 1 + 1 + k) := by
      funext k; simp only [Function.comp]; congr 1; omega
    rw [hf]
    rfl

/-- C2, the claim as stated fails: with the table `[0, 2]` and the default range `[0, 1]` a
press moves the cursor to index 1, whose entry is `2`, but the action receives `1`. -/
theorem C2_counterexample :
    (steppedContext [0, 2]).holdDelayAmount = 0 ∧
    (steppedContext [0, 2]).DoAction 0 1 =
      some ({ steppedContext [0, 2] with steppedValuesIndex := 1 }, [1]) ∧
    vecGet (steppedContext [0, 2]).steppedValues 1 = some 2 ∧
    ([1] : List Double) ≠ [2] := by
  refine ⟨rfl, ?_, ?_, ?_⟩
  · simp [steppedContext, ActionContext.DoAction, ActionContext.DoRangeBoundAction, toSizeT,
      sizeMinusOne, vecGet]
  · simp [steppedContext, vecGet]
  · norm_num

/-- C2 (amended): with no hold-delay, a non-empty stepped table and the cursor `i` in range,
`DoAction(v)` with `v ≠ 0` moves the cursor to `i + 1` when `i` is below the top index, to `0`
when `i` is the top index and the first entry is less than the top entry, and leaves it at
the top otherwise, then hands the action the range-clamped entry at the new cursor.  Hence,
in a range containing `[0, 1]` and from cursor 0, presses on the table `[0, 1/2, 1]` dispatch
`1/2, 1, 0, 1/2, ...` for ever, and presses on `[1, 1/2, 0]` dispatch `1/2`, then `0` for
ever with the cursor staying at the top index. -/
theorem C2_press_steps_cursor (c : ActionContext) (now value : Double)
    (hhold : c.holdDelayAmount = 0) (hne : 0 < c.steppedValues.length)
    (hsize : (c.steppedValues.length : Int) ≤ INT_MAX)
    (hc : c.CursorInRange) (hv : value ≠ 0) :
    (∃ first last entry,
      vecGet c.steppedValues 0 = some first ∧
      vecGet c.steppedValues ((c.steppedValues.length : Int) - 1) = some last ∧
      vecGet c.steppedValues
        (if c.steppedValuesIndex < (c.steppedValues.length : Int) - 1
          then c.steppedValuesIndex + 1
          else if first < last then 0 else (c.steppedValues.length : Int) - 1) = some entry ∧
      c.DoAction now value = some
        ({ c with steppedValuesIndex :=
            if c.steppedValuesIndex < (c.steppedValues.length : Int) - 1
              then c.steppedValuesIndex + 1
              else if first < last then 0 else (c.steppedValues.length : Int) - 1 },
          c.DoRangeBoundAction entry)) ∧
    (∀ (c0 : ActionContext) (evs : List (Double × Double)),
      c0.steppedValues = [0, 1 / 2, 1] → c0.holdDelayAmount = 0 →
      c0.rangeMinimum ≤ 0 → 1 ≤ c0.rangeMaximum → c0.steppedValuesIndex = 0 →
      (∀ e ∈ evs, e.2 ≠ 0) →
      runAll press c0 evs =
        some ({ c0 with steppedValuesIndex := ((evs.length % 3 : Nat) : Int) },
          (List.range evs.length).map fun k => cycleEntry (k + 1))) ∧
    (∀ (c0 : ActionContext) (evs : List (Double × Double)),
      c0.steppedValues = [1, 1 / 2, 0] → c0.holdDelayAmount = 0 →
      c0.rangeMinimum ≤ 0 → 1 ≤ c0.rangeMaximum → c0.steppedValuesIndex = 0 →
      (∀ e ∈ evs, e.2 ≠ 0) →
      runAll press c0 evs =
        some ({ c0 with steppedValuesIndex := ((min evs.length 2 : Nat) : Int) },
          (List.range evs.length).map fun k => stickEntry (k + 1))) := by
  refine ⟨DoAction_stepped_rule c now value hhold hne hsize hc hv, ?_, ?_⟩
  · intro c0 evs htab hh hmin hmax hi hall
    have h := cycle_run evs c0 0 htab hh hmin hmax (by rw [hi]; rfl) hall
    rw [h, Nat.zero_add]
    have hf : (fun k => cycleEntry (0 + 1 + k)) = fun k => cycleEntry (k + 1) := by
      funext k; congr 1; omega
    rw [hf]
  · intro c0 evs htab hh hmin hmax hi hall
    have h := stick_run evs c0 0 htab hh hmin hmax (by rw [hi]; rfl) hall
    rw [h, Nat.zero_add]
    have hf : (fun k => stickEntry (0 + 1 + k)) = fun k => stickEntry (k + 1) := by
      funext k; congr 1; omega
    rw [hf]

/-- Witness of C2: four presses on the table `[0, 1/2, 1]` from cursor 0. -/
theorem C2_press_steps_cursor_witness :
    (steppedContext [0, 1 / 2, 1]).holdDelayAmount = 0 ∧
    (steppedContext [0, 1 / 2, 1]).CursorInRange ∧
    runAll press (steppedContext [0, 1 / 2, 1]) [(0, 1), (5, 1), (9, 127), (12, 1)] =
      some ({ steppedContext [0, 1 / 2, 1] with steppedValuesIndex := 1 },
        [1 / 2, 1, 0, 1 / 2]) := by
  have hc : (steppedContext [0, 1 / 2, 1]).CursorInRange := by
    constructor <;> simp [steppedContext]
  have h := (C2_press_steps_cursor (steppedContext [0, 1 / 2, 1]) 0 1 rfl
    (by simp [steppedContext]) (by simp [steppedContext, INT_MAX]) hc one_ne_zero).2.1
    (steppedContext [0, 1 / 2, 1]) [(0, 1), (5, 1), (9, 127), (12, 1)] rfl rfl
    (by simp [steppedContext]) (by simp [steppedContext]) rfl (by simp)
  refine ⟨rfl, hc, ?_⟩
  rw [h]
  simp [List.range_succ, cycleEntry]

/-! ### Relative steps on a stepped table -/

theorem DoSteppedValueAction_up (c : ActionContext) (delta : Double)
    (hne : 0 < c.steppedValues.length) (hsize : (c.steppedValues.length : Int) ≤ INT_MAX)
    (hc : c.CursorInRange) (hd : delta > 0) :
    ∃ entry,
      vecGet c.steppedValues
        (min (c.steppedValuesIndex + 1) ((c.steppedValues.length : Int) - 1)) = some entry ∧
      c.DoSteppedValueAction delta = some
        ({ c with steppedValuesIndex :=
            (min (c.steppedValuesIndex + 1) ((c.steppedValues.length : Int) - 1)) },
          c.DoRangeBoundAction entry) := by
  obtain ⟨h0, h1⟩ := hc
  have hS := sizeMinusOne_of_pos hne hsize
  have hT : toSizeT (c.steppedValuesIndex + 1) = c.steppedValuesIndex + 1 :=
    toSizeT_of_int_nonneg (by omega) (by omega)
  have hI : sizeToInt ((c.steppedValues.length : Int) - 1) = (c.steppedValues.length : Int) - 1 :=
    sizeToInt_of_int (by unfold INT_MIN; omega) (by omega)
  obtain ⟨entry, he⟩ := vecGet_isSome (v := c.steppedValues)
    (i := min (c.steppedValuesIndex + 1) ((c.steppedValues.length : Int) - 1))
    (by omega) (by omega)
  refine ⟨entry, he, ?_⟩
  unfold ActionContext.DoSteppedValueAction
  rw [if_pos hd]
  simp only [hS, hT, hI]
  by_cases htop : c.steppedValuesIndex + 1 > (c.steppedValues.length : Int) - 1
  · have hm : min (c.steppedValuesIndex + 1) ((c.steppedValues.length : Int) - 1)
        = (c.steppedValues.length : Int) - 1 := by omega
    rw [hm] at he ⊢
    simp only [if_pos htop, he, Option.map_some']
    rfl
  · have hm : min (c.steppedValuesIndex + 1) ((c.steppedValues.length : Int) - 1)
        = c.steppedValuesIndex + 1 := by omega
    rw [hm] at he ⊢
    simp only [if_neg htop, he, Option.map_some']
    rfl

theorem DoSteppedValueAction_down (c : ActionContext) (delta : Double)
    (hne : 0 < c.steppedValues.length) (hc : c.CursorInRange) (hd : ¬ delta > 0) :
    ∃ entry,
      vecGet c.steppedValues (max (c.steppedValuesIndex - 1) 0) = some entry ∧
      c.DoSteppedValueAction delta = some
        ({ c with steppedValuesIndex := max (c.steppedValuesIndex - 1) 0 },
          c.DoRangeBoundAction entry) := by
  obtain ⟨h0, h1⟩ := hc
  obtain ⟨entry, he⟩ := vecGet_isSome (v := c.steppedValues)
    (i := max (c.steppedValuesIndex - 1) 0) (by omega) (by omega)
  refine ⟨entry, he, ?_⟩
  unfold ActionContext.DoSteppedValueAction
  rw [if_neg hd]
  simp only
  by_cases hneg : c.steppedValuesIndex - 1 < 0
  · have hm : max (c.steppedValuesIndex - 1) 0 = 0 := by omega
    rw [hm] at he ⊢
    simp only [if_pos hneg, he, Option.map_some']
    rfl
  · have hm : max (c.steppedValuesIndex - 1) 0 = c.steppedValuesIndex - 1 := by omega
    rw [hm] at he ⊢
    simp only [if_neg hneg, he, Option.map_some']
    rfl

/-- C8, the claim as stated fails: with the table `[0, 2]` and the default range `[0, 1]` a
positive relative step moves the cursor to index 1, whose entry is `2`, but the action
receives `1`. -/
theorem C8_counterexample :
    (steppedContext [0, 2]).DoRelativeAction 0 1 =
      some ({ steppedContext [0, 2] with steppedValuesIndex := 1 }, [1]) ∧
    vecGet (steppedContext [0, 2]).steppedValues 1 = some 2 ∧
    ([1] : List Double) ≠ [2] := by
  refine ⟨?_, ?_, ?_⟩
  · simp [steppedContext, ActionContext.DoRelativeAction, ActionContext.DoSteppedValueAction,
      ActionContext.DoRangeBoundAction, toSizeT, sizeMinusOne, vecGet]
  · simp [steppedContext, vecGet]
  · norm_num

/-- C8 (amended): with a non-empty stepped table and the cursor `i` in range,
`DoRelativeAction(delta)` sets the cursor to `min (i + 1) top` when `delta > 0` and to
`max (i - 1) 0` when `delta < 0` (so it never wraps from the top index to 0 nor from 0 to
the top), and hands the action the range-clamped entry at the new cursor. -/
theorem C8_relative_step_clamps_cursor (c : ActionContext) (current delta : Double)
    (hne : 0 < c.steppedValues.length) (hsize : (c.steppedValues.length : Int) ≤ INT_MAX)
    (hc : c.CursorInRange) :
    (delta > 0 → ∃ entry,
      vecGet c.steppedValues
        (min (c.steppedValuesIndex + 1) ((c.steppedValues.length : Int) - 1)) = some entry ∧
      c.DoRelativeAction current delta = some
        ({ c with steppedValuesIndex :=
            (min (c.steppedValuesIndex + 1) ((c.steppedValues.length : Int) - 1)) },
          c.DoRangeBoundAction entry)) ∧
    (delta < 0 → ∃ entry,
      vecGet c.steppedValues (max (c.steppedValuesIndex - 1) 0) = some entry ∧
      c.DoRelativeAction current delta = some
        ({ c with steppedValuesIndex := max (c.steppedValuesIndex - 1) 0 },
          c.DoRangeBoundAction entry)) := by
  have hrel : c.DoRelativeAction current delta = c.DoSteppedValueAction delta := by
    unfold ActionContext.DoRelativeAction
    rw [if_pos (show c.steppedValues.length > 0 from hne)]
  rw [hrel]
  exact ⟨fun hd => DoSteppedValueAction_up c delta hne hsize hc hd,
    fun hd => DoSteppedValueAction_down c delta hne hc (not_lt.mpr (le_of_lt hd))⟩

/-- Witness of C8: at the top index of `[0, 1/2, 1]` a positive step stays at the top. -/
theorem C8_relative_step_clamps_cursor_witness :
    ({ steppedContext [0, 1 / 2, 1] with steppedValuesIndex := 2 } : ActionContext).CursorInRange ∧
    ({ steppedContext [0, 1 / 2, 1] with steppedValuesIndex := 2 } : ActionContext).DoRelativeAction
        0 1 =
      some ({ steppedContext [0, 1 / 2, 1] with steppedValuesIndex := 2 }, [1]) := by
  have hc : ({ steppedContext [0, 1 / 2, 1] with steppedValuesIndex := 2 } :
      ActionContext).CursorInRange := by
    constructor <;> simp [steppedContext]
  obtain ⟨entry, he, hD⟩ := (C8_relative_step_clamps_cursor
    { steppedContext [0, 1 / 2, 1] with steppedValuesIndex := 2 } 0 1
    (by simp [steppedContext]) (by simp [steppedContext, INT_MAX]) hc).1 one_pos
  refine ⟨hc, ?_⟩
  rw [hD]
  simp [steppedContext, vecGet] at he
  subst he
  simp [steppedContext, ActionContext.DoRangeBoundAction]

/-! ### Accelerated steps on a stepped table -/

theorem DoAcceleratedSteppedValueAction_inc (c : ActionContext) (a : Int) (delta : Double)
    (T : Int) (hne : 0 < c.steppedValues.length)
    (hsize : (c.steppedValues.length : Int) ≤ INT_MAX) (hc : c.CursorInRange)
    (hT : vecGet c.acceleratedTickValues (clampAccelerationIndex c.acceleratedTickValues a)
      = some T) (hd : delta > 0) :
    ∃ entry,
      vecGet c.steppedValues
        (min (c.steppedValuesIndex + 1) ((c.steppedValues.length : Int) - 1)) = some entry ∧
      c.DoAcceleratedSteppedValueAction a delta =
        if c.accumulatedIncTicks + 1 ≥ T then
          some ({ c with accumulatedIncTicks := 0, accumulatedDecTicks := 0,
                         steppedValuesIndex :=
                          (min (c.steppedValuesIndex + 1) ((c.steppedValues.length : Int) - 1)) },
            c.DoRangeBoundAction entry)
        else
          some ({ c with accumulatedIncTicks := c.accumulatedIncTicks + 1,
                         accumulatedDecTicks :=
                          (if c.accumulatedDecTicks - 1 < 0 then 0
                            else c.accumulatedDecTicks - 1) }, []) := by
  obtain ⟨h0, h1⟩ := hc
  have hS := sizeMinusOne_of_pos hne hsize
  have hTo : toSizeT (c.steppedValuesIndex + 1) = c.steppedValuesIndex + 1 :=
    toSizeT_of_int_nonneg (by omega) (by omega)
  have hI : sizeToInt ((c.steppedValues.length : Int) - 1) = (c.steppedValues.length : Int) - 1 :=
    sizeToInt_of_int (by unfold INT_MIN; omega) (by omega)
  obtain ⟨entry, he⟩ := vecGet_isSome (v := c.steppedValues)
    (i := min (c.steppedValuesIndex + 1) ((c.steppedValues.length : Int) - 1))
    (by omega) (by omega)
  refine ⟨entry, he, ?_⟩
  unfold ActionContext.DoAcceleratedSteppedValueAction
  simp only [if_pos hd, hT, Option.some_bind, hS, hTo, hI]
  by_cases hfire : c.accumulatedIncTicks + 1 ≥ T
  · rw [if_pos hfire, if_pos hfire]
    by_cases htop : c.steppedValuesIndex + 1 > (c.steppedValues.length : Int) - 1
    · have hm : min (c.steppedValuesIndex + 1) ((c.steppedValues.length : Int) - 1)
          = (c.steppedValues.length : Int) - 1 := by omega
      rw [hm] at he ⊢
      simp only [if_pos htop, he, Option.map_some']
      rfl
    · have hm : min (c.steppedValuesIndex + 1) ((c.steppedValues.length : Int) - 1)
          = c.steppedValuesIndex + 1 := by omega
      rw [hm] at he ⊢
      simp only [if_neg htop, he, Option.map_some']
      rfl
  · rw [if_neg hfire, if_neg hfire]

theorem DoAcceleratedSteppedValueAction_dec (c : ActionContext) (a : Int) (delta : Double)
    (T : Int) (hne : 0 < c.steppedValues.length) (hc : c.CursorInRange)
    (hT : vecGet c.acceleratedTickValues (clampAccelerationIndex c.acceleratedTickValues a)
      = some T) (hd : delta < 0) :
    ∃ entry,
      vecGet c.steppedValues (max (c.steppedValuesIndex - 1) 0) = some entry ∧
      c.DoAcceleratedSteppedValueAction a delta =
        if c.accumulatedDecTicks + 1 ≥ T then
          some ({ c with accumulatedIncTicks := 0, accumulatedDecTicks := 0,
                         steppedValuesIndex := (max (c.steppedValuesIndex - 1) 0) },
            c.DoRangeBoundAction entry)
        else
          some ({ c with accumulatedDecTicks := c.accumulatedDecTicks + 1,
                         accumulatedIncTicks :=
                          (if c.accumulatedIncTicks - 1 < 0 then 0
                            else c.accumulatedIncTicks - 1) }, []) := by
  obtain ⟨h0, h1⟩ := hc
  have hnd : ¬ delta > 0 := not_lt.mpr (le_of_lt hd)
  obtain ⟨entry, he⟩ := vecGet_isSome (v := c.steppedValues)
    (i := max (c.steppedValuesIndex - 1) 0) (by omega) (by omega)
  refine ⟨entry, he, ?_⟩
  unfold ActionContext.DoAcceleratedSteppedValueAction
  simp only [if_neg hnd, if_pos hd, hT, Option.some_bind]
  by_cases hfire : c.accumulatedDecTicks + 1 ≥ T
  · rw [if_pos hfire, if_pos hfire]
    by_cases hneg : c.steppedValuesIndex - 1 < 0
    · have hm : max (c.steppedValuesIndex - 1) 0 = 0 := by omega
      rw [hm] at he ⊢
      simp only [if_pos hneg, he, Option.map_some']
      rfl
    · have hm : max (c.steppedValuesIndex - 1) 0 = c.steppedValuesIndex - 1 := by omega
      rw [hm] at he ⊢
      simp only [if_neg hneg, he, Option.map_some']
      rfl
  · rw [if_neg hfire, if_neg hfire]

theorem DoAcceleratedSteppedValueAction_zero (c : ActionContext) (a : Int) :
    c.DoAcceleratedSteppedValueAction a 0 = some (c, []) := by
  unfold ActionContext.DoAcceleratedSteppedValueAction
  simp

theorem DoAcceleratedSteppedValueAction_fault (c : ActionContext) (a : Int) (delta : Double)
    (hT : vecGet c.acceleratedTickValues (clampAccelerationIndex c.acceleratedTickValues a)
      = none) (hd : delta ≠ 0) :
    c.DoAcceleratedSteppedValueAction a delta = none := by
  unfold ActionContext.DoAcceleratedSteppedValueAction
  rcases lt_or_gt_of_ne hd with h | h
  · have hnd : ¬ delta > 0 := not_lt.mpr (le_of_lt h)
    simp only [if_neg hnd, if_pos h, hT, Option.none_bind]
  · simp only [if_pos h, hT, Option.none_bind]

/-! ### The acceleration index -/

theorem clampAccelerationIndex_of_nonneg {α : Type} (v : List α) (a : Int)
    (hne : 0 < v.length) (hsize : (v.length : Int) ≤ INT_MAX) (h0 : 0 ≤ a) (h1 : a ≤ INT_MAX) :
    clampAccelerationIndex v a = min a ((v.length : Int) - 1) := by
  unfold INT_MAX at hsize h1
  unfold clampAccelerationIndex toSizeT sizeToInt sizeMinusOne
  simp only
  split_ifs <;> omega

theorem clampAccelerationIndex_of_neg {α : Type} (v : List α) (a : Int)
    (hne : 0 < v.length) (hsize : (v.length : Int) ≤ INT_MAX) (h0 : INT_MIN ≤ a) (h1 : a < 0) :
    clampAccelerationIndex v a = (v.length : Int) - 1 := by
  unfold INT_MAX at hsize
  unfold INT_MIN at h0
  unfold clampAccelerationIndex toSizeT sizeToInt sizeMinusOne
  simp only
  split_ifs <;> omega

theorem clampAccelerationIndex_mem {α : Type} (v : List α) (a : Int)
    (hne : 0 < v.length) (hsize : (v.length : Int) ≤ INT_MAX)
    (h0 : INT_MIN ≤ a) (h1 : a ≤ INT_MAX) :
    0 ≤ clampAccelerationIndex v a ∧ clampAccelerationIndex v a ≤ (v.length : Int) - 1 := by
  rcases lt_or_le a 0 with h | h
  · rw [clampAccelerationIndex_of_neg v a hne hsize h0 h]; omega
  · rw [clampAccelerationIndex_of_nonneg v a hne hsize h h1]; omega

/-! ### The cursor invariant -/

/-- C3: with a non-empty stepped table and the cursor in `0 ≤ steppedValuesIndex ≤ size - 1`,
each of `DoAction(value)`, `DoRelativeAction(delta)` and
`DoRelativeAction(accelerationIndex, delta)` leaves the table as it is and the cursor in
range, for every argument: the first two always return, and the third returns unless its
read of the tick table faults, which it does not when that table is non-empty (as the
constructor leaves it) and `accelerationIndex` is an `int`. -/
theorem C3_cursor_invariant (c : ActionContext) (now value current delta : Double) (a : Int)
    (hne : 0 < c.steppedValues.length) (hsize : (c.steppedValues.length : Int) ≤ INT_MAX)
    (hc : c.CursorInRange) :
    (∃ c1 out, c.DoAction now value = some (c1, out) ∧
      c1.steppedValues = c.steppedValues ∧ c1.CursorInRange) ∧
    (∃ c1 out, c.DoRelativeAction current delta = some (c1, out) ∧
      c1.steppedValues = c.steppedValues ∧ c1.CursorInRange) ∧
    ((∃ c1 out, c.DoRelativeActionAccelerated current a delta = some (c1, out) ∧
        c1.steppedValues = c.steppedValues ∧ c1.CursorInRange) ∨
      (c.DoRelativeActionAccelerated current a delta = none ∧
        vecGet c.acceleratedTickValues (clampAccelerationIndex c.acceleratedTickValues a)
          = none)) ∧
    (0 < c.acceleratedTickValues.length → (c.acceleratedTickValues.length : Int) ≤ INT_MAX →
      INT_MIN ≤ a → a ≤ INT_MAX →
      ∃ c1 out, c.DoRelativeActionAccelerated current a delta = some (c1, out) ∧
        c1.steppedValues = c.steppedValues ∧ c1.CursorInRange) := by
  have hc' := hc
  obtain ⟨h0, h1⟩ := hc'
  have hacc : c.DoRelativeActionAccelerated current a delta
      = c.DoAcceleratedSteppedValueAction a delta := by
    unfold ActionContext.DoRelativeActionAccelerated
    rw [if_pos (show c.steppedValues.length > 0 from hne)]
  have hsome : ∀ T, vecGet c.acceleratedTickValues
      (clampAccelerationIndex c.acceleratedTickValues a) = some T →
      ∃ c1 out, c.DoRelativeActionAccelerated current a delta = some (c1, out) ∧
        c1.steppedValues = c.steppedValues ∧ c1.CursorInRange := by
    intro T hT
    rw [hacc]
    rcases lt_trichotomy delta 0 with hd | hd | hd
    · obtain ⟨entry, _, hD⟩ := DoAcceleratedSteppedValueAction_dec c a delta T hne hc hT hd
      rw [hD]
      by_cases hfire : c.accumulatedDecTicks + 1 ≥ T
      · rw [if_pos hfire]
        exact ⟨_, _, rfl, rfl, by constructor <;> simp only <;> omega⟩
      · rw [if_neg hfire]
        exact ⟨_, _, rfl, rfl, hc⟩
    · rw [hd, DoAcceleratedSteppedValueAction_zero]
      exact ⟨_, _, rfl, rfl, hc⟩
    · obtain ⟨entry, _, hD⟩ := DoAcceleratedSteppedValueAction_inc c a delta T hne hsize hc hT hd
      rw [hD]
      by_cases hfire : c.accumulatedIncTicks + 1 ≥ T
      · rw [if_pos hfire]
        exact ⟨_, _, rfl, rfl, by constructor <;> simp only <;> omega⟩
      · rw [if_neg hfire]
        exact ⟨_, _, rfl, rfl, hc⟩
  refine ⟨?_, ?_, ?_, ?_⟩
  · by_cases hhold : c.holdDelayAmount = 0
    · by_cases hv : value = 0
      · refine ⟨c, [], ?_, rfl, hc⟩
        unfold ActionContext.DoAction
        rw [if_neg (show ¬ c.holdDelayAmount ≠ 0 from not_not.mpr hhold),
          if_pos (show c.steppedValues.length > 0 from hne),
          if_neg (show ¬ value ≠ 0 from not_not.mpr hv)]
      · obtain ⟨first, last, entry, _, _, _, hD⟩ :=
          DoAction_stepped_rule c now value hhold hne hsize hc hv
        rw [hD]
        refine ⟨_, _, rfl, rfl, ?_⟩
        constructor <;> simp only <;> split_ifs <;> omega
    · unfold ActionContext.DoAction
      rw [if_pos hhold]
      by_cases hv : value = 0
      · rw [if_pos hv]; exact ⟨_, _, rfl, rfl, hc⟩
      · rw [if_neg hv]; exact ⟨_, _, rfl, rfl, hc⟩
  · have hrel : c.DoRelativeAction current delta = c.DoSteppedValueAction delta := by
      unfold ActionContext.DoRelativeAction
      rw [if_pos (show c.steppedValues.length > 0 from hne)]
    rw [hrel]
    by_cases hd : delta > 0
    · obtain ⟨entry, _, hD⟩ := DoSteppedValueAction_up c delta hne hsize hc hd
      rw [hD]
      exact ⟨_, _, rfl, rfl, by constructor <;> simp only <;> omega⟩
    · obtain ⟨entry, _, hD⟩ := DoSteppedValueAction_down c delta hne hc hd
      rw [hD]
      exact ⟨_, _, rfl, rfl, by constructor <;> simp only <;> omega⟩
  · cases hT : vecGet c.acceleratedTickValues
        (clampAccelerationIndex c.acceleratedTickValues a) with
    | some T => exact Or.inl (hsome T hT)
    | none =>
      by_cases hd : delta = 0
      · left
        rw [hacc, hd, DoAcceleratedSteppedValueAction_zero]
        exact ⟨_, _, rfl, rfl, hc⟩
      · right
        rw [hacc]
        exact ⟨DoAcceleratedSteppedValueAction_fault c a delta hT hd, rfl⟩
  · intro ht0 ht1 ha0 ha1
    obtain ⟨hm0, hm1⟩ := clampAccelerationIndex_mem c.acceleratedTickValues a ht0 ht1 ha0 ha1
    obtain ⟨T, hT⟩ := vecGet_isSome (v := c.acceleratedTickValues) hm0 hm1
    exact hsome T hT

/-- Witness of C3 at the top of the table `[0, 1/2, 1]`. -/
theorem C3_cursor_invariant_witness :
    ({ steppedContext [0, 1 / 2, 1] with steppedValuesIndex := 2 } : ActionContext).CursorInRange ∧
    ∃ c1 out,
      ({ steppedContext [0, 1 / 2, 1] with steppedValuesIndex := 2 } :
        ActionContext).DoRelativeActionAccelerated 0 (-3) 1 = some (c1, out) ∧
      c1.steppedValues = [0, 1 / 2, 1] ∧ c1.CursorInRange := by
  have hc : ({ steppedContext [0, 1 / 2, 1] with steppedValuesIndex := 2 } :
      ActionContext).CursorInRange := by
    constructor <;> simp [steppedContext]
  exact ⟨hc, (C3_cursor_invariant
    { steppedContext [0, 1 / 2, 1] with steppedValuesIndex := 2 } 0 1 0 1 (-3)
    (by simp [steppedContext]) (by simp [steppedContext, INT_MAX]) hc).2.2.2
    (by simp [steppedContext]) (by simp [steppedContext, INT_MAX])
    (by simp [INT_MIN]) (by simp [INT_MAX])⟩

/-! ### Tick accumulation -/

theorem relativeTick_inc_quiet (c : ActionContext) (a : Int) (e : Double × Double) (T : Int)
    (hne : 0 < c.steppedValues.length) (hsize : (c.steppedValues.length : Int) ≤ INT_MAX)
    (hc : c.CursorInRange)
    (hT : vecGet c.acceleratedTickValues (clampAccelerationIndex c.acceleratedTickValues a)
      = some T) (hd : e.2 > 0) (hdec : c.accumulatedDecTicks = 0)
    (hlt : c.accumulatedIncTicks + 1 < T) :
    relativeTick a c e =
      some ({ c with accumulatedIncTicks := c.accumulatedIncTicks + 1 }, []) := by
  obtain ⟨entry, _, hD⟩ := DoAcceleratedSteppedValueAction_inc c a e.2 T hne hsize hc hT hd
  unfold relativeTick ActionContext.DoRelativeActionAccelerated
  rw [if_pos (show c.steppedValues.length > 0 from hne), hD, if_neg (by omega), hdec]
  have h0 : (if (0 : Int) - 1 < 0 then (0 : Int) else 0 - 1) = 0 := by decide
  rw [h0, ← hdec]

theorem relativeTick_inc_fire (c : ActionContext) (a : Int) (e : Double × Double) (T : Int)
    (hne : 0 < c.steppedValues.length) (hsize : (c.steppedValues.length : Int) ≤ INT_MAX)
    (hc : c.CursorInRange)
    (hT : vecGet c.acceleratedTickValues (clampAccelerationIndex c.acceleratedTickValues a)
      = some T) (hd : e.2 > 0) (hge : c.accumulatedIncTicks + 1 ≥ T)
    (hbelow : c.steppedValuesIndex < (c.steppedValues.length : Int) - 1) :
    ∃ entry, vecGet c.steppedValues (c.steppedValuesIndex + 1) = some entry ∧
      relativeTick a c e =
        some ({ c with accumulatedIncTicks := 0, accumulatedDecTicks := 0,
                       steppedValuesIndex := c.steppedValuesIndex + 1 },
          c.DoRangeBoundAction entry) := by
  obtain ⟨entry, he, hD⟩ := DoAcceleratedSteppedValueAction_inc c a e.2 T hne hsize hc hT hd
  have hm : min (c.steppedValuesIndex + 1) ((c.steppedValues.length : Int) - 1)
      = c.steppedValuesIndex + 1 := by omega
  rw [hm] at he hD
  refine ⟨entry, he, ?_⟩
  unfold relativeTick ActionContext.DoRelativeActionAccelerated
  rw [if_pos (show c.steppedValues.length > 0 from hne), hD, if_pos hge]

theorem relativeTick_dec_quiet (c : ActionContext) (a : Int) (e : Double × Double) (T : Int)
    (hne : 0 < c.steppedValues.length) (hc : c.CursorInRange)
    (hT : vecGet c.acceleratedTickValues (clampAccelerationIndex c.acceleratedTickValues a)
      = some T) (hd : e.2 < 0) (hinc : c.accumulatedIncTicks = 0)
    (hlt : c.accumulatedDecTicks + 1 < T) :
    relativeTick a c e =
      some ({ c with accumulatedDecTicks := c.accumulatedDecTicks + 1 }, []) := by
  obtain ⟨entry, _, hD⟩ := DoAcceleratedSteppedValueAction_dec c a e.2 T hne hc hT hd
  unfold relativeTick ActionContext.DoRelativeActionAccelerated
  rw [if_pos (show c.steppedValues.length > 0 from hne), hD, if_neg (by omega), hinc]
  have h0 : (if (0 : Int) - 1 < 0 then (0 : Int) else 0 - 1) = 0 := by decide
  rw [h0, ← hinc]

theorem relativeTick_dec_fire (c : ActionContext) (a : Int) (e : Double × Double) (T : Int)
    (hne : 0 < c.steppedValues.length) (hc : c.CursorInRange)
    (hT : vecGet c.acceleratedTickValues (clampAccelerationIndex c.acceleratedTickValues a)
      = some T) (hd : e.2 < 0) (hge : c.accumulatedDecTicks + 1 ≥ T)
    (habove : 0 < c.steppedValuesIndex) :
    ∃ entry, vecGet c.steppedValues (c.steppedValuesIndex - 1) = some entry ∧
      relativeTick a c e =
        some ({ c with accumulatedIncTicks := 0, accumulatedDecTicks := 0,
                       steppedValuesIndex := c.steppedValuesIndex - 1 },
          c.DoRangeBoundAction entry) := by
  obtain ⟨entry, he, hD⟩ := DoAcceleratedSteppedValueAction_dec c a e.2 T hne hc hT hd
  have hm : max (c.steppedValuesIndex - 1) 0 = c.steppedValuesIndex - 1 := by omega
  rw [hm] at he hD
  refine ⟨entry, he, ?_⟩
  unfold relativeTick ActionContext.DoRelativeActionAccelerated
  rw [if_pos (show c.steppedValues.length > 0 from hne), hD, if_pos hge]

theorem inc_run_quiet (a : Int) (T : Int) (evs : List (Double × Double)) :
    ∀ c : ActionContext, 0 < c.steppedValues.length →
      (c.steppedValues.length : Int) ≤ INT_MAX → c.CursorInRange →
      vecGet c.acceleratedTickValues (clampAccelerationIndex c.acceleratedTickValues a)
        = some T →
      c.accumulatedDecTicks = 0 → c.accumulatedIncTicks + (evs.length : Int) < T →
      (∀ e ∈ evs, e.2 > 0) →
      runAll (relativeTick a) c evs =
        some ({ c with accumulatedIncTicks := c.accumulatedIncTicks + (evs.length : Int) },
          []) := by
  induction evs with
  | nil =>
    intro c _ _ _ _ _ _ _
    rw [runAll_nil]
    simp
  | cons e rest ih =>
    intro c hne hsize hc hT hdec hlt hall
    rw [List.length_cons] at hlt
    push_cast at hlt
    have hstep := relativeTick_inc_quiet c a e T hne hsize hc hT
      (hall e (List.mem_cons_self e rest)) hdec (by omega)
    have hrest := ih { c with accumulatedIncTicks := c.accumulatedIncTicks + 1 }
      hne hsize hc hT hdec (by simp only; omega)
      (fun x hx => hall x (List.mem_cons_of_mem e hx))
    rw [runAll_cons_of_some _ c _ _ e rest _ _ hstep hrest, List.length_cons]
    simp only [List.append_nil, Nat.cast_add, Nat.cast_one]
    have harith : c.accumulatedIncTicks + 1 + (rest.length : Int)
        = c.accumulatedIncTicks + ((rest.length : Int) + 1) := by omega
    rw [harith]

theorem inc_run_fire (a : Int) (T : Int) (evs : List (Double × Double)) :
    ∀ c : ActionContext, 0 < c.steppedValues.length →
      (c.steppedValues.length : Int) ≤ INT_MAX → c.CursorInRange →
      vecGet c.acceleratedTickValues (clampAccelerationIndex c.acceleratedTickValues a)
        = some T →
      c.accumulatedDecTicks = 0 → c.accumulatedIncTicks + (evs.length : Int) = T →
      evs ≠ [] → (∀ e ∈ evs, e.2 > 0) →
      c.steppedValuesIndex < (c.steppedValues.length : Int) - 1 →
      ∃ entry, vecGet c.steppedValues (c.steppedValuesIndex + 1) = some entry ∧
        runAll (relativeTick a) c evs =
          some ({ c with accumulatedIncTicks := 0, accumulatedDecTicks := 0,
                         steppedValuesIndex := c.steppedValuesIndex + 1 },
            c.DoRangeBoundAction entry) := by
  induction evs with
  | nil => intro c _ _ _ _ _ _ hne; exact absurd rfl hne
  | cons e rest ih =>
    intro c hne hsize hc hT hdec hlen _ hall hbelow
    rw [List.length_cons] at hlen
    push_cast at hlen
    by_cases hrest : rest = []
    · subst hrest
      obtain ⟨entry, he, hD⟩ := relativeTick_inc_fire c a e T hne hsize hc hT
        (hall e (List.mem_cons_self e [])) (by simp at hlen; omega) hbelow
      refine ⟨entry, he, ?_⟩
      rw [runAll_cons_of_some _ c _ _ e [] _ _ hD (runAll_nil _ _), List.append_nil]
    · have hpos : 0 < rest.length := List.length_pos.mpr hrest
      have hstep := relativeTick_inc_quiet c a e T hne hsize hc hT
        (hall e (List.mem_cons_self e rest)) hdec (by omega)
      obtain ⟨entry, he, hR⟩ := ih { c with accumulatedIncTicks := c.accumulatedIncTicks + 1 }
        hne hsize hc hT hdec (by simp only; omega) hrest
        (fun x hx => hall x (List.mem_cons_of_mem e hx)) hbelow
      refine ⟨entry, he, ?_⟩
      rw [runAll_cons_of_some _ c _ _ e rest _ _ hstep hR, List.nil_append]
      rfl

theorem dec_run_quiet (a : Int) (T : Int) (evs : List (Double × Double)) :
    ∀ c : ActionContext, 0 < c.steppedValues.length → c.CursorInRange →
      vecGet c.acceleratedTickValues (clampAccelerationIndex c.acceleratedTickValues a)
        = some T →
      c.accumulatedIncTicks = 0 → c.accumulatedDecTicks + (evs.length : Int) < T →
      (∀ e ∈ evs, e.2 < 0) →
      runAll (relativeTick a) c evs =
        some ({ c with accumulatedDecTicks := c.accumulatedDecTicks + (evs.length : Int) },
          []) := by
  induction evs with
  | nil =>
    intro c _ _ _ _ _ _
    rw [runAll_nil]
    simp
  | cons e rest ih =>
    intro c hne hc hT hinc hlt hall
    rw [List.length_cons] at hlt
    push_cast at hlt
    have hstep := relativeTick_dec_quiet c a e T hne hc hT
      (hall e (List.mem_cons_self e rest)) hinc (by omega)
    have hrest := ih { c with accumulatedDecTicks := c.accumulatedDecTicks + 1 }
      hne hc hT hinc (by simp only; omega)
      (fun x hx => hall x (List.mem_cons_of_mem e hx))
    rw [runAll_cons_of_some _ c _ _ e rest _ _ hstep hrest, List.length_cons]
    simp only [List.append_nil, Nat.cast_add, Nat.cast_one]
    have harith : c.accumulatedDecTicks + 1 + (rest.length : Int)
        = c.accumulatedDecTicks + ((rest.length : Int) + 1) := by omega
    rw [harith]

theorem dec_run_fire (a : Int) (T : Int) (evs : List (Double × Double)) :
    ∀ c : ActionContext, 0 < c.steppedValues.length → c.CursorInRange →
      vecGet c.acceleratedTickValues (clampAccelerationIndex c.acceleratedTickValues a)
        = some T →
      c.accumulatedIncTicks = 0 → c.accumulatedDecTicks + (evs.length : Int) = T →
      evs ≠ [] → (∀ e ∈ evs, e.2 < 0) → 0 < c.steppedValuesIndex →
      ∃ entry, vecGet c.steppedValues (c.steppedValuesIndex - 1) = some entry ∧
        runAll (relativeTick a) c evs =
          some ({ c with accumulatedIncTicks := 0, accumulatedDecTicks := 0,
                         steppedValuesIndex := c.steppedValuesIndex - 1 },
            c.DoRangeBoundAction entry) := by
  induction evs with
  | nil => intro c _ _ _ _ _ hne; exact absurd rfl hne
  | cons e rest ih =>
    intro c hne hc hT hinc hlen _ hall habove
    rw [List.length_cons] at hlen
    push_cast at hlen
    by_cases hrest : rest = []
    · subst hrest
      obtain ⟨entry, he, hD⟩ := relativeTick_dec_fire c a e T hne hc hT
        (hall e (List.mem_cons_self e [])) (by simp at hlen; omega) habove
      refine ⟨entry, he, ?_⟩
      rw [runAll_cons_of_some _ c _ _ e [] _ _ hD (runAll_nil _ _), List.append_nil]
    · have hpos : 0 < rest.length := List.length_pos.mpr hrest
      have hstep := relativeTick_dec_quiet c a e T hne hc hT
        (hall e (List.mem_cons_self e rest)) hinc (by omega)
      obtain ⟨entry, he, hR⟩ := ih { c with accumulatedDecTicks := c.accumulatedDecTicks + 1 }
        hne hc hT hinc (by simp only; omega) hrest
        (fun x hx => hall x (List.mem_cons_of_mem e hx)) habove
      refine ⟨entry, he, ?_⟩
      rw [runAll_cons_of_some _ c _ _ e rest _ _ hstep hR, List.nil_append]
      rfl

/-- C4, the claim as stated fails: with the table `[0, 2]`, the default range `[0, 1]` and the
tick threshold `1`, one positive tick advances the cursor to index 1, whose entry is `2`,
but the action receives `1`. -/
theorem C4_counterexample :
    vecGet [(1 : Int)] (clampAccelerationIndex [(1 : Int)] 0) = some 1 ∧
    runAll (relativeTick 0)
        ({ steppedContext [0, 2] with acceleratedTickValues := [1] } : ActionContext) [(0, 1)] =
      some ({ steppedContext [0, 2] with acceleratedTickValues := [1], steppedValuesIndex := 1 },
        [1]) ∧
    vecGet (steppedContext [0, 2]).steppedValues 1 = some 2 ∧
    ([1] : List Double) ≠ [2] := by
  refine ⟨by decide, ?_, ?_, ?_⟩
  · have hidx : clampAccelerationIndex [(1 : Int)] 0 = 0 := by decide
    simp [runAll, relativeTick, steppedContext, ActionContext.DoRelativeActionAccelerated,
      ActionContext.DoAcceleratedSteppedValueAction, ActionContext.DoRangeBoundAction, hidx,
      toSizeT, sizeMinusOne, vecGet]
  · simp [steppedContext, vecGet]
  · norm_num

/-- C4 (amended): let `T ≥ 1` be the tick threshold read at the acceleration index the code
selects, both tick counters be 0 and the cursor be in range.  For ticks
`DoRelativeAction(accelerationIndex, delta)` with `delta > 0` and a cursor below the top
index: fewer than `T` of them dispatch nothing and only count, and `T` of them advance the
cursor by exactly one position, hand the action the range-clamped entry at the new cursor
once, and leave both counters at 0.  Symmetrically for `delta < 0` and a cursor above 0. -/
theorem C4_accelerated_stepped_ticks (c : ActionContext) (a : Int) (T : Int)
    (evs : List (Double × Double))
    (hne : 0 < c.steppedValues.length) (hsize : (c.steppedValues.length : Int) ≤ INT_MAX)
    (hc : c.CursorInRange)
    (hT : vecGet c.acceleratedTickValues (clampAccelerationIndex c.acceleratedTickValues a)
      = some T) (hT1 : 1 ≤ T)
    (hinc : c.accumulatedIncTicks = 0) (hdec : c.accumulatedDecTicks = 0) :
    ((∀ e ∈ evs, e.2 > 0) → c.steppedValuesIndex < (c.steppedValues.length : Int) - 1 →
      ((evs.length : Int) < T →
        runAll (relativeTick a) c evs =
          some ({ c with accumulatedIncTicks := (evs.length : Int) }, [])) ∧
      ((evs.length : Int) = T →
        ∃ entry, vecGet c.steppedValues (c.steppedValuesIndex + 1) = some entry ∧
          runAll (relativeTick a) c evs =
            some ({ c with accumulatedIncTicks := 0, accumulatedDecTicks := 0,
                           steppedValuesIndex := c.steppedValuesIndex + 1 },
              c.DoRangeBoundAction entry))) ∧
    ((∀ e ∈ evs, e.2 < 0) → 0 < c.steppedValuesIndex →
      ((evs.length : Int) < T →
        runAll (relativeTick a) c evs =
          some ({ c with accumulatedDecTicks := (evs.length : Int) }, [])) ∧
      ((evs.length : Int) = T →
        ∃ entry, vecGet c.steppedValues (c.steppedValuesIndex - 1) = some entry ∧
          runAll (relativeTick a) c evs =
            some ({ c with accumulatedIncTicks := 0, accumulatedDecTicks := 0,
                           steppedValuesIndex := c.steppedValuesIndex - 1 },
              c.DoRangeBoundAction entry))) := by
  have hnonempty : (evs.length : Int) = T → evs ≠ [] := by
    intro h he
    rw [he] at h
    simp at h
    omega
  refine ⟨fun hall hbelow => ⟨fun hlt => ?_, fun heq => ?_⟩,
    fun hall habove => ⟨fun hlt => ?_, fun heq => ?_⟩⟩
  · have h := inc_run_quiet a T evs c hne hsize hc hT hdec (by omega) hall
    rw [h, hinc, zero_add]
  · exact inc_run_fire a T evs c hne hsize hc hT hdec (by omega) (hnonempty heq) hall hbelow
  · have h := dec_run_quiet a T evs c hne hc hT hinc (by omega) hall
    rw [h, hdec, zero_add]
  · exact dec_run_fire a T evs c hne hc hT hinc (by omega) (hnonempty heq) hall habove

/-- Witness of C4: with the tick threshold 4 at acceleration index 0, four positive ticks on
the table `[0, 1/2, 1]` advance the cursor from 0 to 1 and dispatch `1/2` once. -/
theorem C4_accelerated_stepped_ticks_witness :
    vecGet [(4 : Int)] (clampAccelerationIndex [(4 : Int)] 0) = some 4 ∧
    runAll (relativeTick 0) (sampleContext [0, 1 / 2, 1] 0 [4] 0 0)
        [(0, 1), (0, 1), (0, 3), (0, 1)] =
      some (sampleContext [0, 1 / 2, 1] 1 [4] 0 0, [1 / 2]) := by
  have hT : vecGet [(4 : Int)] (clampAccelerationIndex [(4 : Int)] 0) = some 4 := by decide
  have hc : (sampleContext [0, 1 / 2, 1] 0 [4] 0 0).CursorInRange := by
    constructor <;> simp [sampleContext]
  obtain ⟨entry, he, hR⟩ := ((C4_accelerated_stepped_ticks
    (sampleContext [0, 1 / 2, 1] 0 [4] 0 0) 0 4 [(0, 1), (0, 1), (0, 3), (0, 1)]
    (by simp [sampleContext]) (by simp [sampleContext, INT_MAX]) hc hT (by decide)
    rfl rfl).1 (by simp) (by simp [sampleContext])).2 (by simp)
  refine ⟨hT, ?_⟩
  rw [hR]
  simp [sampleContext, vecGet] at he
  subst he
  simp [sampleContext, ActionContext.DoRangeBoundAction]
  norm_num

/-- C5: an opposite tick decrements, it does not reset.  With the tick threshold `T > 1`,
`0 < k < T`, `k` accumulated increase ticks and no decrease tick, one
`DoRelativeAction(accelerationIndex, delta)` with `delta < 0` leaves
`accumulatedIncTicks = k - 1` and `accumulatedDecTicks = 1`, moves no cursor and dispatches
nothing; and a counter that is 0 is still 0 after a tick of the opposite direction. -/
theorem C5_opposite_tick_decrements (c : ActionContext) (current delta : Double)
    (a : Int) (T k : Int) (hne : 0 < c.steppedValues.length)
    (hT : vecGet c.acceleratedTickValues (clampAccelerationIndex c.acceleratedTickValues a)
      = some T) :
    (1 < T → 0 < k → k < T → c.accumulatedIncTicks = k → c.accumulatedDecTicks = 0 →
      delta < 0 →
      c.DoRelativeActionAccelerated current a delta =
        some ({ c with accumulatedIncTicks := k - 1, accumulatedDecTicks := 1 }, [])) ∧
    (c.CursorInRange → (c.steppedValues.length : Int) ≤ INT_MAX →
      c.accumulatedIncTicks = 0 → delta < 0 →
      ∃ c1 out, c.DoRelativeActionAccelerated current a delta = some (c1, out) ∧
        c1.accumulatedIncTicks = 0) ∧
    (c.CursorInRange → (c.steppedValues.length : Int) ≤ INT_MAX →
      c.accumulatedDecTicks = 0 → delta > 0 →
      ∃ c1 out, c.DoRelativeActionAccelerated current a delta = some (c1, out) ∧
        c1.accumulatedDecTicks = 0) := by
  have hacc : c.DoRelativeActionAccelerated current a delta
      = c.DoAcceleratedSteppedValueAction a delta := by
    unfold ActionContext.DoRelativeActionAccelerated
    rw [if_pos (show c.steppedValues.length > 0 from hne)]
  rw [hacc]
  refine ⟨fun hT1 hk0 hkT hinc hdec hd => ?_, fun hc hsize hinc hd => ?_,
    fun hc hsize hdec hd => ?_⟩
  · have hnd : ¬ delta > 0 := not_lt.mpr (le_of_lt hd)
    unfold ActionContext.DoAcceleratedSteppedValueAction
    simp only [if_neg hnd, if_pos hd, hT, Option.some_bind, hdec, hinc]
    rw [if_neg (by omega), if_neg (by omega)]
    rfl
  · obtain ⟨entry, _, hD⟩ := DoAcceleratedSteppedValueAction_dec c a delta T hne hc hT hd
    rw [hD]
    by_cases hfire : c.accumulatedDecTicks + 1 ≥ T
    · rw [if_pos hfire]; exact ⟨_, _, rfl, rfl⟩
    · rw [if_neg hfire]
      refine ⟨_, _, rfl, ?_⟩
      simp only [hinc]
      decide
  · obtain ⟨entry, _, hD⟩ := DoAcceleratedSteppedValueAction_inc c a delta T hne hsize hc hT hd
    rw [hD]
    by_cases hfire : c.accumulatedIncTicks + 1 ≥ T
    · rw [if_pos hfire]; exact ⟨_, _, rfl, rfl⟩
    · rw [if_neg hfire]
      refine ⟨_, _, rfl, ?_⟩
      simp only [hdec]
      decide

/-- Witness of C5: threshold 4, three increase ticks accumulated, then one decrease tick. -/
theorem C5_opposite_tick_decrements_witness :
    vecGet [(4 : Int)] (clampAccelerationIndex [(4 : Int)] 0) = some 4 ∧
    (sampleContext [0, 1 / 2, 1] 0 [4] 3 0).DoRelativeActionAccelerated 0 0 (-1) =
      some (sampleContext [0, 1 / 2, 1] 0 [4] 2 1, []) := by
  have hT : vecGet [(4 : Int)] (clampAccelerationIndex [(4 : Int)] 0) = some 4 := by decide
  exact ⟨hT, (C5_opposite_tick_decrements (sampleContext [0, 1 / 2, 1] 0 [4] 3 0)
    0 (-1) 0 4 3 (by simp [sampleContext]) hT).1
    (by decide) (by decide) (by decide) rfl rfl (by norm_num)⟩

/-! ### Accelerated continuous movement -/

theorem DoAcceleratedDeltaValueAction_of_nonneg (c : ActionContext) (current delta : Double)
    (a : Int) (hne : 0 < c.acceleratedDeltaValues.length)
    (hsize : (c.acceleratedDeltaValues.length : Int) ≤ INT_MAX) (h0 : 0 ≤ a) (h1 : a ≤ INT_MAX) :
    ∃ entry,
      vecGet c.acceleratedDeltaValues (min a ((c.acceleratedDeltaValues.length : Int) - 1))
        = some entry ∧
      c.DoAcceleratedDeltaValueAction current a delta =
        some (c, c.DoRangeBoundAction (if delta > 0 then current + entry else current - entry)) := by
  obtain ⟨entry, he⟩ := vecGet_isSome (v := c.acceleratedDeltaValues)
    (i := min a ((c.acceleratedDeltaValues.length : Int) - 1)) (by omega) (by omega)
  refine ⟨entry, he, ?_⟩
  unfold ActionContext.DoAcceleratedDeltaValueAction
  simp only [clampAccelerationIndex_of_nonneg _ a hne hsize h0 h1, he, Option.map_some']
  by_cases hd : delta > 0
  · rw [if_pos hd, if_pos hd]
  · rw [if_neg hd, if_neg hd]

theorem DoAcceleratedDeltaValueAction_of_neg (c : ActionContext) (current delta : Double)
    (a : Int) (hne : 0 < c.acceleratedDeltaValues.length)
    (hsize : (c.acceleratedDeltaValues.length : Int) ≤ INT_MAX) (h0 : INT_MIN ≤ a) (h1 : a < 0) :
    ∃ entry,
      vecGet c.acceleratedDeltaValues ((c.acceleratedDeltaValues.length : Int) - 1)
        = some entry ∧
      c.DoAcceleratedDeltaValueAction current a delta =
        some (c, c.DoRangeBoundAction (if delta > 0 then current + entry else current - entry)) := by
  obtain ⟨entry, he⟩ := vecGet_isSome (v := c.acceleratedDeltaValues)
    (i := (c.acceleratedDeltaValues.length : Int) - 1) (by omega) (by omega)
  refine ⟨entry, he, ?_⟩
  unfold ActionContext.DoAcceleratedDeltaValueAction
  simp only [clampAccelerationIndex_of_neg _ a hne hsize h0 h1, he, Option.map_some']
  by_cases hd : delta > 0
  · rw [if_pos hd, if_pos hd]
  · rw [if_neg hd, if_neg hd]

/-- C6, the code at the failing input: with the accelerated-delta table `[1/10, 1/5, 3/10]`
the acceleration index `-1` selects index 2, the last entry, where
`min (max accelerationIndex 0) (size - 1)` is 0; with the current value `1/2` and a positive
delta the action receives `1/2 + 3/10 = 4/5`, not `1/2 + 1/10 = 3/5`.  The tick table of the
accelerated stepped action is indexed by the same two assignments. -/
theorem C6_negative_index_selects_last_entry :
    clampAccelerationIndex deltaContext.acceleratedDeltaValues (-1) = 2 ∧
    min (max (-1 : Int) 0) ((deltaContext.acceleratedDeltaValues.length : Int) - 1) = 0 ∧
    deltaContext.DoRelativeActionAccelerated (1 / 2) (-1) 1 = some (deltaContext, [4 / 5]) ∧
    clampAccelerationIndex [(4 : Int), 2, 1] (-1) = 2 := by
  refine ⟨by decide, by decide, ?_, by decide⟩
  have hacc : deltaContext.DoRelativeActionAccelerated (1 / 2) (-1) 1
      = deltaContext.DoAcceleratedDeltaValueAction (1 / 2) (-1) 1 := by
    simp [ActionContext.DoRelativeActionAccelerated, deltaContext]
  obtain ⟨entry, he, hD⟩ := DoAcceleratedDeltaValueAction_of_neg deltaContext (1 / 2) 1 (-1)
    (by simp [deltaContext]) (by simp [deltaContext, INT_MAX]) (by simp [INT_MIN]) (by decide)
  rw [hacc, hD]
  simp [deltaContext, vecGet] at he
  subst he
  simp [deltaContext, ActionContext.DoRangeBoundAction]
  norm_num

/-! ### Hold-delay deferral -/

theorem poll_idle (times : List Double) :
    ∀ c : ActionContext, c.delayStartTime = 0 → runAll poll c times = some (c, []) := by
  induction times with
  | nil => intro c _; rfl
  | cons t rest ih =>
    intro c h
    have hstep : poll c t = some (c, []) := by
      unfold poll ActionContext.RunDeferredActions
      rw [if_neg (fun hh => hh.2.1 h)]
    rw [runAll_cons_of_some poll c c c t rest [] [] hstep (ih c h)]
    rfl

/-- C7, the claim as stated fails: a press buffered when the clock reads 0 is never
dispatched, although the delay has elapsed (hold-delay 1, press at time 0, refresh at
time 5). -/
theorem C7_counterexample :
    holdContext.holdDelayAmount = 1 ∧
    holdContext.DoAction 0 1 = some ({ holdContext with deferredValue := 1 }, []) ∧
    (5 : Double) > 0 + holdContext.holdDelayAmount ∧
    ({ holdContext with deferredValue := 1 } : ActionContext).RunDeferredActions 5 =
      ({ holdContext with deferredValue := 1 }, []) := by
  refine ⟨rfl, ?_, ?_, ?_⟩
  · simp [holdContext, ActionContext.DoAction]
  · norm_num [holdContext]
  · simp [holdContext, ActionContext.RunDeferredActions]

/-- C7 (amended): with a hold-delay `d ≠ 0`, `DoAction` never invokes the action.  After
`DoAction(v)`, `v ≠ 0`, buffered at a time `t0 ≠ 0`, `RunDeferredActions` at time `t` hands
the action the range-clamped `v` when `t > t0 + d` and nothing otherwise (leaving the buffer
as it is); once it has fired the buffer is cleared and later refreshes dispatch nothing; and
a `DoAction(0)` on the buffered context clears the buffer, after which no refresh
dispatches anything. -/
theorem C7_hold_delay_deferral (c : ActionContext) (t0 v t : Double)
    (hd : c.holdDelayAmount ≠ 0) (hv : v ≠ 0) (ht0 : t0 ≠ 0) :
    (∀ now value, ∃ c1, c.DoAction now value = some (c1, []) ∧
      c1.holdDelayAmount = c.holdDelayAmount) ∧
    (∃ c1, c.DoAction t0 v = some (c1, []) ∧
      (t > t0 + c.holdDelayAmount →
        (c1.RunDeferredActions t).2 = c.DoRangeBoundAction v ∧
        ∀ times, runAll poll (c1.RunDeferredActions t).1 times
          = some ((c1.RunDeferredActions t).1, [])) ∧
      (¬ t > t0 + c.holdDelayAmount → c1.RunDeferredActions t = (c1, [])) ∧
      (∀ now, ∃ c2, c1.DoAction now 0 = some (c2, []) ∧
        ∀ times, runAll poll c2 times = some (c2, []))) := by
  refine ⟨?_, ?_⟩
  · intro now value
    unfold ActionContext.DoAction
    rw [if_pos hd]
    by_cases h : value = 0
    · rw [if_pos h]; exact ⟨_, rfl, rfl⟩
    · rw [if_neg h]; exact ⟨_, rfl, rfl⟩
  · refine ⟨{ c with deferredValue := v, delayStartTime := t0 }, ?_, ?_, ?_, ?_⟩
    · unfold ActionContext.DoAction
      rw [if_pos hd, if_neg hv]
    · intro ht
      have hfire : ({ c with deferredValue := v, delayStartTime := t0 } :
          ActionContext).RunDeferredActions t =
          ({ c with deferredValue := 0, delayStartTime := 0 }, c.DoRangeBoundAction v) := by
        unfold ActionContext.RunDeferredActions
        rw [if_pos ⟨hd, ht0, ht⟩]
        rfl
      rw [hfire]
      exact ⟨rfl, fun times => poll_idle times _ rfl⟩
    · intro ht
      unfold ActionContext.RunDeferredActions
      rw [if_neg (fun hh => ht hh.2.2)]
    · intro now
      refine ⟨{ c with deferredValue := 0, delayStartTime := 0 }, ?_,
        fun times => poll_idle times _ rfl⟩
      unfold ActionContext.DoAction
      rw [if_pos (show ({ c with deferredValue := v, delayStartTime := t0 } :
        ActionContext).holdDelayAmount ≠ 0 from hd), if_pos rfl]

/-- Witness of C7: hold-delay 1, press `1` at time 7, refresh at time 9. -/
theorem C7_hold_delay_deferral_witness :
    holdContext.holdDelayAmount ≠ 0 ∧
    ∃ c1, holdContext.DoAction 7 1 = some (c1, []) ∧ (c1.RunDeferredActions 9).2 = [1] := by
  have hd : holdContext.holdDelayAmount ≠ 0 := by norm_num [holdContext]
  obtain ⟨c1, h1, hfire, _, _⟩ :=
    (C7_hold_delay_deferral holdContext 7 1 9 hd one_ne_zero (by norm_num)).2
  refine ⟨hd, c1, h1, ?_⟩
  rw [(hfire (by norm_num [holdContext])).1]
  norm_num [holdContext, ActionContext.DoRangeBoundAction]

/-! ### Event dispatch over the zone tree -/

theorem dispatchOver_nil (ev : Event) (w : Widget) (s : Bool × List Claim) :
    dispatchOver ev w s [] = s := by
  obtain ⟨u, log⟩ := s
  cases u <;> rfl

theorem dispatchOver_append (ev : Event) (w : Widget) (s : Bool × List Claim)
    (l1 l2 : List Zone) :
    dispatchOver ev w (dispatchOver ev w s l1) l2 = dispatchOver ev w s (l1 ++ l2) := by
  obtain ⟨u, log⟩ := s
  cases u with
  | true => rfl
  | false =>
    simp only [dispatchOver, firstOwnerClaims, List.find?_append, Bool.false_eq_true, if_false]
    cases h : List.find? (Zone.owns w) l1 with
    | some o => simp
    | none => simp

theorem dispatchOver_used (ev : Event) (w : Widget) (log : List Claim) (order : List Zone) :
    dispatchOver ev w (true, log) order = (true, log) := rfl

mutual
theorem zone_DoEvent_eq (ev : Event) (w : Widget) :
    ∀ (z : Zone) (s : Bool × List Claim),
      Zone.DoEvent ev w z s = dispatchOver ev w s z.visitOrder
  | .mk name isActive widgets includedZones associatedZones subZones, (isUsed, log) => by
    have hsub := zoneMap_DoEvent_eq ev w subZones
    have hassoc := zoneMap_DoEvent_eq ev w associatedZones
    have hinc := zoneList_DoEvent_eq ev w includedZones
    rw [Zone.DoEvent, Zone.visitOrder]
    cases isActive with
    | false =>
      simp only [Bool.not_false, Bool.true_or, if_true, Bool.false_eq_true, if_false]
      exact (dispatchOver_nil ev w _).symm
    | true =>
      cases isUsed with
      | true => rfl
      | false =>
        simp only [Bool.not_true, Bool.or_self, Bool.false_eq_true, if_false, if_true]
        rw [hsub, hassoc, List.append_assoc _ [_] _,
          ← dispatchOver_append ev w _
            (ZoneMap.visitOrder subZones ++ ZoneMap.visitOrder associatedZones),
          ← dispatchOver_append ev w _ (ZoneMap.visitOrder subZones)]
        generalize dispatchOver ev w (dispatchOver ev w (false, log)
          (ZoneMap.visitOrder subZones)) (ZoneMap.visitOrder associatedZones) = s2
        obtain ⟨u2, log2⟩ := s2
        cases u2 with
        | true => rfl
        | false =>
          simp only [Bool.false_eq_true, if_false]
          by_cases hown : widgets.contains w = true
          · rw [if_pos hown]
            simp only [dispatchOver, firstOwnerClaims, Bool.false_eq_true, if_false,
              List.singleton_append, List.find?_cons, Zone.owns, Zone.widgets, hown]
          · rw [if_neg hown, hinc]
            have hown' : widgets.contains w = false := by simpa using hown
            simp only [dispatchOver, firstOwnerClaims, Bool.false_eq_true, if_false,
              List.singleton_append, List.find?_cons, Zone.owns, Zone.widgets, hown']
theorem zoneList_DoEvent_eq (ev : Event) (w : Widget) :
    ∀ (zs : ZoneList) (s : Bool × List Claim),
      ZoneList.DoEvent ev w zs s = dispatchOver ev w s zs.visitOrder
  | .nil, s => by
    rw [ZoneList.DoEvent, ZoneList.visitOrder]
    exact (dispatchOver_nil ev w s).symm
  | .cons zone rest, s => by
    rw [ZoneList.DoEvent, ZoneList.visitOrder, zone_DoEvent_eq ev w zone,
      zoneList_DoEvent_eq ev w rest, dispatchOver_append]
theorem zoneMap_DoEvent_eq (ev : Event) (w : Widget) :
    ∀ (m : ZoneMap) (s : Bool × List Claim),
      ZoneMap.DoEvent ev w m s = dispatchOver ev w s m.visitOrder
  | .nil, s => by
    rw [ZoneMap.DoEvent, ZoneMap.visitOrder]
    exact (dispatchOver_nil ev w s).symm
  | .cons key zones rest, s => by
    rw [ZoneMap.DoEvent, ZoneMap.visitOrder, zoneList_DoEvent_eq ev w zones,
      zoneMap_DoEvent_eq ev w rest, dispatchOver_append]
end

/-- C9: one call of `Zone::DoAction`, `Zone::DoRelativeAction` or `Zone::DoTouch` (the event
`ev`).  Entered with `isUsed = true`, or on an inactive zone, it does nothing.  Entered with
`isUsed = false` it runs the bindings of the first zone that owns the widget in the order
sub-zones, associated zones, the zone itself, included zones (inactive zones and what is
below them left out) and of that zone only, and of no zone when there is no owner; `isUsed`
is true afterwards exactly when a zone claimed. -/
theorem C9_dispatch_claims_at_most_once (z : Zone) (w : Widget) (ev : Event)
    (log : List Claim) :
    z.DoEvent ev w (true, log) = (true, log) ∧
    (z.isActive = false → ∀ s, z.DoEvent ev w s = s) ∧
    z.DoEvent ev w (false, log) = firstOwnerClaims ev w z.visitOrder log ∧
    (∀ owner, z.visitOrder.find? (Zone.owns w) = some owner →
      z.DoEvent ev w (false, log) = (true, log ++ [⟨owner, w, ev⟩])) ∧
    ((∀ o ∈ z.visitOrder, o.owns w = false) → z.DoEvent ev w (false, log) = (false, log)) ∧
    ((z.DoEvent ev w (false, log)).1 = true ↔ ∃ o ∈ z.visitOrder, o.owns w = true) ∧
    ((z.DoEvent ev w (false, log)).2.length ≤ log.length + 1) := by
  have hmain : z.DoEvent ev w (false, log) = firstOwnerClaims ev w z.visitOrder log := by
    rw [zone_DoEvent_eq]; rfl
  refine ⟨by rw [zone_DoEvent_eq]; rfl, ?_, hmain, ?_, ?_, ?_, ?_⟩
  · intro hz s
    rw [zone_DoEvent_eq]
    obtain ⟨name, isActive, widgets, inc, assoc, subs⟩ := z
    have hact : isActive = false := hz
    subst hact
    rw [Zone.visitOrder]
    exact dispatchOver_nil ev w s
  · intro owner ho
    rw [hmain, firstOwnerClaims, ho]
  · intro hnone
    have hf : z.visitOrder.find? (Zone.owns w) = none := by
      rw [List.find?_eq_none]
      intro o ho
      simp [hnone o ho]
    rw [hmain, firstOwnerClaims, hf]
  · rw [hmain, firstOwnerClaims]
    cases hf : z.visitOrder.find? (Zone.owns w) with
    | some o =>
      simp only [true_iff]
      exact ⟨o, List.mem_of_find?_eq_some hf, List.find?_some hf⟩
    | none =>
      simp only [Bool.false_eq_true, false_iff, not_exists, not_and]
      intro o ho
      rw [List.find?_eq_none] at hf
      exact hf o ho
  · rw [hmain, firstOwnerClaims]
    cases z.visitOrder.find? (Zone.owns w) with
    | some o => simp
    | none => simp

/-- Witness of C9 on `sampleHome`: `Fader1` is claimed by the active `VCA` overlay and not
by `Home`, which owns it too; `Play` is claimed by `Home` and not by the included zone. -/
theorem C9_dispatch_claims_at_most_once_witness :
    sampleHome.DoAction fader1 false 1 = (true, [⟨leafZone "VCA" true [fader1], fader1, .action 1⟩]) ∧
    sampleHome.DoTouch playButton false 1 = (true, [⟨sampleHome, playButton, .touch 1⟩]) ∧
    sampleHome.DoAction playButton true 1 = (true, []) := by
  refine ⟨?_, ?_, (C9_dispatch_claims_at_most_once sampleHome playButton (.action 1) []).1⟩
  · exact (C9_dispatch_claims_at_most_once sampleHome fader1 (.action 1) []).2.2.2.1 _ rfl
  · exact (C9_dispatch_claims_at_most_once sampleHome playButton (.touch 1) []).2.2.2.1 _ rfl

/-! ### The activation cascade -/

theorem zone_Deactivate_isActive (z : Zone) : (Zone.Deactivate z).1.isActive = false := by
  cases z; rfl

theorem zone_Deactivate_name (z : Zone) : (Zone.Deactivate z).1.name = z.name := by
  cases z; rfl

theorem zone_Activate_isActive (z : Zone) : (Zone.Activate z).1.isActive = true := by
  cases z; rfl

theorem zone_Activate_name (z : Zone) : (Zone.Activate z).1.name = z.name := by
  cases z; rfl

theorem zoneList_Deactivate_inactive :
    ∀ zs : ZoneList, ∀ z ∈ (ZoneList.Deactivate zs).1.toList, z.isActive = false
  | .nil => by intro z hz; simp [ZoneList.Deactivate, ZoneList.toList] at hz
  | .cons zone rest => by
    intro z hz
    simp only [ZoneList.Deactivate, ZoneList.toList, List.mem_cons] at hz
    rcases hz with h | h
    · rw [h]; exact zone_Deactivate_isActive zone
    · exact zoneList_Deactivate_inactive rest z h

theorem zoneList_Deactivate_names :
    ∀ zs : ZoneList, (ZoneList.Deactivate zs).1.toList.map Zone.name = zs.toList.map Zone.name
  | .nil => rfl
  | .cons zone rest => by
    simp only [ZoneList.Deactivate, ZoneList.toList, List.map_cons, zone_Deactivate_name,
      zoneList_Deactivate_names rest]

theorem zoneMap_Deactivate_inactive :
    ∀ m : ZoneMap, ∀ z ∈ (ZoneMap.Deactivate m).1.toList, z.isActive = false
  | .nil => by intro z hz; simp [ZoneMap.Deactivate, ZoneMap.toList] at hz
  | .cons key zones rest => by
    intro z hz
    simp only [ZoneMap.Deactivate, ZoneMap.toList, List.mem_append] at hz
    rcases hz with h | h
    · exact zoneList_Deactivate_inactive zones z h
    · exact zoneMap_Deactivate_inactive rest z h

theorem zoneMap_Deactivate_names :
    ∀ m : ZoneMap, (ZoneMap.Deactivate m).1.toList.map Zone.name = m.toList.map Zone.name
  | .nil => rfl
  | .cons key zones rest => by
    simp only [ZoneMap.Deactivate, ZoneMap.toList, List.map_append, zoneList_Deactivate_names,
      zoneMap_Deactivate_names rest]

theorem zoneList_Activate_active :
    ∀ zs : ZoneList, ∀ z ∈ (ZoneList.Activate zs).1.toList, z.isActive = true
  | .nil => by intro z hz; simp [ZoneList.Activate, ZoneList.toList] at hz
  | .cons zone rest => by
    intro z hz
    simp only [ZoneList.Activate, ZoneList.toList, List.mem_cons] at hz
    rcases hz with h | h
    · rw [h]; exact zone_Activate_isActive zone
    · exact zoneList_Activate_active rest z h

theorem zoneList_Activate_names :
    ∀ zs : ZoneList, (ZoneList.Activate zs).1.toList.map Zone.name = zs.toList.map Zone.name
  | .nil => rfl
  | .cons zone rest => by
    simp only [ZoneList.Activate, ZoneList.toList, List.map_cons, zone_Activate_name,
      zoneList_Activate_names rest]

theorem all_inactive_of_forall (l : List Zone) (h : ∀ z ∈ l, z.isActive = false) :
    l.all (fun z => !z.isActive) = true := by
  rw [List.all_eq_true]
  intro z hz
  rw [h z hz]
  rfl

mutual
theorem zone_Activate_cascade : ∀ z : Zone, (Zone.Activate z).1.activationCascade = true
  | .mk name isActive widgets includedZones associatedZones subZones => by
    have hinc := zoneList_Activate_cascade includedZones
    simp only [Zone.Activate, Zone.activationCascade, hinc, Bool.true_and, Bool.and_true,
      all_inactive_of_forall _ (zoneMap_Deactivate_inactive associatedZones),
      all_inactive_of_forall _ (zoneMap_Deactivate_inactive subZones)]
theorem zoneList_Activate_cascade :
    ∀ zs : ZoneList, (ZoneList.Activate zs).1.activationCascade = true
  | .nil => rfl
  | .cons zone rest => by
    simp only [ZoneList.Activate, ZoneList.activationCascade, zone_Activate_cascade zone,
      zoneList_Activate_cascade rest, Bool.and_self]
end

/-- C10: after `Zone::Activate()` on a zone (hooks not touching the zone tree) the zone is
active, every zone of every associated group and of every sub-zone group is inactive, and
every included zone is active, with the same three facts at each included zone in turn;
the zone keeps the zones it had, in order. -/
theorem C10_activation_cascade (z : Zone) :
    (z.Activate).1.isActive = true ∧
    (∀ a ∈ (z.Activate).1.associatedZones.toList, a.isActive = false) ∧
    (∀ s ∈ (z.Activate).1.subZones.toList, s.isActive = false) ∧
    (∀ i ∈ (z.Activate).1.includedZones.toList, i.isActive = true) ∧
    (z.Activate).1.activationCascade = true ∧
    (z.Activate).1.associatedZones.toList.map Zone.name
      = z.associatedZones.toList.map Zone.name ∧
    (z.Activate).1.subZones.toList.map Zone.name = z.subZones.toList.map Zone.name ∧
    (z.Activate).1.includedZones.toList.map Zone.name
      = z.includedZones.toList.map Zone.name := by
  refine ⟨zone_Activate_isActive z, ?_, ?_, ?_, zone_Activate_cascade z, ?_, ?_, ?_⟩ <;>
    obtain ⟨name, isActive, widgets, inc, assoc, subs⟩ := z
  · exact zoneMap_Deactivate_inactive assoc
  · exact zoneMap_Deactivate_inactive subs
  · exact zoneList_Activate_active inc
  · exact zoneMap_Deactivate_names assoc
  · exact zoneMap_Deactivate_names subs
  · exact zoneList_Activate_names inc

/-! ### The deactivation cascade -/

mutual
theorem zone_Deactivate_reachable :
    ∀ z : Zone, ∀ r ∈ (Zone.Deactivate z).1.reachable, r.isActive = false
  | .mk name isActive widgets includedZones associatedZones subZones => by
    intro r hr
    simp only [Zone.Deactivate, Zone.reachable, List.mem_cons, List.mem_append] at hr
    rcases hr with h | (h | h) | h
    · rw [h]; rfl
    · exact zoneList_Deactivate_reachable includedZones r h
    · exact zoneMap_Deactivate_reachable associatedZones r h
    · exact zoneMap_Deactivate_reachable subZones r h
theorem zoneList_Deactivate_reachable :
    ∀ zs : ZoneList, ∀ r ∈ (ZoneList.Deactivate zs).1.reachable, r.isActive = false
  | .nil => by intro r hr; simp [ZoneList.Deactivate, ZoneList.reachable] at hr
  | .cons zone rest => by
    intro r hr
    simp only [ZoneList.Deactivate, ZoneList.reachable, List.mem_append] at hr
    rcases hr with h | h
    · exact zone_Deactivate_reachable zone r h
    · exact zoneList_Deactivate_reachable rest r h
theorem zoneMap_Deactivate_reachable :
    ∀ m : ZoneMap, ∀ r ∈ (ZoneMap.Deactivate m).1.reachable, r.isActive = false
  | .nil => by intro r hr; simp [ZoneMap.Deactivate, ZoneMap.reachable] at hr
  | .cons key zones rest => by
    intro r hr
    simp only [ZoneMap.Deactivate, ZoneMap.reachable, List.mem_append] at hr
    rcases hr with h | h
    · exact zoneList_Deactivate_reachable zones r h
    · exact zoneMap_Deactivate_reachable rest r h
end

mutual
theorem zone_Deactivate_reachable_names :
    ∀ z : Zone, (Zone.Deactivate z).1.reachable.map Zone.name = z.reachable.map Zone.name
  | .mk name isActive widgets includedZones associatedZones subZones => by
    simp only [Zone.Deactivate, Zone.reachable, List.map_cons, List.map_append,
      zoneList_Deactivate_reachable_names includedZones,
      zoneMap_Deactivate_reachable_names associatedZones,
      zoneMap_Deactivate_reachable_names subZones, Zone.name]
theorem zoneList_Deactivate_reachable_names :
    ∀ zs : ZoneList,
      (ZoneList.Deactivate zs).1.reachable.map Zone.name = zs.reachable.map Zone.name
  | .nil => rfl
  | .cons zone rest => by
    simp only [ZoneList.Deactivate, ZoneList.reachable, List.map_append,
      zone_Deactivate_reachable_names zone, zoneList_Deactivate_reachable_names rest]
theorem zoneMap_Deactivate_reachable_names :
    ∀ m : ZoneMap,
      (ZoneMap.Deactivate m).1.reachable.map Zone.name = m.reachable.map Zone.name
  | .nil => rfl
  | .cons key zones rest => by
    simp only [ZoneMap.Deactivate, ZoneMap.reachable, List.map_append,
      zoneList_Deactivate_reachable_names zones, zoneMap_Deactivate_reachable_names rest]
end

/-- C11: after `Zone::Deactivate()` on a zone, the zone and every zone reachable from it
through included-zone, associated-group and sub-zone-group edges is inactive, whatever the
activation states were before; the tree keeps the zones it had, in order. -/
theorem C11_deactivation_cascade (z : Zone) :
    (z.Deactivate).1.isActive = false ∧
    (∀ r ∈ (z.Deactivate).1.reachable, r.isActive = false) ∧
    (z.Deactivate).1.reachable.map Zone.name = z.reachable.map Zone.name :=
  ⟨zone_Deactivate_isActive z, zone_Deactivate_reachable z, zone_Deactivate_reachable_names z⟩

/-! ### Associated groups -/

theorem zoneMap_mem_toList_of_groups :
    ∀ (m : ZoneMap) (p : String × ZoneList), p ∈ m.groups → ∀ z ∈ p.2.toList, z ∈ m.toList
  | .nil => by intro p hp; simp [ZoneMap.groups] at hp
  | .cons k zones rest => by
    intro p hp z hz
    simp only [ZoneMap.groups, List.mem_cons] at hp
    simp only [ZoneMap.toList, List.mem_append]
    rcases hp with h | h
    · subst h; exact Or.inl hz
    · exact Or.inr (zoneMap_mem_toList_of_groups rest p h z hz)

theorem zoneMap_Deactivate_keys :
    ∀ m : ZoneMap, (ZoneMap.Deactivate m).1.groups.map Prod.fst = m.groups.map Prod.fst
  | .nil => rfl
  | .cons k zones rest => by
    simp only [ZoneMap.Deactivate, ZoneMap.groups, List.map_cons, zoneMap_Deactivate_keys rest]

theorem zoneMap_contains_iff :
    ∀ (m : ZoneMap) (key : String), m.contains key = true ↔ key ∈ m.groups.map Prod.fst
  | .nil => by intro key; simp [ZoneMap.contains, ZoneMap.groups]
  | .cons k zones rest => by
    intro key
    simp only [ZoneMap.contains, ZoneMap.groups, List.map_cons, List.mem_cons, Bool.or_eq_true,
      beq_iff_eq, zoneMap_contains_iff rest key]
    constructor
    · rintro (h | h)
      · exact Or.inl h.symm
      · exact Or.inr h
    · rintro (h | h)
      · exact Or.inl h.symm
      · exact Or.inr h

theorem zoneMap_groups_of_not_contains (key : String) :
    ∀ m : ZoneMap, m.contains key = false → ∀ p ∈ m.groups, (p.1 == key) = false
  | .nil => by intro _ p hp; simp [ZoneMap.groups] at hp
  | .cons k zones rest => by
    intro hc p hp
    simp only [ZoneMap.contains, Bool.or_eq_false_iff] at hc
    simp only [ZoneMap.groups, List.mem_cons] at hp
    rcases hp with h | h
    · subst h; exact hc.1
    · exact zoneMap_groups_of_not_contains key rest hc.2 p h

theorem zoneMap_ActivateKey_groups (key : String) :
    ∀ m : ZoneMap, (m.groups.map Prod.fst).Nodup → (∀ z ∈ m.toList, z.isActive = false) →
      ∀ p ∈ (ZoneMap.ActivateKey key m).1.groups, ∀ z ∈ p.2.toList,
        z.isActive = (p.1 == key)
  | .nil => by
    intro _ _ p hp
    simp [ZoneMap.ActivateKey, ZoneMap.groups] at hp
  | .cons k zones rest => by
    intro hnodup hall p hp z hz
    simp only [ZoneMap.groups, List.map_cons, List.nodup_cons, List.mem_map, not_exists,
      not_and] at hnodup
    simp only [ZoneMap.toList, List.mem_append] at hall
    by_cases hk : (k == key) = true
    · simp only [ZoneMap.ActivateKey, hk, if_true, ZoneMap.groups, List.mem_cons] at hp
      rcases hp with h | h
      · subst h
        simp only [hk]
        exact zoneList_Activate_active zones z hz
      · have hne : (p.1 == key) = false := by
          cases hpk : (p.1 == key) with
          | false => rfl
          | true =>
            exfalso
            have h1 : k = key := by simpa using hk
            have h2 : p.1 = key := by simpa using hpk
            exact hnodup.1 p h (by rw [h1, h2])
        rw [hne]
        exact hall z (Or.inr (zoneMap_mem_toList_of_groups rest p h z hz))
    · have hk' : (k == key) = false := by simpa using hk
      simp only [ZoneMap.ActivateKey, hk', Bool.false_eq_true, if_false, ZoneMap.groups,
        List.mem_cons] at hp
      rcases hp with h | h
      · subst h
        simp only [hk']
        exact hall z (Or.inl hz)
      · exact zoneMap_ActivateKey_groups key rest hnodup.2
          (fun z hz => hall z (Or.inr hz)) p h z hz

theorem zoneList_DeactivateNamed_toList (name : String) :
    ∀ zs : ZoneList, (ZoneList.DeactivateNamed name zs).1.toList =
      zs.toList.map fun z => if z.name == name then (Zone.Deactivate z).1 else z
  | .nil => rfl
  | .cons zone rest => by
    simp only [ZoneList.DeactivateNamed, ZoneList.toList, List.map_cons,
      zoneList_DeactivateNamed_toList name rest]
    by_cases h : (zone.name == name) = true
    · simp only [h, if_true]
    · simp only [h, Bool.false_eq_true, if_false]

theorem zoneMap_DeactivateNamed_toList (name : String) :
    ∀ m : ZoneMap, (ZoneMap.DeactivateNamed name m).1.toList =
      m.toList.map fun z => if z.name == name then (Zone.Deactivate z).1 else z
  | .nil => rfl
  | .cons key zones rest => by
    simp only [ZoneMap.DeactivateNamed, ZoneMap.toList, List.map_append,
      zoneList_DeactivateNamed_toList name zones, zoneMap_DeactivateNamed_toList name rest]

theorem zoneList_ActivateNamed_toList (name : String) :
    ∀ zs : ZoneList, (ZoneList.ActivateNamed name zs).1.toList =
      zs.toList.map fun z => if z.name == name then (Zone.Activate z).1 else z
  | .nil => rfl
  | .cons zone rest => by
    simp only [ZoneList.ActivateNamed, ZoneList.toList, List.map_cons,
      zoneList_ActivateNamed_toList name rest]
    by_cases h : (zone.name == name) = true
    · simp only [h, if_true]
    · simp only [h, Bool.false_eq_true, if_false]

theorem zoneMap_ActivateNamed_toList (name : String) :
    ∀ m : ZoneMap, (ZoneMap.ActivateNamed name m).1.toList =
      m.toList.map fun z => if z.name == name then (Zone.Activate z).1 else z
  | .nil => rfl
  | .cons key zones rest => by
    simp only [ZoneMap.ActivateNamed, ZoneMap.toList, List.map_append,
      zoneList_ActivateNamed_toList name zones, zoneMap_ActivateNamed_toList name rest]

/-- The effect of `GoVCA` on one associated zone: a zone named `Folder` is deactivated, a
zone named `VCA` is activated, any other zone is left as it is. -/
theorem goVCA_toList (home : Zone) :
    (home.GoVCA).1.associatedZones.toList =
      home.associatedZones.toList.map fun z =>
        if z.name == "Folder" then (Zone.Deactivate z).1
        else if z.name == "VCA" then (Zone.Activate z).1 else z := by
  obtain ⟨name, isActive, widgets, inc, assoc, subs⟩ := home
  simp only [Zone.GoVCA, Zone.associatedZones, zoneMap_ActivateNamed_toList,
    zoneMap_DeactivateNamed_toList, List.map_map]
  apply List.map_congr_left
  intro z _
  simp only [Function.comp]
  by_cases hF : (z.name == "Folder") = true
  · have hn : z.name = "Folder" := by simpa using hF
    have hV : ((Zone.Deactivate z).1.name == "VCA") = false := by
      rw [zone_Deactivate_name, hn]; decide
    simp only [hF, if_true, hV, Bool.false_eq_true, if_false]
  · simp only [hF, Bool.false_eq_true, if_false]

theorem zoneMap_ActivateKey_keys (key : String) :
    ∀ m : ZoneMap, (ZoneMap.ActivateKey key m).1.groups.map Prod.fst = m.groups.map Prod.fst
  | .nil => rfl
  | .cons k zones rest => by
    by_cases hk : (k == key) = true
    · simp only [ZoneMap.ActivateKey, hk, if_true, ZoneMap.groups, List.map_cons]
    · simp only [ZoneMap.ActivateKey, hk, Bool.false_eq_true, if_false, ZoneMap.groups,
        List.map_cons, zoneMap_ActivateKey_keys key rest]

/-- C12, the claim as stated fails for `GoVCA`: on a home zone with the associated groups
`Folder`, `SelectedTrackSend` (both active) and `VCA`, `GoVCA()` activates the `VCA` zone
and deactivates the `Folder` zone but leaves the zone of the group `SelectedTrackSend`
active. -/
theorem C12_counterexample :
    (radioHome.GoVCA).1.associatedZones.groups.map
        (fun p => (p.1, p.2.toList.map Zone.isActive)) =
      [("Folder", [false]), ("SelectedTrackSend", [true]), ("VCA", [true])] := by
  decide

/-- C12 (amended): on a home zone whose `VCA` group is inactive (its first zone is not
active), `GoAssociatedZone("VCA")` leaves every zone of the `VCA` group active and every zone
of every other associated group inactive.  `GoVCA()` leaves every associated zone named
`VCA` active and every associated zone named `Folder` inactive, and leaves the zones of
the other groups as they were. -/
theorem C12_associated_groups_exclusive (home : Zone)
    (hkeys : (home.associatedZones.groups.map Prod.fst).Nodup)
    (hinactive : (home.associatedZones.get "VCA").firstIsActive = false) :
    (∀ p ∈ (home.GoAssociatedZone "VCA").1.associatedZones.groups, ∀ z ∈ p.2.toList,
      z.isActive = (p.1 == "VCA")) ∧
    (home.GoAssociatedZone "VCA").1.associatedZones.groups.map Prod.fst
      = home.associatedZones.groups.map Prod.fst ∧
    (home.GoVCA).1.associatedZones.toList =
      (home.associatedZones.toList.map fun z =>
        if z.name == "Folder" then (Zone.Deactivate z).1
        else if z.name == "VCA" then (Zone.Activate z).1 else z) ∧
    (∀ z ∈ (home.GoVCA).1.associatedZones.toList,
      (z.name = "VCA" → z.isActive = true) ∧ (z.name = "Folder" → z.isActive = false)) := by
  refine ⟨?_, ?_, goVCA_toList home, ?_⟩
  · obtain ⟨name, isActive, widgets, inc, assoc, subs⟩ := home
    simp only [Zone.associatedZones] at hkeys hinactive
    have hT : ("VCA" == "Track") = false := by decide
    simp only [Zone.GoAssociatedZone, hT, Bool.false_eq_true, if_false, hinactive,
      Bool.and_false, Zone.associatedZones]
    have hall := zoneMap_Deactivate_inactive assoc
    have hk2 : ((ZoneMap.Deactivate assoc).1.groups.map Prod.fst).Nodup := by
      rw [zoneMap_Deactivate_keys]; exact hkeys
    by_cases hc : (ZoneMap.Deactivate assoc).1.contains "VCA" = true
    · rw [if_pos hc]
      exact zoneMap_ActivateKey_groups "VCA" _ hk2 hall
    · rw [if_neg hc]
      have hc' : (ZoneMap.Deactivate assoc).1.contains "VCA" = false := by simpa using hc
      intro p hp z hz
      rw [zoneMap_groups_of_not_contains "VCA" _ hc' p hp]
      exact hall z (zoneMap_mem_toList_of_groups _ p hp z hz)
  · obtain ⟨name, isActive, widgets, inc, assoc, subs⟩ := home
    simp only [Zone.associatedZones] at hkeys hinactive
    have hT : ("VCA" == "Track") = false := by decide
    simp only [Zone.GoAssociatedZone, hT, Bool.false_eq_true, if_false, hinactive,
      Bool.and_false, Zone.associatedZones]
    by_cases hc : (ZoneMap.Deactivate assoc).1.contains "VCA" = true
    · rw [if_pos hc, zoneMap_ActivateKey_keys, zoneMap_Deactivate_keys]
    · rw [if_neg hc, zoneMap_Deactivate_keys]
  · intro z hz
    rw [goVCA_toList, List.mem_map] at hz
    obtain ⟨z0, _, hz0⟩ := hz
    by_cases hF : (z0.name == "Folder") = true
    · have hn : z0.name = "Folder" := by simpa using hF
      simp only [hF, if_true] at hz0
      subst hz0
      rw [zone_Deactivate_name, hn]
      exact ⟨fun h => absurd h (by decide), fun _ => zone_Deactivate_isActive z0⟩
    · simp only [hF, Bool.false_eq_true, if_false] at hz0
      have hnF : z0.name ≠ "Folder" := by simpa using hF
      by_cases hV : (z0.name == "VCA") = true
      · simp only [hV, if_true] at hz0
        subst hz0
        rw [zone_Activate_name]
        exact ⟨fun _ => zone_Activate_isActive z0, fun h => absurd h hnF⟩
      · simp only [hV, Bool.false_eq_true, if_false] at hz0
        have hnV : z0.name ≠ "VCA" := by simpa using hV
        subst hz0
        exact ⟨fun h => absurd h hnV, fun h => absurd h hnF⟩

/-- Witness of C12 on `radioHome`, whose `VCA` group is inactive. -/
theorem C12_associated_groups_exclusive_witness :
    (radioHome.associatedZones.groups.map Prod.fst).Nodup ∧
    (radioHome.associatedZones.get "VCA").firstIsActive = false ∧
    ∀ p ∈ (radioHome.GoAssociatedZone "VCA").1.associatedZones.groups, ∀ z ∈ p.2.toList,
      z.isActive = (p.1 == "VCA") :=
  ⟨by decide, by decide, (C12_associated_groups_exclusive radioHome (by decide) (by decide)).1⟩

/-! ### The reachable modifier codes -/

theorem recalculate_of_engaged (m : ModifierManager) (hown : m.hasOwner = true)
    (hne : m.activeModifierIndices ≠ []) :
    m.RecalculateModifiers.modifierCombinations =
      (0 :: (GetCombinations m.activeModifierIndices).map
        fun combination => (combination.map m.value).sum).insertionSort (· ≥ ·) := by
  have hlen : m.activeModifierIndices.length > 0 := List.length_pos.mpr hne
  simp only [ModifierManager.RecalculateModifiers, hown, Bool.not_true, Bool.false_eq_true,
    if_false, hlen, if_true]

theorem recalculate_of_none (m : ModifierManager) (hown : m.hasOwner = true)
    (hnone : m.activeModifierIndices = []) :
    m.RecalculateModifiers.modifierCombinations = [0] := by
  simp [ModifierManager.RecalculateModifiers, hown, hnone]

theorem recalculate_sorted (m : ModifierManager) (hown : m.hasOwner = true) :
    m.RecalculateModifiers.modifierCombinations.Sorted (· ≥ ·) := by
  by_cases hne : m.activeModifierIndices = []
  · rw [recalculate_of_none m hown hne]
    exact List.sorted_singleton 0
  · rw [recalculate_of_engaged m hown hne]
    exact List.sorted_insertionSort (· ≥ ·) _

theorem recalculate_mem (m : ModifierManager) (hown : m.hasOwner = true) (x : Int) :
    x ∈ m.RecalculateModifiers.modifierCombinations ↔
      ∃ sub : List Modifiers, sub.Sublist m.activeModifierIndices ∧ x = (sub.map m.value).sum := by
  by_cases hne : m.activeModifierIndices = []
  · rw [recalculate_of_none m hown hne, hne]
    constructor
    · intro hx
      exact ⟨[], List.Sublist.refl _, by simpa using hx⟩
    · rintro ⟨sub, hsub, hx⟩
      rw [List.sublist_nil] at hsub
      subst hsub
      simpa using hx
  · rw [recalculate_of_engaged m hown hne, (List.perm_insertionSort _ _).mem_iff]
    simp only [GetCombinations, List.mem_cons, List.mem_map, List.mem_sublists]
    constructor
    · rintro (hx | ⟨sub, hsub, hx⟩)
      · exact ⟨[], List.nil_sublist _, by simpa using hx⟩
      · exact ⟨sub, hsub, hx.symm⟩
    · rintro ⟨sub, hsub, hx⟩
      exact Or.inr ⟨sub, hsub, hx.symm⟩

theorem sorted_gt_iff_nodup (l : List Int) (h : l.Sorted (· ≥ ·)) :
    l.Sorted (· > ·) ↔ l.Nodup := by
  constructor
  · intro hs
    exact hs.imp (fun hab => ne_of_gt hab)
  · intro hn
    exact (h.and hn).imp (fun hab => lt_of_le_of_ne hab.1 (Ne.symm hab.2))

/-- C16, the claim as stated fails: with two engaged modifiers of equal weight 4 the list
left by `RecalculateModifiers` holds the aliased sum 4 twice and is not strictly
descending; and with the weights 4, 8, ... and `Shift` alone engaged, the sum 0 of the
empty combination of the power set stands next to the fixed code 0. -/
theorem C16_counterexample :
    aliasingManager.hasOwner = true ∧
    aliasingManager.activeModifierIndices = [.Shift, .Option] ∧
    aliasingManager.RecalculateModifiers.modifierCombinations.count 4 = 2 ∧
    ¬ aliasingManager.RecalculateModifiers.modifierCombinations.Sorted (· > ·) ∧
    (sampleManager true).RecalculateModifiers.modifierCombinations = [4, 0, 0] := by
  refine ⟨rfl, by decide, by decide, ?_, by decide⟩
  rw [sorted_gt_iff_nodup _ (recalculate_sorted aliasingManager rfl)]
  decide

/-- C16 (amended): for a manager that has an owner, the list left by `RecalculateModifiers`
is sorted in non-increasing order; its values are exactly the weight sums of the subsets of
the engaged modifiers (the empty subset giving the code 0); when a modifier is engaged it
holds the fixed code 0 and one entry for each combination that `GetCombinations` returns,
equal sums being kept as repeated entries, so that it is strictly descending exactly when
no two entries are equal; with no modifier engaged it is exactly `[0]`. -/
theorem C16_recalculate_modifiers (m : ModifierManager) (hown : m.hasOwner = true) :
    m.RecalculateModifiers.modifierCombinations.Sorted (· ≥ ·) ∧
    (∀ x, x ∈ m.RecalculateModifiers.modifierCombinations ↔
      ∃ sub : List Modifiers, sub.Sublist m.activeModifierIndices ∧ x = (sub.map m.value).sum) ∧
    (m.activeModifierIndices ≠ [] →
      m.RecalculateModifiers.modifierCombinations.Perm
        (0 :: (GetCombinations m.activeModifierIndices).map
          fun combination => (combination.map m.value).sum)) ∧
    (m.RecalculateModifiers.modifierCombinations.Sorted (· > ·) ↔
      m.RecalculateModifiers.modifierCombinations.Nodup) ∧
    ((∀ i, m.isEngaged i = false) → m.RecalculateModifiers.modifierCombinations = [0]) := by
  refine ⟨recalculate_sorted m hown, recalculate_mem m hown, ?_,
    sorted_gt_iff_nodup _ (recalculate_sorted m hown), ?_⟩
  · intro hne
    rw [recalculate_of_engaged m hown hne]
    exact List.perm_insertionSort _ _
  · intro hnone
    apply recalculate_of_none m hown
    simp [ModifierManager.activeModifierIndices, hnone]

/-- Witness of C16: with the weights 4, 8, ... and `Shift` alone engaged the values of the
list are 4 and 0; with nothing engaged the list is `[0]`. -/
theorem C16_recalculate_modifiers_witness :
    (sampleManager true).hasOwner = true ∧
    (sampleManager true).RecalculateModifiers.modifierCombinations.Sorted (· ≥ ·) ∧
    (sampleManager false).RecalculateModifiers.modifierCombinations = [0] :=
  ⟨rfl, (C16_recalculate_modifiers (sampleManager true) rfl).1,
    (C16_recalculate_modifiers (sampleManager false) rfl).2.2.2.2 (fun i => by cases i <;> rfl)⟩

/-! ### Binding tables -/

theorem mapFind_mapUpdate_self {κ ν : Type} [DecidableEq κ] (key : κ) (init : ν) (f : ν → ν)
    (m : List (κ × ν)) :
    mapFind key (mapUpdate key init f m) = some (f ((mapFind key m).getD init)) := by
  induction m with
  | nil => simp [mapUpdate, mapFind]
  | cons p rest ih =>
    obtain ⟨k, v⟩ := p
    by_cases hk : k = key
    · simp [mapUpdate, mapFind, hk]
    · simp [mapUpdate, mapFind, hk, ih]

theorem mapFind_mapUpdate_of_ne {κ ν : Type} [DecidableEq κ] (key other : κ) (init : ν)
    (f : ν → ν) (m : List (κ × ν)) (h : other ≠ key) :
    mapFind other (mapUpdate key init f m) = mapFind other m := by
  induction m with
  | nil => simp [mapUpdate, mapFind, Ne.symm h]
  | cons p rest ih =>
    obtain ⟨k, v⟩ := p
    by_cases hk : k = key
    · subst hk
      simp [mapUpdate, mapFind, Ne.symm h]
    · by_cases ho : k = other
      · subst ho
        simp [mapUpdate, mapFind, hk]
      · simp [mapUpdate, mapFind, hk, ho, ih]

theorem hasBinding_eq (b : ZoneBindings) (w : Widget) (c : Int) :
    b.hasBinding w c = (mapFind c ((mapFind w b.actionContextDictionary).getD [])).isSome := by
  unfold ZoneBindings.hasBinding
  cases mapFind w b.actionContextDictionary <;> simp [mapFind]

theorem contexts_eq (b : ZoneBindings) (w : Widget) (c : Int) :
    b.contexts w c = (mapFind c ((mapFind w b.actionContextDictionary).getD [])).getD [] := by
  unfold ZoneBindings.contexts
  cases mapFind w b.actionContextDictionary <;> simp [mapFind]

theorem refresh_dictionary (b : ZoneBindings) (ms : List Int) (w other : Widget) :
    (mapFind other (b.UpdateCurrentActionContextModifier ms w).actionContextDictionary).getD []
      = (mapFind other b.actionContextDictionary).getD [] := by
  unfold ZoneBindings.UpdateCurrentActionContextModifier
  by_cases hms : ms = []
  · simp [hms]
  · have key : (mapFind other (mapUpdate w [] id b.actionContextDictionary)).getD []
        = (mapFind other b.actionContextDictionary).getD [] := by
      by_cases ho : other = w
      · subst ho
        rw [mapFind_mapUpdate_self]
        simp
      · rw [mapFind_mapUpdate_of_ne _ _ _ _ _ ho]
    simp only [hms, if_false]
    split <;> exact key

theorem refresh_hasBinding (b : ZoneBindings) (ms : List Int) (w other : Widget) (c : Int) :
    (b.UpdateCurrentActionContextModifier ms w).hasBinding other c = b.hasBinding other c := by
  rw [hasBinding_eq, hasBinding_eq, refresh_dictionary]

theorem refresh_contexts (b : ZoneBindings) (ms : List Int) (w other : Widget) (c : Int) :
    (b.UpdateCurrentActionContextModifier ms w).contexts other c = b.contexts other c := by
  rw [contexts_eq, contexts_eq, refresh_dictionary]

theorem refresh_defaultContexts (b : ZoneBindings) (ms : List Int) (w : Widget) :
    (b.UpdateCurrentActionContextModifier ms w).defaultContexts = b.defaultContexts := by
  unfold ZoneBindings.UpdateCurrentActionContextModifier
  by_cases hms : ms = []
  · simp [hms]
  · simp only [hms, if_false]
    split <;> rfl

theorem refresh_widgets (b : ZoneBindings) (ms : List Int) (w : Widget) :
    (b.UpdateCurrentActionContextModifier ms w).widgets = b.widgets := by
  unfold ZoneBindings.UpdateCurrentActionContextModifier
  by_cases hms : ms = []
  · simp [hms]
  · simp only [hms, if_false]
    split <;> rfl

theorem refresh_find (b : ZoneBindings) (w : Widget) (ms : List Int) :
    ms.find? (fun modifier =>
      ZoneBindings.hasBinding
        { b with actionContextDictionary := mapUpdate w [] id b.actionContextDictionary }
        w modifier)
      = ms.find? (fun modifier => b.hasBinding w modifier) := by
  congr 1
  funext modifier
  rw [hasBinding_eq, hasBinding_eq]
  simp [mapFind_mapUpdate_self]

theorem refresh_selection_of_some (b : ZoneBindings) (ms : List Int) (w : Widget) (c : Int)
    (h : ms.find? (fun modifier => b.hasBinding w modifier) = some c) :
    mapFind w (b.UpdateCurrentActionContextModifier ms w).currentActionContextModifiers
      = some c := by
  have hms : ms ≠ [] := by
    intro h0
    simp [h0] at h
  unfold ZoneBindings.UpdateCurrentActionContextModifier
  simp only [hms, if_false, refresh_find, h]
  rw [mapFind_mapUpdate_self]

theorem refresh_selection_of_none (b : ZoneBindings) (ms : List Int) (w : Widget)
    (h : ms.find? (fun modifier => b.hasBinding w modifier) = none) :
    mapFind w (b.UpdateCurrentActionContextModifier ms w).currentActionContextModifiers
      = mapFind w b.currentActionContextModifiers := by
  unfold ZoneBindings.UpdateCurrentActionContextModifier
  by_cases hms : ms = []
  · simp [hms]
  · simp only [hms, if_false, refresh_find, h]

theorem refresh_selection_of_ne (b : ZoneBindings) (ms : List Int) (w other : Widget)
    (ho : other ≠ w) :
    mapFind other (b.UpdateCurrentActionContextModifier ms w).currentActionContextModifiers
      = mapFind other b.currentActionContextModifiers := by
  unfold ZoneBindings.UpdateCurrentActionContextModifier
  by_cases hms : ms = []
  · simp [hms]
  · simp only [hms, if_false]
    split
    · exact mapFind_mapUpdate_of_ne _ _ _ _ _ ho
    · rfl

theorem dictionary_isSome_of_hasBinding (b : ZoneBindings) (w : Widget) (c : Int)
    (h : b.hasBinding w c = true) :
    ∃ byModifier, mapFind w b.actionContextDictionary = some byModifier := by
  unfold ZoneBindings.hasBinding at h
  cases hd : mapFind w b.actionContextDictionary with
  | none => simp [hd] at h
  | some byModifier => exact ⟨byModifier, rfl⟩

theorem GetActionContexts_of_selected (b : ZoneBindings) (ms : List Int)
    (isTouched isToggled : Bool) (w : Widget) (c : Int)
    (hc : mapFind w b.currentActionContextModifiers = some c)
    (hb : b.hasBinding w c = true) :
    ∃ o, (ZoneBindings.overlayOffsets isTouched isToggled).find?
        (fun o => b.hasBinding w (c + o)) = some o
      ∧ b.GetActionContexts ms isTouched isToggled w = (b.contexts w (c + o), b) := by
  obtain ⟨byModifier, hd⟩ := dictionary_isSome_of_hasBinding b w c hb
  unfold ZoneBindings.GetActionContexts
  simp only [hc, hd, Option.isNone_some, Bool.false_eq_true, if_false]
  cases isTouched <;> cases isToggled <;>
    simp only [ZoneBindings.overlayOffsets, Bool.and_self, Bool.and_true, Bool.and_false,
      Bool.true_and, Bool.false_and, Bool.false_eq_true, if_false, if_true, List.nil_append,
      List.cons_append, List.find?_cons, List.find?_nil, add_zero, hb]
  · exact ⟨0, rfl, by simp⟩
  · cases h2 : b.hasBinding w (c + 2)
    · exact ⟨0, by simp [hb], by simp⟩
    · exact ⟨2, rfl, by simp⟩
  · cases h1 : b.hasBinding w (c + 1)
    · exact ⟨0, by simp [hb], by simp⟩
    · exact ⟨1, rfl, by simp⟩
  · cases h3 : b.hasBinding w (c + 3)
    · cases h1 : b.hasBinding w (c + 1)
      · cases h2 : b.hasBinding w (c + 2)
        · exact ⟨0, by simp [hb], by simp⟩
        · exact ⟨2, rfl, by simp⟩
      · exact ⟨1, rfl, by simp⟩
    · exact ⟨3, rfl, by simp⟩

/-! ### Binding resolution -/

/-- C14, the claim as stated fails: with `Fader1` bound at code 1 alone, the list `[0]` and
the channel touched, the claimed rule finds code 0 with offset 1 and selects the list at
code 1, while the code looks for a binding at a listed code itself, finds none and returns
the default list. -/
theorem C14_counterexample :
    touchOnlyBindings.hasBinding fader1 (0 + 1) = true ∧
    touchOnlyBindings.claimedSelection [0] true false fader1 = [namedContext "TrackTouch"] ∧
    (touchOnlyBindings.GetActionContexts [0] true false fader1).1
      = [namedContext "NoAction"] ∧
    ((touchOnlyBindings.UpdateCurrentActionContextModifier [0] fader1).GetActionContexts
      [0] true false fader1).1 = [namedContext "NoAction"] := by
  decide

/-- C14 (amended): after the selection of a widget is refreshed from the reachable-code
list, `GetActionContexts` starts from the first code `c` of the list at which the zone has
a binding for the widget at `c` itself; it returns the list registered at `c + o`, where
`o` is the first offset, in the order 3 (touched and toggled), 1 (touched), 2 (toggled),
0, that the touch/toggle state allows and at which a binding exists; when the zone has a
binding at no code of the list and no code was selected earlier, it returns the default
list of the zone. -/
theorem C14_binding_resolution (b : ZoneBindings) (modifiers : List Int)
    (isTouched isToggled : Bool) (w : Widget) :
    (∀ c, modifiers.find? (fun modifier => b.hasBinding w modifier) = some c →
      ∃ o, (ZoneBindings.overlayOffsets isTouched isToggled).find?
          (fun o => b.hasBinding w (c + o)) = some o
        ∧ ((b.UpdateCurrentActionContextModifier modifiers w).GetActionContexts
            modifiers isTouched isToggled w).1 = b.contexts w (c + o)) ∧
    (modifiers.find? (fun modifier => b.hasBinding w modifier) = none →
      mapFind w b.currentActionContextModifiers = none →
      ((b.UpdateCurrentActionContextModifier modifiers w).GetActionContexts
          modifiers isTouched isToggled w).1 = b.defaultContexts) := by
  constructor
  · intro c hfind
    have hsel := refresh_selection_of_some b modifiers w c hfind
    have hbc : b.hasBinding w c = true := by
      simpa using List.find?_some hfind
    have hbc1 : (b.UpdateCurrentActionContextModifier modifiers w).hasBinding w c = true := by
      rw [refresh_hasBinding]
      exact hbc
    obtain ⟨o, ho, hr⟩ := GetActionContexts_of_selected
      (b.UpdateCurrentActionContextModifier modifiers w) modifiers isTouched isToggled w c
      hsel hbc1
    refine ⟨o, ?_, ?_⟩
    · simpa only [refresh_hasBinding] using ho
    · rw [hr, refresh_contexts]
  · intro hfind hnone
    have hsel1 := (refresh_selection_of_none b modifiers w hfind).trans hnone
    have hfind1 : modifiers.find? (fun modifier =>
        (b.UpdateCurrentActionContextModifier modifiers w).hasBinding w modifier) = none := by
      simpa only [refresh_hasBinding] using hfind
    have hsel2 := (refresh_selection_of_none _ modifiers w hfind1).trans hsel1
    unfold ZoneBindings.GetActionContexts
    simp only [hsel1, Option.isNone_none, if_true, hsel2, refresh_defaultContexts]

/-- Witness of C14: with `Fader1` bound at the codes 0, 1 and 4, the list `[0]` and the
channel touched, the list at code 1 is returned. -/
theorem C14_binding_resolution_witness :
    [(0 : Int)].find? (fun modifier => overlayBindings.hasBinding fader1 modifier) = some 0 ∧
    ((overlayBindings.UpdateCurrentActionContextModifier [0] fader1).GetActionContexts
      [0] true false fader1).1 = [namedContext "TrackTouch"] := by
  refine ⟨by decide, ?_⟩
  obtain ⟨o, ho, hr⟩ :=
    (C14_binding_resolution overlayBindings [0] true false fader1).1 0 (by decide)
  have h1 : (ZoneBindings.overlayOffsets true false).find?
      (fun o => overlayBindings.hasBinding fader1 (0 + o)) = some 1 := by decide
  have ho1 : o = 1 := by
    rw [h1] at ho
    exact (Option.some.inj ho).symm
  subst ho1
  rw [hr]
  decide

/-! ### A widget bound at code 0 alone -/

theorem refresh_dictionary_of_some (b : ZoneBindings) (ms : List Int) (w other : Widget)
    (byModifier : List (Int × List BoundContext))
    (h : mapFind other b.actionContextDictionary = some byModifier) :
    mapFind other (b.UpdateCurrentActionContextModifier ms w).actionContextDictionary
      = some byModifier := by
  unfold ZoneBindings.UpdateCurrentActionContextModifier
  by_cases hms : ms = []
  · simp [hms, h]
  · have key : mapFind other (mapUpdate w [] id b.actionContextDictionary)
        = some byModifier := by
      by_cases ho : other = w
      · subst ho
        rw [mapFind_mapUpdate_self, h]
        rfl
      · rw [mapFind_mapUpdate_of_ne _ _ _ _ _ ho, h]
    simp only [hms, if_false]
    split <;> exact key

theorem hasBinding_of_only_zero (b : ZoneBindings) (w : Widget) (list0 : List BoundContext)
    (honly : mapFind w b.actionContextDictionary = some [(0, list0)]) (c : Int) :
    b.hasBinding w c = decide (c = 0) := by
  rw [hasBinding_eq, honly]
  by_cases hc : c = 0
  · simp [mapFind, hc]
  · simp [mapFind, hc, Ne.symm hc]

theorem find_zero (ms : List Int) (h0 : 0 ∈ ms) :
    ms.find? (fun c => decide (c = 0)) = some 0 := by
  induction ms with
  | nil => simp at h0
  | cons x rest ih =>
    by_cases hx : x = 0
    · simp [hx]
    · have hrest : 0 ∈ rest := by
        rcases List.mem_cons.mp h0 with h | h
        · exact absurd h.symm hx
        · exact h
      simp [List.find?_cons, hx, ih hrest]

theorem refresh_of_only_zero (b : ZoneBindings) (w : Widget) (list0 : List BoundContext)
    (ms : List Int) (h0 : 0 ∈ ms)
    (honly : mapFind w b.actionContextDictionary = some [(0, list0)]) :
    mapFind w (b.UpdateCurrentActionContextModifier ms w).currentActionContextModifiers
      = some 0 := by
  apply refresh_selection_of_some
  have : (fun modifier => b.hasBinding w modifier) = fun c => decide (c = 0) := by
    funext c
    exact hasBinding_of_only_zero b w list0 honly c
  rw [this]
  exact find_zero ms h0

theorem refreshAll_of_only_zero (w : Widget) (list0 : List BoundContext) (ms : List Int)
    (h0 : 0 ∈ ms) :
    ∀ (widgets : List Widget) (b : ZoneBindings),
      mapFind w b.actionContextDictionary = some [(0, list0)] →
      (w ∈ widgets ∨ mapFind w b.currentActionContextModifiers = some 0) →
      mapFind w (widgets.foldl (fun b w => b.UpdateCurrentActionContextModifier ms w)
          b).actionContextDictionary = some [(0, list0)]
        ∧ mapFind w (widgets.foldl (fun b w => b.UpdateCurrentActionContextModifier ms w)
          b).currentActionContextModifiers = some 0
  | [], b, honly, hor => by
    rcases hor with h | h
    · simp at h
    · exact ⟨honly, h⟩
  | other :: rest, b, honly, hor => by
    have honly1 := refresh_dictionary_of_some b ms other w _ honly
    rw [List.foldl_cons]
    apply refreshAll_of_only_zero w list0 ms h0 rest _ honly1
    by_cases ho : w = other
    · subst ho
      exact Or.inr (refresh_of_only_zero b w list0 ms h0 honly)
    · rcases hor with h | h
      · rcases List.mem_cons.mp h with h1 | h1
        · exact absurd h1 ho
        · exact Or.inl h1
      · exact Or.inr ((refresh_selection_of_ne b ms other w ho).trans h)

theorem selection_of_only_zero (b : ZoneBindings) (w : Widget) (list0 : List BoundContext)
    (ms : List Int) (isTouched isToggled : Bool)
    (honly : mapFind w b.actionContextDictionary = some [(0, list0)])
    (hsel : mapFind w b.currentActionContextModifiers = some 0) :
    b.GetActionContexts ms isTouched isToggled w = (list0, b) := by
  have hb0 : b.hasBinding w 0 = true := by
    rw [hasBinding_of_only_zero b w list0 honly]
    rfl
  obtain ⟨o, ho, hr⟩ := GetActionContexts_of_selected b ms isTouched isToggled w 0 hsel hb0
  have hbo := List.find?_some ho
  rw [hasBinding_of_only_zero b w list0 honly] at hbo
  have ho0 : o = 0 := by simpa using hbo
  subst ho0
  rw [hr, contexts_eq, honly]
  simp [mapFind]

theorem zero_mem_recalculate (m : ModifierManager) (hown : m.hasOwner = true) :
    0 ∈ m.RecalculateModifiers.modifierCombinations :=
  (recalculate_mem m hown 0).mpr ⟨[], List.nil_sublist _, by simp⟩

theorem selection_after_recalculate (b : ZoneBindings) (w : Widget)
    (list0 : List BoundContext) (m : ModifierManager) (isTouched isToggled : Bool)
    (hw : w ∈ b.widgets) (honly : mapFind w b.actionContextDictionary = some [(0, list0)])
    (hown : m.hasOwner = true) :
    ((b.UpdateCurrentActionContextModifiers
        m.RecalculateModifiers.modifierCombinations).GetActionContexts
      m.RecalculateModifiers.modifierCombinations isTouched isToggled w).1 = list0 := by
  obtain ⟨h1, h2⟩ := refreshAll_of_only_zero w list0 _ (zero_mem_recalculate m hown)
    b.widgets b honly (Or.inl hw)
  unfold ZoneBindings.UpdateCurrentActionContextModifiers
  rw [selection_of_only_zero _ w list0 _ isTouched isToggled h1 h2]

/-- C15: for a widget of a zone whose only binding is registered at modifier code 0, for
every two managers (any weights, any sets of engaged modifiers) and any touch/toggle
states, once the reachable-code list is recalculated and the selections of the zone are
refreshed, `GetActionContexts` returns the same list both times, the list registered at
code 0, whatever selection the zone remembered before. -/
theorem C15_code_zero_binding_ignores_modifiers (b : ZoneBindings) (w : Widget)
    (list0 : List BoundContext) (m1 m2 : ModifierManager)
    (isTouched1 isToggled1 isTouched2 isToggled2 : Bool)
    (hw : w ∈ b.widgets)
    (honly : mapFind w b.actionContextDictionary = some [(0, list0)])
    (hown1 : m1.hasOwner = true) (hown2 : m2.hasOwner = true) :
    ((b.UpdateCurrentActionContextModifiers
        m1.RecalculateModifiers.modifierCombinations).GetActionContexts
      m1.RecalculateModifiers.modifierCombinations isTouched1 isToggled1 w).1
      = ((b.UpdateCurrentActionContextModifiers
          m2.RecalculateModifiers.modifierCombinations).GetActionContexts
        m2.RecalculateModifiers.modifierCombinations isTouched2 isToggled2 w).1
    ∧ ((b.UpdateCurrentActionContextModifiers
        m1.RecalculateModifiers.modifierCombinations).GetActionContexts
      m1.RecalculateModifiers.modifierCombinations isTouched1 isToggled1 w).1 = list0 := by
  rw [selection_after_recalculate b w list0 m1 isTouched1 isToggled1 hw honly hown1,
    selection_after_recalculate b w list0 m2 isTouched2 isToggled2 hw honly hown2]
  exact ⟨rfl, rfl⟩

/-- Witness of C15: `Fader1` bound at code 0 alone, a stale selection 4 remembered, `Shift`
disengaged and then engaged with the channel touched and toggled. -/
theorem C15_code_zero_binding_ignores_modifiers_witness :
    fader1 ∈ plainBindings.widgets ∧
    mapFind fader1 plainBindings.actionContextDictionary
      = some [(0, [namedContext "TrackVolume"])] ∧
    ((plainBindings.UpdateCurrentActionContextModifiers
        (sampleManager true).RecalculateModifiers.modifierCombinations).GetActionContexts
      (sampleManager true).RecalculateModifiers.modifierCombinations true true fader1).1
      = [namedContext "TrackVolume"] :=
  ⟨by decide, by decide,
    ((C15_code_zero_binding_ignores_modifiers plainBindings fader1
      [namedContext "TrackVolume"] (sampleManager false) (sampleManager true)
      false false true true (by decide) (by decide) rfl rfl).1).symm.trans
    (C15_code_zero_binding_ignores_modifiers plainBindings fader1
      [namedContext "TrackVolume"] (sampleManager false) (sampleManager true)
      false false true true (by decide) (by decide) rfl rfl).2⟩

/-! ### The activation hooks -/

theorem foldl_if_eq_foldl_filter {α β : Type} (p : α → Bool) (f : β → α → β) :
    ∀ (l : List α) (init : β),
      l.foldl (fun acc x => if p x then f acc x else acc) init = (l.filter p).foldl f init
  | [], _ => rfl
  | x :: rest, init => by
    cases hp : p x
    · simp [List.filter_cons, hp, foldl_if_eq_foldl_filter p f rest]
    · simp [List.filter_cons, hp, foldl_if_eq_foldl_filter p f rest]

theorem GetActionContexts_snd (b : ZoneBindings) (ms : List Int) (isTouched isToggled : Bool)
    (w : Widget) :
    (b.GetActionContexts ms isTouched isToggled w).2 = b
      ∨ (b.GetActionContexts ms isTouched isToggled w).2
        = b.UpdateCurrentActionContextModifier ms w := by
  unfold ZoneBindings.GetActionContexts
  cases hc : mapFind w b.currentActionContextModifiers with
  | none =>
    right
    simp only [Option.isNone_none, if_true]
    split
    · split_ifs <;> rfl
    · rfl
  | some c =>
    left
    simp only [Option.isNone_some, Bool.false_eq_true, if_false]
    split
    · split_ifs <;> rfl
    · rfl

theorem GetActionContexts_of_refreshed (b : ZoneBindings) (ms : List Int)
    (isTouched isToggled : Bool) (w : Widget) (c : Int)
    (hnone : mapFind w b.currentActionContextModifiers = none)
    (hsome : mapFind w (b.UpdateCurrentActionContextModifier ms w).currentActionContextModifiers
      = some c) :
    b.GetActionContexts ms isTouched isToggled w
      = (b.UpdateCurrentActionContextModifier ms w).GetActionContexts ms isTouched isToggled w := by
  unfold ZoneBindings.GetActionContexts
  simp only [hnone, hsome, Option.isNone_none, Option.isNone_some, if_true, Bool.false_eq_true,
    if_false]

theorem find_of_zero_only (b : ZoneBindings) (w : Widget) (ms : List Int) (h0 : 0 ∈ ms)
    (hb : ∀ c, b.hasBinding w c = decide (c = 0)) :
    ms.find? (fun modifier => b.hasBinding w modifier) = some 0 := by
  have : (fun modifier => b.hasBinding w modifier) = fun c => decide (c = 0) := funext hb
  rw [this]
  exact find_zero ms h0

theorem hookReady_refresh (b : ZoneBindings) (w : Widget) (hookName : String)
    (list : List BoundContext) (ms : List Int) (other : Widget) (h0 : 0 ∈ ms)
    (h : b.HookReady w hookName list) :
    (b.UpdateCurrentActionContextModifier ms other).HookReady w hookName list := by
  obtain ⟨h1, h2, h3, h4⟩ := h
  refine ⟨?_, ?_, ?_, ?_⟩
  · rw [refresh_widgets]
    exact h1
  · intro c
    rw [refresh_hasBinding]
    exact h2 c
  · rw [refresh_contexts]
    exact h3
  · by_cases ho : w = other
    · subst ho
      exact Or.inr (refresh_selection_of_some b ms w 0 (find_of_zero_only b w ms h0 h2))
    · rw [refresh_selection_of_ne b ms other w ho]
      exact h4

theorem hookReady_refreshAll (w : Widget) (hookName : String) (list : List BoundContext)
    (ms : List Int) (h0 : 0 ∈ ms) :
    ∀ (widgets : List Widget) (b : ZoneBindings), b.HookReady w hookName list →
      (widgets.foldl (fun b x => b.UpdateCurrentActionContextModifier ms x) b).HookReady
        w hookName list
  | [], _, h => h
  | x :: rest, b, h => by
    rw [List.foldl_cons]
    exact hookReady_refreshAll w hookName list ms h0 rest _
      (hookReady_refresh b w hookName list ms x h0 h)

theorem hookReady_GetActionContexts (b : ZoneBindings) (w : Widget) (hookName : String)
    (list : List BoundContext) (ms : List Int) (isTouched isToggled : Bool) (other : Widget)
    (h0 : 0 ∈ ms) (h : b.HookReady w hookName list) :
    (b.GetActionContexts ms isTouched isToggled other).2.HookReady w hookName list := by
  rcases GetActionContexts_snd b ms isTouched isToggled other with h2 | h2
  · rw [h2]
    exact h
  · rw [h2]
    exact hookReady_refresh b w hookName list ms other h0 h

theorem hookReady_selected (b : ZoneBindings) (w : Widget) (hookName : String)
    (list : List BoundContext) (ms : List Int) (isTouched isToggled : Bool) (h0 : 0 ∈ ms)
    (h : b.HookReady w hookName list) :
    (b.GetActionContexts ms isTouched isToggled w).1 = list := by
  have key : ∀ b1 : ZoneBindings, b1.HookReady w hookName list →
      mapFind w b1.currentActionContextModifiers = some 0 →
      (b1.GetActionContexts ms isTouched isToggled w).1 = list := by
    intro b1 hr hsel
    obtain ⟨_, h2, h3, _⟩ := hr
    have hb0 : b1.hasBinding w 0 = true := by
      rw [h2]
      rfl
    obtain ⟨o, ho, hres⟩ := GetActionContexts_of_selected b1 ms isTouched isToggled w 0 hsel hb0
    have hbo := List.find?_some ho
    rw [h2] at hbo
    have ho0 : o = 0 := by simpa using hbo
    subst ho0
    rw [hres]
    exact h3
  rcases h.2.2.2 with hnone | hsome
  · have hsel := refresh_selection_of_some b ms w 0 (find_of_zero_only b w ms h0 h.2.1)
    rw [GetActionContexts_of_refreshed b ms isTouched isToggled w 0 hnone hsel]
    exact key _ (hookReady_refresh b w hookName list ms w h0 h) hsel
  · exact key b h hsome

theorem runHookContexts_of_ready (b : ZoneBindings) (w : Widget) (hookName : String)
    (list : List BoundContext) (ms : List Int) (isTouched isToggled : Widget → Bool)
    (h0 : 0 ∈ ms) (h : b.HookReady w hookName list) :
    (b.runHookContexts ms isTouched isToggled hookName).1
        = list.map (fun context => ContextRun.mk w context 1)
      ∧ (b.runHookContexts ms isTouched isToggled hookName).2
        = (b.GetActionContexts ms (isTouched w) (isToggled w) w).2 := by
  have hfold : b.runHookContexts ms isTouched isToggled hookName
      = (b.widgets.filter (fun x => decide (x.name = hookName))).foldl
        (fun (acc : List ContextRun × ZoneBindings) x =>
          ((acc.1 ++ (acc.2.GetActionContexts ms (isTouched x) (isToggled x) x).1.map
              (fun context => ContextRun.mk x context 1)),
            (acc.2.GetActionContexts ms (isTouched x) (isToggled x) x).2))
        ([], b) := by
    rw [← foldl_if_eq_foldl_filter]
    unfold ZoneBindings.runHookContexts
    simp only [decide_eq_true_eq]
  rw [hfold, h.1]
  simp only [List.foldl_cons, List.foldl_nil, List.nil_append]
  rw [hookReady_selected b w hookName list ms _ _ h0 h]
  simp

theorem hookReady_runHookContexts (b : ZoneBindings) (w other : Widget)
    (hookName otherName : String) (list otherList : List BoundContext) (ms : List Int)
    (isTouched isToggled : Widget → Bool) (h0 : 0 ∈ ms)
    (h : b.HookReady w hookName list) (ho : b.HookReady other otherName otherList) :
    (b.runHookContexts ms isTouched isToggled hookName).2.HookReady
      other otherName otherList := by
  rw [(runHookContexts_of_ready b w hookName list ms isTouched isToggled h0 h).2]
  exact hookReady_GetActionContexts b other otherName otherList ms _ _ w h0 ho

theorem call_of_ready (b : ZoneBindings) (wA wD : Widget) (listA listD : List BoundContext)
    (c : ZoneCall) (h0 : 0 ∈ c.modifiers)
    (hA : b.HookReady wA "OnZoneActivation" listA)
    (hD : b.HookReady wD "OnZoneDeactivation" listD) :
    (b.call c).1 = (match c.kind with
        | .activate => listA.map (fun context => ContextRun.mk wA context 1)
        | .deactivate => listD.map (fun context => ContextRun.mk wD context 1)
        | .refresh => [])
      ∧ (b.call c).2.HookReady wA "OnZoneActivation" listA
      ∧ (b.call c).2.HookReady wD "OnZoneDeactivation" listD := by
  obtain ⟨kind, ms, isTouched, isToggled⟩ := c
  have hA1 := hookReady_refreshAll wA "OnZoneActivation" listA ms h0 b.widgets b hA
  have hD1 := hookReady_refreshAll wD "OnZoneDeactivation" listD ms h0 b.widgets b hD
  cases kind with
  | activate =>
    exact ⟨(runHookContexts_of_ready _ wA _ listA ms isTouched isToggled h0 hA1).1,
      hookReady_runHookContexts _ wA wA _ _ listA listA ms isTouched isToggled h0 hA1 hA1,
      hookReady_runHookContexts _ wA wD _ _ listA listD ms isTouched isToggled h0 hA1 hD1⟩
  | deactivate =>
    exact ⟨(runHookContexts_of_ready b wD _ listD ms isTouched isToggled h0 hD).1,
      hookReady_runHookContexts b wD wA _ _ listD listA ms isTouched isToggled h0 hD hA,
      hookReady_runHookContexts b wD wD _ _ listD listD ms isTouched isToggled h0 hD hD⟩
  | refresh => exact ⟨rfl, hA1, hD1⟩

theorem runCalls_of_ready (wA wD : Widget) (listA listD : List BoundContext) :
    ∀ (calls : List ZoneCall) (b : ZoneBindings),
      (∀ c ∈ calls, 0 ∈ c.modifiers) →
      b.HookReady wA "OnZoneActivation" listA →
      b.HookReady wD "OnZoneDeactivation" listD →
      b.runCalls calls = calls.map fun c => match c.kind with
        | .activate => listA.map (fun context => ContextRun.mk wA context 1)
        | .deactivate => listD.map (fun context => ContextRun.mk wD context 1)
        | .refresh => []
  | [], _, _, _, _ => rfl
  | c :: rest, b, h0, hA, hD => by
    obtain ⟨h1, h2, h3⟩ := call_of_ready b wA wD listA listD c
      (h0 c (List.mem_cons_self c rest)) hA hD
    rw [ZoneBindings.runCalls, List.map_cons, h1,
      runCalls_of_ready wA wD listA listD rest _
        (fun x hx => h0 x (List.mem_cons_of_mem c hx)) h2 h3]

theorem addWidget_hasBinding (b : ZoneBindings) (w other : Widget) (c : Int) :
    (b.AddWidget w).hasBinding other c = b.hasBinding other c := by
  unfold ZoneBindings.AddWidget
  split <;> rfl

theorem addWidget_contexts (b : ZoneBindings) (w other : Widget) (c : Int) :
    (b.AddWidget w).contexts other c = b.contexts other c := by
  unfold ZoneBindings.AddWidget
  split <;> rfl

theorem addWidget_selection (b : ZoneBindings) (w : Widget) :
    (b.AddWidget w).currentActionContextModifiers = b.currentActionContextModifiers := by
  unfold ZoneBindings.AddWidget
  split <;> rfl

theorem addWidget_nodup (b : ZoneBindings) (w : Widget) (h : b.widgets.Nodup) :
    (b.AddWidget w).widgets.Nodup := by
  unfold ZoneBindings.AddWidget
  by_cases hw : w ∈ b.widgets
  · simp [hw, h]
  · have hc : b.widgets.contains w = false := by simpa using hw
    simp only [hc, if_false, Bool.false_eq_true]
    exact List.Nodup.append h (List.nodup_singleton w) (by simpa using hw)

theorem addWidget_mem (b : ZoneBindings) (w x : Widget) :
    x ∈ (b.AddWidget w).widgets ↔ x ∈ b.widgets ∨ x = w := by
  unfold ZoneBindings.AddWidget
  by_cases hw : w ∈ b.widgets
  · have hc : b.widgets.contains w = true := by simpa using hw
    simp only [hc, if_true]
    constructor
    · exact Or.inl
    · rintro (h | h)
      · exact h
      · exact h ▸ hw
  · simp [hw]

theorem filter_eq_singleton {α : Type} (p : α → Bool) (a : α) :
    ∀ l : List α, l.Nodup → (∀ x ∈ l, p x = true → x = a) → a ∈ l → p a = true →
      l.filter p = [a]
  | [], _, _, hmem, _ => by simp at hmem
  | x :: rest, hnodup, huniq, hmem, hpa => by
    have hnodup1 := List.nodup_cons.mp hnodup
    by_cases hx : x = a
    · subst hx
      have hrest : rest.filter p = [] := by
        rw [List.filter_eq_nil_iff]
        intro y hy hpy
        have := huniq y (List.mem_cons_of_mem x hy) hpy
        exact hnodup1.1 (this ▸ hy)
      simp [List.filter_cons, hpa, hrest]
    · have hpx : p x = false := by
        cases hp : p x
        · rfl
        · exact absurd (huniq x (List.mem_cons_self x rest) hp) hx
      have hmem1 : a ∈ rest := by
        rcases List.mem_cons.mp hmem with h | h
        · exact absurd h.symm hx
        · exact h
      simp [List.filter_cons, hpx, filter_eq_singleton p a rest hnodup1.2
        (fun y hy => huniq y (List.mem_cons_of_mem x hy)) hmem1 hpa]

theorem addActionContext_hasBinding_self (b : ZoneBindings) (w : Widget) (m : Int)
    (context : BoundContext) (c : Int) :
    (b.AddActionContext w m context).hasBinding w c = (decide (c = m) || b.hasBinding w c) := by
  rw [hasBinding_eq, hasBinding_eq]
  unfold ZoneBindings.AddActionContext
  simp only [mapFind_mapUpdate_self, Option.getD_some]
  by_cases hc : c = m
  · subst hc
    simp [mapFind_mapUpdate_self]
  · simp [mapFind_mapUpdate_of_ne _ _ _ _ _ hc, hc]

theorem addActionContext_contexts_self (b : ZoneBindings) (w : Widget) (m : Int)
    (context : BoundContext) :
    (b.AddActionContext w m context).contexts w m = b.contexts w m ++ [context] := by
  rw [contexts_eq, contexts_eq]
  unfold ZoneBindings.AddActionContext
  simp only [mapFind_mapUpdate_self, Option.getD_some]

theorem addActionContext_hasBinding_of_ne (b : ZoneBindings) (w other : Widget) (m : Int)
    (context : BoundContext) (c : Int) (ho : other ≠ w) :
    (b.AddActionContext w m context).hasBinding other c = b.hasBinding other c := by
  rw [hasBinding_eq, hasBinding_eq]
  unfold ZoneBindings.AddActionContext
  simp only [mapFind_mapUpdate_of_ne _ _ _ _ _ ho]

theorem addActionContext_contexts_of_ne (b : ZoneBindings) (w other : Widget) (m : Int)
    (context : BoundContext) (c : Int) (ho : other ≠ w) :
    (b.AddActionContext w m context).contexts other c = b.contexts other c := by
  rw [contexts_eq, contexts_eq]
  unfold ZoneBindings.AddActionContext
  simp only [mapFind_mapUpdate_of_ne _ _ _ _ _ ho]

theorem hookReady_wire (b : ZoneBindings) (w : Widget) (hookName : String)
    (context : BoundContext) (hname : w.name = hookName) (hnodup : b.widgets.Nodup)
    (huniq : ∀ x ∈ b.widgets, x.name = hookName → x = w)
    (hfile : ∀ c, b.hasBinding w c = true → c = 0)
    (hfresh : mapFind w b.currentActionContextModifiers = none) :
    ((b.AddWidget w).AddActionContext w 0 context).HookReady w hookName
      (b.contexts w 0 ++ [context]) := by
  refine ⟨?_, ?_, ?_, ?_⟩
  · show (b.AddWidget w).widgets.filter (fun x => decide (x.name = hookName)) = [w]
    apply filter_eq_singleton _ w _ (addWidget_nodup b w hnodup)
    · intro x hx hpx
      rcases (addWidget_mem b w x).mp hx with h | h
      · exact huniq x h (by simpa using hpx)
      · exact h
    · exact (addWidget_mem b w w).mpr (Or.inr rfl)
    · simpa using hname
  · intro c
    rw [addActionContext_hasBinding_self, addWidget_hasBinding]
    by_cases hc : c = 0
    · simp [hc]
    · have : b.hasBinding w c = false := by
        cases hb : b.hasBinding w c
        · rfl
        · exact absurd (hfile c hb) hc
      simp [hc, this]
  · rw [addActionContext_contexts_self, addWidget_contexts]
  · left
    show mapFind w (b.AddWidget w).currentActionContextModifiers = none
    rw [addWidget_selection]
    exact hfresh

theorem hookReady_wire_other (b : ZoneBindings) (w other : Widget) (otherName : String)
    (list : List BoundContext) (context : BoundContext) (ho : other ≠ w)
    (hname : w.name ≠ otherName) (h : b.HookReady other otherName list) :
    ((b.AddWidget w).AddActionContext w 0 context).HookReady other otherName list := by
  obtain ⟨h1, h2, h3, h4⟩ := h
  refine ⟨?_, ?_, ?_, ?_⟩
  · show (b.AddWidget w).widgets.filter (fun x => decide (x.name = otherName)) = [other]
    unfold ZoneBindings.AddWidget
    by_cases hw : w ∈ b.widgets
    · simpa [hw] using h1
    · have hc : b.widgets.contains w = false := by simpa using hw
      simp only [hc, if_false, Bool.false_eq_true, List.filter_append, h1]
      simp [List.filter_cons, hname]
  · intro c
    rw [addActionContext_hasBinding_of_ne _ _ _ _ _ _ ho, addWidget_hasBinding]
    exact h2 c
  · rw [addActionContext_contexts_of_ne _ _ _ _ _ _ ho, addWidget_contexts]
    exact h3
  · show mapFind other (b.AddWidget w).currentActionContextModifiers = none
      ∨ mapFind other (b.AddWidget w).currentActionContextModifiers = some 0
    rw [addWidget_selection]
    exact h4

/-- C13, the claim as stated fails: for a `VCA` zone whose file holds the line
`Shift+OnZoneActivation NoAction` (weight 4 for `Shift`), wired by the constructor on a
surface with both hook widgets, a call of `Activate` while `Shift` is engaged runs the
`NoAction` binding alone; the `VCAModeActivated` binding, registered at code 0, is not run. -/
theorem C13_counterexample :
    builtZoneBindings (sampleManager true).value
        [fader1, onZoneActivation, onZoneDeactivation] [] vcaShiftFile
      = some shiftHookBindings ∧
    (sampleManager true).RecalculateModifiers.modifierCombinations = [4, 0, 0] ∧
    (wireRadioButtonHooks "VCA" (some onZoneActivation) (some onZoneDeactivation)
        shiftHookBindings).contexts onZoneActivation 0 = [namedContext "VCAModeActivated"] ∧
    ((wireRadioButtonHooks "VCA" (some onZoneActivation) (some onZoneDeactivation)
        shiftHookBindings).Activate
      (sampleManager true).RecalculateModifiers.modifierCombinations
      (fun _ => false) (fun _ => false)).1
      = [⟨onZoneActivation, GetActionContext "NoAction" ["NoAction"] [], 1⟩] := by
  decide

/-- C13 (amended): take a zone of the `VCA` group whose file binds the two hook widgets at
no code other than 0, wired by the constructor on a surface that has both widgets.  In
every sequence of `Activate`, `Deactivate` and refresh calls during which the
reachable-code list contains 0, every `Activate` runs, once each and with the value 1.0,
the bindings the file registers for `OnZoneActivation` at code 0 followed by the
`VCAModeActivated` binding, and every `Deactivate` runs in the same way the file bindings
of `OnZoneDeactivation` followed by the `VCAModeDeactivated` binding; no call is skipped
because of an earlier one. -/
theorem C13_hooks_run_once_per_call (b0 : ZoneBindings) (wA wD : Widget)
    (calls : List ZoneCall)
    (hA : wA.name = "OnZoneActivation") (hD : wD.name = "OnZoneDeactivation")
    (hnodup : b0.widgets.Nodup)
    (hnames : ∀ x ∈ b0.widgets,
      (x.name = "OnZoneActivation" → x = wA) ∧ (x.name = "OnZoneDeactivation" → x = wD))
    (hfile : ∀ c, b0.hasBinding wA c = true ∨ b0.hasBinding wD c = true → c = 0)
    (hfresh : mapFind wA b0.currentActionContextModifiers = none
      ∧ mapFind wD b0.currentActionContextModifiers = none)
    (hzero : ∀ c ∈ calls, 0 ∈ c.modifiers) :
    (wireRadioButtonHooks "VCA" (some wA) (some wD) b0).runCalls calls
      = calls.map fun c => match c.kind with
        | .activate => (b0.contexts wA 0 ++ [namedContext "VCAModeActivated"]).map
            (fun context => ContextRun.mk wA context 1)
        | .deactivate => (b0.contexts wD 0 ++ [namedContext "VCAModeDeactivated"]).map
            (fun context => ContextRun.mk wD context 1)
        | .refresh => [] := by
  have hne : wD ≠ wA := by
    intro h
    rw [h, hA] at hD
    exact absurd hD (by decide)
  have hreadyA := hookReady_wire b0 wA "OnZoneActivation" (namedContext "VCAModeActivated")
    hA hnodup (fun x hx => (hnames x hx).1) (fun c hc => hfile c (Or.inl hc)) hfresh.1
  have hreadyD := hookReady_wire
    ((b0.AddWidget wA).AddActionContext wA 0 (namedContext "VCAModeActivated"))
    wD "OnZoneDeactivation" (namedContext "VCAModeDeactivated") hD
    (addWidget_nodup b0 wA hnodup)
    (fun x hx hn => by
      rcases (addWidget_mem b0 wA x).mp hx with h | h
      · exact (hnames x h).2 hn
      · rw [h, hA] at hn
        exact absurd hn (by decide))
    (fun c hc => by
      rw [addActionContext_hasBinding_of_ne _ _ _ _ _ _ hne, addWidget_hasBinding] at hc
      exact hfile c (Or.inr hc))
    (by
      show mapFind wD (b0.AddWidget wA).currentActionContextModifiers = none
      rw [addWidget_selection]
      exact hfresh.2)
  rw [addActionContext_contexts_of_ne _ _ _ _ _ _ hne, addWidget_contexts] at hreadyD
  have hreadyA2 := hookReady_wire_other
    ((b0.AddWidget wA).AddActionContext wA 0 (namedContext "VCAModeActivated"))
    wD wA "OnZoneActivation" _ (namedContext "VCAModeDeactivated") (Ne.symm hne)
    (by rw [hD]; decide) hreadyA
  have hwire : wireRadioButtonHooks "VCA" (some wA) (some wD) b0
      = (((b0.AddWidget wA).AddActionContext wA 0 (namedContext "VCAModeActivated")).AddWidget
          wD).AddActionContext wD 0 (namedContext "VCAModeDeactivated") := by
    simp [wireRadioButtonHooks]
  rw [hwire]
  exact runCalls_of_ready wA wD _ _ calls _ hzero hreadyA2 hreadyD

/-- Witness of C13: the file of the zone holds `OnZoneActivation NoAction`; each of the
two activations runs `NoAction` and then `VCAModeActivated`, each of the two deactivations
runs `VCAModeDeactivated`, and the refresh runs nothing. -/
theorem C13_hooks_run_once_per_call_witness :
    fileHookBindings.widgets.Nodup ∧
    (∀ c ∈ sampleCalls, 0 ∈ c.modifiers) ∧
    (wireRadioButtonHooks "VCA" (some onZoneActivation) (some onZoneDeactivation)
        fileHookBindings).runCalls sampleCalls
      = [[⟨onZoneActivation, namedContext "NoAction", 1⟩,
          ⟨onZoneActivation, namedContext "VCAModeActivated", 1⟩],
        [⟨onZoneActivation, namedContext "NoAction", 1⟩,
          ⟨onZoneActivation, namedContext "VCAModeActivated", 1⟩],
        [⟨onZoneDeactivation, namedContext "VCAModeDeactivated", 1⟩],
        [],
        [⟨onZoneDeactivation, namedContext "VCAModeDeactivated", 1⟩]] := by
  refine ⟨by decide, by decide, ?_⟩
  rw [C13_hooks_run_once_per_call fileHookBindings onZoneActivation onZoneDeactivation
    sampleCalls rfl rfl (by decide) (by decide) ?_ ⟨rfl, rfl⟩ (by decide)]
  · rfl
  · intro c hc
    rcases hc with hc | hc
    · rw [hasBinding_of_only_zero fileHookBindings onZoneActivation
        [namedContext "NoAction"] rfl] at hc
      simpa using hc
    · have hd : mapFind onZoneDeactivation fileHookBindings.actionContextDictionary = none := by
        decide
      rw [hasBinding_eq, hd] at hc
      simp [mapFind] at hc

/-! ### The widget specifier -/

theorem getlineTokens_eq_nil (delimiter : Char) :
    ∀ (cs pending : List Char), getlineTokens delimiter cs pending = [] →
      cs = [] ∧ pending = []
  | [], pending, h => by
    cases pending with
    | nil => exact ⟨rfl, rfl⟩
    | cons c rest => simp [getlineTokens] at h
  | c :: rest, pending, h => by
    unfold getlineTokens at h
    split_ifs at h
    exact absurd (getlineTokens_eq_nil delimiter rest (pending ++ [c]) h).2 (by simp)

theorem namedModifier_facts (token : String) (i : Modifiers)
    (h : namedModifier token = some i) :
    finds token "Touch" = false ∧ token ≠ "Toggle" ∧ token ≠ "InvertFB" ∧ token ≠ "Hold"
      ∧ token ≠ "Decrease" ∧ token ≠ "Increase" := by
  unfold namedModifier at h
  split_ifs at h <;> subst_vars <;> decide

theorem setModifier_of_no_owner (m : ModifierManager) (modifier : Modifiers) (value : Bool)
    (h : m.hasOwner = false) :
    m.SetModifier modifier value
      = { m with isEngaged := fun i => if i = modifier then value else m.isEngaged i } := by
  simp [ModifierManager.SetModifier, ModifierManager.RecalculateModifiers, h]

theorem decodeSegment_fold (segments : List String) :
    ∀ (t : ActionTemplate) (m : ModifierManager), m.hasOwner = false →
      segments.foldl decodeSegment (t, m) =
        ({ widgetName := t.widgetName
           modifier := t.modifier + (segments.filter fun s => finds s "Touch").length
             + 2 * segments.count "Toggle"
           actionName := t.actionName
           params := t.params
           properties := t.properties
           isFeedbackInverted := t.isFeedbackInverted || segments.contains "InvertFB"
           holdDelayAmount := if "Hold" ∈ segments then 1 else t.holdDelayAmount
           isDecrease := t.isDecrease || segments.contains "Decrease"
           isIncrease := t.isIncrease || segments.contains "Increase" },
         { hasOwner := false
           value := m.value
           isEngaged := fun i =>
             m.isEngaged i || segments.any fun s => namedModifier s == some i
           modifierCombinations := m.modifierCombinations }) := by
  induction segments with
  | nil =>
    intro t m hm
    obtain ⟨a, b, c, d⟩ := m
    simp only at hm
    subst hm
    simp
  | cons token rest ih =>
    intro t m hm
    rw [List.foldl_cons]
    by_cases hT : finds token "Touch" = true
    · have hnamed : ∀ i, (namedModifier token == some i) = false := by
        intro i
        cases hn : namedModifier token == some i
        · rfl
        · have h0 := (namedModifier_facts token i (by simpa using hn)).1
          rw [h0] at hT
          exact absurd hT Bool.false_ne_true
      have h1 : token ≠ "Toggle" := by rintro rfl; exact absurd hT (by decide)
      have h2 : token ≠ "InvertFB" := by rintro rfl; exact absurd hT (by decide)
      have h3 : token ≠ "Hold" := by rintro rfl; exact absurd hT (by decide)
      have h4 : token ≠ "Decrease" := by rintro rfl; exact absurd hT (by decide)
      have h5 : token ≠ "Increase" := by rintro rfl; exact absurd hT (by decide)
      have hstep : decodeSegment (t, m) token = ({ t with modifier := t.modifier + 1 }, m) := by
        simp [decodeSegment, hT]
      rw [hstep, ih _ m hm]
      simp [List.filter_cons, hT, List.count_cons, h1, h2, h3, h4, h5, hnamed,
        Ne.symm h1, Ne.symm h2, Ne.symm h3, Ne.symm h4, Ne.symm h5]
      omega
    · have hT0 : finds token "Touch" = false := by simpa using hT
      by_cases hG : token = "Toggle"
      · subst hG
        have hnone : namedModifier "Toggle" = none := by decide
        have hstep : decodeSegment (t, m) "Toggle" = ({ t with modifier := t.modifier + 2 }, m) := by
          simp [decodeSegment, hT0]
        rw [hstep, ih _ m hm]
        simp [List.filter_cons, hT0, List.count_cons, hnone]
        omega
      · cases hN : namedModifier token with
        | some j =>
          obtain ⟨_, _, h2, h3, h4, h5⟩ := namedModifier_facts token j hN
          have hstep : decodeSegment (t, m) token
              = (t, { m with isEngaged := fun i => if i = j then true else m.isEngaged i }) := by
            simp [decodeSegment, hT0, hG, hN, setModifier_of_no_owner m j true hm]
          rw [hstep, ih t _ (show (ModifierManager.mk m.hasOwner m.value
            (fun i => if i = j then true else m.isEngaged i) m.modifierCombinations).hasOwner
              = false from hm)]
          simp [List.filter_cons, hT0, List.count_cons, hG, h2, h3, h4, h5, hN,
            Ne.symm hG, Ne.symm h2, Ne.symm h3, Ne.symm h4, Ne.symm h5]
          funext i
          by_cases hij : i = j
          · simp [hij]
          · have hji : (j == i) = false := by simpa using Ne.symm hij
            simp [hij, hji]
        | none =>
          by_cases h2 : token = "InvertFB"
          · subst h2
            have hstep : decodeSegment (t, m) "InvertFB"
                = ({ t with isFeedbackInverted := true }, m) := by
              simp [decodeSegment, hT0, hG, hN]
            rw [hstep, ih _ m hm]
            simp [List.filter_cons, hT0, List.count_cons, hN]
          · by_cases h3 : token = "Hold"
            · subst h3
              have hstep : decodeSegment (t, m) "Hold"
                  = ({ t with holdDelayAmount := 1 }, m) := by
                simp [decodeSegment, hT0, hG, hN]
              rw [hstep, ih _ m hm]
              simp [List.filter_cons, hT0, List.count_cons, hN]
            · by_cases h4 : token = "Decrease"
              · subst h4
                have hstep : decodeSegment (t, m) "Decrease"
                    = ({ t with isDecrease := true }, m) := by
                  simp [decodeSegment, hT0, hG, hN]
                rw [hstep, ih _ m hm]
                simp [List.filter_cons, hT0, List.count_cons, hN]
              · by_cases h5 : token = "Increase"
                · subst h5
                  have hstep : decodeSegment (t, m) "Increase"
                      = ({ t with isIncrease := true }, m) := by
                    simp [decodeSegment, hT0, hG, hN]
                  rw [hstep, ih _ m hm]
                  simp [List.filter_cons, hT0, List.count_cons, hN]
                · have hstep : decodeSegment (t, m) token = (t, m) := by
                    simp [decodeSegment, hT0, hG, hN, h2, h3, h4, h5]
                  rw [hstep, ih _ m hm]
                  simp [List.filter_cons, hT0, List.count_cons, hG, h2, h3, h4, h5, hN,
                    Ne.symm hG, Ne.symm h2, Ne.symm h3, Ne.symm h4, Ne.symm h5]

theorem namedModifier_eq_none_of_touch (token : String) (h : finds token "Touch" = true) :
    namedModifier token = none := by
  cases hN : namedModifier token with
  | none => rfl
  | some i =>
    rw [(namedModifier_facts token i hN).1] at h
    exact absurd h Bool.false_ne_true

theorem claimedModifier_eq (weights : Modifiers → Int) (segments : List String) :
    claimedModifier weights segments
      = (segments.filter fun s => finds s "Touch").length + 2 * segments.count "Toggle"
        + ((segments.filterMap namedModifier).map weights).sum := by
  induction segments with
  | nil => simp [claimedModifier]
  | cons token rest ih =>
    have hcons : claimedModifier weights (token :: rest)
        = claimedSegmentCode weights token + claimedModifier weights rest := by
      simp [claimedModifier]
    rw [hcons, ih]
    by_cases hT : finds token "Touch" = true
    · have h1 : token ≠ "Toggle" := by rintro rfl; exact absurd hT (by decide)
      simp [claimedSegmentCode, hT, List.filter_cons, List.count_cons, h1,
        List.filterMap_cons, namedModifier_eq_none_of_touch token hT]
      omega
    · have hT0 : finds token "Touch" = false := by simpa using hT
      by_cases hG : token = "Toggle"
      · subst hG
        have hnone : namedModifier "Toggle" = none := by decide
        simp [claimedSegmentCode, hT0, List.filter_cons, List.count_cons, List.filterMap_cons,
          hnone]
        omega
      · cases hN : namedModifier token with
        | some j =>
          simp [claimedSegmentCode, hT0, hG, List.filter_cons, List.count_cons,
            List.filterMap_cons, hN]
          omega
        | none =>
          simp [claimedSegmentCode, hT0, hG, List.filter_cons, List.count_cons,
            List.filterMap_cons, hN]

theorem modifiers_all_nodup : Modifiers.all.Nodup := by decide

theorem mem_modifiers_all (i : Modifiers) : i ∈ Modifiers.all := by
  cases i <;> decide

theorem named_weight_sum (weights : Modifiers → Int) (segments : List String)
    (hnodup : (segments.filterMap namedModifier).Nodup) :
    ((Modifiers.all.filter fun i => segments.any fun s => namedModifier s == some i).map
        weights).sum
      = ((segments.filterMap namedModifier).map weights).sum := by
  apply List.Perm.sum_eq
  apply List.Perm.map
  rw [List.perm_ext_iff_of_nodup (modifiers_all_nodup.filter _) hnodup]
  intro i
  simp only [List.mem_filter, mem_modifiers_all, true_and, List.any_eq_true, beq_iff_eq,
    List.mem_filterMap]

/-- C17, the claim as stated fails: in `Shift+Shift+Fader1` two of the preceding segments
name `Shift`, so the claimed sum over the segments is twice the weight (8 for the weight
4), while the code engages the flag of `Shift` in its local manager twice and adds the
weight once. -/
theorem C17_counterexample :
    getlineTokens (Char.ofNat 43) "Shift+Shift+Fader1".toList []
      = ["Shift", "Shift", "Fader1"] ∧
    claimedModifier (sampleManager false).value ["Shift", "Shift"] = 8 ∧
    (GetWidgetNameAndModifiers (sampleManager false).value "Shift+Shift+Fader1"
        ActionTemplate.fresh).map (fun t => (t.widgetName, t.modifier))
      = some ("Fader1", 4) := by
  decide

/-- C17 (amended): for every non-empty specifier, `GetWidgetNameAndModifiers` splits it on
`+`, takes the last segment as the widget name and adds to the modifier code 1 for every
preceding segment that contains `Touch`, 2 for every preceding segment `Toggle`, and the
configured weight of every named modifier that occurs among the preceding segments, once
however often it is repeated; the segments `InvertFB`, `Hold`, `Decrease` and `Increase`
set only their flag (`Hold` the delay 1.0), any other segment changes nothing, and the
action name, params and properties are left as they were.  When no named modifier is
repeated, the code added is the sum over the preceding segments that the claim gives. -/
theorem C17_widget_name_decoding (weights : Modifiers → Int) (line : String)
    (t : ActionTemplate) (hline : line ≠ "") :
    ∃ segments widgetName,
      getlineTokens (Char.ofNat 43) line.toList [] = segments ++ [widgetName]
      ∧ GetWidgetNameAndModifiers weights line t = some
        { widgetName := widgetName
          modifier := t.modifier + (segments.filter fun s => finds s "Touch").length
            + 2 * segments.count "Toggle"
            + ((Modifiers.all.filter fun i =>
                segments.any fun s => namedModifier s == some i).map weights).sum
          actionName := t.actionName
          params := t.params
          properties := t.properties
          isFeedbackInverted := t.isFeedbackInverted || segments.contains "InvertFB"
          holdDelayAmount := if "Hold" ∈ segments then 1 else t.holdDelayAmount
          isDecrease := t.isDecrease || segments.contains "Decrease"
          isIncrease := t.isIncrease || segments.contains "Increase" }
      ∧ ((segments.filterMap namedModifier).Nodup →
          (GetWidgetNameAndModifiers weights line t).map (fun r => r.modifier)
            = some (t.modifier + claimedModifier weights segments)) := by
  have hne : getlineTokens (Char.ofNat 43) line.toList [] ≠ [] := by
    intro h
    have h1 := (getlineTokens_eq_nil _ _ _ h).1
    apply hline
    obtain ⟨data⟩ := line
    simp only [String.toList] at h1
    subst h1
    rfl
  have hsplit := (List.dropLast_append_getLast hne).symm
  have hlast : (getlineTokens (Char.ofNat 43) line.toList []).getLast?
      = some ((getlineTokens (Char.ofNat 43) line.toList []).getLast hne) :=
    List.getLast?_eq_getLast _ hne
  have hresult : GetWidgetNameAndModifiers weights line t = some
      { widgetName := (getlineTokens (Char.ofNat 43) line.toList []).getLast hne
        modifier := t.modifier
          + ((getlineTokens (Char.ofNat 43) line.toList []).dropLast.filter
              fun s => finds s "Touch").length
          + 2 * (getlineTokens (Char.ofNat 43) line.toList []).dropLast.count "Toggle"
          + ((Modifiers.all.filter fun i =>
              (getlineTokens (Char.ofNat 43) line.toList []).dropLast.any
                fun s => namedModifier s == some i).map weights).sum
        actionName := t.actionName
        params := t.params
        properties := t.properties
        isFeedbackInverted := t.isFeedbackInverted
          || (getlineTokens (Char.ofNat 43) line.toList []).dropLast.contains "InvertFB"
        holdDelayAmount :=
          if "Hold" ∈ (getlineTokens (Char.ofNat 43) line.toList []).dropLast then 1
          else t.holdDelayAmount
        isDecrease := t.isDecrease
          || (getlineTokens (Char.ofNat 43) line.toList []).dropLast.contains "Decrease"
        isIncrease := t.isIncrease
          || (getlineTokens (Char.ofNat 43) line.toList []).dropLast.contains "Increase" } := by
    unfold GetWidgetNameAndModifiers
    simp only [hlast]
    rw [decodeSegment_fold _ _ _ rfl]
    simp [ModifierManager.GetModifierValue, ModifierManager.activeModifierIndices,
      ModifierManager.fresh]
  refine ⟨_, _, hsplit, hresult, ?_⟩
  intro hnodup
  rw [hresult, Option.map_some', named_weight_sum weights _ hnodup, claimedModifier_eq]
  simp only [Option.some.injEq]
  omega

/-- Witness of C17: the specifier `Shift+Option+Touch+Toggle+Hold+Bogus+Fader1` with the
weights 4 and 8 for `Shift` and `Option` gives the widget `Fader1`, the code 15 and the
hold delay. -/
theorem C17_widget_name_decoding_witness :
    "Shift+Option+Touch+Toggle+Hold+Bogus+Fader1" ≠ "" ∧
    (GetWidgetNameAndModifiers (sampleManager false).value
        "Shift+Option+Touch+Toggle+Hold+Bogus+Fader1" ActionTemplate.fresh).map
      (fun r => (r.widgetName, r.modifier, r.holdDelayAmount, r.isFeedbackInverted))
      = some ("Fader1", 15, 1, false) := by
  refine ⟨by decide, ?_⟩
  obtain ⟨segments, widgetName, hsplit, hresult, _⟩ :=
    C17_widget_name_decoding (sampleManager false).value
      "Shift+Option+Touch+Toggle+Hold+Bogus+Fader1" ActionTemplate.fresh (by decide)
  have htokens : getlineTokens (Char.ofNat 43)
      "Shift+Option+Touch+Toggle+Hold+Bogus+Fader1".toList []
      = ["Shift", "Option", "Touch", "Toggle", "Hold", "Bogus"] ++ ["Fader1"] := by decide
  rw [htokens] at hsplit
  obtain ⟨hseg, hname⟩ := List.append_inj' hsplit rfl
  subst hseg
  rw [hresult, ← (List.singleton_inj.mp hname)]
  decide

/-! ### The lines of a zone file -/

theorem GetWidgetNameAndModifiers_of_tokens (weights : Modifiers → Int) (line : String)
    (t : ActionTemplate) (segments : List String) (widgetName : String)
    (h : getlineTokens (Char.ofNat 43) line.toList [] = segments ++ [widgetName]) :
    GetWidgetNameAndModifiers weights line t = some
      { widgetName := widgetName
        modifier := t.modifier + (segments.filter fun s => finds s "Touch").length
          + 2 * segments.count "Toggle"
          + ((Modifiers.all.filter fun i =>
              segments.any fun s => namedModifier s == some i).map weights).sum
        actionName := t.actionName
        params := t.params
        properties := t.properties
        isFeedbackInverted := t.isFeedbackInverted || segments.contains "InvertFB"
        holdDelayAmount := if "Hold" ∈ segments then 1 else t.holdDelayAmount
        isDecrease := t.isDecrease || segments.contains "Decrease"
        isIncrease := t.isIncrease || segments.contains "Increase" } := by
  have hl : (getlineTokens (Char.ofNat 43) line.toList []).getLast? = some widgetName := by
    rw [h]
    simp
  have hd : (getlineTokens (Char.ofNat 43) line.toList []).dropLast = segments := by
    rw [h]
    simp
  unfold GetWidgetNameAndModifiers
  simp only [hl, hd]
  rw [decodeSegment_fold _ _ _ rfl]
  simp [ModifierManager.GetModifierValue, ModifierManager.activeModifierIndices,
    ModifierManager.fresh]

theorem getlineTokens_ne_nil (line : String) (hline : line ≠ "") (delimiter : Char) :
    getlineTokens delimiter line.toList [] ≠ [] := by
  intro h
  have h1 := (getlineTokens_eq_nil _ _ _ h).1
  apply hline
  obtain ⟨data⟩ := line
  simp only [String.toList] at h1
  subst h1
  rfl

theorem GetWidgetNameAndModifiers_fields (weights : Modifiers → Int) (line : String)
    (t : ActionTemplate) (hline : line ≠ "") :
    ∃ r, GetWidgetNameAndModifiers weights line t = some r ∧ r.actionName = t.actionName
      ∧ r.params = t.params ∧ r.properties = t.properties := by
  have hne := getlineTokens_ne_nil line hline (Char.ofNat 43)
  exact ⟨_, GetWidgetNameAndModifiers_of_tokens weights line t _ _
    (List.dropLast_append_getLast hne).symm, rfl, rfl, rfl⟩

theorem modify_last {α : Type} (f : α → α) :
    ∀ (l : List α) (h : l ≠ []),
      l.modify f (l.length - 1) = l.dropLast ++ [f (l.getLast h)]
  | [], h => absurd rfl h
  | [a], _ => by simp [List.modify]
  | a :: b :: rest, _ => by
    have ih := modify_last f (b :: rest) (by simp)
    simp only [List.length_cons, Nat.add_sub_cancel] at ih ⊢
    rw [List.modify_succ_cons, ih]
    simp [List.dropLast, List.getLast_cons]

theorem processBindingTokens_current (weights : Modifiers → Int) (s s1 : ZoneFileState)
    (first : String) (rest : List String)
    (hs : s.currentActionTemplate
      = if s.actionTemplates = [] then none else some (s.actionTemplates.length - 1))
    (h : processBindingTokens weights s first rest = .next s1) :
    s1.currentActionTemplate
      = if s1.actionTemplates = [] then none else some (s1.actionTemplates.length - 1) := by
  unfold processBindingTokens at h
  split at h
  · cases h
    exact hs
  · split_ifs at h
    · split at h
      · rename_i position hp
        cases h
        have hlen : ∀ f : ActionTemplate → ActionTemplate,
            (s.actionTemplates.modify f position = []) ↔ s.actionTemplates = [] := by
          intro f
          rw [← List.length_eq_zero, List.length_modify, List.length_eq_zero]
        simp only [hlen, List.length_modify]
        exact hs
      · cases h
        exact hs
    · split at h
      · cases h
        simp
      · cases h

/-- The pointed template is the last one created, and there is none before the first. -/
theorem processLineTokens_current (weights : Modifiers → Int) (s s1 : ZoneFileState)
    (tokens : List String)
    (hs : s.currentActionTemplate
      = if s.actionTemplates = [] then none else some (s.actionTemplates.length - 1))
    (h : processLineTokens weights s tokens = .next s1) :
    s1.currentActionTemplate
      = if s1.actionTemplates = [] then none else some (s1.actionTemplates.length - 1) := by
  cases tokens with
  | nil =>
    simp only [processLineTokens] at h
    cases h
    exact hs
  | cons first rest =>
    simp only [processLineTokens] at h
    by_cases c0 : first = "FXParams"
    · rw [if_pos c0] at h
      cases h
    rw [if_neg c0] at h
    by_cases c1 : first = "Zone"
    · rw [if_pos c1] at h
      cases h
      exact hs
    rw [if_neg c1] at h
    by_cases c2 : first = "ZoneEnd" ∧ s.zoneName ≠ ""
    · rw [if_pos c2] at h
      cases h
    rw [if_neg c2] at h
    by_cases c3 : first = "IncludedZones"
    · rw [if_pos c3] at h
      cases h
      exact hs
    rw [if_neg c3] at h
    by_cases c4 : first = "IncludedZonesEnd"
    · rw [if_pos c4] at h
      cases h
      exact hs
    rw [if_neg c4] at h
    by_cases c5 : s.isInIncludedZonesSection = true
    · rw [if_pos c5] at h
      cases h
      exact hs
    rw [if_neg c5] at h
    by_cases c6 : first = "SubZones"
    · rw [if_pos c6] at h
      cases h
      exact hs
    rw [if_neg c6] at h
    by_cases c7 : first = "SubZonesEnd"
    · rw [if_pos c7] at h
      cases h
      exact hs
    rw [if_neg c7] at h
    by_cases c8 : s.isInSubZonesSection = true
    · rw [if_pos c8] at h
      cases h
      exact hs
    rw [if_neg c8] at h
    by_cases c9 : first = "AssociatedZones"
    · rw [if_pos c9] at h
      cases h
      exact hs
    rw [if_neg c9] at h
    by_cases c10 : first = "AssociatedZonesEnd"
    · rw [if_pos c10] at h
      cases h
      exact hs
    rw [if_neg c10] at h
    by_cases c11 : s.isInAssociatedZonesSection = true
    · rw [if_pos c11] at h
      cases h
      exact hs
    rw [if_neg c11] at h
    exact processBindingTokens_current weights s s1 _ _ hs h

theorem ProcessZoneFile_current (weights : Modifiers → Int) :
    ∀ (lines : List (List String)) (s s1 : ZoneFileState),
      s.currentActionTemplate
        = (if s.actionTemplates = [] then none else some (s.actionTemplates.length - 1)) →
      ProcessZoneFile weights s lines = .next s1 →
      s1.currentActionTemplate
        = if s1.actionTemplates = [] then none else some (s1.actionTemplates.length - 1)
  | [], s, s1, hs, h => by
    simp only [ProcessZoneFile] at h
    cases h
    exact hs
  | tokens :: rest, s, s1, hs, h => by
    unfold ProcessZoneFile at h
    cases hr : processLineTokens weights s tokens with
    | next s2 =>
      rw [hr] at h
      exact ProcessZoneFile_current weights rest s2 s1
        (processLineTokens_current weights s s2 tokens hs hr) h
    | fxZoneFile => rw [hr] at h; cases h
    | zoneEnd s2 => rw [hr] at h; cases h
    | fault => rw [hr] at h; cases h

theorem processLineTokens_binding (weights : Modifiers → Int) (s : ZoneFileState)
    (first : String) (rest : List String)
    (hkw : first ∉ structuralKeywords)
    (hze : ¬(first = "ZoneEnd" ∧ s.zoneName ≠ ""))
    (hI : s.isInIncludedZonesSection = false) (hS : s.isInSubZonesSection = false)
    (hA : s.isInAssociatedZonesSection = false) :
    processLineTokens weights s (first :: rest) = processBindingTokens weights s first rest := by
  simp only [structuralKeywords, List.mem_cons, List.mem_singleton, List.not_mem_nil,
    or_false, not_or] at hkw
  obtain ⟨k1, k2, k3, k4, k5, k6, k7, k8⟩ := hkw
  simp only [processLineTokens]
  rw [if_neg k1, if_neg k2, if_neg hze, if_neg k3, if_neg k4, if_neg (by simp [hI]),
    if_neg k5, if_neg k6, if_neg (by simp [hS]), if_neg k7, if_neg k8, if_neg (by simp [hA])]

theorem not_keyword_of_property (first : String) (h : finds first "Property" = true) :
    first ∉ structuralKeywords ∧ first ≠ "ZoneEnd" := by
  constructor
  · intro hmem
    simp only [structuralKeywords, List.mem_cons, List.mem_singleton, List.not_mem_nil,
      or_false] at hmem
    rcases hmem with h1 | h1 | h1 | h1 | h1 | h1 | h1 | h1 <;> subst h1 <;>
      exact absurd h (by decide)
  · rintro rfl
    exact absurd h (by decide)

/-- C20, the claim as stated fails: the line `Zone Home` stands outside the three sections,
has two tokens and its first token does not contain `Property`, yet it starts no template:
the loop tests the structural keywords first and the line only sets the zone name. -/
theorem C20_counterexample :
    finds "Zone" "Property" = false ∧
    processLineTokens (sampleManager false).value ZoneFileState.initial ["Zone", "Home"]
      = .next { ZoneFileState.initial with zoneName := "Home" } ∧
    ({ ZoneFileState.initial with zoneName := "Home" } : ZoneFileState).actionTemplates = [] := by
  decide

/-- C20 (amended): take the locals of `ProcessZoneFile` after any lines of a file, outside
the included, sub and associated sections, and a line of at least two tokens.  If the first
token contains `Property`, the tokens after the first are appended as one property group to
the template created last and no template is created; when no template was created yet the
line changes nothing.  If the first token does not contain `Property`, is not empty and is
not a structural keyword (`FXParams`, `Zone`, the six section keywords, or `ZoneEnd` while a
zone name is set), the line creates a new template, which becomes the one created last; its
action name is the second token, its params are all tokens after the first, it has no
property group, and its widget name and code are decoded from the first token. -/
theorem C20_property_lines (weights : Modifiers → Int) (lines : List (List String))
    (s : ZoneFileState) (first second : String) (rest : List String)
    (hreach : ProcessZoneFile weights ZoneFileState.initial lines = .next s)
    (hI : s.isInIncludedZonesSection = false) (hS : s.isInSubZonesSection = false)
    (hA : s.isInAssociatedZonesSection = false) :
    (finds first "Property" = true →
      processLineTokens weights s (first :: second :: rest) = .next
        (match s.actionTemplates.getLast? with
          | some last =>
            { s with actionTemplates := s.actionTemplates.dropLast
                ++ [{ last with properties := last.properties ++ [second :: rest] }] }
          | none => s))
    ∧ (finds first "Property" = false → first ≠ "" → first ∉ structuralKeywords →
        ¬(first = "ZoneEnd" ∧ s.zoneName ≠ "") →
        ∃ t, GetWidgetNameAndModifiers weights first
              { ActionTemplate.fresh with actionName := second, params := second :: rest }
            = some t
          ∧ t.actionName = second ∧ t.params = second :: rest ∧ t.properties = []
          ∧ processLineTokens weights s (first :: second :: rest) = .next
              { s with actionTemplates := s.actionTemplates ++ [t]
                       currentActionTemplate := some s.actionTemplates.length }) := by
  have hcur := ProcessZoneFile_current weights lines ZoneFileState.initial s rfl hreach
  constructor
  · intro hP
    obtain ⟨hkw, hze⟩ := not_keyword_of_property first hP
    rw [processLineTokens_binding weights s first _ hkw (fun h => hze h.1) hI hS hA]
    simp only [processBindingTokens, hP, if_true]
    by_cases he : s.actionTemplates = []
    · rw [hcur]
      simp [he]
    · rw [hcur]
      simp only [he, if_false]
      rw [modify_last _ _ he, List.getLast?_eq_getLast _ he]
  · intro hP hne hkw hze
    obtain ⟨t, ht, h1, h2, h3⟩ := GetWidgetNameAndModifiers_fields weights first
      { ActionTemplate.fresh with actionName := second, params := second :: rest } hne
    refine ⟨t, ht, h1, h2, h3, ?_⟩
    rw [processLineTokens_binding weights s first _ hkw hze hI hS hA]
    simp only [processBindingTokens, hP, Bool.false_eq_true, if_false, ht]

/-- Witness of C20: after `Zone Home` and `Nothing+Play Play`, the line
`PropertyGroup NoFeedback Quiet` adds the group to the template of `Play`. -/
theorem C20_property_lines_witness :
    ProcessZoneFile (sampleManager false).value ZoneFileState.initial
        [["Zone", "Home"], ["Nothing+Play", "Play"]]
      = .next { ZoneFileState.initial with
          zoneName := "Home"
          actionTemplates := [{ ActionTemplate.fresh with
            widgetName := "Play", actionName := "Play", params := ["Play"] }]
          currentActionTemplate := some 0 }
    ∧ processLineTokens (sampleManager false).value
        { ZoneFileState.initial with
          zoneName := "Home"
          actionTemplates := [{ ActionTemplate.fresh with
            widgetName := "Play", actionName := "Play", params := ["Play"] }]
          currentActionTemplate := some 0 }
        ["PropertyGroup", "NoFeedback", "Quiet"]
      = .next { ZoneFileState.initial with
          zoneName := "Home"
          actionTemplates := [{ ActionTemplate.fresh with
            widgetName := "Play", actionName := "Play", params := ["Play"],
            properties := [["NoFeedback", "Quiet"]] }]
          currentActionTemplate := some 0 } :=
  ⟨by decide,
    ((C20_property_lines (sampleManager false).value
      [["Zone", "Home"], ["Nothing+Play", "Play"]] _ "PropertyGroup" "NoFeedback" ["Quiet"]
      (by decide) rfl rfl rfl).1 (by decide)).trans (by decide)⟩

theorem decode_shift_specifier (weights : Modifiers → Int) (widgetName line : String)
    (t : ActionTemplate)
    (h : getlineTokens (Char.ofNat 43) line.toList [] = ["Shift"] ++ [widgetName]) :
    GetWidgetNameAndModifiers weights line t
      = some { t with widgetName := widgetName, modifier := t.modifier + weights .Shift } := by
  rw [GetWidgetNameAndModifiers_of_tokens weights line t ["Shift"] widgetName h]
  have h1 : (["Shift"].filter fun s => finds s "Touch") = [] := by decide
  have h2 : ["Shift"].count "Toggle" = 0 := by decide
  have h3 : (Modifiers.all.filter fun i => ["Shift"].any fun s => namedModifier s == some i)
      = [.Shift] := by decide
  have h4 : ["Shift"].contains "InvertFB" = false := by decide
  have h5 : ¬ "Hold" ∈ ["Shift"] := by decide
  have h6 : ["Shift"].contains "Decrease" = false := by decide
  have h7 : ["Shift"].contains "Increase" = false := by decide
  simp only [h1, h2, h3, h4, h5, h6, h7, List.length_nil, Nat.cast_zero, add_zero, mul_zero,
    List.map_cons, List.map_nil, List.sum_cons, List.sum_nil, Bool.or_false, if_false]

/-- C18, the claim as stated fails: in `Fader1+Shift TrackVolume` the last segment of the
specifier is `Shift`, so the template gets the widget name `Shift` and, `Fader1` being no
modifier, the code 0, whatever weight `Shift` has (4 here). -/
theorem C18_counterexample :
    GetTokens "Fader1+Shift TrackVolume" = ["Fader1+Shift", "TrackVolume"] ∧
    processLineTokens (sampleManager false).value ZoneFileState.initial
        (GetTokens "Fader1+Shift TrackVolume")
      = .next { ZoneFileState.initial with
          actionTemplates := [{ ActionTemplate.fresh with
            widgetName := "Shift", modifier := 0, actionName := "TrackVolume",
            params := ["TrackVolume"] }]
          currentActionTemplate := some 0 } ∧
    (sampleManager false).value .Shift = 4 := by
  decide

/-- C18 (amended): outside the included, sub and associated sections, parsing the binding
line `Shift+Fader1 TrackVolume`, modifier first and widget last, creates a template with
the widget name `Fader1`, the code equal to the configured weight of `Shift`, the action
name `TrackVolume` and the params `[TrackVolume]`. -/
theorem C18_binding_line_round_trip (weights : Modifiers → Int) (s : ZoneFileState)
    (hI : s.isInIncludedZonesSection = false) (hS : s.isInSubZonesSection = false)
    (hA : s.isInAssociatedZonesSection = false) :
    processLineTokens weights s (GetTokens "Shift+Fader1 TrackVolume")
      = .next { s with
          actionTemplates := s.actionTemplates ++ [{ ActionTemplate.fresh with
            widgetName := "Fader1", modifier := weights .Shift, actionName := "TrackVolume",
            params := ["TrackVolume"] }]
          currentActionTemplate := some s.actionTemplates.length } := by
  have htokens : GetTokens "Shift+Fader1 TrackVolume" = ["Shift+Fader1", "TrackVolume"] := by
    decide
  rw [htokens, processLineTokens_binding weights s _ _ (by decide)
    (fun h => absurd h.1 (by decide)) hI hS hA]
  have hP : finds "Shift+Fader1" "Property" = false := by decide
  simp only [processBindingTokens, hP, Bool.false_eq_true, if_false]
  rw [decode_shift_specifier weights "Fader1" "Shift+Fader1" _ (by decide)]
  simp [ActionTemplate.fresh]

/-- Witness of C18: the line parsed first in a file, with the weight 4 for `Shift`. -/
theorem C18_binding_line_round_trip_witness :
    ZoneFileState.initial.isInIncludedZonesSection = false ∧
    processLineTokens (sampleManager false).value ZoneFileState.initial
        (GetTokens "Shift+Fader1 TrackVolume")
      = .next { ZoneFileState.initial with
          actionTemplates := [{ ActionTemplate.fresh with
            widgetName := "Fader1", modifier := 4, actionName := "TrackVolume",
            params := ["TrackVolume"] }]
          currentActionTemplate := some 0 } :=
  ⟨rfl, C18_binding_line_round_trip (sampleManager false).value ZoneFileState.initial
    rfl rfl rfl⟩

/-! ### The end-to-end scenario -/

theorem decode_nothing_specifier (weights : Modifiers → Int) (widgetName line : String)
    (t : ActionTemplate)
    (h : getlineTokens (Char.ofNat 43) line.toList [] = ["Nothing"] ++ [widgetName]) :
    GetWidgetNameAndModifiers weights line t = some { t with widgetName := widgetName } := by
  rw [GetWidgetNameAndModifiers_of_tokens weights line t ["Nothing"] widgetName h]
  have h1 : (["Nothing"].filter fun s => finds s "Touch") = [] := by decide
  have h2 : ["Nothing"].count "Toggle" = 0 := by decide
  have h3 : (Modifiers.all.filter fun i =>
      ["Nothing"].any fun s => namedModifier s == some i) = [] := by decide
  have h4 : ["Nothing"].contains "InvertFB" = false := by decide
  have h5 : ¬ "Hold" ∈ ["Nothing"] := by decide
  have h6 : ["Nothing"].contains "Decrease" = false := by decide
  have h7 : ["Nothing"].contains "Increase" = false := by decide
  simp only [h1, h2, h3, h4, h5, h6, h7, List.length_nil, Nat.cast_zero, add_zero, mul_zero,
    List.map_nil, List.sum_nil, Bool.or_false, if_false]

theorem homeFile_parsed (weights : Modifiers → Int) :
    ProcessZoneFile weights ZoneFileState.initial homeFile
      = .zoneEnd
        { isInIncludedZonesSection := false, includedZones := []
          isInSubZonesSection := false, subZones := []
          isInAssociatedZonesSection := false, associatedZones := []
          actionTemplates :=
            [{ widgetName := "Play", modifier := 0, actionName := "Play", params := ["Play"],
               properties := [], isFeedbackInverted := false, holdDelayAmount := 0,
               isDecrease := false, isIncrease := false },
             { widgetName := "Play", modifier := weights .Shift, actionName := "Stop",
               params := ["Stop"], properties := [], isFeedbackInverted := false,
               holdDelayAmount := 0, isDecrease := false, isIncrease := false }]
          zoneName := "Home", zoneAlias := "", currentActionTemplate := none } := by
  have hfile : homeFile
      = [["Zone", "Home"], ["Nothing+Play", "Play"], ["Shift+Play", "Stop"], ["ZoneEnd"]] := by
    decide
  have h1 : processLineTokens weights ZoneFileState.initial ["Zone", "Home"]
      = .next { ZoneFileState.initial with zoneName := "Home" } := rfl
  have h2 : processLineTokens weights { ZoneFileState.initial with zoneName := "Home" }
      ["Nothing+Play", "Play"]
      = .next { ZoneFileState.initial with
          zoneName := "Home"
          actionTemplates := [{ ActionTemplate.fresh with
            widgetName := "Play", actionName := "Play", params := ["Play"] }]
          currentActionTemplate := some 0 } := by
    rw [processLineTokens_binding weights _ _ _ (by decide) (fun h => absurd h.1 (by decide))
      rfl rfl rfl]
    have hP : finds "Nothing+Play" "Property" = false := by decide
    simp only [processBindingTokens, hP, Bool.false_eq_true, if_false]
    rw [decode_nothing_specifier weights "Play" "Nothing+Play" _ (by decide)]
    rfl
  have h3 : processLineTokens weights
      { ZoneFileState.initial with
          zoneName := "Home"
          actionTemplates := [{ ActionTemplate.fresh with
            widgetName := "Play", actionName := "Play", params := ["Play"] }]
          currentActionTemplate := some 0 }
      ["Shift+Play", "Stop"]
      = .next { ZoneFileState.initial with
          zoneName := "Home"
          actionTemplates := [{ ActionTemplate.fresh with
              widgetName := "Play", actionName := "Play", params := ["Play"] },
            { ActionTemplate.fresh with
              widgetName := "Play", modifier := weights .Shift, actionName := "Stop",
              params := ["Stop"] }]
          currentActionTemplate := some 1 } := by
    rw [processLineTokens_binding weights _ _ _ (by decide) (fun h => absurd h.1 (by decide))
      rfl rfl rfl]
    have hP : finds "Shift+Play" "Property" = false := by decide
    simp only [processBindingTokens, hP, Bool.false_eq_true, if_false]
    rw [decode_shift_specifier weights "Play" "Shift+Play" _ (by decide)]
    simp [ActionTemplate.fresh, ZoneFileState.initial]
  rw [hfile]
  simp only [ProcessZoneFile, h1, h2, h3]
  simp [processLineTokens, ZoneFileState.initial, ActionTemplate.fresh]

theorem homeFile_built (weights : Modifiers → Int) (surface : List Widget) (play : Widget)
    (defaultContexts : List BoundContext)
    (hplay : GetWidgetByName surface "Play" = some play) (hweight : 3 < weights .Shift) :
    builtZoneBindings weights surface defaultContexts homeFile = some
      { widgets := [play]
        actionContextDictionary :=
          [(play, [(0, [GetActionContext "Play" ["Play"] []]),
            (weights .Shift, [GetActionContext "Stop" ["Stop"] []])])]
        currentActionContextModifiers := []
        defaultContexts := defaultContexts } := by
  have hr : ∀ n : String, replaceBar n "Play" = "Play" := fun _ => rfl
  have hs : ∀ n : String, replaceBar n "Stop" = "Stop" := fun _ => rfl
  have hne : ¬ (0 : Int) = weights .Shift := by omega
  have hle : (0 : Int) ≤ weights .Shift := by omega
  have hlt : stringLess "Play".toList "Play".toList = false := by decide
  simp only [builtZoneBindings, homeFile_parsed]
  simp [buildZoneBindings, dictionaryOrder, List.insertionSort, List.orderedInsert, hlt, hle,
    hplay, ZoneBindings.AddWidget, ZoneBindings.AddActionContext, ZoneBindings.empty,
    mapUpdate, templateContext, hr, hs, hne]

theorem overlayOffsets_mem (isTouched isToggled : Bool) (o : Int)
    (h : o ∈ ZoneBindings.overlayOffsets isTouched isToggled) :
    o = 0 ∨ o = 1 ∨ o = 2 ∨ o = 3 := by
  cases isTouched <;> cases isToggled <;> simp [ZoneBindings.overlayOffsets] at h <;> omega

theorem selection_after_refresh (b : ZoneBindings) (ms : List Int)
    (isTouched isToggled : Bool) (w : Widget) (c : Int)
    (hfind : ms.find? (fun modifier => b.hasBinding w modifier) = some c) :
    ∃ o, (o = 0 ∨ o = 1 ∨ o = 2 ∨ o = 3) ∧ b.hasBinding w (c + o) = true
      ∧ ((b.UpdateCurrentActionContextModifier ms w).GetActionContexts
          ms isTouched isToggled w).1 = b.contexts w (c + o) := by
  have hsel := refresh_selection_of_some b ms w c hfind
  have hbc : b.hasBinding w c = true := by
    simpa using List.find?_some hfind
  have hbc1 : (b.UpdateCurrentActionContextModifier ms w).hasBinding w c = true := by
    rw [refresh_hasBinding]
    exact hbc
  obtain ⟨o, ho, hr⟩ := GetActionContexts_of_selected
    (b.UpdateCurrentActionContextModifier ms w) ms isTouched isToggled w c hsel hbc1
  refine ⟨o, overlayOffsets_mem _ _ o (List.mem_of_find?_eq_some ho), ?_, ?_⟩
  · have := List.find?_some ho
    rw [refresh_hasBinding] at this
    exact this
  · rw [hr, refresh_contexts]

theorem find_shift_code (wS : Int) (hpos : 0 < wS) :
    ∀ ms : List Int, ms.Sorted (· ≥ ·) → wS ∈ ms →
      ms.find? (fun c => decide (c = 0) || decide (c = wS)) = some wS
  | [], _, hmem => by simp at hmem
  | x :: rest, hsorted, hmem => by
    have hs := List.sorted_cons.mp hsorted
    by_cases hx : x = wS
    · simp [hx]
    · have hrest : wS ∈ rest := by
        rcases List.mem_cons.mp hmem with h | h
        · exact absurd h.symm hx
        · exact h
      have hx0 : x ≠ 0 := by
        intro h0
        have := hs.1 wS hrest
        omega
      simp [List.find?_cons, hx, hx0, find_shift_code wS hpos rest hs.2 hrest]

theorem find_plain_code (wS : Int) :
    ∀ ms : List Int, wS ∉ ms → 0 ∈ ms →
      ms.find? (fun c => decide (c = 0) || decide (c = wS)) = some 0
  | [], _, hmem => by simp at hmem
  | x :: rest, hnot, hmem => by
    have hx : x ≠ wS := fun h => hnot (h ▸ List.mem_cons_self x rest)
    by_cases hx0 : x = 0
    · simp [hx0]
    · have hrest : 0 ∈ rest := by
        rcases List.mem_cons.mp hmem with h | h
        · exact absurd h.symm hx0
        · exact h
      simp [List.find?_cons, hx, hx0,
        find_plain_code wS rest (fun h => hnot (List.mem_cons_of_mem x h)) hrest]

theorem two_code_selection (b : ZoneBindings) (w : Widget) (wS : Int)
    (ms : List Int) (isTouched isToggled : Bool) (hweight : 3 < wS)
    (hwidgets : b.widgets = [w])
    (hb : ∀ c, b.hasBinding w c = (decide (c = 0) || decide (c = wS)))
    (hsorted : ms.Sorted (· ≥ ·)) (h0 : 0 ∈ ms) :
    (wS ∈ ms → ((b.UpdateCurrentActionContextModifiers ms).GetActionContexts
        ms isTouched isToggled w).1 = b.contexts w wS)
    ∧ (wS ∉ ms → ((b.UpdateCurrentActionContextModifiers ms).GetActionContexts
        ms isTouched isToggled w).1 = b.contexts w 0) := by
  have hrefresh : b.UpdateCurrentActionContextModifiers ms
      = b.UpdateCurrentActionContextModifier ms w := by
    simp [ZoneBindings.UpdateCurrentActionContextModifiers, hwidgets]
  have hpred : (fun modifier => b.hasBinding w modifier)
      = fun c => decide (c = 0) || decide (c = wS) := funext hb
  rw [hrefresh]
  constructor
  · intro hmem
    have hfind : ms.find? (fun modifier => b.hasBinding w modifier) = some wS := by
      rw [hpred]
      exact find_shift_code wS (by omega) ms hsorted hmem
    obtain ⟨o, ho, hbo, hr⟩ := selection_after_refresh b ms isTouched isToggled w wS hfind
    rw [hb] at hbo
    have : o = 0 := by
      simp only [Bool.or_eq_true, decide_eq_true_eq] at hbo
      omega
    subst this
    rw [hr, add_zero]
  · intro hmem
    have hfind : ms.find? (fun modifier => b.hasBinding w modifier) = some 0 := by
      rw [hpred]
      exact find_plain_code wS ms hmem h0
    obtain ⟨o, ho, hbo, hr⟩ := selection_after_refresh b ms isTouched isToggled w 0 hfind
    rw [hb] at hbo
    have : o = 0 := by
      simp only [Bool.or_eq_true, decide_eq_true_eq] at hbo
      omega
    subst this
    rw [hr, add_zero]

theorem shift_code_mem (m : ModifierManager) (hown : m.hasOwner = true)
    (hshift : m.isEngaged .Shift = true) :
    m.value .Shift ∈ m.RecalculateModifiers.modifierCombinations := by
  rw [recalculate_mem m hown]
  refine ⟨[.Shift], ?_, by simp⟩
  rw [List.singleton_sublist]
  simp [ModifierManager.activeModifierIndices, mem_modifiers_all, hshift]

/-- C19, the claim as stated fails: with the lines `Play+Nothing Play` and
`Play+Shift Stop` the widget names decoded are `Nothing` and `Shift` (both with code 0);
a surface that has the widget `Play` but no widgets of those names gets no binding at all,
the home zone does not own `Play`, a press on `Play` is claimed by no zone, and the
contexts selected for `Play` are the default list whether `Shift` is engaged or not. -/
theorem C19_counterexample :
    (match ProcessZoneFile (sampleManager false).value ZoneFileState.initial
        claimedHomeFile with
      | .zoneEnd s => s.actionTemplates.map fun t => (t.widgetName, t.modifier, t.actionName)
      | _ => [])
      = [("Nothing", 0, "Play"), ("Shift", 0, "Stop")] ∧
    builtZoneBindings (sampleManager false).value [fader1, playButton]
        [namedContext "NoAction"] claimedHomeFile
      = some (ZoneBindings.empty [namedContext "NoAction"]) ∧
    (Zone.mk "Home" true (ZoneBindings.empty [namedContext "NoAction"]).widgets
        .nil .nil .nil).DoAction playButton false 1 = (false, []) ∧
    (((ZoneBindings.empty [namedContext "NoAction"]).UpdateCurrentActionContextModifiers
        (sampleManager false).RecalculateModifiers.modifierCombinations).GetActionContexts
      (sampleManager false).RecalculateModifiers.modifierCombinations false false
      playButton).1 = [namedContext "NoAction"] ∧
    (((ZoneBindings.empty [namedContext "NoAction"]).UpdateCurrentActionContextModifiers
        (sampleManager true).RecalculateModifiers.modifierCombinations).GetActionContexts
      (sampleManager true).RecalculateModifiers.modifierCombinations false false
      playButton).1 = [namedContext "NoAction"] := by
  refine ⟨by decide, by decide, ?_, by decide, by decide⟩
  simp [Zone.DoAction, Zone.DoEvent, ZoneMap.DoEvent, ZoneList.DoEvent, ZoneBindings.empty]

/-- C19 (amended): for the zone file `Zone Home`, `Nothing+Play Play`, `Shift+Play Stop`,
`ZoneEnd` (modifiers first, widget last), a surface whose widget named `Play` is `play`,
and a weight of `Shift` above the overlay offsets, the home zone built from the file owns
`play`; once the reachable codes are recalculated and the selections refreshed, the
contexts selected for `play` (those a press of 1.0 runs) are the single context of action
`Stop` when `Shift` is engaged, and the single context of action `Play` when no
combination of the engaged modifiers has the code of `Shift`, in particular when no
modifier is engaged; the touch/toggle state does not matter. -/
theorem C19_end_to_end (weights : Modifiers → Int) (surface : List Widget) (play : Widget)
    (defaultContexts : List BoundContext) (m : ModifierManager) (isTouched isToggled : Bool)
    (hplay : GetWidgetByName surface "Play" = some play)
    (hweight : 3 < weights .Shift)
    (hown : m.hasOwner = true) (hvalue : m.value = weights) :
    ∃ home, builtZoneBindings weights surface defaultContexts homeFile = some home
      ∧ home.widgets = [play]
      ∧ (Zone.mk "Home" true home.widgets .nil .nil .nil).DoAction play false 1
        = (true, [⟨Zone.mk "Home" true home.widgets .nil .nil .nil, play, .action 1⟩])
      ∧ (m.isEngaged .Shift = true →
        ((home.UpdateCurrentActionContextModifiers
            m.RecalculateModifiers.modifierCombinations).GetActionContexts
          m.RecalculateModifiers.modifierCombinations isTouched isToggled play).1
          = [GetActionContext "Stop" ["Stop"] []])
      ∧ ((∀ sub : List Modifiers, sub.Sublist m.activeModifierIndices →
            (sub.map weights).sum ≠ weights .Shift) →
        ((home.UpdateCurrentActionContextModifiers
            m.RecalculateModifiers.modifierCombinations).GetActionContexts
          m.RecalculateModifiers.modifierCombinations isTouched isToggled play).1
          = [GetActionContext "Play" ["Play"] []]) := by
  refine ⟨_, homeFile_built weights surface play defaultContexts hplay hweight, rfl, ?_, ?_, ?_⟩
  · simp [Zone.DoAction, Zone.DoEvent, ZoneMap.DoEvent, ZoneList.DoEvent]
  · intro hshift
    have hne : ¬ (0 : Int) = weights .Shift := by omega
    have hsel := (two_code_selection
      { widgets := [play]
        actionContextDictionary :=
          [(play, [(0, [GetActionContext "Play" ["Play"] []]),
            (weights .Shift, [GetActionContext "Stop" ["Stop"] []])])]
        currentActionContextModifiers := []
        defaultContexts := defaultContexts }
      play (weights .Shift) m.RecalculateModifiers.modifierCombinations isTouched isToggled
      hweight rfl
      (fun c => by
        by_cases h0 : c = 0
        · simp [ZoneBindings.hasBinding, mapFind, h0]
        · by_cases h1 : c = weights .Shift
          · simp [ZoneBindings.hasBinding, mapFind, h1, hne]
          · simp [ZoneBindings.hasBinding, mapFind, h0, h1, Ne.symm h0, Ne.symm h1])
      (recalculate_sorted m hown) (zero_mem_recalculate m hown)).1
      (hvalue ▸ shift_code_mem m hown hshift)
    rw [hsel]
    simp [ZoneBindings.contexts, mapFind, hne]
  · intro hplain
    have hne : ¬ (0 : Int) = weights .Shift := by omega
    have hnot : weights .Shift ∉ m.RecalculateModifiers.modifierCombinations := by
      rw [recalculate_mem m hown]
      rintro ⟨sub, hsub, hsum⟩
      rw [hvalue] at hsum
      exact hplain sub hsub hsum.symm
    have hsel := (two_code_selection
      { widgets := [play]
        actionContextDictionary :=
          [(play, [(0, [GetActionContext "Play" ["Play"] []]),
            (weights .Shift, [GetActionContext "Stop" ["Stop"] []])])]
        currentActionContextModifiers := []
        defaultContexts := defaultContexts }
      play (weights .Shift) m.RecalculateModifiers.modifierCombinations isTouched isToggled
      hweight rfl
      (fun c => by
        by_cases h0 : c = 0
        · simp [ZoneBindings.hasBinding, mapFind, h0]
        · by_cases h1 : c = weights .Shift
          · simp [ZoneBindings.hasBinding, mapFind, h1, hne]
          · simp [ZoneBindings.hasBinding, mapFind, h0, h1, Ne.symm h0, Ne.symm h1])
      (recalculate_sorted m hown) (zero_mem_recalculate m hown)).2 hnot
    rw [hsel]
    simp [ZoneBindings.contexts, mapFind]

/-- Witness of C19: the weights 4, 8, ... and a surface with `Fader1` and `Play`; with
`Shift` engaged the context of `Stop` is selected, with nothing engaged that of `Play`. -/
theorem C19_end_to_end_witness :
    GetWidgetByName [fader1, playButton] "Play" = some playButton ∧
    3 < (sampleManager true).value .Shift ∧
    (∃ home, builtZoneBindings (sampleManager true).value [fader1, playButton]
        [namedContext "NoAction"] homeFile = some home
      ∧ ((home.UpdateCurrentActionContextModifiers
          (sampleManager true).RecalculateModifiers.modifierCombinations).GetActionContexts
        (sampleManager true).RecalculateModifiers.modifierCombinations false false
        playButton).1 = [GetActionContext "Stop" ["Stop"] []]) ∧
    (∃ home, builtZoneBindings (sampleManager false).value [fader1, playButton]
        [namedContext "NoAction"] homeFile = some home
      ∧ ((home.UpdateCurrentActionContextModifiers
          (sampleManager false).RecalculateModifiers.modifierCombinations).GetActionContexts
        (sampleManager false).RecalculateModifiers.modifierCombinations true false
        playButton).1 = [GetActionContext "Play" ["Play"] []]) := by
  refine ⟨by decide, by decide, ?_, ?_⟩
  · obtain ⟨home, h1, _, _, hS, _⟩ := C19_end_to_end (sampleManager true).value
      [fader1, playButton] playButton [namedContext "NoAction"] (sampleManager true)
      false false (by decide) (by decide) rfl rfl
    exact ⟨home, h1, hS rfl⟩
  · obtain ⟨home, h1, _, _, _, hP⟩ := C19_end_to_end (sampleManager false).value
      [fader1, playButton] playButton [namedContext "NoAction"] (sampleManager false)
      true false (by decide) (by decide) rfl rfl
    refine ⟨home, h1, hP ?_⟩
    intro sub hsub
    have hnone : (sampleManager false).activeModifierIndices = [] := by decide
    rw [hnone, List.sublist_nil] at hsub
    subst hsub
    decide

/-! ### The modifier accessors of a surface -/

theorem recalculate_isEngaged (m : ModifierManager) :
    m.RecalculateModifiers.isEngaged = m.isEngaged := by
  unfold ModifierManager.RecalculateModifiers
  split_ifs <;> rfl

theorem setModifier_isEngaged (m : ModifierManager) (i j : Modifiers) (v : Bool) :
    (m.SetModifier i v).isEngaged j = if j = i then v else m.isEngaged j := by
  unfold ModifierManager.SetModifier
  rw [recalculate_isEngaged]

theorem getVia_setVia (s : ControlSurface) (onSurface onPage j : Modifiers) (v : Bool) :
    (s.setVia onSurface onPage v).getVia j
      = match s.modifierManager with
        | some m => if j = onSurface then v else m.isEngaged j
        | none => if j = onPage then v else s.pageModifierManager.isEngaged j := by
  unfold ControlSurface.setVia ControlSurface.getVia
  cases s.modifierManager <;>
    simp [ModifierManager.GetModifier, setModifier_isEngaged]

theorem get_eq_getVia (s : ControlSurface) (j : Modifiers) : s.get j = s.getVia j := by
  cases j <;> rfl

theorem set_eq_setVia (s : ControlSurface) (i : Modifiers) (v : Bool) :
    s.set i v = s.setVia (if i = .Flip then .Shift else i) i v := by
  cases i <;> rfl

theorem getVia_of_some (s : ControlSurface) (m : ModifierManager) (j : Modifiers)
    (h : s.modifierManager = some m) : s.getVia j = m.isEngaged j := by
  simp [ControlSurface.getVia, h, ModifierManager.GetModifier]

theorem getVia_of_none (s : ControlSurface) (j : Modifiers)
    (h : s.modifierManager = none) : s.getVia j = s.pageModifierManager.isEngaged j := by
  simp [ControlSurface.getVia, h, ModifierManager.GetModifier]

/-- C25, the round trip fails for `Flip` on a surface that has a modifier manager of its
own: `SetFlip(v)` engages or disengages `Shift` there, so `GetFlip()` afterwards answers
what it answered before and `GetShift()` answers `v`.  The round trip holds, and the other
nine modifiers keep their state, for the nine other modifiers in both placements and for
`Flip` on a surface that follows the manager of its page. -/
theorem C25_set_flip_sets_shift :
    (∀ (s : ControlSurface) (m : ModifierManager) (v : Bool), s.modifierManager = some m →
      (s.SetFlip v).GetFlip = s.GetFlip ∧ (s.SetFlip v).GetShift = v
        ∧ ∀ j, j ≠ .Shift → (s.SetFlip v).get j = s.get j)
    ∧ (∀ (s : ControlSurface) (i : Modifiers) (v : Bool),
      i ≠ .Flip ∨ s.modifierManager = none →
      (s.set i v).get i = v ∧ ∀ j, j ≠ i → (s.set i v).get j = s.get j) := by
  constructor
  · intro s m v hm
    have hset : ∀ j, (s.SetFlip v).getVia j = if j = .Shift then v else m.isEngaged j := by
      intro j
      unfold ControlSurface.SetFlip
      rw [getVia_setVia]
      simp [hm]
    refine ⟨?_, ?_, ?_⟩
    · show (s.SetFlip v).getVia .Flip = s.getVia .Flip
      rw [hset, getVia_of_some s m _ hm]
      simp
    · show (s.SetFlip v).getVia .Shift = v
      rw [hset]
      simp
    · intro j hj
      rw [get_eq_getVia, get_eq_getVia, hset, getVia_of_some s m _ hm]
      simp [hj]
  · intro s i v h
    rw [set_eq_setVia]
    cases hs : s.modifierManager with
    | none =>
      constructor
      · rw [get_eq_getVia, getVia_setVia]
        simp [hs]
      · intro j hj
        rw [get_eq_getVia, get_eq_getVia, getVia_setVia, getVia_of_none s j hs]
        simp [hs, hj]
    | some m =>
      have hi : i ≠ .Flip := by
        rcases h with h | h
        · exact h
        · rw [hs] at h
          cases h
      constructor
      · rw [get_eq_getVia, getVia_setVia]
        simp [hs, hi]
      · intro j hj
        rw [get_eq_getVia, get_eq_getVia, getVia_setVia, getVia_of_some s m j hs]
        simp [hs, hi, hj]

/-- Witness of C25: on a surface with its own manager and nothing engaged, `SetFlip(true)`
leaves `GetFlip()` false and makes `GetShift()` true. -/
theorem C25_set_flip_sets_shift_witness :
    localSurface.modifierManager = some (sampleManager false) ∧
    (localSurface.SetFlip true).GetFlip = false ∧
    (localSurface.SetFlip true).GetShift = true :=
  ⟨rfl, (C25_set_flip_sets_shift.1 localSurface (sampleManager false) true rfl).1.trans rfl,
    (C25_set_flip_sets_shift.1 localSurface (sampleManager false) true rfl).2.1⟩

/-! ### The bank offsets -/

/-- C26, the frame fails for `AdjustSelectedTrackReceiveBank`: it adjusts the offset of
`TrackReceive` and leaves the offset of `SelectedTrackReceive`, its own, unchanged.  Each
of the five other operations adjusts its own offset and leaves the five others as they
were. -/
theorem C26_selected_track_receive_bank_adjusts_track_receive
    (adjust : Int → Int → Int) (o : BankOffsets) (amount : Int) :
    o.AdjustSelectedTrackReceiveBank adjust amount
        = { o with trackReceiveOffset := adjust o.trackReceiveOffset amount }
    ∧ (o.AdjustSelectedTrackReceiveBank adjust amount).selectedTrackReceiveOffset
        = o.selectedTrackReceiveOffset
    ∧ o.AdjustTrackSendBank adjust amount
        = { o with trackSendOffset := adjust o.trackSendOffset amount }
    ∧ o.AdjustTrackReceiveBank adjust amount
        = { o with trackReceiveOffset := adjust o.trackReceiveOffset amount }
    ∧ o.AdjustTrackFXMenuBank adjust amount
        = { o with trackFXMenuOffset := adjust o.trackFXMenuOffset amount }
    ∧ o.AdjustSelectedTrackSendBank adjust amount
        = { o with selectedTrackSendOffset := adjust o.selectedTrackSendOffset amount }
    ∧ o.AdjustSelectedTrackFXMenuBank adjust amount
        = { o with selectedTrackFXMenuOffset := adjust o.selectedTrackFXMenuOffset amount } :=
  ⟨rfl, rfl, rfl, rfl, rfl, rfl, rfl⟩

/-! ### The remembered selection -/

theorem refresh_result_of_found (b : ZoneBindings) (ms : List Int)
    (isTouched isToggled : Bool) (w : Widget) (c : Int)
    (hfind : ms.find? (fun modifier => b.hasBinding w modifier) = some c) :
    ((b.UpdateCurrentActionContextModifier ms w).GetActionContexts
        ms isTouched isToggled w).1
      = match (ZoneBindings.overlayOffsets isTouched isToggled).find?
          (fun o => b.hasBinding w (c + o)) with
        | some o => b.contexts w (c + o)
        | none => b.defaultContexts := by
  have hsel := refresh_selection_of_some b ms w c hfind
  have hbc : b.hasBinding w c = true := by
    simpa using List.find?_some hfind
  have hbc1 : (b.UpdateCurrentActionContextModifier ms w).hasBinding w c = true := by
    rw [refresh_hasBinding]
    exact hbc
  obtain ⟨o, ho, hr⟩ := GetActionContexts_of_selected
    (b.UpdateCurrentActionContextModifier ms w) ms isTouched isToggled w c hsel hbc1
  simp only [refresh_hasBinding] at ho
  rw [ho, hr, refresh_contexts]

/-- C27, the selection is not history-free: a zone that binds `Fader1` under the code 4
alone and was refreshed while the code 4 was reachable remembers that code; after the
refresh with the list `[0]` (no modifier engaged) `GetActionContexts` still returns the
list bound under 4, while a zone with the same table that never saw the code 4 returns the
default list.  The list returned after a refresh is independent of what the zone
remembered whenever a binding exists at some code of the current list. -/
theorem C27_stale_selection_survives_refresh :
    (((shiftOnlyBindings.UpdateCurrentActionContextModifiers
          (sampleManager true).RecalculateModifiers.modifierCombinations
        ).UpdateCurrentActionContextModifiers
          (sampleManager false).RecalculateModifiers.modifierCombinations).GetActionContexts
        (sampleManager false).RecalculateModifiers.modifierCombinations false false fader1).1
      = [namedContext "TrackPan"]
    ∧ ((shiftOnlyBindings.UpdateCurrentActionContextModifiers
          (sampleManager false).RecalculateModifiers.modifierCombinations).GetActionContexts
        (sampleManager false).RecalculateModifiers.modifierCombinations false false fader1).1
      = [namedContext "NoAction"]
    ∧ (sampleManager false).RecalculateModifiers.modifierCombinations = [0]
    ∧ (∀ (b1 b2 : ZoneBindings) (ms : List Int) (isTouched isToggled : Bool) (w : Widget)
        (c : Int),
        b1.actionContextDictionary = b2.actionContextDictionary →
        b1.defaultContexts = b2.defaultContexts →
        ms.find? (fun modifier => b1.hasBinding w modifier) = some c →
        ((b1.UpdateCurrentActionContextModifier ms w).GetActionContexts
            ms isTouched isToggled w).1
          = ((b2.UpdateCurrentActionContextModifier ms w).GetActionContexts
            ms isTouched isToggled w).1) := by
  refine ⟨by decide, by decide, by decide, ?_⟩
  intro b1 b2 ms isTouched isToggled w c hdict hdefault hfind
  have hb : ∀ x, b1.hasBinding w x = b2.hasBinding w x := by
    intro x
    rw [hasBinding_eq, hasBinding_eq, hdict]
  have hc : ∀ x, b1.contexts w x = b2.contexts w x := by
    intro x
    rw [contexts_eq, contexts_eq, hdict]
  have hfind2 : ms.find? (fun modifier => b2.hasBinding w modifier) = some c := by
    simpa only [hb] using hfind
  rw [refresh_result_of_found b1 ms isTouched isToggled w c hfind,
    refresh_result_of_found b2 ms isTouched isToggled w c hfind2]
  simp only [hb, hc, hdefault]

/-- Witness of C27: two copies of a table that binds `Fader1` at the codes 0, 1 and 4, one
of which remembers the code 4, return the same list for the list `[0]`. -/
theorem C27_stale_selection_survives_refresh_witness :
    [(0 : Int)].find? (fun modifier => overlayBindings.hasBinding fader1 modifier) = some 0 ∧
    ((overlayBindings.UpdateCurrentActionContextModifier [0] fader1).GetActionContexts
        [0] true false fader1).1
      = (((overlayBindings.UpdateCurrentActionContextModifier [4, 0, 0]
            fader1).UpdateCurrentActionContextModifier [0] fader1).GetActionContexts
          [0] true false fader1).1 :=
  ⟨by decide,
    C27_stale_selection_survives_refresh.2.2.2 overlayBindings
      (overlayBindings.UpdateCurrentActionContextModifier [4, 0, 0] fader1)
      [0] true false fader1 0 (by decide) (by decide) (by decide)⟩

/-! ### Feedback and input -/

/-- C28, feedback and input disagree: in an active home zone that owns `Play` and includes
an active zone `Buttons` that owns `Play` too, the feedback pass visits the included zones
before the widgets of the zone itself, so `Buttons` serves the feedback of `Play`, while
`DoAction` tries the zone itself before its included zones, so `Home` claims the input.
For `Fader1`, owned by the active associated zone `VCA`, both passes agree. -/
theorem C28_feedback_and_input_owner_differ :
    sampleHome.isActive = true ∧
    sampleHome.feedbackOwners playButton = ["Buttons"] ∧
    sampleHome.inputOwners playButton 1 = ["Home"] ∧
    sampleHome.feedbackOwners fader1 = ["VCA"] ∧
    sampleHome.inputOwners fader1 1 = ["VCA"] := by
  decide

/-! ### The patterns of the value specification -/

theorem rmatch_letters :
    ∀ (P : RegularExpression Char) (x : List Char), P.rmatch x = true → ∀ c ∈ x, c ∈ letters P
  | .zero, x, h => by
    have : RegularExpression.rmatch (0 : RegularExpression Char) x = false :=
      RegularExpression.zero_rmatch x
    have h0 : RegularExpression.rmatch (0 : RegularExpression Char) x = true := h
    rw [this] at h0
    cases h0
  | .epsilon, x, h => by
    have h1 : RegularExpression.rmatch (1 : RegularExpression Char) x = true := h
    rw [RegularExpression.one_rmatch_iff] at h1
    subst h1
    intro c hc
    cases hc
  | .char a, x, h => by
    rw [RegularExpression.char_rmatch_iff] at h
    subst h
    intro c hc
    simpa [letters] using hc
  | .plus P Q, x, h => by
    have h1 : RegularExpression.rmatch (P + Q) x = true := h
    rw [RegularExpression.add_rmatch_iff] at h1
    intro c hc
    rcases h1 with h1 | h1
    · exact List.mem_append_left _ (rmatch_letters P x h1 c hc)
    · exact List.mem_append_right _ (rmatch_letters Q x h1 c hc)
  | .comp P Q, x, h => by
    have h1 : RegularExpression.rmatch (P * Q) x = true := h
    rw [RegularExpression.mul_rmatch_iff] at h1
    obtain ⟨t, u, hx, ht, hu⟩ := h1
    subst hx
    intro c hc
    rcases List.mem_append.mp hc with hc | hc
    · exact List.mem_append_left _ (rmatch_letters P t ht c hc)
    · exact List.mem_append_right _ (rmatch_letters Q u hu c hc)
  | .star P, x, h => by
    rw [RegularExpression.star_rmatch_iff] at h
    obtain ⟨S, hx, hS⟩ := h
    subst hx
    intro c hc
    obtain ⟨t, ht, hct⟩ := List.mem_flatten.mp hc
    exact rmatch_letters P t (hS t ht).2 c hct

theorem rmatch_always (c : Char) :
    ∀ (P : RegularExpression Char) (x : List Char),
      always c P = true → P.rmatch x = true → c ∈ x
  | .zero, x, _, h => by
    have : RegularExpression.rmatch (0 : RegularExpression Char) x = false :=
      RegularExpression.zero_rmatch x
    have h0 : RegularExpression.rmatch (0 : RegularExpression Char) x = true := h
    rw [this] at h0
    cases h0
  | .epsilon, _, ha, _ => by cases ha
  | .char a, x, ha, h => by
    rw [RegularExpression.char_rmatch_iff] at h
    subst h
    simp only [always, beq_iff_eq] at ha
    simp [ha]
  | .plus P Q, x, ha, h => by
    have h1 : RegularExpression.rmatch (P + Q) x = true := h
    rw [RegularExpression.add_rmatch_iff] at h1
    simp only [always, Bool.and_eq_true] at ha
    rcases h1 with h1 | h1
    · exact rmatch_always c P x ha.1 h1
    · exact rmatch_always c Q x ha.2 h1
  | .comp P Q, x, ha, h => by
    have h1 : RegularExpression.rmatch (P * Q) x = true := h
    rw [RegularExpression.mul_rmatch_iff] at h1
    obtain ⟨t, u, hx, ht, hu⟩ := h1
    subst hx
    simp only [always, Bool.or_eq_true] at ha
    rcases ha with ha | ha
    · exact List.mem_append_left _ (rmatch_always c P t ha ht)
    · exact List.mem_append_right _ (rmatch_always c Q u ha hu)
  | .star _, _, ha, _ => by cases ha

theorem regex_match_false_of_letter (P : RegularExpression Char) (strVal : String) (c : Char)
    (hc : c ∈ strVal.toList) (hP : c ∉ letters P) : regex_match strVal P = false := by
  cases h : regex_match strVal P with
  | false => rfl
  | true => exact absurd (rmatch_letters P _ h c hc) hP

theorem regex_match_false_of_always (P : RegularExpression Char) (strVal : String) (c : Char)
    (hP : always c P = true) (hc : c ∉ strVal.toList) : regex_match strVal P = false := by
  cases h : regex_match strVal P with
  | false => rfl
  | true => exact absurd (rmatch_always c P _ hP h) hc

theorem charClass_rmatch_iff (x : List Char) :
    ∀ chars : List Char, (charClass chars).rmatch x = true ↔ ∃ c ∈ chars, x = [c]
  | [] => by
    have : RegularExpression.rmatch (0 : RegularExpression Char) x = false :=
      RegularExpression.zero_rmatch x
    simp [charClass, this]
  | a :: rest => by
    have ih := charClass_rmatch_iff x rest
    have h1 : charClass (a :: rest) = RegularExpression.char a + charClass rest := rfl
    rw [h1, RegularExpression.add_rmatch_iff, RegularExpression.char_rmatch_iff, ih]
    simp

theorem digitsPattern_rmatch_iff (x : List Char) :
    digitsPattern.rmatch x = true ↔ Digits x := by
  unfold digitsPattern oneOrMore Digits
  rw [RegularExpression.mul_rmatch_iff]
  constructor
  · rintro ⟨t, u, hx, ht, hu⟩
    rw [charClass_rmatch_iff] at ht
    obtain ⟨c, hc, rfl⟩ := ht
    rw [RegularExpression.star_rmatch_iff] at hu
    obtain ⟨S, hu, hS⟩ := hu
    subst hx hu
    refine ⟨by simp, ?_⟩
    intro d hd
    simp only [List.singleton_append, List.mem_cons, List.mem_flatten] at hd
    rcases hd with hd | ⟨s, hs, hds⟩
    · rw [hd]; exact hc
    · obtain ⟨e, he, hse⟩ := (charClass_rmatch_iff s digitChars).mp (hS s hs).2
      subst hse
      simp only [List.mem_singleton] at hds
      rw [hds]; exact he
  · rintro ⟨hne, hall⟩
    cases x with
    | nil => exact absurd rfl hne
    | cons c rest =>
      refine ⟨[c], rest, rfl, ?_, ?_⟩
      · rw [charClass_rmatch_iff]
        exact ⟨c, hall c (List.mem_cons_self _ _), rfl⟩
      · rw [RegularExpression.star_rmatch_iff]
        refine ⟨rest.map fun d => [d], ?_, ?_⟩
        · clear hne hall
          induction rest with
          | nil => rfl
          | cons d more ih => simp [← ih]
        · intro t ht
          obtain ⟨d, hd, rfl⟩ := List.mem_map.mp ht
          refine ⟨by simp, ?_⟩
          rw [charClass_rmatch_iff]
          exact ⟨d, hall d (List.mem_cons_of_mem _ hd), rfl⟩

theorem sign_rmatch_iff (x : List Char) :
    (zeroOrOne (RegularExpression.char minusSign)).rmatch x = true
      ↔ ∃ negative, x = signChars negative := by
  unfold zeroOrOne
  rw [RegularExpression.add_rmatch_iff, RegularExpression.char_rmatch_iff,
    RegularExpression.one_rmatch_iff]
  constructor
  · rintro (h | h)
    · exact ⟨true, h⟩
    · exact ⟨false, h⟩
  · rintro ⟨negative, h⟩
    cases negative
    · exact Or.inr h
    · exact Or.inl h

theorem integerPattern_rmatch_iff (x : List Char) :
    integerPattern.rmatch x = true ↔ ∃ n : IntegerLiteral, Digits n.digits ∧ x = n.chars := by
  unfold integerPattern
  rw [RegularExpression.mul_rmatch_iff]
  constructor
  · rintro ⟨t, u, hx, ht, hu⟩
    obtain ⟨negative, rfl⟩ := (sign_rmatch_iff t).mp ht
    exact ⟨⟨negative, u⟩, (digitsPattern_rmatch_iff u).mp hu, hx⟩
  · rintro ⟨n, hn, hx⟩
    exact ⟨signChars n.negative, n.digits, hx, (sign_rmatch_iff _).mpr ⟨_, rfl⟩,
      (digitsPattern_rmatch_iff _).mpr hn⟩

theorem decimalPattern_rmatch_iff (x : List Char) :
    decimalPattern.rmatch x = true
      ↔ ∃ d : DecimalLiteral, Digits d.whole ∧ Digits d.fraction ∧ x = d.chars := by
  unfold decimalPattern
  simp only [RegularExpression.mul_rmatch_iff, RegularExpression.char_rmatch_iff,
    digitsPattern_rmatch_iff, sign_rmatch_iff]
  constructor
  · rintro ⟨t, u, hx, ⟨t1, u1, ht, ⟨t2, u2, ht1, ⟨negative, hneg⟩, hu2⟩, hu1⟩, hu⟩
    subst hx ht ht1 hneg hu1
    exact ⟨⟨negative, u2, u⟩, hu2, hu, by simp [DecimalLiteral.chars]⟩
  · rintro ⟨d, hw, hf, hx⟩
    subst hx
    exact ⟨signChars d.negative ++ d.whole ++ [decimalPoint], d.fraction,
      by simp [DecimalLiteral.chars],
      ⟨signChars d.negative ++ d.whole, [decimalPoint], rfl,
        ⟨signChars d.negative, d.whole, rfl, ⟨_, rfl⟩, hw⟩, rfl⟩, hf⟩

/-! ### The conversions of the value specification -/

theorem not_mem_of_digits (digits : List Char) (h : Digits digits) (c : Char)
    (hc : c ∉ digitChars) : c ∉ digits :=
  fun hmem => hc (h.2 c hmem)

theorem takeWhile_digits (digits rest : List Char) (h : ∀ c ∈ digits, c ∈ digitChars)
    (hrest : ∀ c, rest.head? = some c → c ∉ digitChars) :
    (digits ++ rest).takeWhile (fun c => decide (c ∈ digitChars)) = digits
    ∧ (digits ++ rest).dropWhile (fun c => decide (c ∈ digitChars)) = rest := by
  induction digits with
  | nil =>
    cases rest with
    | nil => simp
    | cons c more =>
      have hc : c ∉ digitChars := hrest c rfl
      simp [List.takeWhile_cons, List.dropWhile_cons, hc]
  | cons d more ih =>
    have hd : d ∈ digitChars := h d (List.mem_cons_self _ _)
    have := ih fun c hc => h c (List.mem_cons_of_mem _ hc)
    simp only [List.cons_append, List.takeWhile_cons, List.dropWhile_cons, hd, decide_True,
      if_true, this.1, this.2, and_self]

theorem stod_body (negative : Bool) (body : List Char) (hbody : body.head? ≠ some minusSign) :
    ((signChars negative ++ body).head? == some minusSign) = negative
    ∧ (if negative = true then (signChars negative ++ body).drop 1
        else signChars negative ++ body) = body := by
  cases negative
  · simp only [signChars, Bool.false_eq_true, if_false, List.nil_append, and_true]
    cases hb : body.head? with
    | none => rfl
    | some c =>
      rw [hb] at hbody
      have : c ≠ minusSign := fun e => hbody (by rw [e])
      simp [this]
  · simp [signChars]

theorem head_of_digits (digits : List Char) (h : Digits digits) (rest : List Char) :
    (digits ++ rest).head? ≠ some minusSign := by
  obtain ⟨hne, hall⟩ := h
  cases digits with
  | nil => exact absurd rfl hne
  | cons d more =>
    intro he
    simp only [List.cons_append, List.head?_cons, Option.some.injEq] at he
    have := hall d (List.mem_cons_self _ _)
    rw [he] at this
    revert this
    decide

theorem leadingValue_digits (digits : List Char) (h : Digits digits) :
    leadingValue digits = some (natValue digits : Double) := by
  have htake := takeWhile_digits digits [] h.2 (by simp)
  simp only [List.append_nil] at htake
  unfold leadingValue
  simp only [htake.1, htake.2, h.1, if_false]

theorem leadingValue_decimal (whole fraction : List Char) (hw : Digits whole)
    (hf : Digits fraction) :
    leadingValue (whole ++ decimalPoint :: fraction)
      = some ((natValue whole : Double) + natValue fraction / 10 ^ fraction.length) := by
  have htake := takeWhile_digits whole (decimalPoint :: fraction) hw.2 (by
    intro c hc
    simp only [List.head?_cons, Option.some.injEq] at hc
    rw [← hc]
    decide)
  have hfrac := takeWhile_digits fraction [] hf.2 (by simp)
  simp only [List.append_nil] at hfrac
  unfold leadingValue
  simp only [htake.1, htake.2, hw.1, if_false, if_true, hfrac.1]

theorem stod_signed (negative : Bool) (body : List Char) (x : Double)
    (hbody : body.head? ≠ some minusSign) (hx : leadingValue body = some x)
    (hrange : InDoubleRange x) :
    stod (String.mk (signChars negative ++ body)) = .value (signed negative x) := by
  obtain ⟨hneg, hdrop⟩ := stod_body negative body hbody
  have hs : (String.mk (signChars negative ++ body)).toList = signChars negative ++ body := rfl
  have hr : x < doubleOverflow ∧ (x = 0 ∨ DBL_MIN ≤ x) := hrange
  unfold stod
  simp only [hs, hneg, hdrop, hx]
  rw [if_pos hr]

theorem stod_out_of_range (negative : Bool) (body : List Char) (x : Double)
    (hbody : body.head? ≠ some minusSign) (hx : leadingValue body = some x)
    (hrange : ¬InDoubleRange x) :
    stod (String.mk (signChars negative ++ body)) = .thrown := by
  obtain ⟨hneg, hdrop⟩ := stod_body negative body hbody
  have hs : (String.mk (signChars negative ++ body)).toList = signChars negative ++ body := rfl
  have hr : ¬(x < doubleOverflow ∧ (x = 0 ∨ DBL_MIN ≤ x)) := hrange
  unfold stod
  simp only [hs, hneg, hdrop, hx]
  rw [if_neg hr]

theorem inDoubleRange_of_nat (n : Nat) (h : n ≤ 2147483648) : InDoubleRange (n : Double) := by
  have h1 : (n : Double) ≤ 2147483648 := by exact_mod_cast h
  have h2 : (2147483648 : Double) < doubleOverflow := by
    unfold doubleOverflow
    norm_num
  refine ⟨lt_of_le_of_lt h1 h2, ?_⟩
  rcases Nat.eq_zero_or_pos n with h0 | h0
  · left
    exact_mod_cast h0
  · right
    have h3 : (1 : Double) ≤ n := by exact_mod_cast h0
    have h4 : DBL_MIN ≤ 1 := by
      unfold DBL_MIN
      norm_num
    exact le_trans h4 h3

theorem stod_integer (n : IntegerLiteral) (h : Digits n.digits)
    (hrange : InDoubleRange n.magnitude) :
    stod (String.mk n.chars) = .value ((n.value : Int) : Double) := by
  have := stod_signed n.negative n.digits _ (by
    have := head_of_digits n.digits h []
    simpa using this) (leadingValue_digits n.digits h) hrange
  rw [IntegerLiteral.chars, this]
  unfold IntegerLiteral.value signed
  cases n.negative <;> simp

theorem stod_decimal (d : DecimalLiteral) (hw : Digits d.whole) (hf : Digits d.fraction)
    (hrange : InDoubleRange d.magnitude) :
    stod (String.mk d.chars) = .value d.value := by
  have hchars : d.chars = signChars d.negative ++ (d.whole ++ decimalPoint :: d.fraction) := by
    simp [DecimalLiteral.chars]
  rw [hchars, stod_signed d.negative _ _ (head_of_digits d.whole hw _)
    (leadingValue_decimal d.whole d.fraction hw hf) hrange]
  rfl

theorem inDoubleRange_of_int (n : IntegerLiteral)
    (hrange : INT_MIN ≤ n.value ∧ n.value ≤ INT_MAX) : InDoubleRange n.magnitude := by
  apply inDoubleRange_of_nat
  unfold IntegerLiteral.value INT_MIN INT_MAX at hrange
  cases hn : n.negative <;> simp only [hn, Bool.false_eq_true, if_false, if_true] at hrange <;>
    omega

theorem doubleToInt_int (n : Int) (h : INT_MIN ≤ n ∧ n ≤ INT_MAX) :
    doubleToInt (n : Double) = .value n := by
  unfold doubleToInt
  simp only [Rat.intCast_num, Rat.intCast_den, Nat.cast_one, Int.tdiv_one, h, and_self, if_true]

theorem getlineTokens_segment (delimiter : Char) :
    ∀ (item pending rest : List Char), delimiter ∉ item →
      getlineTokens delimiter (item ++ delimiter :: rest) pending
        = String.mk (pending ++ item) :: getlineTokens delimiter rest []
  | [], pending, rest, _ => by
    simp [getlineTokens]
  | c :: more, pending, rest, h => by
    have hc : c ≠ delimiter := fun e => h (by simp [e])
    have := getlineTokens_segment delimiter more (pending ++ [c]) rest
      (fun hm => h (List.mem_cons_of_mem _ hm))
    simp [getlineTokens, hc, this]

theorem getlineTokens_last (delimiter : Char) :
    ∀ (item pending : List Char), delimiter ∉ item → pending ++ item ≠ [] →
      getlineTokens delimiter item pending = [String.mk (pending ++ item)]
  | [], pending, _, hne => by
    have : pending.isEmpty = false := by
      cases pending with
      | nil => simp at hne
      | cons _ _ => rfl
    simp [getlineTokens, this]
  | c :: more, pending, h, _ => by
    have hc : c ≠ delimiter := fun e => h (by simp [e])
    have := getlineTokens_last delimiter more (pending ++ [c])
      (fun hm => h (List.mem_cons_of_mem _ hm)) (by simp)
    simp [getlineTokens, hc, this]

theorem getlineTokens_separated (delimiter : Char) :
    ∀ items : List (List Char), (∀ item ∈ items, item ≠ [] ∧ delimiter ∉ item) →
      getlineTokens delimiter (separated delimiter items) [] = items.map String.mk
  | [], _ => by simp [separated, getlineTokens]
  | [item], h => by
    have hi := h item (List.mem_cons_self _ _)
    simp only [separated, List.map_cons, List.map_nil]
    rw [getlineTokens_last delimiter item [] hi.2 (by simpa using hi.1)]
    simp
  | item :: next :: rest, h => by
    have hi := h item (List.mem_cons_self _ _)
    have ih := getlineTokens_separated delimiter (next :: rest)
      (fun x hx => h x (List.mem_cons_of_mem _ hx))
    simp only [separated, List.map_cons] at ih ⊢
    rw [getlineTokens_segment delimiter item [] _ hi.2, ih]
    simp

theorem mem_separated (separator c : Char) :
    ∀ items : List (List Char), c ∈ separated separator items →
      c = separator ∨ ∃ item ∈ items, c ∈ item
  | [], h => by simp [separated] at h
  | [item], h => by
    simp only [separated] at h
    exact Or.inr ⟨item, List.mem_cons_self _ _, h⟩
  | item :: next :: rest, h => by
    simp only [separated, List.mem_append, List.mem_cons] at h
    rcases h with h | h | h
    · exact Or.inr ⟨item, List.mem_cons_self _ _, h⟩
    · exact Or.inl h
    · rcases mem_separated separator c (next :: rest) h with h1 | ⟨x, hx, hcx⟩
      · exact Or.inl h1
      · exact Or.inr ⟨x, List.mem_cons_of_mem _ hx, hcx⟩

/-! ### The tokens of the value specification -/

theorem mem_integer_chars (n : IntegerLiteral) (h : Digits n.digits) (c : Char)
    (hc : c ∈ n.chars) : c = minusSign ∨ c ∈ digitChars := by
  unfold IntegerLiteral.chars signChars at hc
  rcases List.mem_append.mp hc with h1 | h1
  · cases hn : n.negative <;> simp [hn] at h1
    exact Or.inl h1
  · exact Or.inr (h.2 c h1)

theorem mem_decimal_chars (d : DecimalLiteral) (hw : Digits d.whole) (hf : Digits d.fraction)
    (c : Char) (hc : c ∈ d.chars) : c = minusSign ∨ c = decimalPoint ∨ c ∈ digitChars := by
  unfold DecimalLiteral.chars signChars at hc
  simp only [List.mem_append, List.mem_cons] at hc
  rcases hc with (h1 | h1) | h1 | h1
  · cases hn : d.negative <;> simp [hn] at h1
    exact Or.inl h1
  · exact Or.inr (Or.inr (hw.2 c h1))
  · exact Or.inr (Or.inl h1)
  · exact Or.inr (Or.inr (hf.2 c h1))

theorem integer_chars_ne_nil (n : IntegerLiteral) (h : Digits n.digits) : n.chars ≠ [] := by
  unfold IntegerLiteral.chars
  intro he
  exact h.1 (List.append_eq_nil.mp he).2

theorem decimal_chars_ne_nil (d : DecimalLiteral) : d.chars ≠ [] := by
  unfold DecimalLiteral.chars
  simp

theorem substrInner_parenthesized (chars : List Char) :
    substrInner (parenthesized chars) = String.mk chars := by
  unfold substrInner parenthesized
  have h1 : (String.mk (openParen :: chars ++ [closeParen])).toList
      = openParen :: (chars ++ [closeParen]) := rfl
  rw [h1]
  simp

theorem parenthesized_rmatch (P : RegularExpression Char) (chars : List Char)
    (h : P.rmatch chars = true) :
    regex_match (parenthesized chars)
      (RegularExpression.char openParen * P * RegularExpression.char closeParen) = true := by
  unfold regex_match
  rw [RegularExpression.mul_rmatch_iff]
  refine ⟨openParen :: chars, [closeParen], rfl, ?_, ?_⟩
  · rw [RegularExpression.mul_rmatch_iff]
    exact ⟨[openParen], chars, rfl, (RegularExpression.char_rmatch_iff _ _).mpr rfl, h⟩
  · exact (RegularExpression.char_rmatch_iff _ _).mpr rfl

theorem separated_append_last (separator : Char) (last : List Char) :
    ∀ items : List (List Char),
      separated separator (items ++ [last])
        = (items.map fun item => item ++ [separator]).flatten ++ last
  | [] => by simp [separated]
  | [item] => by simp [separated]
  | item :: next :: rest => by
    have ih := separated_append_last separator last (next :: rest)
    simp only [List.cons_append] at ih
    show item ++ separator :: separated separator (next :: (rest ++ [last])) = _
    rw [ih]
    simp

theorem oneOrMore_rmatch_flatten (P : RegularExpression Char) :
    ∀ S : List (List Char), S ≠ [] → (∀ t ∈ S, t ≠ [] ∧ P.rmatch t = true) →
      (oneOrMore P).rmatch S.flatten = true
  | [], h, _ => absurd rfl h
  | t :: rest, _, h => by
    unfold oneOrMore
    rw [RegularExpression.mul_rmatch_iff]
    refine ⟨t, rest.flatten, by simp, (h t (List.mem_cons_self _ _)).2, ?_⟩
    rw [RegularExpression.star_rmatch_iff]
    exact ⟨rest, rfl, fun u hu => h u (List.mem_cons_of_mem _ hu)⟩

theorem list_rmatch (P : RegularExpression Char) (items : List (List Char))
    (last : List Char) (hitems : items ≠ []) (hall : ∀ item ∈ items, P.rmatch item = true)
    (hlast : P.rmatch last = true) :
    regex_match (parenthesized (separated comma (items ++ [last])))
      (RegularExpression.char openParen
        * oneOrMore (P * RegularExpression.char comma) * P
        * RegularExpression.char closeParen) = true := by
  unfold regex_match
  have h1 : (parenthesized (separated comma (items ++ [last]))).toList
      = (openParen :: (items.map fun item => item ++ [comma]).flatten ++ last)
        ++ [closeParen] := by
    rw [separated_append_last]
    simp [parenthesized]
  rw [h1, RegularExpression.mul_rmatch_iff]
  refine ⟨_, _, rfl, ?_, (RegularExpression.char_rmatch_iff _ _).mpr rfl⟩
  rw [RegularExpression.mul_rmatch_iff]
  refine ⟨openParen :: (items.map fun item => item ++ [comma]).flatten, last, rfl, ?_, hlast⟩
  rw [RegularExpression.mul_rmatch_iff]
  refine ⟨[openParen], _, rfl, (RegularExpression.char_rmatch_iff _ _).mpr rfl, ?_⟩
  apply oneOrMore_rmatch_flatten
  · simpa using hitems
  · intro t ht
    obtain ⟨item, hitem, rfl⟩ := List.mem_map.mp ht
    refine ⟨by simp, ?_⟩
    rw [RegularExpression.mul_rmatch_iff]
    exact ⟨item, [comma], rfl, hall item hitem, (RegularExpression.char_rmatch_iff _ _).mpr rfl⟩

theorem parsed_mapList_of_forall {α β : Type} (f : α → Parsed β) (g : α → β) :
    ∀ l : List α, (∀ x ∈ l, f x = .value (g x)) → Parsed.mapList f l = .value (l.map g)
  | [], _ => rfl
  | x :: rest, h => by
    simp only [Parsed.mapList, h x (List.mem_cons_self _ _), Parsed.andThen,
      parsed_mapList_of_forall f g rest fun y hy => h y (List.mem_cons_of_mem _ hy),
      List.map_cons]

theorem integer_rmatch (n : IntegerLiteral) (h : Digits n.digits) :
    integerPattern.rmatch n.chars = true :=
  (integerPattern_rmatch_iff _).mpr ⟨n, h, rfl⟩

theorem decimal_rmatch (d : DecimalLiteral) (hw : Digits d.whole) (hf : Digits d.fraction) :
    decimalPattern.rmatch d.chars = true :=
  (decimalPattern_rmatch_iff _).mpr ⟨d, hw, hf, rfl⟩

theorem bare_decimal_token (c : ActionContext) (d : DecimalLiteral) (hw : Digits d.whole)
    (hf : Digits d.fraction) (hrange : InDoubleRange d.magnitude) :
    steppedValueToken c (String.mk d.chars)
      = .value { c with steppedValues := c.steppedValues ++ [d.value] } := by
  have h1 : regex_match (String.mk d.chars) decimalPattern = true := decimal_rmatch d hw hf
  unfold steppedValueToken
  simp only [h1, true_or, if_true, stod_decimal d hw hf hrange, Parsed.andThen]

theorem bare_integer_token (c : ActionContext) (n : IntegerLiteral) (h : Digits n.digits)
    (hrange : InDoubleRange n.magnitude) :
    steppedValueToken c (String.mk n.chars)
      = .value { c with steppedValues := c.steppedValues ++ [((n.value : Int) : Double)] } := by
  have h1 : regex_match (String.mk n.chars) integerPattern = true := integer_rmatch n h
  unfold steppedValueToken
  simp only [h1, or_true, if_true, stod_integer n h hrange, Parsed.andThen]

theorem openParen_mem_parenthesized (chars : List Char) :
    openParen ∈ (parenthesized chars).toList := by
  unfold parenthesized
  exact List.mem_cons_self _ _

theorem mem_parenthesized (chars : List Char) (c : Char)
    (hc : c ∈ (parenthesized chars).toList) : c = openParen ∨ c = closeParen ∨ c ∈ chars := by
  have h1 : (parenthesized chars).toList = openParen :: chars ++ [closeParen] := rfl
  rw [h1] at hc
  simp only [List.cons_append, List.mem_cons, List.mem_append, List.not_mem_nil,
    or_false] at hc
  rcases hc with h | h | h
  · exact Or.inl h
  · exact Or.inr (Or.inr h)
  · exact Or.inr (Or.inl h)

theorem delta_token (c : ActionContext) (d : DecimalLiteral) (hw : Digits d.whole)
    (hf : Digits d.fraction) (hrange : InDoubleRange d.magnitude) :
    steppedValueToken c (parenthesized d.chars) = .value { c with deltaValue := d.value } := by
  have hopen := openParen_mem_parenthesized d.chars
  have h1 := regex_match_false_of_letter decimalPattern _ openParen hopen (by decide)
  have h2 := regex_match_false_of_letter integerPattern _ openParen hopen (by decide)
  have h3 : regex_match (parenthesized d.chars) deltaPattern = true :=
    parenthesized_rmatch _ _ (decimal_rmatch d hw hf)
  unfold steppedValueToken
  simp only [h1, h2, h3, Bool.false_eq_true, or_self, if_false, if_true,
    substrInner_parenthesized, stod_decimal d hw hf hrange, Parsed.andThen]

theorem decimalPoint_not_mem_integer (n : IntegerLiteral) (h : Digits n.digits) :
    decimalPoint ∉ (parenthesized n.chars).toList := by
  intro hc
  rcases mem_parenthesized _ _ hc with h1 | h1 | h1
  · revert h1; decide
  · revert h1; decide
  · rcases mem_integer_chars n h _ h1 with h2 | h2
    · revert h2; decide
    · revert h2; decide

theorem tick_token (c : ActionContext) (n : IntegerLiteral) (h : Digits n.digits)
    (hrange : INT_MIN ≤ n.value ∧ n.value ≤ INT_MAX) :
    steppedValueToken c (parenthesized n.chars)
      = .value { c with acceleratedTickValues := c.acceleratedTickValues ++ [n.value] } := by
  have hopen := openParen_mem_parenthesized n.chars
  have h1 := regex_match_false_of_letter decimalPattern _ openParen hopen (by decide)
  have h2 := regex_match_false_of_letter integerPattern _ openParen hopen (by decide)
  have h3 := regex_match_false_of_always deltaPattern _ decimalPoint (by decide)
    (decimalPoint_not_mem_integer n h)
  have h4 : regex_match (parenthesized n.chars) tickPattern = true :=
    parenthesized_rmatch _ _ (integer_rmatch n h)
  unfold steppedValueToken
  simp only [h1, h2, h3, h4, Bool.false_eq_true, or_self, if_false, if_true,
    substrInner_parenthesized, stod_integer n h (inDoubleRange_of_int n hrange),
    Parsed.andThen, doubleToInt_int _ hrange]

theorem parsed_mapList_map_of_forall {α β γ : Type} (f : β → Parsed γ) (h : α → β)
    (g : α → γ) (l : List α) (hall : ∀ x ∈ l, f (h x) = .value (g x)) :
    Parsed.mapList f (l.map h) = .value (l.map g) := by
  induction l with
  | nil => rfl
  | cons x rest ih =>
    simp only [List.map_cons, Parsed.mapList, hall x (List.mem_cons_self _ _), Parsed.andThen,
      ih fun y hy => hall y (List.mem_cons_of_mem _ hy)]

theorem separator_mem_separated (separator : Char) (items : List (List Char))
    (last : List Char) (hitems : items ≠ []) :
    separator ∈ separated separator (items ++ [last]) := by
  rw [separated_append_last]
  cases items with
  | nil => exact absurd rfl hitems
  | cons item rest => simp

theorem mem_toList_parenthesized (chars : List Char) (c : Char) (hc : c ∈ chars) :
    c ∈ (parenthesized chars).toList := by
  have h1 : (parenthesized chars).toList = openParen :: chars ++ [closeParen] := rfl
  rw [h1]
  simp [hc]

theorem delta_list_token (c : ActionContext) (items : List DecimalLiteral)
    (last : DecimalLiteral) (hitems : items ≠ [])
    (hall : ∀ d ∈ items ++ [last],
      Digits d.whole ∧ Digits d.fraction ∧ InDoubleRange d.magnitude) :
    steppedValueToken c
        (parenthesized (separated comma ((items ++ [last]).map DecimalLiteral.chars)))
      = .value { c with acceleratedDeltaValues :=
          c.acceleratedDeltaValues ++ (items ++ [last]).map DecimalLiteral.value } := by
  have hmap : (items ++ [last]).map DecimalLiteral.chars
      = items.map DecimalLiteral.chars ++ [last.chars] := by simp
  have hopen := openParen_mem_parenthesized
    (separated comma ((items ++ [last]).map DecimalLiteral.chars))
  have hcomma : comma ∈ (parenthesized
      (separated comma ((items ++ [last]).map DecimalLiteral.chars))).toList := by
    apply mem_toList_parenthesized
    rw [hmap]
    exact separator_mem_separated comma _ _ (by simpa using hitems)
  have h1 := regex_match_false_of_letter decimalPattern _ openParen hopen (by decide)
  have h2 := regex_match_false_of_letter integerPattern _ openParen hopen (by decide)
  have h3 := regex_match_false_of_letter deltaPattern _ comma hcomma (by decide)
  have h4 := regex_match_false_of_letter tickPattern _ comma hcomma (by decide)
  have h5 : regex_match (parenthesized
      (separated comma ((items ++ [last]).map DecimalLiteral.chars))) deltaListPattern
      = true := by
    rw [hmap]
    apply list_rmatch decimalPattern _ _ (by simpa using hitems)
    · intro item hitem
      obtain ⟨d, hd, rfl⟩ := List.mem_map.mp hitem
      have := hall d (List.mem_append_left _ hd)
      exact decimal_rmatch d this.1 this.2.1
    · have := hall last (by simp)
      exact decimal_rmatch last this.1 this.2.1
  have htokens : getlineTokens comma
      (String.mk (separated comma ((items ++ [last]).map DecimalLiteral.chars))).toList []
      = (items ++ [last]).map fun d => String.mk d.chars := by
    have hs : ∀ l : List Char, (String.mk l).toList = l := fun _ => rfl
    rw [hs, getlineTokens_separated, List.map_map]
    · rfl
    · intro item hitem
      obtain ⟨d, hd, rfl⟩ := List.mem_map.mp hitem
      refine ⟨decimal_chars_ne_nil d, ?_⟩
      intro hc
      have hd2 := hall d hd
      rcases mem_decimal_chars d hd2.1 hd2.2.1 _ hc with h | h | h <;> revert h <;> decide
  unfold steppedValueToken
  simp only [h1, h2, h3, h4, h5, Bool.false_eq_true, or_self, if_false, if_true,
    substrInner_parenthesized, htokens]
  rw [parsed_mapList_map_of_forall stod (fun d : DecimalLiteral => String.mk d.chars)
    DecimalLiteral.value _ fun d hd =>
      stod_decimal d (hall d hd).1 (hall d hd).2.1 (hall d hd).2.2]
  rfl

theorem decimalPoint_not_mem_integers (items : List IntegerLiteral)
    (hall : ∀ n ∈ items, Digits n.digits) :
    decimalPoint ∉ (parenthesized
      (separated comma (items.map IntegerLiteral.chars))).toList := by
  intro hc
  rcases mem_parenthesized _ _ hc with h1 | h1 | h1
  · revert h1; decide
  · revert h1; decide
  · rcases mem_separated comma _ _ h1 with h2 | ⟨item, hitem, h2⟩
    · revert h2; decide
    · obtain ⟨n, hn, rfl⟩ := List.mem_map.mp hitem
      rcases mem_integer_chars n (hall n hn) _ h2 with h3 | h3 <;> revert h3 <;> decide

theorem tick_list_token (c : ActionContext) (items : List IntegerLiteral)
    (last : IntegerLiteral) (hitems : items ≠ [])
    (hall : ∀ n ∈ items ++ [last], Digits n.digits ∧ INT_MIN ≤ n.value ∧ n.value ≤ INT_MAX) :
    steppedValueToken c
        (parenthesized (separated comma ((items ++ [last]).map IntegerLiteral.chars)))
      = .value { c with acceleratedTickValues :=
          c.acceleratedTickValues ++ (items ++ [last]).map IntegerLiteral.value } := by
  have hmap : (items ++ [last]).map IntegerLiteral.chars
      = items.map IntegerLiteral.chars ++ [last.chars] := by simp
  have hopen := openParen_mem_parenthesized
    (separated comma ((items ++ [last]).map IntegerLiteral.chars))
  have hcomma : comma ∈ (parenthesized
      (separated comma ((items ++ [last]).map IntegerLiteral.chars))).toList := by
    apply mem_toList_parenthesized
    rw [hmap]
    exact separator_mem_separated comma _ _ (by simpa using hitems)
  have h1 := regex_match_false_of_letter decimalPattern _ openParen hopen (by decide)
  have h2 := regex_match_false_of_letter integerPattern _ openParen hopen (by decide)
  have h3 := regex_match_false_of_letter deltaPattern _ comma hcomma (by decide)
  have h4 := regex_match_false_of_letter tickPattern _ comma hcomma (by decide)
  have h5 := regex_match_false_of_always deltaListPattern _ decimalPoint (by decide)
    (decimalPoint_not_mem_integers (items ++ [last]) fun n hn => (hall n hn).1)
  have h6 : regex_match (parenthesized
      (separated comma ((items ++ [last]).map IntegerLiteral.chars))) tickListPattern
      = true := by
    rw [hmap]
    apply list_rmatch integerPattern _ _ (by simpa using hitems)
    · intro item hitem
      obtain ⟨n, hn, rfl⟩ := List.mem_map.mp hitem
      exact integer_rmatch n (hall n (List.mem_append_left _ hn)).1
    · exact integer_rmatch last (hall last (by simp)).1
  have htokens : getlineTokens comma
      (String.mk (separated comma ((items ++ [last]).map IntegerLiteral.chars))).toList []
      = (items ++ [last]).map fun n => String.mk n.chars := by
    have hs : ∀ l : List Char, (String.mk l).toList = l := fun _ => rfl
    rw [hs, getlineTokens_separated, List.map_map]
    · rfl
    · intro item hitem
      obtain ⟨n, hn, rfl⟩ := List.mem_map.mp hitem
      refine ⟨integer_chars_ne_nil n (hall n hn).1, ?_⟩
      intro hc
      rcases mem_integer_chars n (hall n hn).1 _ hc with h | h <;> revert h <;> decide
  unfold steppedValueToken
  simp only [h1, h2, h3, h4, h5, h6, Bool.false_eq_true, or_self, if_false, if_true,
    substrInner_parenthesized, htokens]
  rw [parsed_mapList_map_of_forall (fun tickValue => (stod tickValue).andThen doubleToInt)
    (fun n : IntegerLiteral => String.mk n.chars) IntegerLiteral.value _ fun n hn => by
      simp only [stod_integer n (hall n hn).1 (inDoubleRange_of_int n (hall n hn).2),
        Parsed.andThen, doubleToInt_int _ (hall n hn).2]]
  rfl

theorem unmatched_token (c : ActionContext) (strVal : String)
    (h1 : regex_match strVal decimalPattern = false)
    (h2 : regex_match strVal integerPattern = false)
    (h3 : regex_match strVal deltaPattern = false)
    (h4 : regex_match strVal tickPattern = false)
    (h5 : regex_match strVal deltaListPattern = false)
    (h6 : regex_match strVal tickListPattern = false)
    (h7 : regex_match strVal decimalRangePattern = false)
    (h8 : regex_match strVal integerRangePattern = false) :
    steppedValueToken c strVal = .value c := by
  unfold steppedValueToken
  simp only [h1, h2, h3, h4, h5, h6, h7, h8, Bool.false_eq_true, or_self, if_false]

theorem stod_decimal_out_of_range (d : DecimalLiteral) (hw : Digits d.whole)
    (hf : Digits d.fraction) (hrange : ¬InDoubleRange d.magnitude) :
    stod (String.mk d.chars) = .thrown := by
  have hchars : d.chars = signChars d.negative ++ (d.whole ++ decimalPoint :: d.fraction) := by
    simp [DecimalLiteral.chars]
  rw [hchars]
  exact stod_out_of_range d.negative _ _ (head_of_digits d.whole hw _)
    (leadingValue_decimal d.whole d.fraction hw hf) hrange

theorem decimal_range_token_calls (c : ActionContext) (lo hi : DecimalLiteral)
    (hlo : Digits lo.whole ∧ Digits lo.fraction) (hhi : Digits hi.whole ∧ Digits hi.fraction) :
    steppedValueToken c (String.mk (separated greaterSign [lo.chars, hi.chars]))
      = (stod (String.mk lo.chars)).andThen fun firstValue =>
          (stod (String.mk hi.chars)).andThen fun lastValue =>
            if lastValue > firstValue then
              .value { c with rangeMinimum := firstValue, rangeMaximum := lastValue }
            else
              .value { c with rangeMinimum := lastValue, rangeMaximum := firstValue } := by
  have hs : ∀ l : List Char, (String.mk l).toList = l := fun _ => rfl
  have hgt : greaterSign ∈ (String.mk (separated greaterSign [lo.chars, hi.chars])).toList := by
    rw [hs]
    simp [separated]
  have h1 := regex_match_false_of_letter decimalPattern _ greaterSign hgt (by decide)
  have h2 := regex_match_false_of_letter integerPattern _ greaterSign hgt (by decide)
  have h3 := regex_match_false_of_letter deltaPattern _ greaterSign hgt (by decide)
  have h4 := regex_match_false_of_letter tickPattern _ greaterSign hgt (by decide)
  have h5 := regex_match_false_of_letter deltaListPattern _ greaterSign hgt (by decide)
  have h6 := regex_match_false_of_letter tickListPattern _ greaterSign hgt (by decide)
  have h7 : regex_match (String.mk (separated greaterSign [lo.chars, hi.chars]))
      decimalRangePattern = true := by
    unfold regex_match decimalRangePattern
    rw [hs, RegularExpression.mul_rmatch_iff]
    refine ⟨lo.chars ++ [greaterSign], hi.chars, by simp [separated], ?_,
      decimal_rmatch hi hhi.1 hhi.2⟩
    rw [RegularExpression.mul_rmatch_iff]
    exact ⟨lo.chars, [greaterSign], rfl, decimal_rmatch lo hlo.1 hlo.2,
      (RegularExpression.char_rmatch_iff _ _).mpr rfl⟩
  have htokens : getlineTokens greaterSign
      (String.mk (separated greaterSign [lo.chars, hi.chars])).toList []
      = [String.mk lo.chars, String.mk hi.chars] := by
    rw [hs, getlineTokens_separated]
    · rfl
    · intro item hitem
      simp only [List.mem_cons, List.mem_singleton, List.not_mem_nil, or_false] at hitem
      rcases hitem with rfl | rfl
      · refine ⟨decimal_chars_ne_nil lo, ?_⟩
        intro hc
        rcases mem_decimal_chars lo hlo.1 hlo.2 _ hc with h | h | h <;> revert h <;> decide
      · refine ⟨decimal_chars_ne_nil hi, ?_⟩
        intro hc
        rcases mem_decimal_chars hi hhi.1 hhi.2 _ hc with h | h | h <;> revert h <;> decide
  unfold steppedValueToken
  simp only [h1, h2, h3, h4, h5, h6, h7, Bool.false_eq_true, or_self, if_false, if_true,
    true_or, htokens]

theorem decimal_range_token (c : ActionContext) (lo hi : DecimalLiteral)
    (hlo : Digits lo.whole ∧ Digits lo.fraction) (hhi : Digits hi.whole ∧ Digits hi.fraction)
    (hlor : InDoubleRange lo.magnitude) (hhir : InDoubleRange hi.magnitude) :
    steppedValueToken c (String.mk (separated greaterSign [lo.chars, hi.chars]))
      = .value { c with rangeMinimum := min lo.value hi.value
                        rangeMaximum := max lo.value hi.value } := by
  rw [decimal_range_token_calls c lo hi hlo hhi]
  simp only [stod_decimal lo hlo.1 hlo.2 hlor, stod_decimal hi hhi.1 hhi.2 hhir,
    Parsed.andThen]
  by_cases hgt2 : hi.value > lo.value
  · rw [if_pos hgt2, min_eq_left (le_of_lt hgt2), max_eq_right (le_of_lt hgt2)]
  · rw [if_neg hgt2, min_eq_right (not_lt.mp hgt2), max_eq_left (not_lt.mp hgt2)]

theorem decimal_range_token_thrown (c : ActionContext) (lo hi : DecimalLiteral)
    (hlo : Digits lo.whole ∧ Digits lo.fraction) (hhi : Digits hi.whole ∧ Digits hi.fraction)
    (hrange : ¬(InDoubleRange lo.magnitude ∧ InDoubleRange hi.magnitude)) :
    steppedValueToken c (String.mk (separated greaterSign [lo.chars, hi.chars]))
      = .thrown := by
  rw [decimal_range_token_calls c lo hi hlo hhi]
  by_cases hlor : InDoubleRange lo.magnitude
  · have hhir : ¬InDoubleRange hi.magnitude := fun h => hrange ⟨hlor, h⟩
    simp only [stod_decimal lo hlo.1 hlo.2 hlor,
      stod_decimal_out_of_range hi hhi.1 hhi.2 hhir, Parsed.andThen]
  · simp only [stod_decimal_out_of_range lo hlo.1 hlo.2 hlor, Parsed.andThen]

theorem not_mem_integer_range (first last : List Char) (hfirst : Digits first)
    (hlast : Digits last) (c : Char) (hc1 : c ≠ minusSign) (hc2 : c ∉ digitChars) :
    c ∉ (String.mk (first ++ minusSign :: last)).toList := by
  intro hc
  have hs : (String.mk (first ++ minusSign :: last)).toList = first ++ minusSign :: last := rfl
  rw [hs] at hc
  simp only [List.mem_append, List.mem_cons] at hc
  rcases hc with h | h | h
  · exact hc2 (hfirst.2 c h)
  · exact hc1 h
  · exact hc2 (hlast.2 c h)

theorem integer_range_not_integer (first last : List Char) (hfirst : Digits first)
    (hlast : Digits last) :
    integerPattern.rmatch (first ++ minusSign :: last) = false := by
  cases h : integerPattern.rmatch (first ++ minusSign :: last) with
  | false => rfl
  | true =>
    exfalso
    obtain ⟨n, hn, hx⟩ := (integerPattern_rmatch_iff _).mp h
    unfold IntegerLiteral.chars signChars at hx
    cases hneg : n.negative
    · rw [hneg] at hx
      simp only [Bool.false_eq_true, if_false, List.nil_append] at hx
      have : minusSign ∈ n.digits := by
        rw [← hx]
        simp
      exact absurd (hn.2 _ this) (by decide)
    · rw [hneg] at hx
      simp only [if_true, List.singleton_append] at hx
      obtain ⟨hne, hall⟩ := hfirst
      cases first with
      | nil => exact hne rfl
      | cons d more =>
        simp only [List.cons_append, List.cons.injEq] at hx
        have := hall d (List.mem_cons_self _ _)
        rw [hx.1] at this
        revert this
        decide

theorem integer_range_token (c : ActionContext) (first last : List Char)
    (hfirst : Digits first) (hlast : Digits last) :
    steppedValueToken c (String.mk (first ++ minusSign :: last)) = .value c := by
  have hs : ∀ l : List Char, (String.mk l).toList = l := fun _ => rfl
  have h1 := regex_match_false_of_always decimalPattern _ decimalPoint (by decide)
    (not_mem_integer_range first last hfirst hlast _ (by decide) (by decide))
  have h2 : regex_match (String.mk (first ++ minusSign :: last)) integerPattern = false :=
    integer_range_not_integer first last hfirst hlast
  have hopen := not_mem_integer_range first last hfirst hlast openParen (by decide) (by decide)
  have h3 := regex_match_false_of_always deltaPattern _ openParen (by decide) hopen
  have h4 := regex_match_false_of_always tickPattern _ openParen (by decide) hopen
  have h5 := regex_match_false_of_always deltaListPattern _ openParen (by decide) hopen
  have h6 := regex_match_false_of_always tickListPattern _ openParen (by decide) hopen
  have hgt := not_mem_integer_range first last hfirst hlast greaterSign (by decide) (by decide)
  have h7 := regex_match_false_of_always decimalRangePattern _ greaterSign (by decide) hgt
  have h8 : regex_match (String.mk (first ++ minusSign :: last)) integerRangePattern
      = true := by
    unfold regex_match integerRangePattern
    rw [hs, RegularExpression.mul_rmatch_iff]
    refine ⟨first ++ [minusSign], last, by simp, ?_, (digitsPattern_rmatch_iff _).mpr hlast⟩
    rw [RegularExpression.mul_rmatch_iff]
    exact ⟨first, [minusSign], rfl, (digitsPattern_rmatch_iff _).mpr hfirst,
      (RegularExpression.char_rmatch_iff _ _).mpr rfl⟩
  have htokens : getlineTokens greaterSign
      (String.mk (first ++ minusSign :: last)).toList []
      = [String.mk (first ++ minusSign :: last)] := by
    rw [hs] at hgt ⊢
    rw [getlineTokens_last greaterSign _ [] hgt (by simp)]
    rfl
  unfold steppedValueToken
  simp only [h1, h2, h3, h4, h5, h6, h7, h8, Bool.false_eq_true, or_self, if_false, if_true,
    or_true, htokens]

theorem integer_greater_token (c : ActionContext) (first last : List Char)
    (hfirst : Digits first) (hlast : Digits last) :
    steppedValueToken c (String.mk (first ++ greaterSign :: last)) = .value c := by
  have hgt : greaterSign ∈ (String.mk (first ++ greaterSign :: last)).toList := by
    have hs : (String.mk (first ++ greaterSign :: last)).toList
        = first ++ greaterSign :: last := rfl
    rw [hs]
    simp
  have hpoint : decimalPoint ∉ (String.mk (first ++ greaterSign :: last)).toList := by
    intro hc
    have hs : (String.mk (first ++ greaterSign :: last)).toList
        = first ++ greaterSign :: last := rfl
    rw [hs] at hc
    simp only [List.mem_append, List.mem_cons] at hc
    rcases hc with h | h | h
    · exact absurd (hfirst.2 _ h) (by decide)
    · revert h; decide
    · exact absurd (hlast.2 _ h) (by decide)
  exact unmatched_token c _
    (regex_match_false_of_letter decimalPattern _ greaterSign hgt (by decide))
    (regex_match_false_of_letter integerPattern _ greaterSign hgt (by decide))
    (regex_match_false_of_letter deltaPattern _ greaterSign hgt (by decide))
    (regex_match_false_of_letter tickPattern _ greaterSign hgt (by decide))
    (regex_match_false_of_letter deltaListPattern _ greaterSign hgt (by decide))
    (regex_match_false_of_letter tickListPattern _ greaterSign hgt (by decide))
    (regex_match_false_of_always decimalRangePattern _ decimalPoint (by decide) hpoint)
    (regex_match_false_of_letter integerRangePattern _ greaterSign hgt (by decide))

/-! ### The bracket section and the defaults -/

theorem indexOf_open (before rest : List String) (token : String) (h : token ∉ before) :
    (before ++ token :: rest).indexOf token = before.length := by
  rw [List.indexOf_append_of_not_mem h, List.indexOf_cons_self]
  rfl

theorem indexOf_lt_iff (params : List String) (token : String) :
    params.indexOf token < params.length ↔ token ∈ params :=
  List.indexOf_lt_length

theorem bracket_section (src : ValueSources) (before tokens after : List String)
    (c : ActionContext) (h1 : "[" ∉ before) (h2 : "]" ∉ before) (h3 : "]" ∉ tokens) :
    GetSteppedValues src (before ++ "[" :: tokens ++ "]" :: after) c
      = (Parsed.foldList steppedValueToken c tokens).andThen (steppedValueDefaults src) := by
  have hopen : (before ++ "[" :: tokens ++ "]" :: after).indexOf "[" = before.length := by
    have : before ++ "[" :: tokens ++ "]" :: after
        = before ++ "[" :: (tokens ++ "]" :: after) := by simp
    rw [this]
    exact indexOf_open before _ "[" h1
  have hclose : (before ++ "[" :: tokens ++ "]" :: after).indexOf "]"
      = before.length + 1 + tokens.length := by
    have : before ++ "[" :: tokens ++ "]" :: after
        = (before ++ "[" :: tokens) ++ "]" :: after := by simp
    rw [this, indexOf_open _ _ "]" (by
      simp only [List.mem_append, List.mem_cons, not_or]
      exact ⟨h2, by decide, h3⟩)]
    simp
    omega
  unfold GetSteppedValues
  simp only [hopen, hclose]
  have hlen : (before ++ "[" :: tokens ++ "]" :: after).length
      = before.length + 1 + tokens.length + 1 + after.length := by
    simp
    omega
  have hcond : before.length < (before ++ "[" :: tokens ++ "]" :: after).length
      ∧ before.length + 1 + tokens.length
        < (before ++ "[" :: tokens ++ "]" :: after).length := by
    rw [hlen]
    omega
  rw [if_pos hcond]
  unfold bracketLoop
  rw [if_pos (by omega)]
  have hdrop : ((before ++ "[" :: tokens ++ "]" :: after).drop (before.length + 1)).take
      (before.length + 1 + tokens.length - before.length - 1) = tokens := by
    have h4 : before ++ "[" :: tokens ++ "]" :: after
        = (before ++ ["["]) ++ (tokens ++ "]" :: after) := by simp
    have h5 : before.length + 1 = (before ++ ["["]).length := by simp
    rw [h4, h5, List.drop_left]
    have h6 : (before ++ ["["]).length + tokens.length - before.length - 1 = tokens.length := by
      simp
      omega
    rw [h6, List.take_left]
  rw [hdrop]

theorem no_bracket_section (src : ValueSources) (params : List String) (c : ActionContext)
    (h : "[" ∉ params ∨ "]" ∉ params) :
    GetSteppedValues src params c = steppedValueDefaults src c := by
  unfold GetSteppedValues
  have hcond : ¬(params.indexOf "[" < params.length ∧ params.indexOf "]" < params.length) := by
    rw [indexOf_lt_iff, indexOf_lt_iff]
    intro hc
    rcases h with h | h
    · exact h hc.1
    · exact h hc.2
  simp only [hcond, if_false, Parsed.andThen]

theorem reversed_bracket_section (src : ValueSources) (before between after : List String)
    (c : ActionContext) (h1 : "[" ∉ before) (h2 : "]" ∉ before) (h3 : "[" ∉ between)
    (hafter : ∃ c1, Parsed.foldList steppedValueToken c after = .value c1) :
    GetSteppedValues src (before ++ "]" :: between ++ "[" :: after) c = .fault := by
  have hclose : (before ++ "]" :: between ++ "[" :: after).indexOf "]" = before.length := by
    have : before ++ "]" :: between ++ "[" :: after
        = before ++ "]" :: (between ++ "[" :: after) := by simp
    rw [this]
    exact indexOf_open before _ "]" h2
  have hopen : (before ++ "]" :: between ++ "[" :: after).indexOf "["
      = before.length + 1 + between.length := by
    have : before ++ "]" :: between ++ "[" :: after
        = (before ++ "]" :: between) ++ "[" :: after := by simp
    rw [this, indexOf_open _ _ "[" (by
      simp only [List.mem_append, List.mem_cons, not_or]
      exact ⟨h1, by decide, h3⟩)]
    simp
    omega
  unfold GetSteppedValues
  simp only [hopen, hclose]
  have hlen : (before ++ "]" :: between ++ "[" :: after).length
      = before.length + 1 + between.length + 1 + after.length := by
    simp
    omega
  have hcond : before.length + 1 + between.length
        < (before ++ "]" :: between ++ "[" :: after).length
      ∧ before.length < (before ++ "]" :: between ++ "[" :: after).length := by
    rw [hlen]
    omega
  rw [if_pos hcond]
  unfold bracketLoop
  rw [if_neg (by omega)]
  have hdrop : (before ++ "]" :: between ++ "[" :: after).drop
      (before.length + 1 + between.length + 1) = after := by
    have h4 : before ++ "]" :: between ++ "[" :: after
        = (before ++ "]" :: between ++ ["["]) ++ after := by simp
    have h5 : before.length + 1 + between.length + 1
        = (before ++ "]" :: between ++ ["["]).length := by
      simp
      omega
    rw [h4, h5, List.drop_left]
  obtain ⟨c1, hc1⟩ := hafter
  rw [hdrop, hc1]
  rfl

theorem steppedValueDefaults_range (src : ValueSources) (c r : ActionContext)
    (h : steppedValueDefaults src c = .value r) :
    r.rangeMinimum = c.rangeMinimum ∧ r.rangeMaximum = c.rangeMaximum := by
  unfold steppedValueDefaults at h
  simp only at h
  split_ifs at h <;>
    first
    | (cases h; exact ⟨rfl, rfl⟩)
    | (revert h
       cases doubleToInt _ <;> intro h <;> simp only [Parsed.andThen] at h <;>
         first | (cases h; exact ⟨rfl, rfl⟩) | cases h)

theorem steppedValueDefaults_of_no_cache (src : ValueSources) (c : ActionContext)
    (hcache : src.cachedSteppedValues = []) (hsteps : c.steppedValues = []) :
    ∃ r, steppedValueDefaults src c = .value r
      ∧ r.acceleratedTickValues = c.acceleratedTickValues
      ∧ r.rangeMinimum = c.rangeMinimum ∧ r.rangeMaximum = c.rangeMaximum := by
  unfold steppedValueDefaults
  simp only [hcache, hsteps, List.length_nil, if_true]
  split_ifs <;> first | exact ⟨_, rfl, rfl, rfl, rfl⟩ | simp_all

/-! ### Range expressions -/

theorem inDoubleRange_of_bounds (x : Double) (h1 : 1 / 1000000 ≤ x)
    (h2 : x ≤ 1000000000000) : InDoubleRange x := by
  have h3 : (1000000000000 : Double) < doubleOverflow := by
    unfold doubleOverflow
    norm_num
  have h4 : DBL_MIN ≤ 1 / 1000000 := by
    unfold DBL_MIN
    norm_num
  exact ⟨lt_of_le_of_lt h2 h3, Or.inr (le_trans h4 h1)⟩

/-- C21: a token `lo>hi` of two decimal literals sets `rangeMinimum` to the smaller and
`rangeMaximum` to the larger of the two values in either order (when both are within the
range of `double`; `stod` throws when one is too large for a `double`), but a token
`lo-hi` of two integers, which the pattern `[0-9]+[-][0-9]+` lets into the same branch, is
split on `>` only and changes nothing, nor does a token `lo>hi` of two integers, which no
pattern matches; so after `GetSteppedValues` on a bracket section that holds such a token
alone the range is the one before the call. -/
theorem C21_integer_range_token_changes_nothing (c : ActionContext) :
    (∀ lo hi : DecimalLiteral, Digits lo.whole ∧ Digits lo.fraction →
      Digits hi.whole ∧ Digits hi.fraction →
      (InDoubleRange lo.magnitude → InDoubleRange hi.magnitude →
        steppedValueToken c (String.mk (separated greaterSign [lo.chars, hi.chars]))
          = .value { c with rangeMinimum := min lo.value hi.value
                            rangeMaximum := max lo.value hi.value })
      ∧ (doubleOverflow ≤ lo.magnitude ∨ doubleOverflow ≤ hi.magnitude →
        steppedValueToken c (String.mk (separated greaterSign [lo.chars, hi.chars]))
          = .thrown))
    ∧ (∀ first last : List Char, Digits first → Digits last →
      steppedValueToken c (String.mk (first ++ minusSign :: last)) = .value c
      ∧ steppedValueToken c (String.mk (first ++ greaterSign :: last)) = .value c
      ∧ ∀ (src : ValueSources) (before after : List String) (r : ActionContext),
          "[" ∉ before → "]" ∉ before →
          GetSteppedValues src
              (before ++ "[" :: [String.mk (first ++ minusSign :: last)] ++ "]" :: after) c
            = .value r →
          r.rangeMinimum = c.rangeMinimum ∧ r.rangeMaximum = c.rangeMaximum) := by
  refine ⟨fun lo hi hlo hhi =>
    ⟨fun hlor hhir => decimal_range_token c lo hi hlo hhi hlor hhir,
      fun hrange => decimal_range_token_thrown c lo hi hlo hhi fun hboth =>
        hrange.elim (fun h => absurd hboth.1.1 (not_lt.mpr h))
          (fun h => absurd hboth.2.1 (not_lt.mpr h))⟩, ?_⟩
  intro first last hfirst hlast
  refine ⟨integer_range_token c first last hfirst hlast,
    integer_greater_token c first last hfirst hlast, ?_⟩
  intro src before after r h1 h2 hr
  have hne : "]" ∉ [String.mk (first ++ minusSign :: last)] := by
    intro hmem
    simp only [List.mem_singleton] at hmem
    have hc : Char.ofNat 93 ∈ (String.mk (first ++ minusSign :: last)).toList := by
      rw [← hmem]
      decide
    exact not_mem_integer_range first last hfirst hlast _ (by decide) (by decide) hc
  rw [bracket_section src before _ after c h1 h2 hne] at hr
  simp only [Parsed.foldList, integer_range_token c first last hfirst hlast,
    Parsed.andThen] at hr
  exact steppedValueDefaults_range src c r hr

theorem magnitude_three_quarters :
    (DecimalLiteral.mk false "0".toList "75".toList).magnitude = 3 / 4 := by
  have e1 : natValue "0".toList = 0 := by decide
  have e2 : natValue "75".toList = 75 := by decide
  have e3 : "75".toList.length = 2 := by decide
  simp only [DecimalLiteral.magnitude, e1, e2, e3]
  norm_num

theorem magnitude_one_quarter :
    (DecimalLiteral.mk false "0".toList "25".toList).magnitude = 1 / 4 := by
  have e1 : natValue "0".toList = 0 := by decide
  have e2 : natValue "25".toList = 25 := by decide
  have e3 : "25".toList.length = 2 := by decide
  simp only [DecimalLiteral.magnitude, e1, e2, e3]
  norm_num

theorem magnitude_three_halves :
    (DecimalLiteral.mk true "1".toList "5".toList).magnitude = 3 / 2 := by
  have e1 : natValue "1".toList = 1 := by decide
  have e2 : natValue "5".toList = 5 := by decide
  have e3 : "5".toList.length = 1 := by decide
  simp only [DecimalLiteral.magnitude, e1, e2, e3]
  norm_num

/-- Witness of C21: the token `0.75>0.25` sets the range `[1/4, 3/4]`, the tokens `2-5` and
`2>5` change nothing, and after `FXParam 1 [ 2-5 ]` the range is still `[0, 1]`. -/
theorem C21_integer_range_token_changes_nothing_witness :
    (steppedValueToken initialMembers "0.75>0.25"
      = .value { initialMembers with rangeMinimum := min (3 / 4 : Double) (1 / 4)
                                     rangeMaximum := max (3 / 4 : Double) (1 / 4) })
    ∧ steppedValueToken initialMembers "2-5" = .value initialMembers
    ∧ steppedValueToken initialMembers "2>5" = .value initialMembers
    ∧ ∀ r, GetSteppedValues noSources ["FXParam", "1", "[", "2-5", "]"] initialMembers
          = .value r → r.rangeMinimum = 0 ∧ r.rangeMaximum = 1 := by
  have h := C21_integer_range_token_changes_nothing initialMembers
  have hd : ∀ ds : List Char, ds ≠ [] → (∀ c ∈ ds, c ∈ digitChars) → Digits ds :=
    fun _ h1 h2 => ⟨h1, h2⟩
  have r75 : InDoubleRange (DecimalLiteral.mk false "0".toList "75".toList).magnitude := by
    rw [magnitude_three_quarters]
    exact inDoubleRange_of_bounds _ (by norm_num) (by norm_num)
  have r25 : InDoubleRange (DecimalLiteral.mk false "0".toList "25".toList).magnitude := by
    rw [magnitude_one_quarter]
    exact inDoubleRange_of_bounds _ (by norm_num) (by norm_num)
  have h1 := h.1 ⟨false, "0".toList, "75".toList⟩ ⟨false, "0".toList, "25".toList⟩
    ⟨hd _ (by decide) (by decide), hd _ (by decide) (by decide)⟩
    ⟨hd _ (by decide) (by decide), hd _ (by decide) (by decide)⟩
  have h1 := h1.1 r75 r25
  have h2 := h.2 "2".toList "5".toList (hd _ (by decide) (by decide))
    (hd _ (by decide) (by decide))
  have hv1 : (DecimalLiteral.mk false "0".toList "75".toList).value = 3 / 4 := by
    have := magnitude_three_quarters
    simpa [DecimalLiteral.value, DecimalLiteral.magnitude, signed] using this
  have hv2 : (DecimalLiteral.mk false "0".toList "25".toList).value = 1 / 4 := by
    have := magnitude_one_quarter
    simpa [DecimalLiteral.value, DecimalLiteral.magnitude, signed] using this
  rw [hv1, hv2] at h1
  exact ⟨h1, h2.1, h2.2.1,
    fun r hr => h2.2.2 noSources ["FXParam", "1"] [] r (by decide) (by decide) hr⟩

/-! ### The classification of bracketed tokens -/

theorem tick_token_out_of_int (c : ActionContext) (n : IntegerLiteral) (h : Digits n.digits)
    (hrange : InDoubleRange n.magnitude) (hint : ¬(INT_MIN ≤ n.value ∧ n.value ≤ INT_MAX)) :
    steppedValueToken c (parenthesized n.chars) = .fault := by
  have hopen := openParen_mem_parenthesized n.chars
  have h1 := regex_match_false_of_letter decimalPattern _ openParen hopen (by decide)
  have h2 := regex_match_false_of_letter integerPattern _ openParen hopen (by decide)
  have h3 := regex_match_false_of_always deltaPattern _ decimalPoint (by decide)
    (decimalPoint_not_mem_integer n h)
  have h4 : regex_match (parenthesized n.chars) tickPattern = true :=
    parenthesized_rmatch _ _ (integer_rmatch n h)
  have h5 : doubleToInt ((n.value : Int) : Double) = .fault := by
    unfold doubleToInt
    simp only [Rat.intCast_num, Rat.intCast_den, Nat.cast_one, Int.tdiv_one, hint, if_false]
  unfold steppedValueToken
  simp only [h1, h2, h3, h4, Bool.false_eq_true, or_self, if_false, if_true,
    substrInner_parenthesized, stod_integer n h hrange, Parsed.andThen, h5]

theorem foldl_digits_replicate_zero (k n : Nat) :
    (List.replicate k (Char.ofNat 48)).foldl (fun n c => 10 * n + digitValue c) n
      = n * 10 ^ k := by
  induction k generalizing n with
  | zero => simp
  | succ k ih =>
    have h0 : digitValue (Char.ofNat 48) = 0 := by decide
    rw [List.replicate_succ, List.foldl_cons, ih, h0]
    ring

theorem bare_integer_out_of_range (c : ActionContext) (n : IntegerLiteral)
    (h : Digits n.digits) (hrange : ¬InDoubleRange n.magnitude) :
    steppedValueToken c (String.mk n.chars) = .thrown := by
  have h1 : regex_match (String.mk n.chars) integerPattern = true := integer_rmatch n h
  have h2 : stod (String.mk n.chars) = .thrown :=
    stod_out_of_range n.negative n.digits _ (by
      have := head_of_digits n.digits h []
      simpa using this) (leadingValue_digits n.digits h) hrange
  unfold steppedValueToken
  simp only [h1, or_true, if_true, h2, Parsed.andThen]

/-- C22, the claim as stated fails: the token `(99999999999)` is an integer in parentheses,
but `stod` gives a `double` that the tick table, a `vector<int>`, cannot take; the
conversion is undefined and 99999999999 is not appended.  A bare number of 310 digits is
not appended to the stepped values either: `stod` throws `out_of_range`. -/
theorem C22_counterexample :
    steppedValueToken initialMembers "(99999999999)" = .fault
    ∧ steppedValueToken initialMembers "(99999999999)"
      ≠ .value { initialMembers with acceleratedTickValues := [99999999999] }
    ∧ steppedValueToken initialMembers
        (String.mk (Char.ofNat 49 :: List.replicate 309 (Char.ofNat 48))) = .thrown := by
  have hd : ∀ ds : List Char, ds ≠ [] → (∀ c ∈ ds, c ∈ digitChars) → Digits ds :=
    fun _ h1 h2 => ⟨h1, h2⟩
  have d1 : Digits "99999999999".toList := hd _ (by decide) (by decide)
  have e1 : natValue "99999999999".toList = 99999999999 := by decide
  have hfault : steppedValueToken initialMembers "(99999999999)" = .fault := by
    refine tick_token_out_of_int initialMembers ⟨false, "99999999999".toList⟩ d1 ?_ ?_
    · simp only [IntegerLiteral.magnitude, e1]
      exact inDoubleRange_of_bounds _ (by norm_num) (by norm_num)
    · simp only [IntegerLiteral.value, Bool.false_eq_true, if_false, e1, INT_MIN, INT_MAX]
      omega
  refine ⟨hfault, ?_, ?_⟩
  · rw [hfault]
    intro h
    cases h
  · have d2 : Digits (Char.ofNat 49 :: List.replicate 309 (Char.ofNat 48)) := by
      refine hd _ (List.cons_ne_nil _ _) ?_
      intro c hc
      simp only [List.mem_cons, List.mem_replicate] at hc
      rcases hc with rfl | ⟨-, rfl⟩ <;> decide
    have e2 : natValue (Char.ofNat 49 :: List.replicate 309 (Char.ofNat 48)) = 10 ^ 309 := by
      have h1 : digitValue (Char.ofNat 49) = 1 := by decide
      unfold natValue
      rw [List.foldl_cons, foldl_digits_replicate_zero, h1]
      norm_num
    refine bare_integer_out_of_range initialMembers
      ⟨false, Char.ofNat 49 :: List.replicate 309 (Char.ofNat 48)⟩ d2 ?_
    intro hr
    have hlt := hr.1
    simp only [IntegerLiteral.magnitude, e2, doubleOverflow] at hlt
    norm_num at hlt

/-- C22 (amended): the body of the loop of `GetSteppedValues` classifies a token by its
form.  A decimal in parentheses sets the delta value to its value and changes nothing
else; an integer in parentheses that is an `int` is appended to the accelerated tick
table, the delta value staying as it was; a list in parentheses of two or more decimals
appends their values in order to the accelerated-delta table; such a list of integers
that are `int` appends them in order to the tick table; a bare decimal or integer is
appended to the stepped values; a token that none of the patterns matches changes
nothing.  The decimals and the bare integers are within the range of `double`. -/
theorem C22_tokens_classified_by_form (c : ActionContext) :
    (∀ x : DecimalLiteral, Digits x.whole → Digits x.fraction → InDoubleRange x.magnitude →
      steppedValueToken c (parenthesized x.chars) = .value { c with deltaValue := x.value })
    ∧ (∀ n : IntegerLiteral, Digits n.digits → INT_MIN ≤ n.value ∧ n.value ≤ INT_MAX →
      steppedValueToken c (parenthesized n.chars)
        = .value { c with acceleratedTickValues := c.acceleratedTickValues ++ [n.value] })
    ∧ (∀ (items : List DecimalLiteral) (last : DecimalLiteral), items ≠ [] →
      (∀ x ∈ items ++ [last],
        Digits x.whole ∧ Digits x.fraction ∧ InDoubleRange x.magnitude) →
      steppedValueToken c
          (parenthesized (separated comma ((items ++ [last]).map DecimalLiteral.chars)))
        = .value { c with acceleratedDeltaValues :=
            c.acceleratedDeltaValues ++ (items ++ [last]).map DecimalLiteral.value })
    ∧ (∀ (items : List IntegerLiteral) (last : IntegerLiteral), items ≠ [] →
      (∀ n ∈ items ++ [last], Digits n.digits ∧ INT_MIN ≤ n.value ∧ n.value ≤ INT_MAX) →
      steppedValueToken c
          (parenthesized (separated comma ((items ++ [last]).map IntegerLiteral.chars)))
        = .value { c with acceleratedTickValues :=
            c.acceleratedTickValues ++ (items ++ [last]).map IntegerLiteral.value })
    ∧ (∀ x : DecimalLiteral, Digits x.whole → Digits x.fraction → InDoubleRange x.magnitude →
      steppedValueToken c (String.mk x.chars)
        = .value { c with steppedValues := c.steppedValues ++ [x.value] })
    ∧ (∀ n : IntegerLiteral, Digits n.digits → InDoubleRange n.magnitude →
      steppedValueToken c (String.mk n.chars)
        = .value { c with steppedValues := c.steppedValues ++ [((n.value : Int) : Double)] })
    ∧ (∀ strVal : String,
      regex_match strVal decimalPattern = false → regex_match strVal integerPattern = false →
      regex_match strVal deltaPattern = false → regex_match strVal tickPattern = false →
      regex_match strVal deltaListPattern = false →
      regex_match strVal tickListPattern = false →
      regex_match strVal decimalRangePattern = false →
      regex_match strVal integerRangePattern = false →
      steppedValueToken c strVal = .value c) :=
  ⟨fun x hw hf hr => delta_token c x hw hf hr,
    fun n h hrange => tick_token c n h hrange,
    fun items last hitems hall => delta_list_token c items last hitems hall,
    fun items last hitems hall => tick_list_token c items last hitems hall,
    fun x hw hf hr => bare_decimal_token c x hw hf hr,
    fun n h hr => bare_integer_token c n h hr,
    fun strVal h1 h2 h3 h4 h5 h6 h7 h8 => unmatched_token c strVal h1 h2 h3 h4 h5 h6 h7 h8⟩

/-- Witness of C22: the tokens `(0.25)`, `(-5)`, `(0.25,-1.5)`, `(3,40)`, `-1.5`, `40` and
the unmatched `(1,2` on the members of a new context. -/
theorem C22_tokens_classified_by_form_witness :
    steppedValueToken initialMembers "(0.25)"
      = .value { initialMembers with
          deltaValue := (DecimalLiteral.mk false "0".toList "25".toList).value }
    ∧ steppedValueToken initialMembers "(-5)"
      = .value { initialMembers with acceleratedTickValues := [] ++ [-5] }
    ∧ steppedValueToken initialMembers "(0.25,-1.5)"
      = .value { initialMembers with acceleratedDeltaValues :=
          [] ++ [(DecimalLiteral.mk false "0".toList "25".toList).value,
            (DecimalLiteral.mk true "1".toList "5".toList).value] }
    ∧ steppedValueToken initialMembers "(3,40)"
      = .value { initialMembers with acceleratedTickValues := [] ++ [3, 40] }
    ∧ steppedValueToken initialMembers "-1.5"
      = .value { initialMembers with
          steppedValues := [] ++ [(DecimalLiteral.mk true "1".toList "5".toList).value] }
    ∧ steppedValueToken initialMembers "40"
      = .value { initialMembers with steppedValues := [] ++ [((40 : Int) : Double)] }
    ∧ steppedValueToken initialMembers "(1,2" = .value initialMembers := by
  have h := C22_tokens_classified_by_form initialMembers
  have hd : ∀ ds : List Char, ds ≠ [] → (∀ c ∈ ds, c ∈ digitChars) → Digits ds :=
    fun _ h1 h2 => ⟨h1, h2⟩
  have d0 : Digits "0".toList := hd _ (by decide) (by decide)
  have d1 : Digits "1".toList := hd _ (by decide) (by decide)
  have d3 : Digits "3".toList := hd _ (by decide) (by decide)
  have d5 : Digits "5".toList := hd _ (by decide) (by decide)
  have d25 : Digits "25".toList := hd _ (by decide) (by decide)
  have d40 : Digits "40".toList := hd _ (by decide) (by decide)
  have r25 : InDoubleRange (DecimalLiteral.mk false "0".toList "25".toList).magnitude := by
    rw [magnitude_one_quarter]
    exact inDoubleRange_of_bounds _ (by norm_num) (by norm_num)
  have r15 : InDoubleRange (DecimalLiteral.mk true "1".toList "5".toList).magnitude := by
    rw [magnitude_three_halves]
    exact inDoubleRange_of_bounds _ (by norm_num) (by norm_num)
  have r40 : InDoubleRange (IntegerLiteral.mk false "40".toList).magnitude :=
    inDoubleRange_of_int _ (by decide)
  refine ⟨h.1 ⟨false, "0".toList, "25".toList⟩ d0 d25 r25,
    h.2.1 ⟨true, "5".toList⟩ d5 (by decide),
    h.2.2.1 [⟨false, "0".toList, "25".toList⟩] ⟨true, "1".toList, "5".toList⟩ (by simp) ?_,
    h.2.2.2.1 [⟨false, "3".toList⟩] ⟨false, "40".toList⟩ (by simp) ?_,
    h.2.2.2.2.1 ⟨true, "1".toList, "5".toList⟩ d1 d5 r15,
    h.2.2.2.2.2.1 ⟨false, "40".toList⟩ d40 r40,
    h.2.2.2.2.2.2 "(1,2" (by decide) (by decide) (by decide) (by decide) (by decide)
      (by decide) (by decide) (by decide)⟩
  · intro x hx
    simp only [List.singleton_append, List.mem_cons, List.mem_singleton, List.not_mem_nil,
      or_false] at hx
    rcases hx with rfl | rfl
    · exact ⟨d0, d25, r25⟩
    · exact ⟨d1, d5, r15⟩
  · intro n hn
    simp only [List.singleton_append, List.mem_cons, List.mem_singleton, List.not_mem_nil,
      or_false] at hn
    rcases hn with rfl | rfl
    · exact ⟨d3, by decide⟩
    · exact ⟨d40, by decide⟩

/-! ### The tick table of a new context -/

theorem parsed_andThen_eq_value {α β : Type} (p : Parsed α) (f : α → Parsed β) (b : β) :
    p.andThen f = .value b ↔ ∃ a, p = .value a ∧ f a = .value b := by
  cases p <;> simp [Parsed.andThen]

theorem SetColor_of_no_braces (params : List String)
    (h : "\x7b" ∉ params ∨ "\x7d" ∉ params) : SetColor params = .value () := by
  unfold SetColor
  have hcond : ¬(params.indexOf "\x7b" < params.length
      ∧ params.indexOf "\x7d" < params.length) := by
    rw [indexOf_lt_iff, indexOf_lt_iff]
    intro hc
    rcases h with h | h
    · exact h hc.1
    · exact h hc.2
  simp only [hcond, if_false]

theorem newActionContext_eq (src : ValueSources) (params : List String) :
    ∃ c0 : ActionContext, c0.steppedValues = [] ∧ c0.acceleratedTickValues = []
      ∧ newActionContext src params
        = (if params.length > 0 then SetColor params else .value ()).andThen fun _ =>
          (GetSteppedValues src params c0).andThen fun c =>
          .value (if c.acceleratedTickValues.length < 1 then
              { c with acceleratedTickValues := c.acceleratedTickValues ++ [10] }
            else c) := by
  unfold newActionContext
  simp only
  split_ifs <;> exact ⟨_, rfl, rfl, rfl⟩

/-- C23: every context that the constructor builds from a parameter list has a tick table
with at least one entry, whatever the widget and the cache supply, so that the read of the
tick table in `DoAcceleratedSteppedValueAction` at the clamped acceleration index finds an
entry; and for a parameter list without a bracket section (and without a brace section),
with an empty cache, the constructor returns a context whose tick table is `[10]`. -/
theorem C23_tick_table_never_empty (src : ValueSources) (params : List String) :
    (∀ c, newActionContext src params = .value c →
      c.acceleratedTickValues ≠ []
      ∧ ∀ accelerationIndex : Int, INT_MIN ≤ accelerationIndex → accelerationIndex ≤ INT_MAX →
          (c.acceleratedTickValues.length : Int) ≤ INT_MAX →
          (vecGet c.acceleratedTickValues
            (clampAccelerationIndex c.acceleratedTickValues accelerationIndex)).isSome = true)
    ∧ (("[" ∉ params ∨ "]" ∉ params) → ("\x7b" ∉ params ∨ "\x7d" ∉ params) →
        src.cachedSteppedValues = [] →
        ∃ c, newActionContext src params = .value c ∧ c.acceleratedTickValues = [10]) := by
  obtain ⟨c0, hsteps, hticks, hnew⟩ := newActionContext_eq src params
  constructor
  · intro c hc
    rw [hnew] at hc
    simp only [parsed_andThen_eq_value, Parsed.value.injEq] at hc
    obtain ⟨_, _, c1, _, hc1⟩ := hc
    have hne : c.acceleratedTickValues ≠ [] := by
      rw [← hc1]
      split_ifs with hlen
      · simp
      · intro he
        rw [he] at hlen
        simp at hlen
    refine ⟨hne, ?_⟩
    intro a h0 h1 hsize
    have hpos : 0 < c.acceleratedTickValues.length := List.length_pos.mpr hne
    obtain ⟨hlo, hhi⟩ := clampAccelerationIndex_mem c.acceleratedTickValues a hpos hsize h0 h1
    obtain ⟨e, he⟩ := vecGet_isSome hlo hhi
    rw [he]
    rfl
  · intro hbracket hbrace hcache
    obtain ⟨r, hr, hrticks, -⟩ := steppedValueDefaults_of_no_cache src c0 hcache hsteps
    have hcolor : (if params.length > 0 then SetColor params else Parsed.value ())
        = .value () := by
      split_ifs
      · exact SetColor_of_no_braces params hbrace
      · rfl
    rw [hnew, hcolor, no_bracket_section src params c0 hbracket, hr]
    simp only [Parsed.andThen]
    refine ⟨_, rfl, ?_⟩
    rw [hrticks, hticks]
    rfl

/-- Witness of C23: the parameter list `TrackVolume` with a widget and a cache that supply
nothing gives a context with the tick table `[10]`. -/
theorem C23_tick_table_never_empty_witness :
    (∀ c, newActionContext noSources ["TrackVolume"] = .value c →
      c.acceleratedTickValues ≠ []
      ∧ ∀ accelerationIndex : Int, INT_MIN ≤ accelerationIndex → accelerationIndex ≤ INT_MAX →
          (c.acceleratedTickValues.length : Int) ≤ INT_MAX →
          (vecGet c.acceleratedTickValues
            (clampAccelerationIndex c.acceleratedTickValues accelerationIndex)).isSome = true)
    ∧ ∃ c, newActionContext noSources ["TrackVolume"] = .value c
        ∧ c.acceleratedTickValues = [10] :=
  ⟨(C23_tick_table_never_empty noSources ["TrackVolume"]).1,
    (C23_tick_table_never_empty noSources ["TrackVolume"]).2 (Or.inl (by decide))
      (Or.inl (by decide)) rfl⟩

/-! ### Failures while a zone file is processed -/

theorem newActionContext_of_reversed_brackets (src : ValueSources)
    (before between : List String) (h1 : "[" ∉ before) (h2 : "]" ∉ before)
    (h3 : "[" ∉ between)
    (hbrace : "\x7b" ∉ before ++ "]" :: between ++ ["["]
      ∨ "\x7d" ∉ before ++ "]" :: between ++ ["["]) :
    newActionContext src (before ++ "]" :: between ++ ["["]) = .fault := by
  obtain ⟨c0, -, -, hnew⟩ := newActionContext_eq src (before ++ "]" :: between ++ ["["])
  have hcolor : (if (before ++ "]" :: between ++ ["["]).length > 0 then
      SetColor (before ++ "]" :: between ++ ["["]) else Parsed.value ()) = .value () := by
    split_ifs
    · exact SetColor_of_no_braces _ hbrace
    · rfl
  rw [hnew, hcolor, reversed_bracket_section src before between [] c0 h1 h2 h3 ⟨c0, rfl⟩]
  rfl

/-- C24: a binding line whose parameters have the closing square bracket before the
opening one makes the constructor of its context read past the end of the parameter
vector, which is no exception, so that `ProcessZoneFile` does not come to its `catch` and
does not return normally; an exception, such as the one `stoi` throws for a colour value
that is no `int`, is caught and the function returns. -/
theorem C24_reversed_brackets_escape_the_catch (sources : Widget → ValueSources) :
    (∀ (src : ValueSources) (before between : List String),
      "[" ∉ before → "]" ∉ before → "[" ∉ between →
      ("\x7b" ∉ before ++ "]" :: between ++ ["["]
        ∨ "\x7d" ∉ before ++ "]" :: between ++ ["["]) →
      newActionContext src (before ++ "]" :: between ++ ["["]) = .fault)
    ∧ ProcessZoneFileOutcome (sampleManager false).value sources [fader1] 1
        reversedBracketFile = .fault
    ∧ ProcessZoneFileOutcome (sampleManager false).value sources [fader1] 1
        hugeColorFile = .value () :=
  ⟨fun src before between h1 h2 h3 hbrace =>
      newActionContext_of_reversed_brackets src before between h1 h2 h3 hbrace,
    rfl, rfl⟩

/-- Witness of C24: the parameter list `TrackVolume ] [`. -/
theorem C24_reversed_brackets_escape_the_catch_witness :
    newActionContext noSources ["TrackVolume", "]", "["] = .fault :=
  (C24_reversed_brackets_escape_the_catch fun _ => noSources).1 noSources ["TrackVolume"] []
    (by decide) (by decide) (by decide) (Or.inl (by decide))

/-! ### Zone construction -/

theorem andThen_eq_done {α β : Type} (c : Construction α) (f : α → Construction β) (b : β) :
    c.andThen f = .done b ↔ ∃ a, c = .done a ∧ f a = .done b := by
  cases c <;> simp [Construction.andThen]

theorem mapList_congr {α β : Type} (f g : α → Construction β) :
    ∀ l : List α, (∀ x ∈ l, f x = g x) → Construction.mapList f l = Construction.mapList g l
  | [], _ => rfl
  | x :: rest, h => by
    simp only [Construction.mapList]
    rw [h x (List.mem_cons_self _ _),
      mapList_congr f g rest fun y hy => h y (List.mem_cons_of_mem _ hy)]

theorem mapList_isDone {α β : Type} (f : α → Construction β) :
    ∀ l : List α, (∀ x ∈ l, ∃ y, f x = .done y) → ∃ ys, Construction.mapList f l = .done ys
  | [], _ => ⟨[], rfl⟩
  | x :: rest, h => by
    obtain ⟨y, hy⟩ := h x (List.mem_cons_self _ _)
    obtain ⟨ys, hys⟩ := mapList_isDone f rest fun z hz => h z (List.mem_cons_of_mem _ hz)
    exact ⟨y :: ys, by simp [Construction.mapList, hy, hys, Construction.andThen]⟩

theorem sampleSources_home_built :
    ∃ home buttons, ProcessZoneFileTree sampleSources 3 "Home" 1 none = .done [home]
      ∧ home.includedZones = .cons buttons .nil ∧ buttons.name = "Buttons"
      ∧ buttons.associatedZones = .nil
      ∧ home.associatedZones.groups.map Prod.fst = ["Folder", "VCA"] :=
  ⟨_, _, rfl, rfl, rfl, rfl, rfl⟩

/-! ### The termination of zone construction -/

theorem andThen_isDone {α β : Type} {c : Construction α} {f : α → Construction β} {a : α}
    (hc : c = .done a) (hf : ∃ b, f a = .done b) : ∃ b, c.andThen f = .done b := by
  subst hc
  exact hf

theorem GetWidgetNameAndModifiers_ne_none (weights : Modifiers → Int) (line : String)
    (t : ActionTemplate) (hline : line ≠ "") :
    GetWidgetNameAndModifiers weights line t ≠ none := by
  obtain ⟨r, hr, -⟩ := GetWidgetNameAndModifiers_fields weights line t hline
  rw [hr]
  exact Option.some_ne_none r

theorem processBindingTokens_ne_fault (weights : Modifiers → Int) (s : ZoneFileState)
    (first : String) (rest : List String) (hfirst : first ≠ "") :
    processBindingTokens weights s first rest ≠ .fault := by
  intro h
  unfold processBindingTokens at h
  split at h
  · cases h
  · split_ifs at h
    · split at h <;> cases h
    · split at h
      · cases h
      · rename_i hnone
        exact GetWidgetNameAndModifiers_ne_none weights first _ hfirst hnone

theorem processLineTokens_ne_fault (weights : Modifiers → Int) (s : ZoneFileState)
    (tokens : List String) (htokens : ∀ token ∈ tokens, token ≠ "") :
    processLineTokens weights s tokens ≠ .fault := by
  intro h
  cases tokens with
  | nil =>
    simp only [processLineTokens] at h
    cases h
  | cons first rest =>
    simp only [processLineTokens] at h
    by_cases c0 : first = "FXParams"
    · rw [if_pos c0] at h
      cases h
    rw [if_neg c0] at h
    by_cases c1 : first = "Zone"
    · rw [if_pos c1] at h
      cases h
    rw [if_neg c1] at h
    by_cases c2 : first = "ZoneEnd" ∧ s.zoneName ≠ ""
    · rw [if_pos c2] at h
      cases h
    rw [if_neg c2] at h
    by_cases c3 : first = "IncludedZones"
    · rw [if_pos c3] at h
      cases h
    rw [if_neg c3] at h
    by_cases c4 : first = "IncludedZonesEnd"
    · rw [if_pos c4] at h
      cases h
    rw [if_neg c4] at h
    by_cases c5 : s.isInIncludedZonesSection = true
    · rw [if_pos c5] at h
      cases h
    rw [if_neg c5] at h
    by_cases c6 : first = "SubZones"
    · rw [if_pos c6] at h
      cases h
    rw [if_neg c6] at h
    by_cases c7 : first = "SubZonesEnd"
    · rw [if_pos c7] at h
      cases h
    rw [if_neg c7] at h
    by_cases c8 : s.isInSubZonesSection = true
    · rw [if_pos c8] at h
      cases h
    rw [if_neg c8] at h
    by_cases c9 : first = "AssociatedZones"
    · rw [if_pos c9] at h
      cases h
    rw [if_neg c9] at h
    by_cases c10 : first = "AssociatedZonesEnd"
    · rw [if_pos c10] at h
      cases h
    rw [if_neg c10] at h
    by_cases c11 : s.isInAssociatedZonesSection = true
    · rw [if_pos c11] at h
      cases h
    rw [if_neg c11] at h
    exact processBindingTokens_ne_fault weights s first rest
      (htokens first (List.mem_cons_self _ _)) h

theorem ProcessZoneFile_ne_fault (weights : Modifiers → Int) :
    ∀ (file : List (List String)) (s : ZoneFileState),
      (∀ tokens ∈ file, ∀ token ∈ tokens, token ≠ "") →
      ProcessZoneFile weights s file ≠ .fault
  | [], s, _ => by
    simp [ProcessZoneFile]
  | tokens :: rest, s, hfile => by
    intro h
    unfold ProcessZoneFile at h
    cases hr : processLineTokens weights s tokens with
    | next s2 =>
      rw [hr] at h
      exact ProcessZoneFile_ne_fault weights rest s2
        (fun t ht => hfile t (List.mem_cons_of_mem _ ht)) h
    | fxZoneFile => rw [hr] at h; cases h
    | zoneEnd s2 => rw [hr] at h; cases h
    | fault =>
      exact processLineTokens_ne_fault weights s tokens
        (hfile tokens (List.mem_cons_self _ _)) hr

theorem GetTokens_ne_empty (line : String) : ∀ token ∈ GetTokens line, token ≠ "" := by
  intro token h
  simp only [GetTokens, List.mem_filter, decide_eq_true_eq] at h
  exact h.2

theorem ProcessZoneFile_lines_ne_fault (weights : Modifiers → Int) (lines : List String) :
    ProcessZoneFile weights ZoneFileState.initial (lines.map GetTokens) ≠ .fault := by
  apply ProcessZoneFile_ne_fault
  intro tokens htokens
  obtain ⟨line, -, hline⟩ := List.mem_map.mp htokens
  subst hline
  exact GetTokens_ne_empty line

theorem mem_registered (src : ZoneSources) (names : List String) (zoneName : String)
    (h : zoneName ∈ src.registered names) : zoneName ∈ names :=
  (List.mem_filter.mp h).1

theorem constructZone_congr (src : ZoneSources)
    (b1 b2 : String → Nat → Option Nat → Construction (List Zone))
    (name : String) (includedZones associatedZones : List String)
    (h : ∀ r ∈ (if name = "Home" then associatedZones else []) ++ includedZones,
      ∀ n e, b1 r n e = b2 r n e) :
    constructZone src b1 name includedZones associatedZones
      = constructZone src b2 name includedZones associatedZones := by
  unfold constructZone
  have h1 : ∀ x ∈ (if name = "Home" then src.registered associatedZones else []),
      (fun zoneName =>
        (b1 zoneName (AddNavigatorsForZone src.numChannels zoneName) none).andThen
          fun zones => Construction.done
            (zoneName, zones.map (addHookWidgets src.surface zoneName))) x
      = (fun zoneName =>
        (b2 zoneName (AddNavigatorsForZone src.numChannels zoneName) none).andThen
          fun zones => Construction.done
            (zoneName, zones.map (addHookWidgets src.surface zoneName))) x := by
    intro x hx
    have hx2 : x ∈ (if name = "Home" then associatedZones else []) := by
      by_cases hn : name = "Home"
      · rw [if_pos hn] at hx ⊢
        exact mem_registered src _ _ hx
      · rw [if_neg hn] at hx
        cases hx
    simp only [h x (List.mem_append_left _ hx2)]
  have h2 : ∀ x ∈ src.registered includedZones,
      (fun zoneName => b1 zoneName (AddNavigatorsForZone src.numChannels zoneName) none) x
      = (fun zoneName => b2 zoneName (AddNavigatorsForZone src.numChannels zoneName) none) x := by
    intro x hx
    exact h x (List.mem_append_right _ (mem_registered src _ _ hx)) _ _
  rw [mapList_congr _ _ _ h1, mapList_congr _ _ _ h2]

theorem InitSubZones_congr (src : ZoneSources)
    (b1 b2 : String → Nat → Option Nat → Construction (List Zone))
    (subZones : List String) (zone : Zone)
    (h : ∀ r ∈ subZones, ∀ n e, b1 r n e = b2 r n e) :
    InitSubZones src b1 subZones zone = InitSubZones src b2 subZones zone := by
  cases zone with
  | mk name isActive widgets includedZones associatedZones subZoneMap =>
    simp only [InitSubZones]
    have h1 : ∀ x ∈ src.registered subZones,
        (fun zoneName =>
          (b1 zoneName 1 (some (GetChannelNumber src.channelNumber widgets))).andThen
            fun zones => Construction.done (zoneName, zones)) x
        = (fun zoneName =>
          (b2 zoneName 1 (some (GetChannelNumber src.channelNumber widgets))).andThen
            fun zones => Construction.done (zoneName, zones)) x := by
      intro x hx
      simp only [h x (mem_registered src _ _ hx)]
    rw [mapList_congr _ _ _ h1]

theorem zoneAtZoneEnd_congr (src : ZoneSources)
    (b1 b2 : String → Nat → Option Nat → Construction (List Zone)) (s : ZoneFileState)
    (numNavigators : Nat) (enclosing : Option Nat) (i : Nat)
    (h : ∀ r ∈ (if s.zoneName = "Home" then s.associatedZones else []) ++ s.includedZones
        ++ s.subZones, ∀ n e, b1 r n e = b2 r n e) :
    zoneAtZoneEnd src b1 s numNavigators enclosing i
      = zoneAtZoneEnd src b2 s numNavigators enclosing i := by
  unfold zoneAtZoneEnd
  rw [constructZone_congr src b1 b2 _ _ _ fun r hr => h r (List.mem_append_left _ hr)]
  congr 1
  funext zone
  split
  · rfl
  · rfl
  · rw [InitSubZones_congr src b1 b2 _ _ fun r hr => h r (List.mem_append_right _ hr)]

theorem processRegisteredFile_congr (src : ZoneSources) (hnofx : src.NoFXZoneFile)
    (f1 f2 : Nat) (b1 b2 : String → Nat → Option Nat → Construction (List Zone))
    (zoneName : String) (numNavigators : Nat) (enclosing : Option Nat)
    (h : ∀ r ∈ src.references zoneName, ∀ n e, b1 r n e = b2 r n e) :
    processRegisteredFile src f1 b1 zoneName numNavigators enclosing
      = processRegisteredFile src f2 b2 zoneName numNavigators enclosing := by
  unfold processRegisteredFile
  unfold ZoneSources.references at h
  cases hf : mapFind zoneName src.zoneFilePaths with
  | none => rfl
  | some lines =>
    rw [hf] at h
    simp only at h ⊢
    cases hp : ProcessZoneFile src.weights ZoneFileState.initial (lines.map GetTokens) with
    | next s => rfl
    | fault => rfl
    | fxZoneFile => exact absurd hp (hnofx zoneName lines hf)
    | zoneEnd s =>
      rw [hp] at h
      simp only at h ⊢
      have hbody : zoneAtZoneEnd src b1 s numNavigators enclosing
          = zoneAtZoneEnd src b2 s numNavigators enclosing :=
        funext fun i => zoneAtZoneEnd_congr src b1 b2 s _ _ i h
      rw [hbody]

theorem constructZone_isDone (src : ZoneSources)
    (build : String → Nat → Option Nat → Construction (List Zone))
    (name : String) (includedZones associatedZones : List String)
    (h : ∀ r ∈ (if name = "Home" then associatedZones else []) ++ includedZones,
      ∀ n e, ∃ zones, build r n e = .done zones) :
    ∃ zone, constructZone src build name includedZones associatedZones = .done zone := by
  unfold constructZone
  obtain ⟨associated, h1⟩ := mapList_isDone
    (fun zoneName =>
      (build zoneName (AddNavigatorsForZone src.numChannels zoneName) none).andThen
        fun zones => Construction.done
          (zoneName, zones.map (addHookWidgets src.surface zoneName)))
    (if name = "Home" then src.registered associatedZones else [])
    (by
      intro x hx
      have hx2 : x ∈ (if name = "Home" then associatedZones else []) := by
        by_cases hn : name = "Home"
        · rw [if_pos hn] at hx ⊢
          exact mem_registered src _ _ hx
        · rw [if_neg hn] at hx
          cases hx
      obtain ⟨zones, hz⟩ := h x (List.mem_append_left _ hx2)
        (AddNavigatorsForZone src.numChannels x) none
      exact andThen_isDone hz ⟨_, rfl⟩)
  obtain ⟨included, h2⟩ := mapList_isDone
    (fun zoneName => build zoneName (AddNavigatorsForZone src.numChannels zoneName) none)
    (src.registered includedZones)
    (fun x hx => h x (List.mem_append_right _ (mem_registered src _ _ hx)) _ _)
  exact andThen_isDone h1 (andThen_isDone h2 ⟨_, rfl⟩)

theorem InitSubZones_isDone (src : ZoneSources)
    (build : String → Nat → Option Nat → Construction (List Zone))
    (subZones : List String) (zone : Zone)
    (h : ∀ r ∈ subZones, ∀ n e, ∃ zones, build r n e = .done zones) :
    ∃ result, InitSubZones src build subZones zone = .done result := by
  cases zone with
  | mk name isActive widgets includedZones associatedZones subZoneMap =>
    simp only [InitSubZones]
    obtain ⟨groups, h1⟩ := mapList_isDone
      (fun zoneName =>
        (build zoneName 1 (some (GetChannelNumber src.channelNumber widgets))).andThen
          fun zones => Construction.done (zoneName, zones))
      (src.registered subZones)
      (by
        intro x hx
        obtain ⟨zones, hz⟩ := h x (mem_registered src _ _ hx) 1
          (some (GetChannelNumber src.channelNumber widgets))
        exact andThen_isDone hz ⟨_, rfl⟩)
    exact andThen_isDone h1 ⟨_, rfl⟩

theorem mem_dictionaryOrder (templates : List ActionTemplate) (t : ActionTemplate)
    (h : t ∈ dictionaryOrder templates) : t ∈ templates :=
  (List.perm_insertionSort _ templates).mem_iff.mp h

theorem bindTemplates_ne_fault (src : ZoneSources) (zoneName : String)
    (numNavigators i : Nat) (enclosing : Option Nat) :
    ∀ (templates : List ActionTemplate) (zone : Zone),
      (∀ t ∈ templates, ∀ (numStr : String) (widget : Widget),
        createActionContext (src.valueSources zoneName (t.params.map (replaceBar numStr)))
          widget (t.params.map (replaceBar numStr)) ≠ .fault) →
      (bindTemplates src zoneName numNavigators i enclosing templates zone).2 ≠ .fault
  | [], _, _ => by simp [bindTemplates]
  | t :: rest, zone, h => by
    have hrest := fun z => bindTemplates_ne_fault src zoneName numNavigators i enclosing rest z
      fun t2 ht2 => h t2 (List.mem_cons_of_mem _ ht2)
    unfold bindTemplates
    split
    · exact hrest zone
    · rename_i widget _
      split
      · exact hrest _
      · simp
      · rename_i hfault
        exact absurd hfault (h t (List.mem_cons_self _ _) (toString (i + 1)) widget)

theorem zoneAtZoneEnd_isDone (src : ZoneSources)
    (build : String → Nat → Option Nat → Construction (List Zone)) (s : ZoneFileState)
    (numNavigators : Nat) (enclosing : Option Nat) (i : Nat)
    (hcontexts : ∀ t ∈ s.actionTemplates, ∀ (numStr : String) (widget : Widget),
      createActionContext (src.valueSources s.zoneName (t.params.map (replaceBar numStr)))
        widget (t.params.map (replaceBar numStr)) ≠ .fault)
    (h : ∀ r ∈ (if s.zoneName = "Home" then s.associatedZones else []) ++ s.includedZones
        ++ s.subZones, ∀ n e, ∃ zones, build r n e = .done zones) :
    ∃ r, zoneAtZoneEnd src build s numNavigators enclosing i = .done r := by
  unfold zoneAtZoneEnd
  obtain ⟨zone, hz⟩ := constructZone_isDone src build s.zoneName s.includedZones
    s.associatedZones fun r hr => h r (List.mem_append_left _ hr)
  apply andThen_isDone hz
  have hbind := bindTemplates_ne_fault src s.zoneName numNavigators i enclosing
    (dictionaryOrder s.actionTemplates) zone
    fun t ht => hcontexts t (mem_dictionaryOrder _ t ht)
  split
  · rename_i heq
    rw [heq] at hbind
    exact absurd rfl hbind
  · exact ⟨_, rfl⟩
  · rename_i bound u heq
    obtain ⟨result, hr⟩ := InitSubZones_isDone src build s.subZones bound
      fun r hr => h r (List.mem_append_right _ hr)
    exact andThen_isDone hr ⟨_, rfl⟩

theorem navigatorLoop_isDone (body : Nat → Construction (Zone × Bool))
    (h : ∀ i, ∃ r, body i = .done r) :
    ∀ l : List Nat, ∃ zones, navigatorLoop body l = .done zones
  | [] => ⟨[], rfl⟩
  | i :: rest => by
    obtain ⟨r, hr⟩ := h i
    obtain ⟨zones, hzones⟩ := navigatorLoop_isDone body h rest
    unfold navigatorLoop
    apply andThen_isDone hr
    by_cases hthrown : r.2 = true
    · rw [if_pos hthrown]
      exact ⟨_, rfl⟩
    · rw [if_neg hthrown]
      exact andThen_isDone hzones ⟨_, rfl⟩

theorem processRegisteredFile_isDone (src : ZoneSources) (hnofx : src.NoFXZoneFile)
    (hcontexts : src.ContextsDefined) (fuel : Nat)
    (build : String → Nat → Option Nat → Construction (List Zone))
    (zoneName : String) (numNavigators : Nat) (enclosing : Option Nat)
    (h : ∀ r ∈ src.references zoneName, ∀ n e, ∃ zones, build r n e = .done zones) :
    ∃ zones, processRegisteredFile src fuel build zoneName numNavigators enclosing
      = .done zones := by
  unfold processRegisteredFile
  unfold ZoneSources.references at h
  cases hf : mapFind zoneName src.zoneFilePaths with
  | none => exact ⟨_, rfl⟩
  | some lines =>
    rw [hf] at h
    simp only at h ⊢
    cases hp : ProcessZoneFile src.weights ZoneFileState.initial (lines.map GetTokens) with
    | next s => exact ⟨_, rfl⟩
    | fault => exact absurd hp (ProcessZoneFile_lines_ne_fault src.weights lines)
    | fxZoneFile => exact absurd hp (hnofx zoneName lines hf)
    | zoneEnd s =>
      rw [hp] at h
      simp only at h ⊢
      exact navigatorLoop_isDone _
        (fun i => zoneAtZoneEnd_isDone src build s _ _ i (hcontexts zoneName lines s hf hp) h) _

theorem mapFind_mem_keys {κ ν : Type} [DecidableEq κ] (key : κ) :
    ∀ map : List (κ × ν), (mapFind key map).isSome = true → key ∈ map.map Prod.fst
  | [], h => by simp [mapFind] at h
  | (k, v) :: rest, h => by
    unfold mapFind at h
    by_cases hk : k = key
    · simp [hk]
    · rw [if_neg hk] at h
      simp [mapFind_mem_keys key rest h]

theorem registered_of_references (src : ZoneSources) (zoneName r : String)
    (h : r ∈ src.references zoneName) : (mapFind zoneName src.zoneFilePaths).isSome = true := by
  unfold ZoneSources.references at h
  cases hf : mapFind zoneName src.zoneFilePaths with
  | none =>
    rw [hf] at h
    cases h
  | some lines => rfl

theorem ancestors_length_le (src : ZoneSources) (ancestors : List String)
    (hnodup : ancestors.Nodup)
    (hregistered : ∀ a ∈ ancestors, (mapFind a src.zoneFilePaths).isSome = true) :
    ancestors.length ≤ src.zoneFilePaths.length := by
  have hsub : ancestors ⊆ src.zoneFilePaths.map Prod.fst :=
    fun a ha => mapFind_mem_keys a _ (hregistered a ha)
  have := (List.Nodup.subperm hnodup hsub).length_le
  simpa using this

theorem tree_step (src : ZoneSources) (hnofx : src.NoFXZoneFile)
    (hcontexts : src.ContextsDefined) (depth : Nat) (zoneName : String)
    (h : ∀ r ∈ src.references zoneName, ∀ n e,
      (∃ zones, ProcessZoneFileTree src depth r n e = .done zones)
      ∧ ∀ fuel, depth ≤ fuel →
          ProcessZoneFileTree src fuel r n e = ProcessZoneFileTree src depth r n e)
    (numNavigators : Nat) (enclosing : Option Nat) :
    (∃ zones, ProcessZoneFileTree src (depth + 1) zoneName numNavigators enclosing
        = .done zones)
    ∧ ∀ fuel, depth + 1 ≤ fuel →
        ProcessZoneFileTree src fuel zoneName numNavigators enclosing
          = ProcessZoneFileTree src (depth + 1) zoneName numNavigators enclosing := by
  constructor
  · exact processRegisteredFile_isDone src hnofx hcontexts depth _ zoneName numNavigators
      enclosing fun r hr n e => (h r hr n e).1
  · intro fuel hfuel
    obtain ⟨f, rfl⟩ : ∃ f, fuel = f + 1 := ⟨fuel - 1, by omega⟩
    exact processRegisteredFile_congr src hnofx f depth _ _ zoneName numNavigators enclosing
      fun r hr n e => (h r hr n e).2 f (by omega)

theorem tree_stable (src : ZoneSources) (hnofx : src.NoFXZoneFile)
    (hcontexts : src.ContextsDefined)
    (hacyclic : ∀ name, ¬ Relation.TransGen src.refersTo name name) :
    ∀ (depth : Nat) (ancestors : List String) (zoneName : String),
      ancestors.Nodup →
      (∀ a ∈ ancestors, (mapFind a src.zoneFilePaths).isSome = true) →
      (∀ a ∈ ancestors, Relation.TransGen src.refersTo a zoneName) →
      src.zoneFilePaths.length ≤ ancestors.length + depth →
      ∀ n e,
        (∃ zones, ProcessZoneFileTree src (depth + 1) zoneName n e = .done zones)
        ∧ ∀ fuel, depth + 1 ≤ fuel →
            ProcessZoneFileTree src fuel zoneName n e
              = ProcessZoneFileTree src (depth + 1) zoneName n e := by
  intro depth
  induction depth with
  | zero =>
    intro ancestors zoneName hnodup hregistered hreach hlength
    apply tree_step src hnofx hcontexts
    intro r hr
    exfalso
    have hk := registered_of_references src zoneName r hr
    have hnot : zoneName ∉ ancestors := fun hmem => hacyclic zoneName (hreach zoneName hmem)
    have := ancestors_length_le src (zoneName :: ancestors) (List.nodup_cons.mpr ⟨hnot, hnodup⟩)
      (by
        intro a ha
        rcases List.mem_cons.mp ha with ha | ha
        · rw [ha]; exact hk
        · exact hregistered a ha)
    simp only [List.length_cons] at this
    omega
  | succ d ih =>
    intro ancestors zoneName hnodup hregistered hreach hlength
    apply tree_step src hnofx hcontexts
    intro r hr
    have hk := registered_of_references src zoneName r hr
    have hnot : zoneName ∉ ancestors := fun hmem => hacyclic zoneName (hreach zoneName hmem)
    apply ih (zoneName :: ancestors) r (List.nodup_cons.mpr ⟨hnot, hnodup⟩)
    · intro a ha
      rcases List.mem_cons.mp ha with ha | ha
      · rw [ha]; exact hk
      · exact hregistered a ha
    · intro a ha
      rcases List.mem_cons.mp ha with ha | ha
      · rw [ha]; exact Relation.TransGen.single hr
      · exact Relation.TransGen.tail (hreach a ha) hr
    · simp only [List.length_cons]
      omega

theorem zones_end_without_fault (src : ZoneSources) (hnofx : src.NoFXZoneFile)
    (hcontexts : src.ContextsDefined)
    (hacyclic : ∀ name, ¬ Relation.TransGen src.refersTo name name)
    (zoneName : String) (numNavigators : Nat) (enclosing : Option Nat) :
    ∃ zones, ∀ fuel, src.zoneFilePaths.length + 1 ≤ fuel →
      ProcessZoneFileTree src fuel zoneName numNavigators enclosing = .done zones := by
  obtain ⟨⟨zones, hzones⟩, hstable⟩ := tree_stable src hnofx hcontexts hacyclic
    src.zoneFilePaths.length [] zoneName List.nodup_nil (fun a ha => by cases ha)
    (fun a ha => by cases ha) (by simp) numNavigators enclosing
  exact ⟨zones, fun fuel hfuel => by rw [hstable fuel hfuel, hzones]⟩

theorem sampleSources_refersTo (a b : String) (h : sampleSources.refersTo a b) :
    a = "Home" ∧ b ≠ "Home" := by
  unfold ZoneSources.refersTo at h
  by_cases h1 : a = "Home"
  · subst h1
    have hr : sampleSources.references "Home" = ["VCA", "Folder", "Missing", "Buttons"] := rfl
    rw [hr] at h
    refine ⟨rfl, ?_⟩
    intro hb
    subst hb
    revert h
    decide
  · exfalso
    by_cases h2 : a = "Buttons"
    · subst h2
      have hr : sampleSources.references "Buttons" = [] := rfl
      rw [hr] at h
      cases h
    by_cases h3 : a = "VCA"
    · subst h3
      have hr : sampleSources.references "VCA" = [] := rfl
      rw [hr] at h
      cases h
    by_cases h4 : a = "Folder"
    · subst h4
      have hr : sampleSources.references "Folder" = [] := rfl
      rw [hr] at h
      cases h
    have hk := registered_of_references sampleSources a b h
    have h1b : ¬ "Home" = a := fun e => h1 e.symm
    have h2b : ¬ "Buttons" = a := fun e => h2 e.symm
    have h3b : ¬ "VCA" = a := fun e => h3 e.symm
    have h4b : ¬ "Folder" = a := fun e => h4 e.symm
    simp [sampleSources, mapFind, h1b, h2b, h3b, h4b] at hk

theorem sampleSources_acyclic (name : String) :
    ¬ Relation.TransGen sampleSources.refersTo name name := by
  have hall : ∀ a b, Relation.TransGen sampleSources.refersTo a b → a = "Home" ∧ b ≠ "Home" := by
    intro a b hab
    induction hab with
    | single h => exact sampleSources_refersTo _ _ h
    | tail _ h ih => exact ⟨ih.1, (sampleSources_refersTo _ _ h).2⟩
  intro h
  exact (hall _ _ h).2 (hall _ _ h).1


theorem mapFind_mem {κ ν : Type} [DecidableEq κ] (key : κ) (value : ν) :
    ∀ map : List (κ × ν), mapFind key map = some value → (key, value) ∈ map
  | [], h => by simp [mapFind] at h
  | (k, v) :: rest, h => by
    unfold mapFind at h
    by_cases hk : k = key
    · rw [if_pos hk] at h
      cases h
      simp [hk]
    · rw [if_neg hk] at h
      exact List.mem_cons_of_mem _ (mapFind_mem key value rest h)

theorem sampleSources_parse (zoneName : String) (lines : List String)
    (h : mapFind zoneName sampleSources.zoneFilePaths = some lines) :
    ∃ s, ProcessZoneFile sampleSources.weights ZoneFileState.initial (lines.map GetTokens)
        = .zoneEnd s
      ∧ ∀ t ∈ s.actionTemplates,
          t.params ∈ ([["Play"], ["Stop"], ["TrackVolume"]] : List (List String)) := by
  have hmem := mapFind_mem zoneName lines _ h
  simp only [sampleSources, List.mem_cons, Prod.mk.injEq, List.mem_singleton,
    List.not_mem_nil, or_false] at hmem
  rcases hmem with ⟨-, rfl⟩ | ⟨-, rfl⟩ | ⟨-, rfl⟩ | ⟨-, rfl⟩ <;> exact ⟨_, rfl, by decide⟩

theorem sampleSources_noFXZoneFile : sampleSources.NoFXZoneFile := by
  intro zoneName lines hf hp
  obtain ⟨s, hs, -⟩ := sampleSources_parse zoneName lines hf
  rw [hp] at hs
  cases hs

theorem sampleSources_contextsDefined : sampleSources.ContextsDefined := by
  intro zoneName lines s hf hp t ht numStr widget
  obtain ⟨s0, hs0, hall⟩ := sampleSources_parse zoneName lines hf
  rw [hp] at hs0
  cases hs0
  have hparams := hall t ht
  simp only [List.mem_cons, List.mem_singleton, List.not_mem_nil, or_false] at hparams
  have hvalue : ∃ c, createActionContext
      (sampleSources.valueSources s.zoneName (t.params.map (replaceBar numStr))) widget
      (t.params.map (replaceBar numStr)) = .value c := by
    rcases hparams with hp2 | hp2 | hp2 <;> rw [hp2] <;> exact ⟨_, rfl⟩
  obtain ⟨c, hc⟩ := hvalue
  rw [hc]
  exact fun hfault => by cases hfault

theorem mapUpdate_absent {κ ν : Type} [DecidableEq κ] (key : κ) (init : ν) (f : ν → ν) :
    ∀ map : List (κ × ν), (∀ p ∈ map, p.1 ≠ key) →
      mapUpdate key init f map = map ++ [(key, f init)]
  | [], _ => rfl
  | (k, v) :: rest, h => by
    unfold mapUpdate
    rw [if_neg (h (k, v) (List.mem_cons_self _ _)),
      mapUpdate_absent key init f rest fun p hp => h p (List.mem_cons_of_mem _ hp)]
    rfl

theorem mapFind_append_absent {κ ν : Type} [DecidableEq κ] (key : κ) (value : ν) :
    ∀ map : List (κ × ν), (∀ p ∈ map, p.1 ≠ key) →
      mapFind key (map ++ [(key, value)]) = some value
  | [], _ => by simp [mapFind]
  | (k, v) :: rest, h => by
    rw [List.cons_append]
    unfold mapFind
    rw [if_neg (h (k, v) (List.mem_cons_self _ _))]
    exact mapFind_append_absent key value rest fun p hp => h p (List.mem_cons_of_mem _ hp)

theorem fxParamLoop_never_done (fx : FXSources) (st : FXZoneFileState) :
    ∀ (fuel i : Nat) (params : List (Int × List Int)) (zone : Zone),
      params.length = i + 1 → (∀ p ∈ params, p.1 < (i : Int)) →
      ∀ r, fxParamLoop fx st fuel i params zone ≠ .done r
  | 0, _, _, _, _, _, _ => by simp [fxParamLoop]
  | fuel + 1, i, params, zone, hlength, hkeys, r => by
    have habsent : ∀ p ∈ params, p.1 ≠ (i : Int) := fun p hp => ne_of_lt (hkeys p hp)
    unfold fxParamLoop
    rw [if_pos (by omega), mapUpdate_absent _ _ _ params habsent,
      mapFind_append_absent _ _ params habsent]
    simp only [id, Option.getD_some, fxParamRow, Construction.andThen]
    by_cases hmax : (i : Int) = INT_MAX
    · rw [if_pos hmax]
      exact fun h => by cases h
    · rw [if_neg hmax]
      apply fxParamLoop_never_done fx st fuel (i + 1)
      · simp [hlength]
      · intro p hp
        rcases List.mem_append.mp hp with hp | hp
        · have := hkeys p hp
          push_cast
          omega
        · simp only [List.mem_singleton] at hp
          subst hp
          push_cast
          simp

theorem andThen_ne_done {α β : Type} (c : Construction α) (f : α → Construction β)
    (h : ∀ a, c ≠ .done a) : ∀ b, c.andThen f ≠ .done b := by
  intro b hb
  obtain ⟨a, ha, -⟩ := (andThen_eq_done c f b).mp hb
  exact h a ha

theorem widgetsFirst_never_done (fuel numNavigators : Nat) (enclosing : Option Nat) :
    ∀ zones, ProcessZoneFileTree widgetsFirstSources fuel "FX" numNavigators enclosing
      ≠ .done zones := by
  intro zones
  cases fuel with
  | zero => exact fun h => by cases h
  | succ fuel =>
    have hstep : ProcessZoneFileTree widgetsFirstSources (fuel + 1) "FX" numNavigators enclosing
        = ((fxZoneEnd widgetsFirstSources.fx numNavigators fuel
            { FXZoneFileState.initial with
              zoneName := "FX", currentParamSet := 0, params := [(-1, []), (0, [1])]
              valueWidgets := [(-1, [])] }).andThen fun st => .done (st, false)).andThen
          fun r => if r.2 then .done r.1.zones
            else ProcessFXZoneFile widgetsFirstSources.surface widgetsFirstSources.fx
              numNavigators fuel r.1 [] := rfl
    rw [hstep]
    apply andThen_ne_done
    apply andThen_ne_done
    intro st
    unfold fxZoneEnd
    by_cases hn : numNavigators = 0
    · rw [if_pos hn]
      exact fun h => by cases h
    · rw [if_neg hn]
      apply andThen_ne_done
      intro r
      cases fuel with
      | zero => exact fun h => by cases h
      | succ fuel =>
        have hround : ∀ zone, fxParamLoop widgetsFirstSources.fx
            { FXZoneFileState.initial with
              zoneName := "FX", currentParamSet := 0, params := [(-1, []), (0, [1])]
              valueWidgets := [(-1, [])] } (fuel + 1) 0 [(-1, []), (0, [1])] zone
            = fxParamLoop widgetsFirstSources.fx
            { FXZoneFileState.initial with
              zoneName := "FX", currentParamSet := 0, params := [(-1, []), (0, [1])]
              valueWidgets := [(-1, [])] } fuel 1 [(-1, []), (0, [1])] zone := fun _ => rfl
        rw [hround]
        apply fxParamLoop_never_done
        · rfl
        · decide

theorem references_of_flat_index (src : ZoneSources)
    (h : ∀ zoneName, src.references zoneName = []) (name : String) :
    ¬ Relation.TransGen src.refersTo name name := by
  intro hcycle
  cases hcycle with
  | single h1 =>
    unfold ZoneSources.refersTo at h1
    rw [h] at h1
    cases h1
  | tail _ h1 =>
    unfold ZoneSources.refersTo at h1
    rw [h] at h1
    cases h1

theorem references_of_single_file (src : ZoneSources) (name : String) (lines : List String)
    (hfiles : src.zoneFilePaths = [(name, lines)]) (hname : src.references name = []) :
    ∀ zoneName, src.references zoneName = [] := by
  intro zoneName
  by_cases h : name = zoneName
  · rw [← h, hname]
  · unfold ZoneSources.references
    rw [hfiles]
    simp [mapFind, h]

theorem reversedBracketSources_acyclic (name : String) :
    ¬ Relation.TransGen reversedBracketSources.refersTo name name :=
  references_of_flat_index reversedBracketSources
    (references_of_single_file reversedBracketSources "Home" _ rfl rfl) name

theorem widgetsFirstSources_acyclic (name : String) :
    ¬ Relation.TransGen widgetsFirstSources.refersTo name name :=
  references_of_flat_index widgetsFirstSources
    (references_of_single_file widgetsFirstSources "FX" _ rfl rfl) name

theorem reversedBracket_faults (fuel : Nat) :
    ProcessZoneFileTree reversedBracketSources (fuel + 1) "Home" 1 none = .fault :=
  rfl

/-- C29: zone construction does not end for every zone file index without a cycle.  The
index `reversedBracketSources`, whose one file refers to no file, leaves defined behaviour
at every depth, in the constructor of the context of its binding; the index
`widgetsFirstSources`, whose one file is an FX zone file that refers to no file, never
comes to an end, for any depth, number of rounds and list of navigators, because the loop
over the parameter sets at its `ZoneEnd` creates the entry that its bound counts.  For an
index without a cycle and without FX zone files in which the constructor of the context of
every binding returns or throws, the mutual recursion of `ProcessZoneFile`, the `Zone`
constructor and `InitSubZones` comes to its end for every name, number of navigators and
enclosing zone: nested calls beyond the depth of the number of files do not occur, and the
result is one finite list of zone trees. -/
theorem C29_zone_construction_ends_for_sound_files :
    ((∀ name, ¬ Relation.TransGen reversedBracketSources.refersTo name name)
      ∧ ∀ fuel, ProcessZoneFileTree reversedBracketSources (fuel + 1) "Home" 1 none = .fault)
    ∧ ((∀ name, ¬ Relation.TransGen widgetsFirstSources.refersTo name name)
      ∧ ∀ fuel numNavigators enclosing zones,
          ProcessZoneFileTree widgetsFirstSources fuel "FX" numNavigators enclosing
            ≠ .done zones)
    ∧ ∀ src : ZoneSources, (∀ name, ¬ Relation.TransGen src.refersTo name name) →
        src.NoFXZoneFile → src.ContextsDefined →
        ∀ (zoneName : String) (numNavigators : Nat) (enclosing : Option Nat),
          ∃ zones, ∀ fuel, src.zoneFilePaths.length + 1 ≤ fuel →
            ProcessZoneFileTree src fuel zoneName numNavigators enclosing = .done zones :=
  ⟨⟨reversedBracketSources_acyclic, reversedBracket_faults⟩,
    ⟨widgetsFirstSources_acyclic, widgetsFirst_never_done⟩,
    fun src hacyclic hnofx hcontexts zoneName numNavigators enclosing =>
      zones_end_without_fault src hnofx hcontexts hacyclic zoneName numNavigators enclosing⟩

/-- Witness of C29: the index `sampleSources`, in which only the file of `Home` refers to
other files, has no cycle and no FX zone file, the constructors of its contexts return,
and the construction of `Home` comes to its end. -/
theorem C29_zone_construction_ends_for_sound_files_witness :
    (∀ name, ¬ Relation.TransGen sampleSources.refersTo name name)
    ∧ sampleSources.NoFXZoneFile ∧ sampleSources.ContextsDefined
    ∧ ∃ zones, ∀ fuel, sampleSources.zoneFilePaths.length + 1 ≤ fuel →
      ProcessZoneFileTree sampleSources fuel "Home" 1 none = .done zones :=
  ⟨sampleSources_acyclic, sampleSources_noFXZoneFile, sampleSources_contextsDefined,
    C29_zone_construction_ends_for_sound_files.2.2 sampleSources sampleSources_acyclic
      sampleSources_noFXZoneFile sampleSources_contextsDefined "Home" 1 none⟩

theorem selfIncluding_never_ends :
    ∀ fuel, ProcessZoneFileTree selfIncludingSources fuel "Loop" 1 none = .outOfFuel
  | 0 => rfl
  | fuel + 1 => by
    have ih := selfIncluding_never_ends fuel
    have hstep : ∀ build : String → Nat → Option Nat → Construction (List Zone),
        build "Loop" 1 none = .outOfFuel →
        processRegisteredFile selfIncludingSources fuel build "Loop" 1 none = .outOfFuel := by
      intro build hbuild
      have hfile : mapFind "Loop" selfIncludingSources.zoneFilePaths
          = some ["Zone Loop", "IncludedZones", "Loop", "IncludedZonesEnd", "ZoneEnd"] := rfl
      have hparse : ProcessZoneFile selfIncludingSources.weights ZoneFileState.initial
          (["Zone Loop", "IncludedZones", "Loop", "IncludedZonesEnd", "ZoneEnd"].map GetTokens)
          = .zoneEnd
            { isInIncludedZonesSection := false, includedZones := ["Loop"]
              isInSubZonesSection := false, subZones := []
              isInAssociatedZonesSection := false, associatedZones := []
              actionTemplates := [], zoneName := "Loop", zoneAlias := ""
              currentActionTemplate := none } := rfl
      have hregistered : selfIncludingSources.registered ["Loop"] = ["Loop"] := rfl
      have hnav : AddNavigatorsForZone selfIncludingSources.numChannels "Loop" = 1 := rfl
      unfold processRegisteredFile
      rw [hfile]
      simp only [hparse]
      have hrange : List.range 1 = [0] := rfl
      rw [hrange]
      simp only [navigatorLoop, Construction.mapList, zoneAtZoneEnd, constructZone,
        hregistered, hnav, hbuild, Construction.andThen,
        if_neg (show ¬ ("Loop" = "Home") by decide)]
    exact hstep _ ih

end CSI
